import Mathlib

/-! GameAI grid reasoning core: shallow embedding and verified properties.

The embedding follows `Source/GameAI/Pathfinding/GAPathComponent.cpp`,
`Source/GameAI/Perception/GATargetComponent.cpp`,
`Source/GameAI/Perception/GAPerceptionComponent.cpp` and
`Source/GameAI/Spatial/GASpatialComponent.cpp`.

Conventions.
* `float` values are exact numbers of an ordered domain `α` (an ordered additive
  group for path costs, an ordered ring for layer totals, an ordered field for
  probabilities).  `FLT_MAX`, which the distance maps use as "+infinity", is the
  top element of `WithTop α`; where the scoring layers compute with it, it is a
  parameter `FLT_MAX : α`.
* `FVector` is an abstract point type `P`; `FVector::Dist` is the grid field
  `Dist`.
* `while` loops whose termination is not structural take a `fuel : Nat` and
  return `none` when the fuel runs out.
-/

namespace GameAI

/-! ## Data model -/

/-- Cell reference: integer coordinate pair `(X, Y)`. -/
structure FCellRef where
  X : Int
  Y : Int
deriving DecidableEq

/-- Path state of the path component (`EGAPathState`). -/
inductive EGAPathState where
  | GAPS_None
  | GAPS_Active
  | GAPS_Finished
  | GAPS_Invalid
deriving DecidableEq

/-- Path step (`FPathStep`): a world position and the cell it came from. -/
structure FPathStep (P : Type) where
  Point : P
  CellRef : FCellRef
deriving DecidableEq

/-- Modelled from the spec: the grid actor `AGAGridActor` (its source is not part of
the pathfinding and perception files).  It supplies the extent `XCount × YCount`, the
traversability flag of each cell (`GetCellData(c)` has `CellDataTraversable`), the
cell ↔ world-position conversions (`GetCellRef(p)`, `GetCellRef(p, true)` and
`GetCellPosition(c)`) and, for convenience, the engine's `FVector::Dist`. -/
structure AGAGridActor (α P : Type) where
  XCount : Nat
  YCount : Nat
  Traversable : FCellRef → Bool
  GetCellRef : P → FCellRef
  GetCellRefClamped : P → FCellRef
  GetCellPosition : FCellRef → P
  Dist : P → P → α

/-- Modelled from the spec: `FCellRef::IsValid` and `IsCellRefInBounds`, "valid iff
within the grid's configured extent". -/
def AGAGridActor.IsValid {α P : Type} (G : AGAGridActor α P) (c : FCellRef) : Bool :=
  decide (0 ≤ c.X) && decide (c.X < G.XCount) && decide (0 ≤ c.Y) && decide (c.Y < G.YCount)

/-- Edge cost between two cells: `FVector::Dist(GetCellPosition(a), GetCellPosition(b))`. -/
def AGAGridActor.EdgeDistance {α P : Type} (G : AGAGridActor α P) (a b : FCellRef) : α :=
  G.Dist (G.GetCellPosition a) (G.GetCellPosition b)

/-- Modelled from the spec: the grid map `FGAGridMap`, a rectangular window
`[MinX, MaxX] × [MinY, MaxY]` of scalar values, one per cell. -/
structure FGAGridMap (β : Type) where
  MinX : Int
  MaxX : Int
  MinY : Int
  MaxY : Int
  Data : FCellRef → β

namespace FGAGridMap

variable {β : Type}

/-- The cell lies inside the map's window. -/
def InWindow (m : FGAGridMap β) (c : FCellRef) : Bool :=
  decide (m.MinX ≤ c.X) && decide (c.X ≤ m.MaxX) && decide (m.MinY ≤ c.Y) && decide (c.Y ≤ m.MaxY)

/-- The function `GetValue(cell, out)`: `none` is the "not found" result for a cell outside the window. -/
def GetValue (m : FGAGridMap β) (c : FCellRef) : Option β :=
  if m.InWindow c then some (m.Data c) else none

/-- The function `SetValue(cell, v)`: writes the cell when it is inside the window. -/
def SetValue (m : FGAGridMap β) (c : FCellRef) (v : β) : FGAGridMap β :=
  if m.InWindow c then { m with Data := Function.update m.Data c v } else m

/-- The function `ResetData(v)`: every addressable cell becomes `v`. -/
def ResetData (m : FGAGridMap β) (v : β) : FGAGridMap β :=
  { m with Data := fun _ => v }

/-- The constructor `FGAGridMap(Grid, v)`: a map over the whole grid filled with `v`. -/
def ofGrid {α P : Type} (G : AGAGridActor α P) (v : β) : FGAGridMap β :=
  { MinX := 0, MaxX := (G.XCount : Int) - 1, MinY := 0, MaxY := (G.YCount : Int) - 1,
    Data := fun _ => v }

end FGAGridMap

/-- The 4-connected neighbour offsets, in the order the source lists them. -/
def NeighborOffsets : List (Int × Int) := [(1, 0), (-1, 0), (0, 1), (0, -1)]

/-- The cell `FCellRef(c.X + Offset.X, c.Y + Offset.Y)`. -/
def FCellRef.offset (c : FCellRef) (o : Int × Int) : FCellRef := ⟨c.X + o.1, c.Y + o.2⟩

/-! ## Dijkstra (`UGAPathComponent::Dijkstra`) -/

section Dijkstra

variable {α P : Type} [LinearOrderedAddCommGroup α]

/-- Queue element of Dijkstra: a cell and the distance it was queued with. -/
structure FQueueElement (α : Type) where
  Cell : FCellRef
  Distance : α

/-- The scan `for (i = 1; i < Queue.Num(); i++) if (Queue[i].Distance < MinDistance) ...`:
`i` is the index of the head of the remaining list. -/
def MinIndexScan : List (FQueueElement α) → Nat → Nat → α → Nat
  | [], _, MinIndex, _ => MinIndex
  | e :: rest, i, MinIndex, MinDistance =>
    if e.Distance < MinDistance then MinIndexScan rest (i + 1) i e.Distance
    else MinIndexScan rest (i + 1) MinIndex MinDistance

/-- Index of the first queue element of minimal distance. -/
def MinIndex : List (FQueueElement α) → Nat
  | [] => 0
  | e :: rest => MinIndexScan rest 1 0 e.Distance

/-- Body of the neighbour loop of Dijkstra for one offset. -/
def DijkstraRelax (G : AGAGridActor α P) (Current : FQueueElement α)
    (st : FGAGridMap (WithTop α) × List (FQueueElement α)) (Offset : Int × Int) :
    FGAGridMap (WithTop α) × List (FQueueElement α) :=
  let Neighbor := Current.Cell.offset Offset
  if !G.IsValid Neighbor then st
  else if !G.Traversable Neighbor then st
  else
    let NewDistance : α := Current.Distance + G.EdgeDistance Current.Cell Neighbor
    match st.1.GetValue Neighbor with
    | some OldDistance =>
      if (NewDistance : WithTop α) < OldDistance then
        (st.1.SetValue Neighbor (NewDistance : WithTop α), st.2 ++ [⟨Neighbor, NewDistance⟩])
      else st
    | none => st

/-- The frontier loop `while (!Queue.IsEmpty())` of Dijkstra. -/
def DijkstraLoop (G : AGAGridActor α P) :
    Nat → FGAGridMap (WithTop α) → List (FQueueElement α) → Option (FGAGridMap (WithTop α))
  | _, DistanceMap, [] => some DistanceMap
  | 0, _, _ :: _ => none
  | fuel + 1, DistanceMap, e :: rest =>
    let i := MinIndex (e :: rest)
    let Current := (e :: rest).getD i e
    let st := NeighborOffsets.foldl (DijkstraRelax G Current) (DistanceMap, (e :: rest).eraseIdx i)
    DijkstraLoop G fuel st.1 st.2

/-- The function `Dijkstra(StartPoint, DistanceMap)`: the returned flag and the distance map afterwards. -/
def Dijkstra (fuel : Nat) (Grid : Option (AGAGridActor α P)) (StartPoint : P)
    (DistanceMap : FGAGridMap (WithTop α)) : Option (Bool × FGAGridMap (WithTop α)) :=
  match Grid with
  | none => some (false, DistanceMap)
  | some G =>
    let StartCell := G.GetCellRef StartPoint
    if !G.IsValid StartCell then some (false, DistanceMap)
    else
      let D0 := (DistanceMap.ResetData ⊤).SetValue StartCell ((0 : α) : WithTop α)
      (DijkstraLoop G fuel D0 [⟨StartCell, 0⟩]).map (fun D => (true, D))

end Dijkstra

/-! ## Paths on the grid (specification vocabulary) -/

section Paths

variable {α P : Type}

/-- One 4-connected move from `a` onto `b`: `b` is `a` shifted by one of the four
neighbour offsets, and `b` is a valid, traversable cell satisfying `inside`. -/
def GridStep (G : AGAGridActor α P) (inside : FCellRef → Bool) (a b : FCellRef) : Prop :=
  (∃ o ∈ NeighborOffsets, b = a.offset o) ∧
    G.IsValid b = true ∧ G.Traversable b = true ∧ inside b = true

/-- A 4-connected path that starts at `start` and then visits `rest`: every cell after the
start is valid, traversable and satisfies `inside`. -/
def GridPath (G : AGAGridActor α P) (inside : FCellRef → Bool) (start : FCellRef)
    (rest : List FCellRef) : Prop :=
  List.Chain (GridStep G inside) start rest

/-- Summed edge cost along the consecutive cells `start :: rest`. -/
def PathCost [LinearOrderedAddCommGroup α] (G : AGAGridActor α P) : FCellRef → List FCellRef → α
  | _, [] => 0
  | a, b :: rest => G.EdgeDistance a b + PathCost G b rest

/-- The value `v` is the minimum of the path costs from `start` to `c`. -/
def IsMinPathCost [LinearOrderedAddCommGroup α] (G : AGAGridActor α P) (inside : FCellRef → Bool) (start c : FCellRef)
    (v : α) : Prop :=
  (∃ rest, GridPath G inside start rest ∧ rest.getLastD start = c ∧ PathCost G start rest = v) ∧
    ∀ rest, GridPath G inside start rest → rest.getLastD start = c → v ≤ PathCost G start rest

/-- Some path leads from `start` to `c`. -/
def Reachable (G : AGAGridActor α P) (inside : FCellRef → Bool) (start c : FCellRef) : Prop :=
  ∃ rest, GridPath G inside start rest ∧ rest.getLastD start = c

/-- Cell `c` is reached from `start` by a path of cost `v` (paths grown at their end). -/
inductive ReachCost [LinearOrderedAddCommGroup α] (G : AGAGridActor α P) (inside : FCellRef → Bool) (start : FCellRef) :
    FCellRef → α → Prop
  | refl : ReachCost G inside start start 0
  | step {c n : FCellRef} {v : α} : ReachCost G inside start c v → GridStep G inside c n →
      ReachCost G inside start n (v + G.EdgeDistance c n)

end Paths

/-! ## A* (`UGAPathComponent::AStar`) -/

section AStar

variable {α P : Type} [LinearOrderedAddCommGroup α]

/-- The maps and the heap of A*: `OpenSet`, `GScore`, `HScore` and `CameFrom`.  A `TMap` is
a function into `Option`; `none` means the key is not contained. -/
structure FAStarState (α : Type) where
  OpenSet : List FCellRef
  GScore : FCellRef → Option α
  HScore : FCellRef → Option α
  CameFrom : FCellRef → Option FCellRef

/-- The heap predicate's key `GScore[A] + HScore[A]`.  `operator[]` needs the key to be
present, which holds for every cell of the open set; an absent entry reads as `0`. -/
def FAStarState.FScore (st : FAStarState α) (c : FCellRef) : α :=
  (st.GScore c).getD 0 + (st.HScore c).getD 0

/-- Contract of the engine's `Heapify(pred)` followed by `HeapPop(out)`, as a function of
the key and of the array: on a non-empty array it removes one element whose key no other
element's key is below; which one among equal keys is left open. -/
def IsHeapPop (HeapPop : (FCellRef → α) → List FCellRef → Option (FCellRef × List FCellRef)) :
    Prop :=
  ∀ key l, (HeapPop key l = none ↔ l = []) ∧
    ∀ c rest, HeapPop key l = some (c, rest) →
      (∀ x ∈ l, key c ≤ key x) ∧ List.Perm (c :: rest) l

/-- A heap pop that takes the first element of minimal key. -/
def HeapPopFirstMin (key : FCellRef → α) : List FCellRef → Option (FCellRef × List FCellRef)
  | [] => none
  | a :: l =>
    match HeapPopFirstMin key l with
    | none => some (a, [])
    | some (b, rest) => if key a ≤ key b then some (a, l) else some (b, a :: rest)

/-- Body of the neighbour loop of A* for one offset. -/
def AStarRelax (G : AGAGridActor α P) (DestinationCell CurrentCell : FCellRef)
    (st : FAStarState α) (Offset : Int × Int) : FAStarState α :=
  let Neighbor := CurrentCell.offset Offset
  if !G.IsValid Neighbor || !G.Traversable Neighbor then st
  else
    let TentativeGScore : α :=
      (st.GScore CurrentCell).getD 0 + G.EdgeDistance CurrentCell Neighbor
    if (st.GScore Neighbor).isNone || decide (TentativeGScore < (st.GScore Neighbor).getD 0) then
      { CameFrom := Function.update st.CameFrom Neighbor (some CurrentCell),
        GScore := Function.update st.GScore Neighbor (some TentativeGScore),
        HScore := Function.update st.HScore Neighbor
          (some (G.Dist (G.GetCellPosition Neighbor) (G.GetCellPosition DestinationCell))),
        OpenSet := if Neighbor ∈ st.OpenSet then st.OpenSet else st.OpenSet ++ [Neighbor] }
    else st

/-- The loop `while (CameFrom.Contains(Step))` that walks the predecessor chain, inserting
each step at the front of `StepsOut`. -/
def AStarTrace (G : AGAGridActor α P) (CameFrom : FCellRef → Option FCellRef) :
    Nat → FCellRef → List (FPathStep P) → Option (List (FPathStep P))
  | 0, Step, StepsOut =>
    match CameFrom Step with
    | none => some StepsOut
    | some _ => none
  | fuel + 1, Step, StepsOut =>
    match CameFrom Step with
    | none => some StepsOut
    | some Prev => AStarTrace G CameFrom fuel Prev (⟨G.GetCellPosition Step, Step⟩ :: StepsOut)

/-- The loop `while (OpenSet.Num() > 0)` of A*. -/
def AStarLoop (G : AGAGridActor α P)
    (HeapPop : (FCellRef → α) → List FCellRef → Option (FCellRef × List FCellRef))
    (StartPoint : P) (StartCell DestinationCell : FCellRef) (StepsOut : List (FPathStep P))
    (traceFuel : Nat) : Nat → FAStarState α → Option (EGAPathState × List (FPathStep P))
  | fuel, st =>
    match HeapPop st.FScore st.OpenSet with
    | none => some (EGAPathState.GAPS_Invalid, StepsOut)
    | some (CurrentCell, rest) =>
      if CurrentCell = DestinationCell then
        (AStarTrace G st.CameFrom traceFuel CurrentCell StepsOut).map
          (fun out => (EGAPathState.GAPS_Active, ⟨StartPoint, StartCell⟩ :: out))
      else
        match fuel with
        | 0 => none
        | fuel + 1 =>
          AStarLoop G HeapPop StartPoint StartCell DestinationCell StepsOut traceFuel fuel
            (NeighborOffsets.foldl (AStarRelax G DestinationCell CurrentCell)
              { st with OpenSet := rest })

/-- The function `AStar(StartPoint, StepsOut)` with the recorded `DestinationCell`: the returned state
and the output list afterwards. -/
def AStar (fuel : Nat)
    (HeapPop : (FCellRef → α) → List FCellRef → Option (FCellRef × List FCellRef))
    (Grid : Option (AGAGridActor α P)) (DestinationCell : FCellRef) (StartPoint : P)
    (StepsOut : List (FPathStep P)) : Option (EGAPathState × List (FPathStep P)) :=
  match Grid with
  | none => some (EGAPathState.GAPS_Invalid, StepsOut)
  | some G =>
    let StartCell := G.GetCellRef StartPoint
    if !G.IsValid StartCell || !G.IsValid DestinationCell then
      some (EGAPathState.GAPS_Invalid, StepsOut)
    else
      AStarLoop G HeapPop StartPoint StartCell DestinationCell StepsOut fuel fuel
        { OpenSet := [StartCell],
          GScore := Function.update (fun _ => none) StartCell (some 0),
          HScore := Function.update (fun _ => none) StartCell
            (some (G.Dist (G.GetCellPosition StartCell) (G.GetCellPosition DestinationCell))),
          CameFrom := fun _ => none }

/-- Summed edge cost along the consecutive cells of a step list. -/
def StepsCost (G : AGAGridActor α P) : List (FPathStep P) → α
  | [] => 0
  | s :: rest => PathCost G s.CellRef (rest.map FPathStep.CellRef)

end AStar

/-! ## Grid line trace and smoothing (`LineTrace`, `SmoothPath`) -/

section Smoothing

variable {α P : Type}

/-- One pass of the Bresenham body after the traversability test: the new `X`, `Y` and
`Error`. -/
def BresenhamStep (DeltaX DeltaY StepX StepY : Int) (X Y Error : Int) : Int × Int × Int :=
  let Error2 := Error * 2
  let ex : Int × Int := if Error2 > -DeltaY then (Error - DeltaY, X + StepX) else (Error, X)
  let ey : Int × Int := if Error2 < DeltaX then (ex.1 + DeltaX, Y + StepY) else (ex.1, Y)
  (ex.2, ey.2, ey.1)

/-- The loop `while (X != EndCell.X || Y != EndCell.Y)` of `LineTrace`. -/
def LineTraceLoop (G : AGAGridActor α P) (EndCell : FCellRef) (DeltaX DeltaY StepX StepY : Int) :
    Nat → Int → Int → Int → Option Bool
  | 0, X, Y, _ =>
    if X ≠ EndCell.X ∨ Y ≠ EndCell.Y then
      if !G.Traversable ⟨X, Y⟩ then some false else none
    else some true
  | fuel + 1, X, Y, Error =>
    if X ≠ EndCell.X ∨ Y ≠ EndCell.Y then
      if !G.Traversable ⟨X, Y⟩ then some false
      else
        let nxt := BresenhamStep DeltaX DeltaY StepX StepY X Y Error
        LineTraceLoop G EndCell DeltaX DeltaY StepX StepY fuel nxt.1 nxt.2.1 nxt.2.2
    else some true

/-- The function `LineTrace(Start, End, Grid)`.  The loop is given `DeltaX + DeltaY` rounds of fuel. -/
def LineTrace (G : AGAGridActor α P) (Start End : P) : Option Bool :=
  let StartCell := G.GetCellRef Start
  let EndCell := G.GetCellRef End
  if !G.IsValid StartCell || !G.IsValid EndCell then some false
  else
    let DeltaX := |EndCell.X - StartCell.X|
    let DeltaY := |EndCell.Y - StartCell.Y|
    let StepX : Int := if StartCell.X < EndCell.X then 1 else -1
    let StepY : Int := if StartCell.Y < EndCell.Y then 1 else -1
    LineTraceLoop G EndCell DeltaX DeltaY StepX StepY (DeltaX + DeltaY).toNat
      StartCell.X StartCell.Y (DeltaX - DeltaY)

/-- The inner loop of `SmoothPath`: starting with `NextPoint`, it walks the steps from
`NextIndex` on while `LineTrace` from `CurrentPoint` succeeds; it returns the last point
that passed and the steps from the final `NextIndex` on. -/
def SmoothAdvance (G : AGAGridActor α P) (CurrentPoint : P) :
    List (FPathStep P) → P → Option (P × List (FPathStep P))
  | [], NextPoint => some (NextPoint, [])
  | s :: rest, NextPoint =>
    match LineTrace G CurrentPoint s.Point with
    | none => none
    | some false => some (NextPoint, s :: rest)
    | some true => SmoothAdvance G CurrentPoint rest s.Point

/-- The outer loop `while (CurrentIndex < UnsmoothedSteps.Num())` of `SmoothPath`, on the
steps from `CurrentIndex` on. -/
def SmoothLoop (G : AGAGridActor α P) :
    Nat → List (FPathStep P) → List (FPathStep P) → Option (List (FPathStep P))
  | _, [], SmoothedStepsOut => some SmoothedStepsOut
  | 0, _ :: _, _ => none
  | fuel + 1, s :: rest, SmoothedStepsOut =>
    match SmoothAdvance G s.Point rest s.Point with
    | none => none
    | some (NextPoint, remaining) =>
      SmoothLoop G fuel remaining (SmoothedStepsOut ++ [⟨NextPoint, G.GetCellRef NextPoint⟩])

/-- The function `SmoothPath(StartPoint, UnsmoothedSteps, SmoothedStepsOut)`: the returned state and the
output list afterwards.  The outer loop is given one round of fuel per input step. -/
def SmoothPath (Grid : Option (AGAGridActor α P)) (_StartPoint : P)
    (UnsmoothedSteps : List (FPathStep P)) (SmoothedStepsOut : List (FPathStep P)) :
    Option (EGAPathState × List (FPathStep P)) :=
  match Grid with
  | none => some (EGAPathState.GAPS_Invalid, SmoothedStepsOut)
  | some G =>
    (SmoothLoop G UnsmoothedSteps.length UnsmoothedSteps []).map
      (fun out => (EGAPathState.GAPS_Active, out))

/-- The cells the Bresenham walk of `LineTrace` visits from `(X, Y)` to `EndCell`, both
included, regardless of traversability. -/
def BresenhamCells (EndCell : FCellRef) (DeltaX DeltaY StepX StepY : Int) :
    Nat → Int → Int → Int → Option (List FCellRef)
  | 0, X, Y, _ =>
    if X ≠ EndCell.X ∨ Y ≠ EndCell.Y then none else some [⟨X, Y⟩]
  | fuel + 1, X, Y, Error =>
    if X ≠ EndCell.X ∨ Y ≠ EndCell.Y then
      let nxt := BresenhamStep DeltaX DeltaY StepX StepY X Y Error
      (BresenhamCells EndCell DeltaX DeltaY StepX StepY fuel nxt.1 nxt.2.1 nxt.2.2).map
        (fun cells => ⟨X, Y⟩ :: cells)
    else some [⟨X, Y⟩]

/-- The Bresenham rasterisation from `StartCell` to `EndCell`, with the constants of
`LineTrace`. -/
def Rasterisation (StartCell EndCell : FCellRef) : Option (List FCellRef) :=
  let DeltaX := |EndCell.X - StartCell.X|
  let DeltaY := |EndCell.Y - StartCell.Y|
  let StepX : Int := if StartCell.X < EndCell.X then 1 else -1
  let StepY : Int := if StartCell.Y < EndCell.Y then 1 else -1
  BresenhamCells EndCell DeltaX DeltaY StepX StepY (DeltaX + DeltaY).toNat
    StartCell.X StartCell.Y (DeltaX - DeltaY)

end Smoothing

/-! ## Path reconstruction from a distance field (`ReconstructPath`) -/

section Reconstruct

variable {α P : Type} [LinearOrderedAddCommGroup α]

/-- The test the neighbour loop of `ReconstructPath` applies to one neighbour: valid,
traversable, with a recorded distance strictly below `CurrentDistance`. -/
def ReconstructAccepts (G : AGAGridActor α P) (DistanceMap : FGAGridMap (WithTop α))
    (CurrentDistance : WithTop α) (Neighbor : FCellRef) : Bool :=
  if !G.IsValid Neighbor || !G.Traversable Neighbor then false
  else
    match DistanceMap.GetValue Neighbor with
    | none => false
    | some NeighborDistance => decide (NeighborDistance < CurrentDistance)

/-- The neighbour loop of `ReconstructPath`: the first neighbour, in offset order, that
passes the test. -/
def ReconstructNext (G : AGAGridActor α P) (DistanceMap : FGAGridMap (WithTop α))
    (CurrentCell : FCellRef) (CurrentDistance : WithTop α) : Option FCellRef :=
  (NeighborOffsets.map CurrentCell.offset).find?
    (ReconstructAccepts G DistanceMap CurrentDistance)

/-- The loop `while (CurrentCell != StartCell)` of `ReconstructPath`; the result is the
returned flag and `ReversePath`. -/
def ReconstructLoop (G : AGAGridActor α P) (DistanceMap : FGAGridMap (WithTop α))
    (StartCell : FCellRef) :
    Nat → FCellRef → List (FPathStep P) → Option (Bool × List (FPathStep P))
  | fuel, CurrentCell, ReversePath =>
    if CurrentCell = StartCell then some (true, ReversePath)
    else
      match DistanceMap.GetValue CurrentCell with
      | none => some (false, ReversePath)
      | some CurrentDistance =>
        match ReconstructNext G DistanceMap CurrentCell CurrentDistance with
        | none => some (false, ReversePath)
        | some Neighbor =>
          match fuel with
          | 0 => none
          | fuel + 1 =>
            ReconstructLoop G DistanceMap StartCell fuel Neighbor
              (ReversePath ++ [⟨G.GetCellPosition Neighbor, Neighbor⟩])

/-- The function `ReconstructPath(DistanceMap, TargetCell, StartCell, OutPath)`: the returned flag and
`OutPath` afterwards. -/
def ReconstructPath (fuel : Nat) (Grid : Option (AGAGridActor α P))
    (DistanceMap : FGAGridMap (WithTop α)) (TargetCell StartCell : FCellRef)
    (OutPath : List (FPathStep P)) : Option (Bool × List (FPathStep P)) :=
  match Grid with
  | none => some (false, OutPath)
  | some G =>
    match ReconstructLoop G DistanceMap StartCell fuel TargetCell
        [⟨G.GetCellPosition TargetCell, TargetCell⟩] with
    | none => none
    | some (true, ReversePath) => some (true, ReversePath.reverse)
    | some (false, _) => some (false, [])

end Reconstruct

/-! ## Occupancy map of a target (`UGATargetComponent`) -/

section Occupancy

variable {α P : Type} [LinearOrderedField α]

/-- The cells in the order of the loops `for (X < XCount) for (Y < YCount)`. -/
def AGAGridActor.ScanCells (G : AGAGridActor α P) : List FCellRef :=
  (List.range G.XCount).flatMap
    (fun (x : Nat) => (List.range G.YCount).map (fun (y : Nat) => FCellRef.mk (Int.ofNat x) (Int.ofNat y)))

/-- What a target's tick reads from one perception component: whether it has an owner pawn,
its awareness of this target (`GetTargetData(TargetGuid)`, absent when null), and for each
cell the three visibility tests of `OccupancyMapUpdate` (vision cone, vision range and the
world occlusion ray). -/
structure FPerceiver (α : Type) where
  HasPawn : Bool
  TargetAwareness : Option α
  InCone : FCellRef → Bool
  InRange : FCellRef → Bool
  Occluded : FCellRef → Bool

/-- Target state (`ETargetState`). -/
inductive ETargetState where
  | GATS_Unknown
  | GATS_Hidden
  | GATS_Immediate
deriving DecidableEq

/-- The last known state of a target (`FTargetCache`): classification and position. -/
structure FTargetCache (P : Type) where
  State : ETargetState
  Position : P

/-- Modelled from the spec: `IsKnown()`, the target "has ever been observed", that is its
state is not `Unknown`. -/
def FTargetCache.IsKnown (s : FTargetCache P) : Bool :=
  decide (s.State ≠ ETargetState.GATS_Unknown)

/-- Body of the cell loop of step 1 of `OccupancyMapUpdate` for one perceiver. -/
def VisibilityBody (obs : FPerceiver α) (VisibilityGrid : FGAGridMap α) (Cell : FCellRef) :
    FGAGridMap α :=
  let bInCone := obs.InCone Cell
  let bInRange := obs.InRange Cell
  let bHasLineOfSight := if bInCone && bInRange then !obs.Occluded Cell else false
  if bHasLineOfSight then VisibilityGrid.SetValue Cell 1 else VisibilityGrid

/-- Step 1 of `OccupancyMapUpdate`: the visibility grid of all perceivers. -/
def BuildVisibility (G : AGAGridActor α P) (Observers : List (FPerceiver α)) : FGAGridMap α :=
  Observers.foldl
    (fun vis obs => if !obs.HasPawn then vis else G.ScanCells.foldl (VisibilityBody obs) vis)
    (FGAGridMap.ofGrid G 0)

/-- Body of step 2 of `OccupancyMapUpdate`: clear the belief of a visible cell. -/
def ClearVisibleBody (VisibilityGrid : FGAGridMap α) (OccupancyMap : FGAGridMap α)
    (Cell : FCellRef) : FGAGridMap α :=
  match VisibilityGrid.GetValue Cell with
  | some Visibility => if Visibility > 0 then OccupancyMap.SetValue Cell 0 else OccupancyMap
  | none => OccupancyMap

/-- The summation loops of `OccupancyMapUpdate` (`TotalProb`, `NewTotalProb`). -/
def MapTotal (G : AGAGridActor α P) (OccupancyMap : FGAGridMap α) : α :=
  G.ScanCells.foldl
    (fun acc Cell => match OccupancyMap.GetValue Cell with
      | some Prob => acc + Prob
      | none => acc) 0

/-- Body of the division loops of `OccupancyMapUpdate`. -/
def NormalizeBody (TotalProb : α) (OccupancyMap : FGAGridMap α) (Cell : FCellRef) :
    FGAGridMap α :=
  match OccupancyMap.GetValue Cell with
  | some Prob => OccupancyMap.SetValue Cell (Prob / TotalProb)
  | none => OccupancyMap

/-- One renormalisation pass of `OccupancyMapUpdate`: sum, then divide if the sum is
positive. -/
def Renormalize (G : AGAGridActor α P) (OccupancyMap : FGAGridMap α) : FGAGridMap α :=
  let TotalProb := MapTotal G OccupancyMap
  if TotalProb > 0 then G.ScanCells.foldl (NormalizeBody TotalProb) OccupancyMap
  else OccupancyMap

/-- Body of the loop "ensure non-traversable cells have zero probability". -/
def ClearBlockedBody (G : AGAGridActor α P) (OccupancyMap : FGAGridMap α) (Cell : FCellRef) :
    FGAGridMap α :=
  if !G.Traversable Cell then OccupancyMap.SetValue Cell 0 else OccupancyMap

/-- The function `OccupancyMapUpdate()`, steps 1 to 3: the occupancy map afterwards.  Step 4 only reads
the map. -/
def OccupancyMapUpdate (Grid : Option (AGAGridActor α P)) (Observers : List (FPerceiver α))
    (OccupancyMap : FGAGridMap α) : FGAGridMap α :=
  match Grid with
  | none => OccupancyMap
  | some G =>
    let VisibilityGrid := BuildVisibility G Observers
    let m1 := G.ScanCells.foldl (ClearVisibleBody VisibilityGrid) OccupancyMap
    let m2 := Renormalize G m1
    let m3 := G.ScanCells.foldl (ClearBlockedBody G) m2
    Renormalize G m3

/-- The function `OccupancyMapSetPosition(Position)`: the occupancy map afterwards. -/
def OccupancyMapSetPosition (Grid : Option (AGAGridActor α P)) (OccupancyMap : FGAGridMap α)
    (Position : P) : FGAGridMap α :=
  match Grid with
  | none => OccupancyMap
  | some G =>
    let m := OccupancyMap.ResetData 0
    let Cell := G.GetCellRefClamped Position
    if G.IsValid Cell then m.SetValue Cell 1 else m

/-- The constant `DiffusionRate = 0.1f`. -/
def DiffusionRate : α := 1 / 10

/-- Body of the cell loop of `OccupancyMapDiffuse`; `OccupancyMap` is the map before the
call. -/
def DiffuseBody (G : AGAGridActor α P) (OccupancyMap : FGAGridMap α) (NewMap : FGAGridMap α)
    (Cell : FCellRef) : FGAGridMap α :=
  let OldValue := (OccupancyMap.GetValue Cell).getD 0
  let NeighborSum := (NeighborOffsets.map Cell.offset).foldl
    (fun acc Neighbor =>
      if G.IsValid Neighbor then acc + (OccupancyMap.GetValue Neighbor).getD 0 else acc) 0
  NewMap.SetValue Cell ((1 - DiffusionRate) * OldValue + DiffusionRate * NeighborSum)

/-- The function `OccupancyMapDiffuse()`: the occupancy map afterwards. -/
def OccupancyMapDiffuse (Grid : Option (AGAGridActor α P)) (OccupancyMap : FGAGridMap α) :
    FGAGridMap α :=
  match Grid with
  | none => OccupancyMap
  | some G => G.ScanCells.foldl (DiffuseBody G OccupancyMap) (FGAGridMap.ofGrid G 0)

/-- The scan of `TickComponent` over the perception components: some component's awareness
of this target is at least `1.0`. -/
def IsImmediate (Observers : List (FPerceiver α)) : Bool :=
  Observers.any (fun obs =>
    match obs.TargetAwareness with
    | some Awareness => decide (Awareness ≥ 1)
    | none => false)

/-- The cells of a map's window as a finite set. -/
def FGAGridMap.WindowCells {β : Type} (m : FGAGridMap β) : Finset FCellRef :=
  (Finset.Icc m.MinX m.MaxX ×ˢ Finset.Icc m.MinY m.MaxY).image
    (fun p => (⟨p.1, p.2⟩ : FCellRef))

/-- The sum of all values of a map, over the cells of its window. -/
def FGAGridMap.Total (m : FGAGridMap α) : α :=
  m.WindowCells.sum m.Data

end Occupancy

/-! ## Invariants of the Dijkstra loop (proof vocabulary) -/

section DijkstraInvariants

variable {α P : Type} [LinearOrderedAddCommGroup α]

/-- All edges leaving `c` are relaxed with respect to the value `v` of `c`. -/
def Relaxed (G : AGAGridActor α P) (win : FCellRef → Bool) (D : FGAGridMap (WithTop α))
    (c : FCellRef) (v : α) : Prop :=
  ∀ n, GridStep G win c n → D.Data n ≤ ((v + G.EdgeDistance c n : α) : WithTop α)

/-- Invariant inside the neighbour loop: `Current` has been taken out of the queue and the
offsets satisfying `S` have been handled. -/
structure DijkstraMid (G : AGAGridActor α P) (win : FCellRef → Bool) (start : FCellRef)
    (Current : FQueueElement α) (S : Int × Int → Prop)
    (D : FGAGridMap (WithTop α)) (Q : List (FQueueElement α)) : Prop where
  hwin : ∀ c, D.InWindow c = win c
  hstart : D.Data start = ((0 : α) : WithTop α)
  hsound : ∀ c (v : α), win c = true → D.Data c = (v : WithTop α) → ReachCost G win start c v
  hqueue : ∀ e ∈ Q, ReachCost G win start e.Cell e.Distance
  hcur : ReachCost G win start Current.Cell Current.Distance
  hpend : ∀ c (v : α), win c = true → D.Data c = (v : WithTop α) →
    (∃ e ∈ Q, e.Cell = c ∧ e.Distance = v) ∨ Relaxed G win D c v ∨
      (c = Current.Cell ∧ v = Current.Distance ∧ ∀ o, S o → GridStep G win c (c.offset o) →
        D.Data (c.offset o) ≤ ((v + G.EdgeDistance c (c.offset o) : α) : WithTop α))

/-- Invariant at the head of the frontier loop. -/
structure DijkstraInv (G : AGAGridActor α P) (win : FCellRef → Bool) (start : FCellRef)
    (D : FGAGridMap (WithTop α)) (Q : List (FQueueElement α)) : Prop where
  hwin : ∀ c, D.InWindow c = win c
  hstart : D.Data start = ((0 : α) : WithTop α)
  hsound : ∀ c (v : α), win c = true → D.Data c = (v : WithTop α) → ReachCost G win start c v
  hqueue : ∀ e ∈ Q, ReachCost G win start e.Cell e.Distance
  hpend : ∀ c (v : α), win c = true → D.Data c = (v : WithTop α) →
    (∃ e ∈ Q, e.Cell = c ∧ e.Distance = v) ∨ Relaxed G win D c v

end DijkstraInvariants

/-! ## Invariants of the A* loop (proof vocabulary) -/

/-- The valid cells of the grid as a finite set. -/
def AGAGridActor.Cells {α P : Type} (G : AGAGridActor α P) : Finset FCellRef :=
  (Finset.range G.XCount ×ˢ Finset.range G.YCount).image
    (fun p => (⟨(p.1 : Int), (p.2 : Int)⟩ : FCellRef))

/-- The step A* emits for a cell of the predecessor chain. -/
def CellStep {α P : Type} (G : AGAGridActor α P) (c : FCellRef) : FPathStep P :=
  ⟨G.GetCellPosition c, c⟩

section AStarInvariants

variable {α P : Type} [LinearOrderedAddCommGroup α]

/-- The heuristic of A*: straight-line distance from a cell centre to the destination's. -/
def Heuristic (G : AGAGridActor α P) (dest c : FCellRef) : α :=
  G.Dist (G.GetCellPosition c) (G.GetCellPosition dest)

/-- The trivial window: A* is not restricted to a map window. -/
def anyCell : FCellRef → Bool := fun _ => true

/-- The state A* writes for a neighbour whose score improves. -/
def AStarUpdated (G : AGAGridActor α P) (dest cur n : FCellRef) (t : α) (st : FAStarState α) :
    FAStarState α :=
  { CameFrom := Function.update st.CameFrom n (some cur),
    GScore := Function.update st.GScore n (some t),
    HScore := Function.update st.HScore n (some (Heuristic G dest n)),
    OpenSet := if n ∈ st.OpenSet then st.OpenSet else st.OpenSet ++ [n] }

/-- Invariant of the A* loop.  Ghost state: the set `C` of cells popped so far, the order
`rk` in which they were popped and the key `m` of the last pop.  Inside the neighbour loop
`cur` is the popped cell and `S` holds of the offsets already handled. -/
structure AStarInv (G : AGAGridActor α P) (start dest cur : FCellRef) (S : Int × Int → Prop)
    (C : Finset FCellRef) (rk : FCellRef → Nat) (m : α) (st : FAStarState α) : Prop where
  hnodup : st.OpenSet.Nodup
  hdisc : ∀ c, st.GScore c ≠ none ↔ c ∈ st.OpenSet ∨ c ∈ C
  hdisj : ∀ c ∈ st.OpenSet, c ∉ C
  hh : ∀ c v, st.GScore c = some v → st.HScore c = some (Heuristic G dest c)
  hstart : st.GScore start = some 0
  hstartC : start ∈ C ∨ (C = ∅ ∧ st.OpenSet = [start])
  hsound : ∀ c v, st.GScore c = some v → ReachCost G anyCell start c v
  hopen : ∀ c ∈ st.OpenSet, ∀ v, st.GScore c = some v → m ≤ v + Heuristic G dest c
  hclosed : ∀ c ∈ C, ∀ v, st.GScore c = some v → v + Heuristic G dest c ≤ m
  hrelaxed : ∀ c ∈ C, ∀ o ∈ NeighborOffsets, (c = cur → S o) →
    GridStep G anyCell c (c.offset o) →
    ∃ v u, st.GScore c = some v ∧ st.GScore (c.offset o) = some u ∧
      u ≤ v + G.EdgeDistance c (c.offset o)
  hlink : ∀ n p, st.CameFrom n = some p →
    p ∈ C ∧ (n ∈ C → rk p < rk n) ∧ GridStep G anyCell p n ∧
      ∃ vp vn, st.GScore p = some vp ∧ st.GScore n = some vn ∧ vp + G.EdgeDistance p n ≤ vn
  hroot : ∀ n, st.GScore n ≠ none → st.CameFrom n = none → n = start
  hstartlink : st.CameFrom start = none
  hrank : ∀ c ∈ C, rk c < C.card
  hvalidO : ∀ c ∈ st.OpenSet, G.IsValid c = true
  hvalidC : ∀ c ∈ C, G.IsValid c = true
  hdest : dest ∉ C

/-- The condition under which A* has no route to offer: the grid is missing, the start cell
or the recorded destination cell is invalid, or no 4-connected path whose cells after the
start are valid and traversable leads from the start cell to the destination cell. -/
def AStarNoRoute {α P : Type} (Grid : Option (AGAGridActor α P)) (DestinationCell : FCellRef)
    (StartPoint : P) : Prop :=
  match Grid with
  | none => True
  | some G =>
    G.IsValid (G.GetCellRef StartPoint) = false ∨ G.IsValid DestinationCell = false ∨
      ¬ Reachable G anyCell (G.GetCellRef StartPoint) DestinationCell

end AStarInvariants

/-! ## Path reconstruction (specification and proof vocabulary) -/

section ReconstructVocabulary

variable {α P : Type} [LinearOrderedAddCommGroup α]

/-- Cell `b` is one of the four neighbours of `a`. -/
def Adjacent4 (a b : FCellRef) : Prop := ∃ o ∈ NeighborOffsets, b = a.offset o

/-- Both cells have a recorded distance and the one of `b` is strictly below the one of
`a`. -/
def FieldDecreases (DistanceMap : FGAGridMap (WithTop α)) (a b : FCellRef) : Prop :=
  ∃ da db, DistanceMap.GetValue a = some da ∧ DistanceMap.GetValue b = some db ∧ db < da

end ReconstructVocabulary

/-! ## Occupancy map (proof vocabulary) -/

section OccupancyVocabulary

variable {α P : Type} [LinearOrderedField α]

/-- The visibility grid marks the cell as visible. -/
def IsVisibleCell (VisibilityGrid : FGAGridMap α) (c : FCellRef) : Bool :=
  match VisibilityGrid.GetValue c with
  | some Visibility => decide (Visibility > 0)
  | none => false

/-- The sum the code's summation loops compute, as a sum over the scanned cells. -/
def ScanSum (G : AGAGridActor α P) (m : FGAGridMap α) : α :=
  G.ScanCells.toFinset.sum (fun c => if m.InWindow c = true then m.Data c else 0)

end OccupancyVocabulary

/-! ## Termination of the Dijkstra loop (proof vocabulary) -/

section DijkstraTermination

variable {α P : Type} [LinearOrderedAddCommGroup α]

/-- Popping `c` with any distance from `m` on cannot improve a neighbour any more. -/
def NoPush (G : AGAGridActor α P) (win : FCellRef → Bool) (D : FGAGridMap (WithTop α))
    (m : α) (c : FCellRef) : Prop :=
  ∀ d, m ≤ d → ∀ n, GridStep G win c n → D.Data n ≤ ((d + G.EdgeDistance c n : α) : WithTop α)

/-- Facts about the state inside the neighbour loop, relative to the state `D0`, `Q0` at its
start: `c`, `d` is the popped element, `k` bounds the number of pushes and the offsets
satisfying `S` have been handled. -/
structure DijkstraTermMid (G : AGAGridActor α P) (win : FCellRef → Bool) (c : FCellRef) (d : α)
    (D0 : FGAGridMap (WithTop α)) (Q0 : List (FQueueElement α)) (k : Nat)
    (S : Int × Int → Prop) (D : FGAGridMap (WithTop α)) (Q : List (FQueueElement α)) :
    Prop where
  hwin : ∀ x, D.InWindow x = win x
  hle : ∀ x, D.Data x ≤ D0.Data x
  hnew : ∀ e ∈ Q, e ∈ Q0 ∨ (d ≤ e.Distance ∧ win e.Cell = true)
  hlen : Q.length ≤ Q0.length + k
  hnopush : (∀ n, GridStep G win c n → D0.Data n ≤ ((d + G.EdgeDistance c n : α) : WithTop α)) →
    Q = Q0
  hdone : ∀ o, S o → GridStep G win c (c.offset o) →
    D.Data (c.offset o) ≤ ((d + G.EdgeDistance c (c.offset o) : α) : WithTop α)

/-- Invariant of the frontier loop used for termination: `m` is the distance of the last pop
and `U` holds the cells whose pop may still push. -/
structure DijkstraTermInv (G : AGAGridActor α P) (win : FCellRef → Bool) (start : FCellRef)
    (U : Finset FCellRef) (m : α) (D : FGAGridMap (WithTop α)) (Q : List (FQueueElement α)) :
    Prop where
  hwin : ∀ x, D.InWindow x = win x
  hlow : ∀ e ∈ Q, m ≤ e.Distance
  hcell : ∀ e ∈ Q, win e.Cell = true ∨ e.Cell = start
  hU : ∀ c, (win c = true ∨ c = start) → c ∉ U → NoPush G win D m c

end DijkstraTermination

/-! ## Last known position (`UGATargetComponent::OccupancyMapUpdate`, step 4) -/

section Centroid

variable {α P : Type} [LinearOrderedField α] [AddCommGroup P] [Module α P]

/-- Body of the loop of step 4 of `OccupancyMapUpdate`: the accumulators `WeightedSum` and
`SumProbability`. -/
def CentroidBody (G : AGAGridActor α P) (OccupancyMap : FGAGridMap α) (acc : P × α)
    (Cell : FCellRef) : P × α :=
  match OccupancyMap.GetValue Cell with
  | some Prob => (acc.1 + Prob • G.GetCellPosition Cell, acc.2 + Prob)
  | none => acc

/-- Step 4 of `OccupancyMapUpdate`, run on the map that steps 1 to 3 leave: the last known
position afterwards (`LastKnownState.Set(WeightedSum / SumProbability, ...)` when
`SumProbability > 0`). -/
def OccupancyMapCentroid (G : AGAGridActor α P) (OccupancyMap : FGAGridMap α)
    (LastKnownPosition : P) : P :=
  let acc := G.ScanCells.foldl (CentroidBody G OccupancyMap) ((0 : P), (0 : α))
  if acc.2 > 0 then acc.2⁻¹ • acc.1 else LastKnownPosition

/-- The function `OccupancyMapUpdate()`, steps 1 to 4: the last known position afterwards. -/
def OccupancyMapUpdateLastKnown (Grid : Option (AGAGridActor α P))
    (Observers : List (FPerceiver α)) (OccupancyMap : FGAGridMap α) (LastKnownPosition : P) :
    P :=
  match Grid with
  | none => LastKnownPosition
  | some G =>
    OccupancyMapCentroid G (OccupancyMapUpdate (some G) Observers OccupancyMap)
      LastKnownPosition

/-- The function `UGATargetComponent::TickComponent`: the last known state and the occupancy
map after one update cycle.  `OwnerLocation` is the target's own position.  On a hidden tick
`OccupancyMapUpdate` rewrites the map (steps 1 to 3) and refreshes the last known position
(step 4). -/
def TickComponent (Grid : Option (AGAGridActor α P)) (Observers : List (FPerceiver α))
    (OwnerLocation : P) (st : FTargetCache P × FGAGridMap α) : FTargetCache P × FGAGridMap α :=
  let s1 : FTargetCache P × FGAGridMap α :=
    if IsImmediate Observers then
      (⟨ETargetState.GATS_Immediate, OwnerLocation⟩,
        OccupancyMapSetPosition Grid st.2 OwnerLocation)
    else if st.1.IsKnown then (⟨ETargetState.GATS_Hidden, st.1.Position⟩, st.2)
    else st
  let s2 : FTargetCache P × FGAGridMap α :=
    if s1.1.State = ETargetState.GATS_Hidden then
      (⟨s1.1.State, OccupancyMapUpdateLastKnown Grid Observers s1.2 s1.1.Position⟩,
        OccupancyMapUpdate Grid Observers s1.2)
    else s1
  if s2.1.IsKnown then (s2.1, OccupancyMapDiffuse Grid s2.2) else s2

end Centroid

/-! ## Runs of target ticks -/

section TargetRuns

variable {α P : Type} [LinearOrderedField α] [AddCommGroup P] [Module α P]

/-- A run of target ticks: `TickComponent` once per element of `ticks`, each element giving
the perception components and the target's own location at that tick. -/
def TickRun (Grid : Option (AGAGridActor α P)) (ticks : List (List (FPerceiver α) × P))
    (st : FTargetCache P × FGAGridMap α) : FTargetCache P × FGAGridMap α :=
  ticks.foldl (fun st t => TickComponent Grid t.1 t.2 st) st

end TargetRuns

/-! ## Awareness (`UGAPerceptionComponent::UpdateTargetData`) -/

section Perception

variable {α : Type} [LinearOrderedField α]

/-- Per-target data of a perception component (`FTargetData`): the line-of-sight flag and
the awareness. -/
structure FTargetData (α : Type) where
  bClearLos : Bool
  Awareness : α

/-- The engine's `FMath::Clamp(X, Min, Max)`. -/
def Clamp (X Min Max : α) : α := if X < Min then Min else if X < Max then X else Max

/-- What one call of `UpdateTargetData` reads from the world: whether the owner pawn, the
target component and the target's actor exist, the vision cone and range tests, the result
of the occlusion ray (`bBlocked`) and `GetDeltaSeconds()`. -/
structure FPerceptionInput (α : Type) where
  HasOwnerPawn : Bool
  HasTargetComponent : Bool
  HasTargetActor : Bool
  bWithinVisionCone : Bool
  bWithinVisionRange : Bool
  bBlocked : Bool
  DeltaTime : α

/-- The constant `AwarenessGain = 0.7f`. -/
def AwarenessGain : α := 7 / 10

/-- The constant `AwarenessLoss = 0.2f`. -/
def AwarenessLoss : α := 2 / 10

/-- The function `UpdateTargetData(TargetComponent)`: the entry of `TargetMap` for the target
afterwards.  `TargetData` is the entry before the call (`none` when `Find` returns null) and
`NewTargetData` the freshly constructed data that is added in that case. -/
def UpdateTargetData (NewTargetData : FTargetData α) (inp : FPerceptionInput α)
    (TargetData : Option (FTargetData α)) : Option (FTargetData α) :=
  if !inp.HasOwnerPawn || !inp.HasTargetComponent then TargetData
  else if !inp.HasTargetActor then TargetData
  else
    let d := match TargetData with
      | some d => d
      | none => NewTargetData
    let bHasClearLOS :=
      if inp.bWithinVisionCone && inp.bWithinVisionRange then !inp.bBlocked else false
    if bHasClearLOS then
      some { d with bClearLos := bHasClearLOS,
                    Awareness := Clamp (d.Awareness + AwarenessGain * inp.DeltaTime) 0 1 }
    else
      some { d with bClearLos := bHasClearLOS,
                    Awareness := Clamp (d.Awareness - AwarenessLoss * inp.DeltaTime) 0 1 }

/-- A run of perception ticks: `UpdateTargetData` once per element of `inputs`. -/
def UpdateRun (NewTargetData : FTargetData α) (inputs : List (FPerceptionInput α))
    (TargetData : Option (FTargetData α)) : Option (FTargetData α) :=
  inputs.foldl (fun d inp => UpdateTargetData NewTargetData inp d) TargetData

end Perception

/-! ## Position selection (`UGASpatialComponent`) -/

section Spatial

variable {α P : Type} [LinearOrderedRing α]

/-- Input kind of a scoring layer (`ESpatialInput`). -/
inductive ESpatialInput where
  | SI_None
  | SI_TargetRange
  | SI_PathDistance
  | SI_LOS
deriving DecidableEq

/-- Combine operator of a scoring layer (`ESpatialOp`). -/
inductive ESpatialOp where
  | SO_None
  | SO_Add
  | SO_Multiply
deriving DecidableEq

/-- Modelled from the spec: the numeric value of an input kind, in the order the kinds are
listed (`float DesiredDistance = Layer.Input` reads the tag as a number). -/
def ESpatialInput.value : ESpatialInput → Nat
  | ESpatialInput.SI_None => 0
  | ESpatialInput.SI_TargetRange => 1
  | ESpatialInput.SI_PathDistance => 2
  | ESpatialInput.SI_LOS => 3

/-- Scoring layer (`FFunctionLayer`): input kind, combine operator and response curve.  The
curve is `none` when `GetRichCurveConst()` is null, otherwise the function `Eval(x, 0.0f)`. -/
structure FFunctionLayer (α : Type) where
  Input : ESpatialInput
  Op : ESpatialOp
  ResponseCurve : Option (α → α)

/-- Cell rectangle (`FGridBox`). -/
structure FGridBox where
  MinX : Int
  MaxX : Int
  MinY : Int
  MaxY : Int

/-- Modelled from the spec: the constructor `FGAGridMap(Grid, GridBox, v)`, a map over the
window `GridBox` filled with `v`. -/
def FGAGridMap.ofBox {β : Type} (GridBox : FGridBox) (v : β) : FGAGridMap β :=
  { MinX := GridBox.MinX, MaxX := GridBox.MaxX, MinY := GridBox.MinY, MaxY := GridBox.MaxY,
    Data := fun _ => v }

/-- The cells in the order of the loops
`for (Y = GridBounds.MinY; Y < GridBounds.MaxY; Y++) for (X = GridBounds.MinX; X < GridBounds.MaxX; X++)`. -/
def FGAGridMap.BoundsCells {β : Type} (m : FGAGridMap β) : List FCellRef :=
  (List.range (m.MaxY - m.MinY).toNat).flatMap
    (fun (j : Nat) => (List.range (m.MaxX - m.MinX).toNat).map
      (fun (i : Nat) => FCellRef.mk (m.MinX + Int.ofNat i) (m.MinY + Int.ofNat j)))

/-- The first `switch` of `EvaluateLayer`: the input value of a layer at a cell.  `Target` is
the last known position of the current target (`none` when `bHasTarget` is false), `World`
the occlusion ray of the world (`none` when `GetWorld()` is null) and `FLT_MAX` the
constant of that name.  The result `none` is the `return` of the line-of-sight case. -/
def LayerInput (FLT_MAX : α) (G : AGAGridActor α P) (Target : Option P)
    (World : Option (P → P → Bool)) (DistanceMap : FGAGridMap (WithTop α))
    (Layer : FFunctionLayer α) (CellRef : FCellRef) : Option α :=
  let CellPos := G.GetCellPosition CellRef
  match Layer.Input with
  | ESpatialInput.SI_TargetRange =>
    match Target with
    | some TargetPosition =>
      let ActualDistance := G.Dist CellPos TargetPosition
      let DesiredDistance : α := (Layer.Input.value : α)
      some |ActualDistance - DesiredDistance|
    | none => some FLT_MAX
  | ESpatialInput.SI_PathDistance =>
    match DistanceMap.GetValue CellRef with
    | some DistValue => if DistValue < ⊤ then some (WithTop.untop' FLT_MAX DistValue)
      else some FLT_MAX
    | none => some FLT_MAX
  | ESpatialInput.SI_LOS =>
    match Target with
    | some TargetLoc =>
      match World with
      | none => none
      | some LineTraceSingleByChannel =>
        some (if LineTraceSingleByChannel CellPos TargetLoc then 0 else 1)
    | none => some 1
  | ESpatialInput.SI_None => some 0

/-- The response curve step of `EvaluateLayer`: `CurveValue`. -/
def LayerCurve (Layer : FFunctionLayer α) (InputValue : α) : α :=
  match Layer.ResponseCurve with
  | some Eval => Eval InputValue
  | none => InputValue

/-- The second `switch` of `EvaluateLayer`: `CombinedValue`. -/
def LayerCombine (Op : ESpatialOp) (CurrentValue CurveValue : α) : α :=
  match Op with
  | ESpatialOp.SO_None => 0
  | ESpatialOp.SO_Add => CurrentValue + CurveValue
  | ESpatialOp.SO_Multiply => CurrentValue * CurveValue

/-- Body of the cell loop of `EvaluateLayer`: the grid map afterwards, or `none` when the
body returns from the function. -/
def EvaluateCell (FLT_MAX : α) (G : AGAGridActor α P) (Target : Option P)
    (World : Option (P → P → Bool)) (DistanceMap : FGAGridMap (WithTop α))
    (Layer : FFunctionLayer α) (GridMap : FGAGridMap α) (CellRef : FCellRef) :
    Option (FGAGridMap α) :=
  if G.Traversable CellRef then
    match LayerInput FLT_MAX G Target World DistanceMap Layer CellRef with
    | none => none
    | some InputValue =>
      let CurveValue := LayerCurve Layer InputValue
      let CurrentValue := (GridMap.GetValue CellRef).getD 0
      some (GridMap.SetValue CellRef (LayerCombine Layer.Op CurrentValue CurveValue))
  else some GridMap

/-- One round of the cell loop of `EvaluateLayer` on the loop state: the grid map and a flag
that records that the body has returned from the function. -/
def EvaluateStep (FLT_MAX : α) (G : AGAGridActor α P) (Target : Option P)
    (World : Option (P → P → Bool)) (DistanceMap : FGAGridMap (WithTop α))
    (Layer : FFunctionLayer α) (st : FGAGridMap α × Bool) (CellRef : FCellRef) :
    FGAGridMap α × Bool :=
  if st.2 then st
  else
    match EvaluateCell FLT_MAX G Target World DistanceMap Layer st.1 CellRef with
    | some m => (m, false)
    | none => (st.1, true)

/-- The function `EvaluateLayer(Layer, GridMap, DistanceMap)`: the grid map afterwards. -/
def EvaluateLayer (FLT_MAX : α) (Grid : Option (AGAGridActor α P)) (Target : Option P)
    (World : Option (P → P → Bool)) (Layer : FFunctionLayer α) (GridMap : FGAGridMap α)
    (DistanceMap : FGAGridMap (WithTop α)) : FGAGridMap α :=
  match Grid with
  | none => GridMap
  | some G =>
    (GridMap.BoundsCells.foldl (EvaluateStep FLT_MAX G Target World DistanceMap Layer)
      (GridMap, false)).1

/-- Step 2 of `ChoosePosition`: the loop `for (Layer : SpatialFunction->Layers)`. -/
def EvaluateLayers (FLT_MAX : α) (Grid : Option (AGAGridActor α P)) (Target : Option P)
    (World : Option (P → P → Bool)) (Layers : List (FFunctionLayer α))
    (GridMap : FGAGridMap α) (DistanceMap : FGAGridMap (WithTop α)) : FGAGridMap α :=
  Layers.foldl
    (fun GridMap Layer => EvaluateLayer FLT_MAX Grid Target World Layer GridMap DistanceMap)
    GridMap

end Spatial

/-! ## Choosing a position (`UGASpatialComponent::ChoosePosition`) -/

section Choose

variable {α P : Type} [LinearOrderedRing α]

/-- Body of the cell loop of step 3 of `ChoosePosition`; the state is `BestCell` (`none` for
the default-constructed cell reference) and `BestValue`. -/
def BestCellBody (G : AGAGridActor α P) (GridMap : FGAGridMap α)
    (DistanceMap : FGAGridMap (WithTop α)) (st : Option FCellRef × α) (CellRef : FCellRef) :
    Option FCellRef × α :=
  if G.Traversable CellRef then
    match DistanceMap.GetValue CellRef with
    | some CellDistance =>
      if CellDistance < ⊤ then
        let CellValue := (GridMap.GetValue CellRef).getD 0
        if CellValue < st.2 then (some CellRef, CellValue) else st
      else st
    | none => st
  else st

/-- The function `ChoosePosition(PathfindToPosition, Debug)`: the returned flag and `BestCell`.
`SpatialFunction` is the layer list of the configured scoring function (`none` when no
function is assigned), `CellRect` the rectangle `GridSpaceBoundsToRect2D` produces (`none`
when it returns false), `HasPathComponent` whether the path component is found and
`PawnLocation` the location of the owner pawn.  Step 4 and the debug output only write the
path component and the debug map; they do not change the result and are left out.  The
result is `none` when the fuel of the Dijkstra loop runs out. -/
def ChoosePosition (fuel : Nat) (FLT_MAX : α)
    (SpatialFunction : Option (List (FFunctionLayer α))) (Grid : Option (AGAGridActor α P))
    (CellRect : Option FGridBox) (HasPathComponent : Bool) (Target : Option P)
    (World : Option (P → P → Bool)) (PawnLocation : P) : Option (Bool × Option FCellRef) :=
  match SpatialFunction with
  | none => some (false, none)
  | some Layers =>
    match Grid with
    | none => some (false, none)
    | some G =>
      match CellRect with
      | none => some (false, none)
      | some GridBox =>
        if !HasPathComponent then some (false, none)
        else
          match Dijkstra fuel (some G) PawnLocation (FGAGridMap.ofBox GridBox ⊤) with
          | none => none
          | some (false, _) => some (false, none)
          | some (true, DistanceMap) =>
            let GridMap := EvaluateLayers FLT_MAX (some G) Target World Layers
              (FGAGridMap.ofBox GridBox 0) DistanceMap
            let Best := GridMap.BoundsCells.foldl (BestCellBody G GridMap DistanceMap)
              (none, FLT_MAX)
            match Best.1 with
            | none => some (false, none)
            | some BestCell =>
              if !G.IsValid BestCell then some (false, some BestCell)
              else some (true, some BestCell)

end Choose

/-! ## Refreshing the path (`UGAPathComponent::RefreshPath`) -/

section Refresh

variable {α P : Type} [LinearOrderedAddCommGroup α]

/-- The members of the path component (`UGAPathComponent`) that planning reads and writes. -/
structure UGAPathComponent (α P : Type) where
  State : EGAPathState
  Steps : List (FPathStep P)
  Destination : P
  DestinationCell : FCellRef
  bDestinationValid : Bool
  ArrivalDistance : α

/-- The function `RefreshPath()`: the path component afterwards; the returned state is its `State`.
`Dist` is the engine's `FVector::Dist` and `StartPoint` the location of the owner pawn.
The result is `none` when the run is aborted: `check(bDestinationValid)` fails, or the
fuel of a loop of A* runs out. -/
def RefreshPath (fuel : Nat)
    (HeapPop : (FCellRef → α) → List FCellRef → Option (FCellRef × List FCellRef))
    (Dist : P → P → α) (Grid : Option (AGAGridActor α P)) (StartPoint : P)
    (pc : UGAPathComponent α P) : Option (UGAPathComponent α P) :=
  if !pc.bDestinationValid then none
  else
    let DistanceToDestination := Dist StartPoint pc.Destination
    if DistanceToDestination ≤ pc.ArrivalDistance then
      some { pc with State := EGAPathState.GAPS_Finished }
    else
      match AStar fuel HeapPop Grid pc.DestinationCell StartPoint [] with
      | none => none
      | some (State, UnsmoothedSteps) =>
        if State = EGAPathState.GAPS_Active then
          match SmoothPath Grid StartPoint UnsmoothedSteps [] with
          | none => none
          | some (State, Steps) => some { pc with State := State, Steps := Steps }
        else some { pc with State := State, Steps := [] }

end Refresh

/-! ## Visibility (specification vocabulary) -/

section VisibilityVocabulary

variable {α : Type}

/-- The cell is in the vision cone and the vision range of the perceiver and the world ray
to it is not blocked. -/
def FPerceiver.Sees (obs : FPerceiver α) (c : FCellRef) : Bool :=
  obs.InCone c && obs.InRange c && !obs.Occluded c

end VisibilityVocabulary

/-! ## Awareness (specification vocabulary) -/

section PerceptionVocabulary

variable {α : Type}

/-- The call of `UpdateTargetData` gets past its early returns: the owner pawn, the target
component and the target's actor all exist. -/
def FPerceptionInput.Runs (inp : FPerceptionInput α) : Bool :=
  inp.HasOwnerPawn && inp.HasTargetComponent && inp.HasTargetActor

end PerceptionVocabulary

/-! ## Position selection (specification vocabulary) -/

section SpatialVocabulary

variable {α P : Type} [LinearOrderedRing α]

/-- The curve value of a layer at a cell: the response curve applied to the layer's input
value (read as 0 where the input switch returns from the function). -/
def LayerValue (FLT_MAX : α) (G : AGAGridActor α P) (Target : Option P)
    (World : Option (P → P → Bool)) (DistanceMap : FGAGridMap (WithTop α))
    (Layer : FFunctionLayer α) (CellRef : FCellRef) : α :=
  LayerCurve Layer ((LayerInput FLT_MAX G Target World DistanceMap Layer CellRef).getD 0)

/-- Candidate cell of step 3 of `ChoosePosition`: traversable, with a recorded distance
below `FLT_MAX` in the distance map. -/
def IsCandidate (G : AGAGridActor α P) (DistanceMap : FGAGridMap (WithTop α))
    (c : FCellRef) : Bool :=
  G.Traversable c &&
    (match DistanceMap.GetValue c with
      | some CellDistance => decide (CellDistance < ⊤)
      | none => false)

end SpatialVocabulary

/-- Scan order of the bounds loops: rows by increasing `Y`, within a row by increasing
`X`. -/
def ScanBefore (a b : FCellRef) : Prop := a.Y < b.Y ∨ (a.Y = b.Y ∧ a.X < b.X)

/-! ## Grid maps over the same window (proof vocabulary) -/

/-- Two maps have the same bounds. -/
def FGAGridMap.SameBounds {β : Type} (m m' : FGAGridMap β) : Prop :=
  m'.MinX = m.MinX ∧ m'.MaxX = m.MaxX ∧ m'.MinY = m.MinY ∧ m'.MaxY = m.MaxY

/-! ## Following the path (`FollowPath`, `SetDestination`, `TickComponent`) -/

section Follow

variable {α P : Type} [LinearOrderedAddCommGroup α]

/-- The function `FollowPath()`: the path component afterwards and the point the movement request
heads for (`Steps[0].Point` after the pop; the direction `Steps[0].Point - StartPoint`,
normalised, is what `RequestPathMove` receives when the owner has a movement component),
`none` when no request is issued.  The result is `none` when one of the two `check`
assertions fails. -/
def FollowPath (Dist : P → P → α) (StartPoint : P) (pc : UGAPathComponent α P) :
    Option (UGAPathComponent α P × Option P) :=
  if pc.State ≠ EGAPathState.GAPS_Active then none
  else
    match pc.Steps with
    | [] => none
    | Step0 :: Rest =>
      let DistanceFromStep := Dist StartPoint Step0.Point
      if DistanceFromStep ≤ pc.ArrivalDistance then
        match Rest with
        | [] => some ({ pc with Steps := [], State := EGAPathState.GAPS_Finished }, none)
        | Step1 :: _ => some ({ pc with Steps := Rest }, some Step1.Point)
      else some (pc, some Step0.Point)

/-- The function `SetDestination(DestinationPoint)`: the path component afterwards; the returned state
is its `State`.  The result is `none` when the run of `RefreshPath` is aborted. -/
def SetDestination (fuel : Nat)
    (HeapPop : (FCellRef → α) → List FCellRef → Option (FCellRef × List FCellRef))
    (Dist : P → P → α) (Grid : Option (AGAGridActor α P)) (StartPoint : P)
    (DestinationPoint : P) (pc : UGAPathComponent α P) : Option (UGAPathComponent α P) :=
  let pc1 : UGAPathComponent α P :=
    { pc with Destination := DestinationPoint, State := EGAPathState.GAPS_Invalid,
              bDestinationValid := true }
  match Grid with
  | none => some pc1
  | some G =>
    let CellRef := G.GetCellRef pc1.Destination
    if G.IsValid CellRef then
      RefreshPath fuel HeapPop Dist Grid StartPoint
        { pc1 with DestinationCell := CellRef, bDestinationValid := true }
    else some pc1

/-- The function `UGAPathComponent::TickComponent`: the path component afterwards and the point the
movement request of `FollowPath` heads for. -/
def UGAPathComponent.TickComponent (fuel : Nat)
    (HeapPop : (FCellRef → α) → List FCellRef → Option (FCellRef × List FCellRef))
    (Dist : P → P → α) (Grid : Option (AGAGridActor α P)) (StartPoint : P)
    (pc : UGAPathComponent α P) : Option (UGAPathComponent α P × Option P) :=
  if pc.bDestinationValid then
    match RefreshPath fuel HeapPop Dist Grid StartPoint pc with
    | none => none
    | some pc1 =>
      if pc1.State = EGAPathState.GAPS_Active then FollowPath Dist StartPoint pc1
      else some (pc1, none)
  else some (pc, none)

end Follow

/-! ## Distances along a path (specification vocabulary) -/

/-- Both cells have a recorded finite distance, and the distance of `b` is not below that
of `a`. -/
def FieldNondecreasing {α : Type} [LinearOrderedAddCommGroup α]
    (DistanceMap : FGAGridMap (WithTop α)) (a b : FCellRef) : Prop :=
  ∃ da db : α, DistanceMap.GetValue a = some (da : WithTop α) ∧
    DistanceMap.GetValue b = some (db : WithTop α) ∧ da ≤ db

/-! ## Deciding paths on concrete grids -/

/-- Whether a move is a grid step can be computed. -/
instance instDecidableGridStep {α P : Type} (G : AGAGridActor α P) (inside : FCellRef → Bool)
    (a b : FCellRef) : Decidable (GridStep G inside a b) :=
  inferInstanceAs (Decidable ((∃ o ∈ NeighborOffsets, b = a.offset o) ∧
    G.IsValid b = true ∧ G.Traversable b = true ∧ inside b = true))

/-- Whether a list of cells is a grid path can be computed, one step at a time. -/
def GridPath.decidable {α P : Type} (G : AGAGridActor α P) (inside : FCellRef → Bool) :
    (start : FCellRef) → (rest : List FCellRef) → Decidable (GridPath G inside start rest)
  | _, [] => isTrue List.Chain.nil
  | a, b :: rest =>
    match instDecidableGridStep G inside a b, GridPath.decidable G inside b rest with
    | isTrue h1, isTrue h2 => isTrue (List.Chain.cons h1 h2)
    | isFalse h1, _ => isFalse (fun h => h1 (List.chain_cons.mp h).1)
    | _, isFalse h2 => isFalse (fun h => h2 (List.chain_cons.mp h).2)

/-- Whether a list of cells is a grid path can be computed. -/
instance instDecidableGridPath {α P : Type} (G : AGAGridActor α P) (inside : FCellRef → Bool)
    (start : FCellRef) (rest : List FCellRef) : Decidable (GridPath G inside start rest) :=
  GridPath.decidable G inside start rest

/-! ## Straight lines on the grid (specification vocabulary) -/

/-- Cell `c` lies in the axis-aligned bounding rectangle of the cells `a` and `b`. -/
def InBoundingBox (a b c : FCellRef) : Prop :=
  min a.X b.X ≤ c.X ∧ c.X ≤ max a.X b.X ∧ min a.Y b.Y ≤ c.Y ∧ c.Y ≤ max a.Y b.Y

/-! ## Diffusion (proof vocabulary) -/

section DiffusionVocabulary

variable {α P : Type}

/-- The number of in-bounds 4-neighbours of a cell. -/
def AGAGridActor.Degree (G : AGAGridActor α P) (c : FCellRef) : Nat :=
  (NeighborOffsets.filter (fun o => G.IsValid (c.offset o))).length

/-- The value `OccupancyMapDiffuse` reads for a cell: the stored value, or 0 when `GetValue`
does not find the cell. -/
def FGAGridMap.ValueOrZero [Zero α] (m : FGAGridMap α) (c : FCellRef) : α :=
  (m.GetValue c).getD 0

end DiffusionVocabulary

/-! ## Line trace with a record of the inspected cells (proof vocabulary) -/

section LineTraceRecordDefs

variable {α P : Type}

/-- The loop `while (X != EndCell.X || Y != EndCell.Y)` of `LineTrace`, as `LineTraceLoop`,
returning next to the result the cells it passed to `IsCellTraversable`, in order: one cell
per pass of the loop body. -/
def LineTraceInspect (G : AGAGridActor α P) (EndCell : FCellRef)
    (DeltaX DeltaY StepX StepY : Int) : Nat → Int → Int → Int → Option (Bool × List FCellRef)
  | 0, X, Y, _ =>
    if X ≠ EndCell.X ∨ Y ≠ EndCell.Y then
      if !G.Traversable ⟨X, Y⟩ then some (false, [⟨X, Y⟩]) else none
    else some (true, [])
  | fuel + 1, X, Y, Error =>
    if X ≠ EndCell.X ∨ Y ≠ EndCell.Y then
      if !G.Traversable ⟨X, Y⟩ then some (false, [⟨X, Y⟩])
      else
        let nxt := BresenhamStep DeltaX DeltaY StepX StepY X Y Error
        (LineTraceInspect G EndCell DeltaX DeltaY StepX StepY fuel nxt.1 nxt.2.1 nxt.2.2).map
          (fun r => (r.1, ⟨X, Y⟩ :: r.2))
    else some (true, [])

/-- The function `LineTrace` with its loop given `fuel` passes, returning next to the result
the cells the loop inspected. -/
def LineTraceRecord (G : AGAGridActor α P) (Start End : P) (fuel : Nat) :
    Option (Bool × List FCellRef) :=
  let StartCell := G.GetCellRef Start
  let EndCell := G.GetCellRef End
  if !G.IsValid StartCell || !G.IsValid EndCell then some (false, [])
  else
    let DeltaX := |EndCell.X - StartCell.X|
    let DeltaY := |EndCell.Y - StartCell.Y|
    let StepX : Int := if StartCell.X < EndCell.X then 1 else -1
    let StepY : Int := if StartCell.Y < EndCell.Y then 1 else -1
    LineTraceInspect G EndCell DeltaX DeltaY StepX StepY fuel
      StartCell.X StartCell.Y (DeltaX - DeltaY)

end LineTraceRecordDefs

/-! ## The cells of a Bresenham walk in closed form (specification vocabulary) -/

/-- How far cell `c` is from the straight line through `a` and `b`, as the cross product of
the offsets from the end cell `b`: `|b.X - c.X| * dy - |b.Y - c.Y| * dx`. -/
def WalkOffset (a b c : FCellRef) : Int :=
  |b.X - c.X| * |b.Y - a.Y| - |b.Y - c.Y| * |b.X - a.X|

/-- Closed form of the cells the Bresenham walk of `LineTrace` from `a` to a different cell
`b` visits: the cells of the bounding rectangle that are nearest to the line along the
major axis, a cell exactly half way between two candidates being taken on one fixed side. -/
def OnWalk (a b c : FCellRef) : Prop :=
  InBoundingBox a b c ∧
    if |b.Y - a.Y| ≤ |b.X - a.X| then
      -|b.X - a.X| ≤ 2 * WalkOffset a b c ∧ 2 * WalkOffset a b c < |b.X - a.X|
    else
      -|b.Y - a.Y| < 2 * WalkOffset a b c ∧ 2 * WalkOffset a b c ≤ |b.Y - a.Y|

/-- The walk between `a` and `b` never passes exactly half way between two cells: the two
cells coincide, or the extent along the major axis divided by the greatest common divisor of
the two extents is odd. -/
def TieFree (a b : FCellRef) : Prop :=
  a = b ∨ Odd (max |b.X - a.X| |b.Y - a.Y| / ((Int.gcd |b.X - a.X| |b.Y - a.Y| : Nat) : Int))

instance TieFree.decidable (a b : FCellRef) : Decidable (TieFree a b) :=
  inferInstanceAs (Decidable (a = b ∨
    Odd (max |b.X - a.X| |b.Y - a.Y| / ((Int.gcd |b.X - a.X| |b.Y - a.Y| : Nat) : Int))))

/-- The cell with the two coordinates exchanged. -/
def FCellRef.swap (c : FCellRef) : FCellRef := ⟨c.Y, c.X⟩

/-- The grid with the two axes exchanged, as far as traversability goes. -/
def AGAGridActor.transpose {α P : Type} (G : AGAGridActor α P) : AGAGridActor α P :=
  { G with Traversable := fun c => G.Traversable c.swap }

/-- The grid with another traversability. -/
def AGAGridActor.withTraversable {α P : Type} (G : AGAGridActor α P) (T : FCellRef → Bool) :
    AGAGridActor α P :=
  { G with Traversable := T }

/-- A grid that holds nothing but a traversability, for reading off which cells a walk
tests. -/
def ProbeGrid (T : FCellRef → Bool) : AGAGridActor Int Unit :=
  { XCount := 0, YCount := 0,
    Traversable := T,
    GetCellRef := fun _ => ⟨0, 0⟩,
    GetCellRefClamped := fun _ => ⟨0, 0⟩,
    GetCellPosition := fun _ => (),
    Dist := fun _ _ => 0 }

/-- The invariant of the error term of a Bresenham walk whose major axis is x. -/
def XMajorInv (dx dy E : Int) : Prop :=
  dx - 2 * dy ≤ E * 2 ∧ E * 2 < 3 * dx - 2 * dy ∧ E * 2 > -dy ∧ (dx = dy → E * 2 < dx)

/-! ## Example grids -/

/-- Points of the example grids are cell centres on the integer lattice. -/
def exDist (p q : Int × Int) : Int := |p.1 - q.1| + |p.2 - q.2|

/-- A 3 × 3 grid: every cell traversable except the centre `(1, 1)`. -/
def exGrid3 : AGAGridActor Int (Int × Int) :=
  { XCount := 3, YCount := 3,
    Traversable := fun c => decide (c ≠ ⟨1, 1⟩),
    GetCellRef := fun p => ⟨p.1, p.2⟩,
    GetCellRefClamped := fun p => ⟨max 0 (min 2 p.1), max 0 (min 2 p.2)⟩,
    GetCellPosition := fun c => (c.X, c.Y),
    Dist := exDist }

/-- Distance map over the whole example grid, before Dijkstra runs. -/
def exMap3 : FGAGridMap (WithTop Int) := FGAGridMap.ofGrid exGrid3 ⊤

/-- The field Dijkstra computes on the example grid from the corner `(0, 0)`. -/
def exField3 : FGAGridMap (WithTop Int) :=
  ((Dijkstra 40 (some exGrid3) ((0 : Int), (0 : Int)) exMap3).get (by decide)).2

/-- The step list A* returns on the example grid from `(0, 0)` to `(2, 2)`. -/
def exSteps3 : List (FPathStep (Int × Int)) :=
  ((AStar 9 HeapPopFirstMin (some exGrid3) ⟨2, 2⟩ ((0 : Int), (0 : Int)) []).get
    (by decide)).2

/-- A 3 × 3 grid: every cell traversable except `(0, 0)` and the centre `(1, 1)`. -/
def exGrid3b : AGAGridActor Int (Int × Int) :=
  { exGrid3 with Traversable := fun c => decide (c ≠ ⟨0, 0⟩ ∧ c ≠ ⟨1, 1⟩) }

/-- The step of the example grids for the cell `(x, y)`, placed at its centre. -/
def exStep (x y : Int) : FPathStep (Int × Int) := ⟨(x, y), ⟨x, y⟩⟩

/-- The path `ReconstructPath` returns on the 3 × 3 example grid from the field of the
corner `(0, 0)` to the far corner `(2, 2)`. -/
def exPath3 : List (FPathStep (Int × Int)) :=
  ((ReconstructPath 9 (some exGrid3) exField3 ⟨2, 2⟩ ⟨0, 0⟩ []).get (by decide)).2

/-- A belief grid over the whole 3 × 3 example grid with rational entries. -/
def exBelief3 : FGAGridMap ℚ :=
  { MinX := 0, MaxX := 2, MinY := 0, MaxY := 2,
    Data := fun c => if c = ⟨1, 1⟩ then 1 / 2 else if c = ⟨0, 0⟩ then 1 / 4 else 0 }

/-- The 3 × 3 example grid with the centre blocked, with rational distances. -/
def exGrid3Q : AGAGridActor ℚ (Int × Int) :=
  { XCount := 3, YCount := 3,
    Traversable := fun c => decide (c ≠ ⟨1, 1⟩),
    GetCellRef := fun p => ⟨p.1, p.2⟩,
    GetCellRefClamped := fun p => ⟨max 0 (min 2 p.1), max 0 (min 2 p.2)⟩,
    GetCellPosition := fun c => (c.X, c.Y),
    Dist := fun p q => ((exDist p q : Int) : ℚ) }

/-- A 3 × 3 grid whose cell `(1, 0)` is not traversable; its positions are points of the
rational plane. -/
def exGridT : AGAGridActor ℚ (ℚ × ℚ) :=
  { XCount := 3, YCount := 3,
    Traversable := fun c => decide (c ≠ ⟨1, 0⟩),
    GetCellRef := fun p => ⟨⌊p.1⌋, ⌊p.2⌋⟩,
    GetCellRefClamped := fun p => ⟨max 0 (min 2 ⌊p.1⌋), max 0 (min 2 ⌊p.2⌋)⟩,
    GetCellPosition := fun c => ((c.X : ℚ), (c.Y : ℚ)),
    Dist := fun p q => |p.1 - q.1| + |p.2 - q.2| }

/-- A perceiver that is fully aware of the target and sees no cell. -/
def exPerceiver : FPerceiver ℚ :=
  { HasPawn := true, TargetAwareness := some 1,
    InCone := fun _ => false, InRange := fun _ => false, Occluded := fun _ => true }

/-- The state after one tick of a target standing at the centre `(1, 1)` of `exGridT` while
`exPerceiver` is fully aware of it, starting from an unknown target and an all-zero map. -/
def exTick : FTargetCache (ℚ × ℚ) × FGAGridMap ℚ :=
  TickComponent (some exGridT) [exPerceiver] ((1 : ℚ), (1 : ℚ))
    (⟨ETargetState.GATS_Unknown, ((0 : ℚ), (0 : ℚ))⟩, FGAGridMap.ofGrid exGridT 0)

/-- A perceiver with a pawn that sees every cell. -/
def exSeer : FPerceiver ℚ :=
  { HasPawn := true, TargetAwareness := none,
    InCone := fun _ => true, InRange := fun _ => true, Occluded := fun _ => false }

/-- A 3 × 3 grid of traversable cells whose positions are points of the rational plane. -/
def exGridV : AGAGridActor ℚ (ℚ × ℚ) :=
  { XCount := 3, YCount := 3,
    Traversable := fun _ => true,
    GetCellRef := fun p => ⟨⌊p.1⌋, ⌊p.2⌋⟩,
    GetCellRefClamped := fun p => ⟨max 0 (min 2 ⌊p.1⌋), max 0 (min 2 ⌊p.2⌋)⟩,
    GetCellPosition := fun c => ((c.X : ℚ), (c.Y : ℚ)),
    Dist := fun p q => |p.1 - q.1| + |p.2 - q.2| }

/-- A perception tick with a clear line of sight that lasts 3 seconds. -/
def exInput : FPerceptionInput ℚ :=
  { HasOwnerPawn := true, HasTargetComponent := true, HasTargetActor := true,
    bWithinVisionCone := true, bWithinVisionRange := true, bBlocked := false,
    DeltaTime := 3 }

/-- A 3 × 3 grid for position selection: the cells of the grid are traversable except the
centre `(1, 1)`; no cell outside the grid is. -/
def exGridS : AGAGridActor Int (Int × Int) :=
  { XCount := 3, YCount := 3,
    Traversable := fun c =>
      decide (0 ≤ c.X ∧ c.X < 3 ∧ 0 ≤ c.Y ∧ c.Y < 3 ∧ c ≠ ⟨1, 1⟩),
    GetCellRef := fun p => ⟨p.1, p.2⟩,
    GetCellRefClamped := fun p => ⟨max 0 (min 2 p.1), max 0 (min 2 p.2)⟩,
    GetCellPosition := fun c => (c.X, c.Y),
    Dist := exDist }

/-- The cell rectangle whose scan covers the 3 × 3 grid. -/
def exBoxS : FGridBox := ⟨0, 3, 0, 3⟩

/-- A layer that adds the deviation of the path distance from 2. -/
def exPathLayer : FFunctionLayer Int :=
  ⟨ESpatialInput.SI_PathDistance, ESpatialOp.SO_Add, some (fun x => |x - 2|)⟩

/-- A layer that adds the target-range deviation through the identity curve. -/
def exRangeLayer : FFunctionLayer Int :=
  ⟨ESpatialInput.SI_TargetRange, ESpatialOp.SO_Add, some (fun x => x)⟩

/-- A layer that doubles the running total. -/
def exDoubleLayer : FFunctionLayer Int :=
  ⟨ESpatialInput.SI_None, ESpatialOp.SO_Multiply, some (fun _ => 2)⟩

/-- The field Dijkstra computes on `exGridS` from the corner `(0, 0)` over the window of
`exBoxS`. -/
def exFieldS : FGAGridMap (WithTop Int) :=
  ((Dijkstra 69 (some exGridS) ((0 : Int), (0 : Int)) (FGAGridMap.ofBox exBoxS ⊤)).get
    (by decide)).2

/-- A path component whose destination is the far corner `(2, 2)` of the 3 × 3 example
grid, with arrival distance 0. -/
def exPathComponent : UGAPathComponent Int (Int × Int) :=
  { State := EGAPathState.GAPS_Invalid, Steps := [], Destination := (2, 2),
    DestinationCell := ⟨2, 2⟩, bDestinationValid := true, ArrivalDistance := 0 }

/-- A freshly constructed path component: state `None`, no valid destination, and a
destination cell outside the grid. -/
def exFreshPath : UGAPathComponent Int (Int × Int) :=
  { State := EGAPathState.GAPS_None, Steps := [], Destination := (0, 0),
    DestinationCell := ⟨-1, -1⟩, bDestinationValid := false, ArrivalDistance := 0 }

/-- The fresh path component after `SetDestination` to the far corner `(2, 2)` of the 3 × 3
example grid, with the agent at `(0, 0)`. -/
def exPathSet : UGAPathComponent Int (Int × Int) :=
  (SetDestination 9 HeapPopFirstMin exDist (some exGrid3) ((0 : Int), (0 : Int))
    ((2 : Int), (2 : Int)) exFreshPath).get (by decide)

/-- The path component `exPathSet` after a second `SetDestination`, to the point `(7, 7)`
outside the grid. -/
def exPathReset : UGAPathComponent Int (Int × Int) :=
  (SetDestination 9 HeapPopFirstMin exDist (some exGrid3) ((0 : Int), (0 : Int))
    ((7 : Int), (7 : Int)) exPathSet).get (by decide)

/-- The path component `exPathReset` after the next tick, with the agent still at
`(0, 0)`. -/
def exPathTick : UGAPathComponent Int (Int × Int) :=
  ((UGAPathComponent.TickComponent 9 HeapPopFirstMin exDist (some exGrid3)
    ((0 : Int), (0 : Int)) exPathReset).get (by decide)).1

/-- A 5 × 5 grid of traversable cells with the city-block distance between cell centres. -/
def exGrid5 : AGAGridActor Int (Int × Int) :=
  { XCount := 5, YCount := 5,
    Traversable := fun _ => true,
    GetCellRef := fun p => ⟨p.1, p.2⟩,
    GetCellRefClamped := fun p => ⟨max 0 (min 4 p.1), max 0 (min 4 p.2)⟩,
    GetCellPosition := fun c => (c.X, c.Y),
    Dist := exDist }

/-- A layer that adds the constant 5. -/
def exAddFive : FFunctionLayer Int :=
  ⟨ESpatialInput.SI_None, ESpatialOp.SO_Add, some (fun _ => 5)⟩

/-- A layer with the combine operator `None` whose curve value is the constant 3. -/
def exNoneThree : FFunctionLayer Int :=
  ⟨ESpatialInput.SI_None, ESpatialOp.SO_None, some (fun _ => 3)⟩

/-- An `Active` path component with two steps left, `(0, 0)` and `(2, 2)`, and arrival
distance 0. -/
def exPathActive : UGAPathComponent Int (Int × Int) :=
  { State := EGAPathState.GAPS_Active, Steps := [exStep 0 0, exStep 2 2],
    Destination := (2, 2), DestinationCell := ⟨2, 2⟩, bDestinationValid := true,
    ArrivalDistance := 0 }

/-- A 5 × 5 grid of traversable cells whose positions are points of the rational plane. -/
def exGrid5Q : AGAGridActor ℚ (ℚ × ℚ) :=
  { XCount := 5, YCount := 5,
    Traversable := fun _ => true,
    GetCellRef := fun p => ⟨⌊p.1⌋, ⌊p.2⌋⟩,
    GetCellRefClamped := fun p => ⟨max 0 (min 4 ⌊p.1⌋), max 0 (min 4 ⌊p.2⌋)⟩,
    GetCellPosition := fun c => ((c.X : ℚ), (c.Y : ℚ)),
    Dist := fun p q => |p.1 - q.1| + |p.2 - q.2| }

/-- A perceiver that is not aware of the target and sees no cell. -/
def exBlind : FPerceiver ℚ :=
  { HasPawn := true, TargetAwareness := some 0,
    InCone := fun _ => false, InRange := fun _ => false, Occluded := fun _ => true }

/-- The three hidden ticks of the scenario: one perceiver, not aware of the target and
seeing nothing. -/
def exHiddenTicks : List (List (FPerceiver ℚ) × (ℚ × ℚ)) :=
  [([exBlind], (2, 2)), ([exBlind], (2, 2)), ([exBlind], (2, 2))]

/-- The scenario on the 5 × 5 grid: a target standing at `(2, 2)` is observed at the first
tick by a fully aware perceiver and then hidden for three ticks, starting from an unknown
target and an all-zero map. -/
def exScenario : FTargetCache (ℚ × ℚ) × FGAGridMap ℚ :=
  TickRun (some exGrid5Q) (([exPerceiver], ((2 : ℚ), (2 : ℚ))) :: exHiddenTicks)
    (⟨ETargetState.GATS_Unknown, ((0 : ℚ), (0 : ℚ))⟩, FGAGridMap.ofGrid exGrid5Q 0)

/-- The path component after `RefreshPath` on `exPathComponent`, with the agent at `(0, 0)`
on the 3 × 3 example grid. -/
def exPathRefreshed : UGAPathComponent Int (Int × Int) :=
  (RefreshPath 9 HeapPopFirstMin exDist (some exGrid3) ((0 : Int), (0 : Int))
    exPathComponent).get (by decide)

/-- A belief grid over the whole 3 × 3 example grid with a unit mass on the centre. -/
def exUnit3 : FGAGridMap ℚ :=
  { MinX := 0, MaxX := 2, MinY := 0, MaxY := 2,
    Data := fun c => if c = ⟨1, 1⟩ then 1 else 0 }

/-- A distance map over the 3 × 3 example grid that no run of Dijkstra produces: cell
`(x, y)` holds `3 x + 5 y`. -/
def exRamp3 : FGAGridMap (WithTop Int) :=
  { MinX := 0, MaxX := 2, MinY := 0, MaxY := 2,
    Data := fun c => ((3 * c.X + 5 * c.Y : Int) : WithTop Int) }

/-- The path `ReconstructPath` returns on the 3 × 3 example grid from the map `exRamp3`,
from the target `(2, 2)` back to the start `(0, 0)`. -/
def exRampPath : List (FPathStep (Int × Int)) :=
  ((ReconstructPath 9 (some exGrid3) exRamp3 ⟨2, 2⟩ ⟨0, 0⟩ []).get (by decide)).2

/-- A 4×2 grid without obstacles. -/
def exGrid42 : AGAGridActor Int (Int × Int) :=
  { XCount := 4, YCount := 2,
    Traversable := fun _ => true,
    GetCellRef := fun p => ⟨p.1, p.2⟩,
    GetCellRefClamped := fun p => ⟨max 0 (min 3 p.1), max 0 (min 1 p.2)⟩,
    GetCellPosition := fun c => (c.X, c.Y),
    Dist := exDist }

/-! # Theorems -/

section ListLemmas

variable {γ : Type}

/-- A run that produces a result whose first component is `a`, written as an equation. -/
theorem run_eq_some {τ M : Type} (o : Option (τ × M)) (h : o.isSome = true) (a : τ)
    (h1 : (o.get h).1 = a) : o = some (a, (o.get h).2) := by
  rw [← h1]; exact (Option.some_get h).symm

theorem getD_mem_of_default_mem (l : List γ) (i : Nat) (d : γ) (hd : d ∈ l) : l.getD i d ∈ l := by
  by_cases h : i < l.length
  · rw [List.getD_eq_getElem l d h]; exact List.getElem_mem h
  · rw [List.getD_eq_default l d (not_lt.mp h)]; exact hd

theorem eq_getD_or_mem_eraseIdx (l : List γ) (i : Nat) (d x : γ) (hx : x ∈ l) :
    x = l.getD i d ∨ x ∈ l.eraseIdx i := by
  induction l generalizing i with
  | nil => cases hx
  | cons a l ih =>
    cases i with
    | zero =>
      rcases List.mem_cons.mp hx with h | h
      · left; simp [h]
      · right; simpa using h
    | succ i =>
      rcases List.mem_cons.mp hx with h | h
      · right; simp [h]
      · rcases ih i h with h1 | h1
        · left; simpa using h1
        · right; simp [h1]

end ListLemmas

section PathLemmas

variable {α P : Type} [LinearOrderedAddCommGroup α]

theorem PathCost_append_singleton (G : AGAGridActor α P) (a : FCellRef) (rest : List FCellRef)
    (n : FCellRef) :
    PathCost G a (rest ++ [n]) = PathCost G a rest + G.EdgeDistance (rest.getLastD a) n := by
  induction rest generalizing a with
  | nil => simp [PathCost]
  | cons b rest ih =>
    rw [List.cons_append, PathCost, ih b, PathCost, List.getLastD_cons, add_assoc]

omit [LinearOrderedAddCommGroup α] in
theorem GridPath_append_singleton (G : AGAGridActor α P) (inside : FCellRef → Bool)
    (a : FCellRef) (rest : List FCellRef) (n : FCellRef) :
    GridPath G inside a (rest ++ [n]) ↔
      GridPath G inside a rest ∧ GridStep G inside (rest.getLastD a) n := by
  unfold GridPath
  induction rest generalizing a with
  | nil => simp
  | cons b rest ih =>
    rw [List.cons_append, List.chain_cons, ih b, List.chain_cons, List.getLastD_cons, and_assoc]

/-- Every explicit path yields a `ReachCost` derivation. -/
theorem ReachCost_of_path (G : AGAGridActor α P) (inside : FCellRef → Bool) (start : FCellRef)
    (rest : List FCellRef) (hp : GridPath G inside start rest) :
    ReachCost G inside start (rest.getLastD start) (PathCost G start rest) := by
  induction rest using List.reverseRecOn with
  | nil => simpa [PathCost] using ReachCost.refl
  | append_singleton rest n ih =>
    rw [GridPath_append_singleton] at hp
    rw [PathCost_append_singleton, List.getLastD_concat]
    exact ReachCost.step (ih hp.1) hp.2

/-- Every `ReachCost` derivation is witnessed by an explicit path. -/
theorem path_of_ReachCost (G : AGAGridActor α P) (inside : FCellRef → Bool) (start c : FCellRef)
    (v : α) (h : ReachCost G inside start c v) :
    ∃ rest, GridPath G inside start rest ∧ rest.getLastD start = c ∧
      PathCost G start rest = v := by
  induction h with
  | refl => exact ⟨[], List.Chain.nil, rfl, rfl⟩
  | step _ hs ih =>
    obtain ⟨rest, hp, hl, hc⟩ := ih
    refine ⟨rest ++ [_], ?_, List.getLastD_concat _ _ _, ?_⟩
    · rw [GridPath_append_singleton, hl]; exact ⟨hp, hs⟩
    · rw [PathCost_append_singleton, hl, hc]

theorem ReachCost_nonneg (G : AGAGridActor α P) (hnn : ∀ p q, 0 ≤ G.Dist p q)
    (inside : FCellRef → Bool) (start c : FCellRef) (v : α)
    (h : ReachCost G inside start c v) : 0 ≤ v := by
  induction h with
  | refl => exact le_refl _
  | step _ _ ih => exact add_nonneg ih (hnn _ _)

end PathLemmas

section MapLemmas

variable {β : Type}

@[simp] theorem FGAGridMap.InWindow_SetValue (m : FGAGridMap β) (c : FCellRef) (v : β)
    (c' : FCellRef) : (m.SetValue c v).InWindow c' = m.InWindow c' := by
  unfold FGAGridMap.SetValue
  split <;> rfl

@[simp] theorem FGAGridMap.InWindow_ResetData (m : FGAGridMap β) (v : β) (c' : FCellRef) :
    (m.ResetData v).InWindow c' = m.InWindow c' := rfl

theorem FGAGridMap.Data_SetValue (m : FGAGridMap β) (c : FCellRef) (v : β) (c' : FCellRef) :
    (m.SetValue c v).Data c' = if m.InWindow c = true ∧ c' = c then v else m.Data c' := by
  unfold FGAGridMap.SetValue
  by_cases h : m.InWindow c = true
  · by_cases h' : c' = c
    · simp [h, h']
    · simp [h, h', Function.update_noteq h']
  · simp [h]

end MapLemmas

section DijkstraCorrect

variable {α P : Type} [LinearOrderedAddCommGroup α]

/-- One pass of the neighbour loop body keeps the inner invariant and handles its offset. -/
theorem DijkstraRelax_mid (G : AGAGridActor α P) (hnn : ∀ p q, 0 ≤ G.Dist p q)
    (win : FCellRef → Bool) (start : FCellRef) (Current : FQueueElement α)
    (S : Int × Int → Prop) (D : FGAGridMap (WithTop α)) (Q : List (FQueueElement α))
    (o : Int × Int) (ho : o ∈ NeighborOffsets)
    (h : DijkstraMid G win start Current S D Q) :
    DijkstraMid G win start Current (fun o' => S o' ∨ o' = o)
      (DijkstraRelax G Current (D, Q) o).1 (DijkstraRelax G Current (D, Q) o).2 := by
  -- the case in which the state is left untouched
  have keep : (¬ GridStep G win Current.Cell (Current.Cell.offset o) ∨
      D.Data (Current.Cell.offset o) ≤
        ((Current.Distance + G.EdgeDistance Current.Cell (Current.Cell.offset o) : α) :
          WithTop α)) →
      DijkstraMid G win start Current (fun o' => S o' ∨ o' = o) D Q := by
    intro hk
    refine ⟨h.hwin, h.hstart, h.hsound, h.hqueue, h.hcur, ?_⟩
    intro c v hc hv
    rcases h.hpend c v hc hv with h1 | h1 | ⟨h1, h2, h3⟩
    · exact Or.inl h1
    · exact Or.inr (Or.inl h1)
    · refine Or.inr (Or.inr ⟨h1, h2, ?_⟩)
      intro o' ho' hs
      rcases ho' with ho' | ho'
      · exact h3 o' ho' hs
      · subst ho'; subst h1; subst h2
        rcases hk with hk | hk
        · exact absurd hs hk
        · exact hk
  unfold DijkstraRelax
  by_cases hval : G.IsValid (Current.Cell.offset o) = true
  swap
  · simp only [hval]
    exact keep (Or.inl (fun hs => hval hs.2.1))
  by_cases htr : G.Traversable (Current.Cell.offset o) = true
  swap
  · simp only [hval, htr]
    exact keep (Or.inl (fun hs => htr hs.2.2.1))
  by_cases hin : win (Current.Cell.offset o) = true
  swap
  · have : D.GetValue (Current.Cell.offset o) = none := by
      unfold FGAGridMap.GetValue; rw [h.hwin]; simp [hin]
    simp only [hval, htr, this]
    exact keep (Or.inl (fun hs => hin hs.2.2.2))
  have hget : D.GetValue (Current.Cell.offset o) = some (D.Data (Current.Cell.offset o)) := by
    unfold FGAGridMap.GetValue; rw [h.hwin]; simp [hin]
  simp only [hval, htr, hget, Bool.not_true, Bool.false_eq_true, if_false]
  by_cases hlt : ((Current.Distance + G.EdgeDistance Current.Cell (Current.Cell.offset o) : α) :
      WithTop α) < D.Data (Current.Cell.offset o)
  swap
  · simp only [hlt, if_false]
    exact keep (Or.inr (not_lt.mp hlt))
  simp only [hlt, if_true]
  have hstep : GridStep G win Current.Cell (Current.Cell.offset o) :=
    ⟨⟨o, ho, rfl⟩, hval, htr, hin⟩
  have hreach := ReachCost.step h.hcur hstep
  have hDin : D.InWindow (Current.Cell.offset o) = true := by rw [h.hwin]; exact hin
  have hdata : ∀ c', (D.SetValue (Current.Cell.offset o)
      ((Current.Distance + G.EdgeDistance Current.Cell (Current.Cell.offset o) : α) :
        WithTop α)).Data c' =
      if c' = Current.Cell.offset o then
        ((Current.Distance + G.EdgeDistance Current.Cell (Current.Cell.offset o) : α) :
          WithTop α)
      else D.Data c' := by
    intro c'; rw [FGAGridMap.Data_SetValue]; simp [hDin]
  have hle : ∀ c', (D.SetValue (Current.Cell.offset o)
      ((Current.Distance + G.EdgeDistance Current.Cell (Current.Cell.offset o) : α) :
        WithTop α)).Data c' ≤ D.Data c' := by
    intro c'; rw [hdata]; split
    · next hc => rw [hc]; exact le_of_lt hlt
    · exact le_refl _
  refine ⟨?_, ?_, ?_, ?_, h.hcur, ?_⟩
  · intro c; rw [FGAGridMap.InWindow_SetValue]; exact h.hwin c
  · rw [hdata]; split
    · next hc =>
      exfalso
      have h0 := h.hstart
      rw [hc] at h0
      rw [h0, WithTop.coe_lt_coe] at hlt
      exact absurd (ReachCost_nonneg G hnn win start _ _ hreach) (not_le.mpr hlt)
    · exact h.hstart
  · intro c v hc hv
    rw [hdata] at hv
    split at hv
    · next hc' => rw [hc']; rw [WithTop.coe_eq_coe] at hv; rw [← hv]; exact hreach
    · exact h.hsound c v hc hv
  · intro e he
    rcases List.mem_append.mp he with he | he
    · exact h.hqueue e he
    · rw [List.mem_singleton] at he; rw [he]; exact hreach
  · intro c v hc hv
    rw [hdata] at hv
    split at hv
    · next hc' =>
      left
      rw [WithTop.coe_eq_coe] at hv
      exact ⟨_, List.mem_append_right _ (List.mem_singleton_self _), hc'.symm, hv⟩
    · rcases h.hpend c v hc hv with ⟨e, he, h1⟩ | h1 | ⟨h1, h2, h3⟩
      · exact Or.inl ⟨e, List.mem_append_left _ he, h1⟩
      · exact Or.inr (Or.inl (fun n hn => le_trans (hle n) (h1 n hn)))
      · refine Or.inr (Or.inr ⟨h1, h2, ?_⟩)
        intro o' ho' hs
        rcases ho' with ho' | ho'
        · exact le_trans (hle _) (h3 o' ho' hs)
        · subst ho'; subst h1; subst h2
          rw [hdata]; simp

theorem DijkstraMid_anti (G : AGAGridActor α P) (win : FCellRef → Bool) (start : FCellRef)
    (Current : FQueueElement α) (S S' : Int × Int → Prop) (hS : ∀ o, S' o → S o)
    (D : FGAGridMap (WithTop α)) (Q : List (FQueueElement α))
    (h : DijkstraMid G win start Current S D Q) : DijkstraMid G win start Current S' D Q := by
  refine ⟨h.hwin, h.hstart, h.hsound, h.hqueue, h.hcur, ?_⟩
  intro c v hc hv
  rcases h.hpend c v hc hv with h1 | h1 | ⟨h1, h2, h3⟩
  · exact Or.inl h1
  · exact Or.inr (Or.inl h1)
  · exact Or.inr (Or.inr ⟨h1, h2, fun o ho => h3 o (hS o ho)⟩)

/-- The whole neighbour loop keeps the inner invariant and handles every offset it visits. -/
theorem DijkstraRelax_foldl (G : AGAGridActor α P) (hnn : ∀ p q, 0 ≤ G.Dist p q)
    (win : FCellRef → Bool) (start : FCellRef) (Current : FQueueElement α)
    (os : List (Int × Int)) (hos : ∀ o ∈ os, o ∈ NeighborOffsets)
    (S : Int × Int → Prop) (st : FGAGridMap (WithTop α) × List (FQueueElement α))
    (h : DijkstraMid G win start Current S st.1 st.2) :
    DijkstraMid G win start Current (fun o' => S o' ∨ o' ∈ os)
      (os.foldl (DijkstraRelax G Current) st).1 (os.foldl (DijkstraRelax G Current) st).2 := by
  induction os generalizing S st with
  | nil =>
    refine DijkstraMid_anti G win start Current S _ ?_ _ _ h
    intro o ho; simpa using ho
  | cons o os ih =>
    rw [List.foldl_cons]
    have h1 := DijkstraRelax_mid G hnn win start Current S st.1 st.2 o
      (hos o (List.mem_cons_self _ _)) h
    have h2 := ih (fun o' ho' => hos o' (List.mem_cons_of_mem _ ho')) _ _ h1
    refine DijkstraMid_anti G win start Current _ _ ?_ _ _ h2
    intro o' ho'
    rcases ho' with ho' | ho'
    · exact Or.inl (Or.inl ho')
    · rcases List.mem_cons.mp ho' with ho' | ho'
      · exact Or.inl (Or.inr ho')
      · exact Or.inr ho'

/-- One iteration of the frontier loop keeps the loop invariant, whichever queue index is
taken out. -/
theorem DijkstraInv_iteration (G : AGAGridActor α P) (hnn : ∀ p q, 0 ≤ G.Dist p q)
    (win : FCellRef → Bool) (start : FCellRef) (D : FGAGridMap (WithTop α))
    (e : FQueueElement α) (rest : List (FQueueElement α)) (i : Nat)
    (h : DijkstraInv G win start D (e :: rest)) :
    DijkstraInv G win start
      (NeighborOffsets.foldl (DijkstraRelax G ((e :: rest).getD i e))
        (D, (e :: rest).eraseIdx i)).1
      (NeighborOffsets.foldl (DijkstraRelax G ((e :: rest).getD i e))
        (D, (e :: rest).eraseIdx i)).2 := by
  have hmid : DijkstraMid G win start ((e :: rest).getD i e) (fun _ => False) D
      ((e :: rest).eraseIdx i) := by
    refine ⟨h.hwin, h.hstart, h.hsound, ?_, ?_, ?_⟩
    · intro x hx; exact h.hqueue x (List.mem_of_mem_eraseIdx hx)
    · exact h.hqueue _ (getD_mem_of_default_mem _ i e (List.mem_cons_self _ _))
    · intro c v hc hv
      rcases h.hpend c v hc hv with ⟨x, hx, h1, h2⟩ | h1
      · rcases eq_getD_or_mem_eraseIdx (e :: rest) i e x hx with h3 | h3
        · refine Or.inr (Or.inr ⟨?_, ?_, fun o ho => absurd ho id⟩)
          · rw [← h3]; exact h1.symm
          · rw [← h3]; exact h2.symm
        · exact Or.inl ⟨x, h3, h1, h2⟩
      · exact Or.inr (Or.inl h1)
  have hf := DijkstraRelax_foldl G hnn win start ((e :: rest).getD i e) NeighborOffsets
    (fun _ ho => ho) (fun _ => False) (D, (e :: rest).eraseIdx i) hmid
  refine ⟨hf.hwin, hf.hstart, hf.hsound, hf.hqueue, ?_⟩
  intro c v hc hv
  rcases hf.hpend c v hc hv with h1 | h1 | ⟨h1, h2, h3⟩
  · exact Or.inl h1
  · exact Or.inr h1
  · right
    intro n hn
    obtain ⟨o, ho, hno⟩ := hn.1
    rw [hno]
    rw [hno] at hn
    exact h3 o (Or.inr ho) hn

/-- When the frontier loop returns, the invariant holds with an empty queue. -/
theorem DijkstraLoop_inv (G : AGAGridActor α P) (hnn : ∀ p q, 0 ≤ G.Dist p q)
    (win : FCellRef → Bool) (start : FCellRef) (fuel : Nat) (D : FGAGridMap (WithTop α))
    (Q : List (FQueueElement α)) (D' : FGAGridMap (WithTop α))
    (h : DijkstraInv G win start D Q) (hrun : DijkstraLoop G fuel D Q = some D') :
    DijkstraInv G win start D' [] := by
  induction fuel generalizing D Q with
  | zero =>
    cases Q with
    | nil => simp only [DijkstraLoop, Option.some.injEq] at hrun; rw [← hrun]; exact h
    | cons e rest => simp [DijkstraLoop] at hrun
  | succ fuel ih =>
    cases Q with
    | nil => simp only [DijkstraLoop, Option.some.injEq] at hrun; rw [← hrun]; exact h
    | cons e rest =>
      simp only [DijkstraLoop] at hrun
      exact ih _ _ (DijkstraInv_iteration G hnn win start D e rest _ h) hrun

/-- With an empty queue every stored value is a lower bound of every path cost. -/
theorem DijkstraInv_lower (G : AGAGridActor α P) (win : FCellRef → Bool) (start : FCellRef)
    (hs : win start = true) (D : FGAGridMap (WithTop α)) (h : DijkstraInv G win start D [])
    (c : FCellRef) (v : α) (hr : ReachCost G win start c v) :
    win c = true ∧ D.Data c ≤ (v : WithTop α) := by
  induction hr with
  | refl => exact ⟨hs, le_of_eq h.hstart⟩
  | @step c n v _ hstep ih =>
    refine ⟨hstep.2.2.2, ?_⟩
    obtain ⟨u, hu⟩ := WithTop.ne_top_iff_exists.mp
      (ne_of_lt (lt_of_le_of_lt ih.2 (WithTop.coe_lt_top v)))
    rcases h.hpend c u ih.1 hu.symm with ⟨x, hx, _⟩ | h1
    · cases hx
    · refine le_trans (h1 n hstep) ?_
      rw [WithTop.coe_le_coe]
      have : u ≤ v := by
        have := ih.2; rw [← hu, WithTop.coe_le_coe] at this; exact this
      exact add_le_add_right this _

/-- The state Dijkstra builds before its loop satisfies the loop invariant. -/
theorem DijkstraInv_init (G : AGAGridActor α P) (DistanceMap : FGAGridMap (WithTop α))
    (start : FCellRef) (hs : DistanceMap.InWindow start = true) :
    DijkstraInv G DistanceMap.InWindow start
      ((DistanceMap.ResetData ⊤).SetValue start ((0 : α) : WithTop α)) [⟨start, 0⟩] := by
  have hdata : ∀ c, ((DistanceMap.ResetData ⊤).SetValue start ((0 : α) : WithTop α)).Data c =
      if c = start then ((0 : α) : WithTop α) else ⊤ := by
    intro c
    rw [FGAGridMap.Data_SetValue, FGAGridMap.InWindow_ResetData]
    simp [hs, FGAGridMap.ResetData]
  refine ⟨fun c => by simp, by rw [hdata]; simp, ?_, ?_, ?_⟩
  · intro c v _ hv
    rw [hdata] at hv
    split at hv
    · next hc => rw [hc]; rw [WithTop.coe_eq_coe] at hv; rw [← hv]; exact ReachCost.refl
    · exact absurd hv.symm (WithTop.coe_ne_top)
  · intro e he
    rw [List.mem_singleton] at he; rw [he]; exact ReachCost.refl
  · intro c v _ hv
    rw [hdata] at hv
    split at hv
    · next hc =>
      rw [WithTop.coe_eq_coe] at hv
      exact Or.inl ⟨_, List.mem_singleton_self _, hc.symm, hv⟩
    · exact absurd hv.symm (WithTop.coe_ne_top)

/-- A successful run of `Dijkstra` from a start cell inside the window ends in a state that
satisfies the loop invariant with an empty queue. -/
theorem Dijkstra_run_inv (G : AGAGridActor α P) (hnn : ∀ p q, 0 ≤ G.Dist p q)
    (fuel : Nat) (StartPoint : P) (DistanceMap D : FGAGridMap (WithTop α))
    (hstart : DistanceMap.InWindow (G.GetCellRef StartPoint) = true)
    (hrun : Dijkstra fuel (some G) StartPoint DistanceMap = some (true, D)) :
    DijkstraInv G DistanceMap.InWindow (G.GetCellRef StartPoint) D [] := by
  unfold Dijkstra at hrun
  by_cases hval : G.IsValid (G.GetCellRef StartPoint) = true
  swap
  · simp [hval] at hrun
  simp only [hval, Bool.not_true, Bool.false_eq_true, if_false, Option.map_eq_some',
    Prod.mk.injEq, true_and, exists_eq_right] at hrun
  exact DijkstraLoop_inv G hnn DistanceMap.InWindow (G.GetCellRef StartPoint) fuel _ _ D
    (DijkstraInv_init G DistanceMap _ hstart) hrun

/-- With an empty queue a finite stored value is the minimum path cost. -/
theorem DijkstraInv_min (G : AGAGridActor α P) (win : FCellRef → Bool) (start : FCellRef)
    (hs : win start = true) (D : FGAGridMap (WithTop α)) (h : DijkstraInv G win start D [])
    (c : FCellRef) (hc : win c = true) (v : α) (hv : D.Data c = (v : WithTop α)) :
    IsMinPathCost G win start c v := by
  refine ⟨path_of_ReachCost G _ _ c v (h.hsound c v hc hv), ?_⟩
  intro rest hp hl
  have h1 := DijkstraInv_lower G win start hs D h _ _ (ReachCost_of_path G _ _ rest hp)
  rw [hl, hv, WithTop.coe_le_coe] at h1
  exact h1.2

/-- With an empty queue the top value marks exactly the unreachable cells. -/
theorem DijkstraInv_top_iff (G : AGAGridActor α P) (win : FCellRef → Bool) (start : FCellRef)
    (hs : win start = true) (D : FGAGridMap (WithTop α)) (h : DijkstraInv G win start D [])
    (c : FCellRef) (hc : win c = true) : D.Data c = ⊤ ↔ ¬ Reachable G win start c := by
  constructor
  · rintro htop ⟨rest, hp, hl⟩
    have h1 := DijkstraInv_lower G win start hs D h _ _ (ReachCost_of_path G _ _ rest hp)
    rw [hl, htop] at h1
    exact absurd h1.2 (not_le.mpr (WithTop.coe_lt_top _))
  · intro hnr
    by_contra hne
    obtain ⟨v, hv⟩ := WithTop.ne_top_iff_exists.mp hne
    obtain ⟨rest, hp, hl, _⟩ := path_of_ReachCost G _ _ c v (h.hsound c v hc hv.symm)
    exact hnr ⟨rest, hp, hl⟩

/-- Inside the window `GetValue` reads the stored value. -/
theorem DijkstraInv_GetValue (G : AGAGridActor α P) (win : FCellRef → Bool) (start : FCellRef)
    (D : FGAGridMap (WithTop α)) (Q : List (FQueueElement α)) (h : DijkstraInv G win start D Q)
    (c : FCellRef) (hc : win c = true) : D.GetValue c = some (D.Data c) := by
  unfold FGAGridMap.GetValue; rw [h.hwin]; simp [hc]

/-- C1: after `Dijkstra` returns true from a start cell inside the distance map's window,
every cell `c` of the window holds the minimum, over all 4-connected paths from the start
cell to `c` whose cells after the start are valid, traversable and inside the window, of
the summed edge costs; `c` holds `FLT_MAX` (the top value) exactly when no such path
exists. -/
theorem Dijkstra_field_is_shortest (G : AGAGridActor α P) (hnn : ∀ p q, 0 ≤ G.Dist p q)
    (fuel : Nat) (StartPoint : P) (DistanceMap D : FGAGridMap (WithTop α))
    (hstart : DistanceMap.InWindow (G.GetCellRef StartPoint) = true)
    (hrun : Dijkstra fuel (some G) StartPoint DistanceMap = some (true, D)) :
    ∀ c, DistanceMap.InWindow c = true →
      ∃ x, D.GetValue c = some x ∧
        (∀ v : α, x = (v : WithTop α) →
          IsMinPathCost G DistanceMap.InWindow (G.GetCellRef StartPoint) c v) ∧
        (x = ⊤ ↔ ¬ Reachable G DistanceMap.InWindow (G.GetCellRef StartPoint) c) := by
  intro c hc
  have hinv := Dijkstra_run_inv G hnn fuel StartPoint DistanceMap D hstart hrun
  refine ⟨D.Data c, DijkstraInv_GetValue G _ _ D [] hinv c hc, ?_, ?_⟩
  · intro v hv
    exact DijkstraInv_min G _ _ hstart D hinv c hc v hv
  · exact DijkstraInv_top_iff G _ _ hstart D hinv c hc

theorem exDist_nonneg (p q : Int × Int) : 0 ≤ exDist p q := by
  unfold exDist; positivity

/-- Witness for C1 on the 3 × 3 example grid: the far corner `(2, 2)`. -/
theorem Dijkstra_field_is_shortest_witness :
    (∀ p q, 0 ≤ exGrid3.Dist p q) ∧
    Dijkstra 40 (some exGrid3) ((0 : Int), (0 : Int)) exMap3 = some (true, exField3) ∧
    ∃ x, exField3.GetValue ⟨2, 2⟩ = some x ∧
      (∀ v : Int, x = (v : WithTop Int) →
        IsMinPathCost exGrid3 exMap3.InWindow (exGrid3.GetCellRef ((0 : Int), (0 : Int)))
          ⟨2, 2⟩ v) ∧
      (x = ⊤ ↔ ¬ Reachable exGrid3 exMap3.InWindow (exGrid3.GetCellRef ((0 : Int), (0 : Int)))
        ⟨2, 2⟩) :=
  ⟨exDist_nonneg, run_eq_some _ _ true (by decide),
    Dijkstra_field_is_shortest exGrid3 exDist_nonneg 40 ((0 : Int), (0 : Int)) exMap3 exField3
      (by decide) (run_eq_some _ _ true (by decide)) ⟨2, 2⟩ (by decide)⟩

end DijkstraCorrect

section GridLemmas

variable {α P : Type}

theorem AGAGridActor.mem_Cells (G : AGAGridActor α P) (c : FCellRef)
    (h : G.IsValid c = true) : c ∈ G.Cells := by
  cases c with
  | mk x y =>
    unfold AGAGridActor.IsValid at h
    simp only [Bool.and_eq_true, decide_eq_true_eq] at h
    obtain ⟨⟨⟨h1, h2⟩, h3⟩, h4⟩ := h
    unfold AGAGridActor.Cells
    rw [Finset.mem_image]
    refine ⟨(x.toNat, y.toNat), ?_, ?_⟩
    · rw [Finset.mem_product, Finset.mem_range, Finset.mem_range]
      constructor <;> omega
    · simp only [FCellRef.mk.injEq]
      constructor <;> omega

theorem AGAGridActor.card_Cells_le (G : AGAGridActor α P) :
    G.Cells.card ≤ G.XCount * G.YCount := by
  unfold AGAGridActor.Cells
  refine le_trans Finset.card_image_le ?_
  rw [Finset.card_product, Finset.card_range, Finset.card_range]

end GridLemmas

section AStarCorrect

variable {α P : Type} [LinearOrderedAddCommGroup α]

/-- The two outcomes of the neighbour loop body of A*. -/
theorem AStarRelax_cases (G : AGAGridActor α P) (dest cur : FCellRef) (st : FAStarState α)
    (o : Int × Int) (ho : o ∈ NeighborOffsets) (vc : α) (hg : st.GScore cur = some vc) :
    (AStarRelax G dest cur st o = st ∧
      (¬ GridStep G anyCell cur (cur.offset o) ∨
        ∃ u, st.GScore (cur.offset o) = some u ∧
          u ≤ vc + G.EdgeDistance cur (cur.offset o))) ∨
    (GridStep G anyCell cur (cur.offset o) ∧
      (st.GScore (cur.offset o) = none ∨
        ∃ u, st.GScore (cur.offset o) = some u ∧
          vc + G.EdgeDistance cur (cur.offset o) < u) ∧
      AStarRelax G dest cur st o =
        AStarUpdated G dest cur (cur.offset o) (vc + G.EdgeDistance cur (cur.offset o)) st) := by
  unfold AStarRelax
  simp only [hg, Option.getD_some]
  by_cases hval : G.IsValid (cur.offset o) = true
  swap
  · left
    refine ⟨?_, Or.inl (fun hs => hval hs.2.1)⟩
    simp [hval]
  by_cases htr : G.Traversable (cur.offset o) = true
  swap
  · left
    refine ⟨?_, Or.inl (fun hs => htr hs.2.2.1)⟩
    simp [htr]
  have hstep : GridStep G anyCell cur (cur.offset o) := ⟨⟨o, ho, rfl⟩, hval, htr, rfl⟩
  simp only [hval, htr, Bool.not_true, Bool.or_self, Bool.false_eq_true, if_false]
  cases hn : st.GScore (cur.offset o) with
  | none =>
    right
    refine ⟨hstep, Or.inl rfl, ?_⟩
    simp [AStarUpdated, Heuristic]
  | some u =>
    by_cases hlt : vc + G.EdgeDistance cur (cur.offset o) < u
    · right
      refine ⟨hstep, Or.inr ⟨u, rfl, hlt⟩, ?_⟩
      simp [hlt, AStarUpdated, Heuristic]
    · left
      refine ⟨?_, Or.inr ⟨u, rfl, not_lt.mp hlt⟩⟩
      simp [hlt]

/-- The straight-line heuristic is consistent when `Dist` obeys the triangle inequality. -/
theorem Heuristic_consistent (G : AGAGridActor α P)
    (htri : ∀ p q r, G.Dist p r ≤ G.Dist p q + G.Dist q r) (dest c n : FCellRef) :
    Heuristic G dest c ≤ G.EdgeDistance c n + Heuristic G dest n :=
  htri _ _ _

/-- The neighbour loop body keeps the invariant when it leaves the state untouched. -/
theorem AStarInv_keep (G : AGAGridActor α P) (start dest cur : FCellRef)
    (S : Int × Int → Prop) (C : Finset FCellRef) (rk : FCellRef → Nat) (m : α)
    (st : FAStarState α) (o : Int × Int) (vc : α) (hg : st.GScore cur = some vc)
    (h : AStarInv G start dest cur S C rk m st)
    (hk : ¬ GridStep G anyCell cur (cur.offset o) ∨
      ∃ u, st.GScore (cur.offset o) = some u ∧ u ≤ vc + G.EdgeDistance cur (cur.offset o)) :
    AStarInv G start dest cur (fun o' => S o' ∨ o' = o) C rk m st := by
  refine { h with hrelaxed := ?_ }
  intro c hc o' ho' hS hstep
  by_cases hco : c = cur ∧ o' = o
  · obtain ⟨h1, h2⟩ := hco
    subst h1; subst h2
    rcases hk with hk | ⟨u, hu, hle⟩
    · exact absurd hstep hk
    · exact ⟨vc, u, hg, hu, hle⟩
  · exact h.hrelaxed c hc o' ho'
      (fun hcc => (hS hcc).resolve_right (fun ho => hco ⟨hcc, ho⟩)) hstep

/-- The neighbour loop body keeps the invariant when it improves a neighbour's score. -/
theorem AStarInv_update (G : AGAGridActor α P)
    (htri : ∀ p q r, G.Dist p r ≤ G.Dist p q + G.Dist q r)
    (start dest cur : FCellRef) (S : Int × Int → Prop) (C : Finset FCellRef)
    (rk : FCellRef → Nat) (m : α) (st : FAStarState α) (o : Int × Int)
    (vc : α) (hg : st.GScore cur = some vc) (hm : m ≤ vc + Heuristic G dest cur)
    (hcurC : cur ∈ C) (hsC : start ∈ C)
    (h : AStarInv G start dest cur S C rk m st)
    (n : FCellRef) (hn : n = cur.offset o) (t : α) (ht : t = vc + G.EdgeDistance cur n)
    (hstep : GridStep G anyCell cur n)
    (hcase : st.GScore n = none ∨ ∃ u, st.GScore n = some u ∧ t < u) :
    AStarInv G start dest cur (fun o' => S o' ∨ o' = o) C rk m
        (AStarUpdated G dest cur n t st) ∧
      (AStarUpdated G dest cur n t st).GScore cur = some vc := by
  have hkey : m ≤ t + Heuristic G dest n := by
    have h1 := Heuristic_consistent G htri dest cur n
    calc m ≤ vc + Heuristic G dest cur := hm
      _ ≤ vc + (G.EdgeDistance cur n + Heuristic G dest n) := add_le_add_left h1 _
      _ = t + Heuristic G dest n := by rw [ht, add_assoc]
  have hnC : n ∉ C := by
    intro hnC
    rcases hcase with h0 | ⟨u, hu, hlt⟩
    · exact (h.hdisc n).mpr (Or.inr hnC) h0
    · have h1 := h.hclosed n hnC u hu
      have h2 : u + Heuristic G dest n ≤ t + Heuristic G dest n := le_trans h1 hkey
      exact absurd (le_of_add_le_add_right h2) (not_le.mpr hlt)
  have hncur : cur ≠ n := fun e => hnC (e ▸ hcurC)
  have hnstart : start ≠ n := fun e => hnC (e ▸ hsC)
  have hG : ∀ c, (AStarUpdated G dest cur n t st).GScore c =
      if c = n then some t else st.GScore c := by
    intro c; simp [AStarUpdated, Function.update_apply]
  have hH : ∀ c, (AStarUpdated G dest cur n t st).HScore c =
      if c = n then some (Heuristic G dest n) else st.HScore c := by
    intro c; simp [AStarUpdated, Function.update_apply]
  have hF : ∀ c, (AStarUpdated G dest cur n t st).CameFrom c =
      if c = n then some cur else st.CameFrom c := by
    intro c; simp [AStarUpdated, Function.update_apply]
  have hO : ∀ x, x ∈ (AStarUpdated G dest cur n t st).OpenSet ↔ x ∈ st.OpenSet ∨ x = n := by
    intro x
    simp only [AStarUpdated]
    by_cases hin : n ∈ st.OpenSet
    · simp only [hin, if_true]
      constructor
      · exact Or.inl
      · rintro (h1 | h1)
        · exact h1
        · rw [h1]; exact hin
    · simp [hin]
  have hGlt : ∀ u, st.GScore n = some u → t < u := by
    intro u hu
    rcases hcase with h0 | ⟨u', hu', hlt⟩
    · rw [h0] at hu; cases hu
    · rw [hu'] at hu; cases hu; exact hlt
  refine ⟨?_, by rw [hG, if_neg hncur]; exact hg⟩
  refine
    { hnodup := ?_, hdisc := ?_, hdisj := ?_, hh := ?_, hstart := ?_, hstartC := Or.inl hsC,
      hsound := ?_, hopen := ?_, hclosed := ?_, hrelaxed := ?_, hlink := ?_, hroot := ?_,
      hstartlink := ?_, hrank := h.hrank, hvalidO := ?_, hvalidC := h.hvalidC,
      hdest := h.hdest }
  · simp only [AStarUpdated]
    by_cases hin : n ∈ st.OpenSet
    · simp only [hin, if_true]; exact h.hnodup
    · simp only [hin, if_false]
      refine List.Nodup.append h.hnodup (List.nodup_singleton n) ?_
      intro a ha ha'
      rw [List.mem_singleton] at ha'
      exact hin (ha' ▸ ha)
  · intro c
    rw [hG, hO]
    by_cases hc : c = n
    · simp [hc]
    · simp only [hc, if_false, or_false]
      rw [h.hdisc c]
  · intro c hc
    rcases (hO c).mp hc with h1 | h1
    · exact h.hdisj c h1
    · rw [h1]; exact hnC
  · intro c v hv
    rw [hG] at hv
    rw [hH]
    by_cases hc : c = n
    · simp [hc]
    · simp only [hc, if_false] at hv ⊢
      exact h.hh c v hv
  · rw [hG, if_neg hnstart]; exact h.hstart
  · intro c v hv
    rw [hG] at hv
    by_cases hc : c = n
    · simp only [hc, if_true, Option.some.injEq] at hv
      rw [hc, ← hv, ht]
      exact ReachCost.step (h.hsound cur vc hg) hstep
    · simp only [hc, if_false] at hv
      exact h.hsound c v hv
  · intro c hc v hv
    rw [hG] at hv
    by_cases hcn : c = n
    · simp only [hcn, if_true, Option.some.injEq] at hv
      rw [hcn, ← hv]; exact hkey
    · simp only [hcn, if_false] at hv
      rcases (hO c).mp hc with h1 | h1
      · exact h.hopen c h1 v hv
      · exact absurd h1 hcn
  · intro c hc v hv
    have hcn : c ≠ n := fun e => hnC (e ▸ hc)
    rw [hG, if_neg hcn] at hv
    exact h.hclosed c hc v hv
  · intro c hc o' ho' hS hst
    have hcn : c ≠ n := fun e => hnC (e ▸ hc)
    by_cases hco : c = cur ∧ o' = o
    · obtain ⟨h1, h2⟩ := hco
      subst h1; subst h2
      refine ⟨vc, t, ?_, ?_, ?_⟩
      · rw [hG, if_neg hcn]; exact hg
      · rw [hG, ← hn, if_pos rfl]
      · rw [← hn, ht]
    · obtain ⟨v, u, hv, hu, hle⟩ := h.hrelaxed c hc o' ho'
        (fun hcc => (hS hcc).resolve_right (fun ho => hco ⟨hcc, ho⟩)) hst
      by_cases hy : c.offset o' = n
      · refine ⟨v, t, ?_, ?_, ?_⟩
        · rw [hG, if_neg hcn]; exact hv
        · rw [hG, if_pos hy]
        · rw [hy] at hu
          exact le_trans (le_of_lt (hGlt u hu)) hle
      · refine ⟨v, u, ?_, ?_, hle⟩
        · rw [hG, if_neg hcn]; exact hv
        · rw [hG, if_neg hy]; exact hu
  · intro y p hy
    rw [hF] at hy
    by_cases hyn : y = n
    · simp only [hyn, if_true, Option.some.injEq] at hy
      subst hy
      rw [hyn]
      refine ⟨hcurC, fun hc => absurd hc hnC, hstep, vc, t, ?_, ?_, ?_⟩
      · rw [hG, if_neg hncur]; exact hg
      · rw [hG, if_pos rfl]
      · rw [ht]
    · simp only [hyn, if_false] at hy
      obtain ⟨hpC, hrk, hst, vp, vn, hvp, hvn, hle⟩ := h.hlink y p hy
      have hpn : p ≠ n := fun e => hnC (e ▸ hpC)
      refine ⟨hpC, hrk, hst, vp, vn, ?_, ?_, hle⟩
      · rw [hG, if_neg hpn]; exact hvp
      · rw [hG, if_neg hyn]; exact hvn
  · intro y hy hcf
    rw [hF] at hcf
    rw [hG] at hy
    by_cases hyn : y = n
    · simp [hyn] at hcf
    · simp only [hyn, if_false] at hcf hy
      exact h.hroot y hy hcf
  · rw [hF, if_neg hnstart]; exact h.hstartlink
  · intro c hc
    rcases (hO c).mp hc with h1 | h1
    · exact h.hvalidO c h1
    · rw [h1]; exact hstep.2.1

theorem AStarInv_anti (G : AGAGridActor α P) (start dest cur : FCellRef)
    (S S' : Int × Int → Prop) (hS : ∀ o ∈ NeighborOffsets, S' o → S o)
    (C : Finset FCellRef) (rk : FCellRef → Nat) (m : α) (st : FAStarState α)
    (h : AStarInv G start dest cur S C rk m st) : AStarInv G start dest cur S' C rk m st := by
  refine { h with hrelaxed := ?_ }
  intro c hc o ho hSo hstep
  exact h.hrelaxed c hc o ho (fun hcc => hS o ho (hSo hcc)) hstep

/-- One pass of the neighbour loop body of A* keeps the invariant. -/
theorem AStarRelax_inv (G : AGAGridActor α P)
    (htri : ∀ p q r, G.Dist p r ≤ G.Dist p q + G.Dist q r)
    (start dest cur : FCellRef) (S : Int × Int → Prop) (C : Finset FCellRef)
    (rk : FCellRef → Nat) (m : α) (st : FAStarState α) (o : Int × Int)
    (ho : o ∈ NeighborOffsets)
    (vc : α) (hg : st.GScore cur = some vc) (hm : m ≤ vc + Heuristic G dest cur)
    (hcurC : cur ∈ C) (hsC : start ∈ C)
    (h : AStarInv G start dest cur S C rk m st) :
    AStarInv G start dest cur (fun o' => S o' ∨ o' = o) C rk m
        (AStarRelax G dest cur st o) ∧
      (AStarRelax G dest cur st o).GScore cur = some vc := by
  rcases AStarRelax_cases G dest cur st o ho vc hg with ⟨he, hk⟩ | ⟨hstep, hcase, he⟩
  · rw [he]
    exact ⟨AStarInv_keep G start dest cur S C rk m st o vc hg h hk, hg⟩
  · rw [he]
    exact AStarInv_update G htri start dest cur S C rk m st o vc hg hm hcurC hsC h
      (cur.offset o) rfl _ rfl hstep hcase

/-- The whole neighbour loop of A* keeps the invariant. -/
theorem AStarRelax_foldl (G : AGAGridActor α P)
    (htri : ∀ p q r, G.Dist p r ≤ G.Dist p q + G.Dist q r)
    (start dest cur : FCellRef) (C : Finset FCellRef) (rk : FCellRef → Nat) (m : α)
    (vc : α) (hm : m ≤ vc + Heuristic G dest cur) (hcurC : cur ∈ C) (hsC : start ∈ C)
    (os : List (Int × Int)) (hos : ∀ o ∈ os, o ∈ NeighborOffsets)
    (S : Int × Int → Prop) (st : FAStarState α) (hg : st.GScore cur = some vc)
    (h : AStarInv G start dest cur S C rk m st) :
    AStarInv G start dest cur (fun o' => S o' ∨ o' ∈ os) C rk m
      (os.foldl (AStarRelax G dest cur) st) := by
  induction os generalizing S st with
  | nil =>
    refine AStarInv_anti G start dest cur S _ ?_ C rk m st h
    intro o _ ho; simpa using ho
  | cons o os ih =>
    rw [List.foldl_cons]
    obtain ⟨h1, hg1⟩ := AStarRelax_inv G htri start dest cur S C rk m st o
      (hos o (List.mem_cons_self _ _)) vc hg hm hcurC hsC h
    have h2 := ih (fun o' ho' => hos o' (List.mem_cons_of_mem _ ho')) _ _ hg1 h1
    refine AStarInv_anti G start dest cur _ _ ?_ C rk m _ h2
    intro o' _ ho'
    rcases ho' with ho' | ho'
    · exact Or.inl (Or.inl ho')
    · rcases List.mem_cons.mp ho' with ho' | ho'
      · exact Or.inl (Or.inr ho')
      · exact Or.inr ho'

/-- The key the heap compares is `g + h` for every discovered cell. -/
theorem AStarInv_FScore_eq (G : AGAGridActor α P) (start dest cur : FCellRef)
    (S : Int × Int → Prop) (C : Finset FCellRef) (rk : FCellRef → Nat) (m : α)
    (st : FAStarState α) (h : AStarInv G start dest cur S C rk m st)
    (c : FCellRef) (v : α) (hv : st.GScore c = some v) :
    st.FScore c = v + Heuristic G dest c := by
  unfold FAStarState.FScore
  rw [hv, h.hh c v hv]; rfl

/-- Popping a cell other than the destination leads to the invariant of the neighbour
loop, with the popped cell added to the closed set. -/
theorem AStarInv_pop (G : AGAGridActor α P)
    (HeapPop : (FCellRef → α) → List FCellRef → Option (FCellRef × List FCellRef))
    (hpop : IsHeapPop HeapPop)
    (start dest cur : FCellRef) (C : Finset FCellRef) (rk : FCellRef → Nat) (m : α)
    (st : FAStarState α) (h : AStarInv G start dest cur (fun _ => True) C rk m st)
    (c : FCellRef) (rest : List FCellRef)
    (hp : HeapPop st.FScore st.OpenSet = some (c, rest)) (hcd : c ≠ dest) :
    ∃ vc, st.GScore c = some vc ∧ c ∉ C ∧ G.IsValid c = true ∧
      AStarInv G start dest c (fun _ => False) (insert c C) (Function.update rk c C.card)
        (vc + Heuristic G dest c) { st with OpenSet := rest } := by
  obtain ⟨hmin, hperm⟩ := (hpop st.FScore st.OpenSet).2 c rest hp
  have hmem : ∀ x, x ∈ st.OpenSet ↔ x = c ∨ x ∈ rest := by
    intro x; rw [← hperm.mem_iff, List.mem_cons]
  have hnd : (c :: rest).Nodup := hperm.nodup_iff.mpr h.hnodup
  have hcrest : c ∉ rest := (List.nodup_cons.mp hnd).1
  have hcO : c ∈ st.OpenSet := (hmem c).mpr (Or.inl rfl)
  have hcC : c ∉ C := h.hdisj c hcO
  obtain ⟨vc, hvc⟩ := Option.ne_none_iff_exists'.mp ((h.hdisc c).mpr (Or.inl hcO))
  have hrk : ∀ x, x ∈ C → Function.update rk c C.card x = rk x := by
    intro x hx
    exact Function.update_noteq (fun (e : x = c) => hcC (e ▸ hx)) _ _
  refine ⟨vc, hvc, hcC, h.hvalidO c hcO, ?_⟩
  refine
    { hnodup := (List.nodup_cons.mp hnd).2, hdisc := ?_, hdisj := ?_, hh := h.hh,
      hstart := h.hstart, hstartC := ?_, hsound := h.hsound, hopen := ?_, hclosed := ?_,
      hrelaxed := ?_, hlink := ?_, hroot := h.hroot, hstartlink := h.hstartlink,
      hrank := ?_, hvalidO := ?_, hvalidC := ?_, hdest := ?_ }
  · intro x
    rw [h.hdisc x, hmem x, Finset.mem_insert]
    tauto
  · intro x hx hxC
    rcases Finset.mem_insert.mp hxC with h1 | h1
    · exact hcrest (h1 ▸ hx)
    · exact h.hdisj x ((hmem x).mpr (Or.inr hx)) h1
  · left
    rcases h.hstartC with h1 | ⟨_, h1⟩
    · exact Finset.mem_insert_of_mem h1
    · rw [h1, List.mem_singleton] at hcO
      rw [hcO]; exact Finset.mem_insert_self _ _
  · intro x hx v hv
    have h1 := hmin x ((hmem x).mpr (Or.inr hx))
    rw [AStarInv_FScore_eq G start dest cur _ C rk m st h c vc hvc,
      AStarInv_FScore_eq G start dest cur _ C rk m st h x v hv] at h1
    exact h1
  · intro x hx v hv
    rcases Finset.mem_insert.mp hx with h1 | h1
    · rw [h1] at hv ⊢
      rw [hvc] at hv; cases hv; exact le_refl _
    · exact le_trans (h.hclosed x h1 v hv) (h.hopen c hcO vc hvc)
  · intro x hx o ho hS hstep
    rcases Finset.mem_insert.mp hx with h1 | h1
    · exact absurd (hS h1) id
    · exact h.hrelaxed x h1 o ho (fun _ => trivial) hstep
  · intro y p hy
    obtain ⟨hpC, hr, hrest⟩ := h.hlink y p hy
    refine ⟨Finset.mem_insert_of_mem hpC, ?_, hrest⟩
    intro hyC
    rw [hrk p hpC]
    rcases Finset.mem_insert.mp hyC with h1 | h1
    · rw [h1, Function.update_same]; exact h.hrank p hpC
    · rw [hrk y h1]; exact hr h1
  · intro x hx
    rw [Finset.card_insert_of_not_mem hcC]
    rcases Finset.mem_insert.mp hx with h1 | h1
    · rw [h1, Function.update_same]; exact Nat.lt_succ_self _
    · rw [hrk x h1]; exact Nat.lt_succ_of_lt (h.hrank x h1)
  · intro x hx
    exact h.hvalidO x ((hmem x).mpr (Or.inr hx))
  · intro x hx
    rcases Finset.mem_insert.mp hx with h1 | h1
    · rw [h1]; exact h.hvalidO c hcO
    · exact h.hvalidC x h1
  · intro hd
    rcases Finset.mem_insert.mp hd with h1 | h1
    · exact hcd h1.symm
    · exact h.hdest h1

/-- Walking the predecessor chain from a discovered cell yields a path from the start whose
cost is at most the cell's score, provided the fuel covers the rank of its predecessor. -/
theorem AStarTrace_spec (G : AGAGridActor α P) (start dest cur : FCellRef)
    (S : Int × Int → Prop) (C : Finset FCellRef) (rk : FCellRef → Nat) (m : α)
    (st : FAStarState α) (h : AStarInv G start dest cur S C rk m st) (k : Nat) :
    ∀ (fuel : Nat) (x : FCellRef) (vx : α) (acc : List (FPathStep P)),
      k ≤ fuel → st.GScore x = some vx → (∀ p, st.CameFrom x = some p → rk p < k) →
      ∃ rest, AStarTrace G st.CameFrom fuel x acc = some (rest.map (CellStep G) ++ acc) ∧
        GridPath G anyCell start rest ∧ rest.getLastD start = x ∧
        PathCost G start rest ≤ vx := by
  induction k with
  | zero =>
    intro fuel x vx acc _ hx hp
    cases hcf : st.CameFrom x with
    | some p => exact absurd (hp p hcf) (Nat.not_lt_zero _)
    | none =>
      have hxs : x = start := h.hroot x (by rw [hx]; exact Option.some_ne_none _) hcf
      refine ⟨[], ?_, List.Chain.nil, hxs.symm, ?_⟩
      · cases fuel <;> simp [AStarTrace, hcf]
      · rw [hxs, h.hstart] at hx; cases hx; exact le_refl _
  | succ k ih =>
    intro fuel x vx acc hf hx hp
    cases hcf : st.CameFrom x with
    | none =>
      have hxs : x = start := h.hroot x (by rw [hx]; exact Option.some_ne_none _) hcf
      refine ⟨[], ?_, List.Chain.nil, hxs.symm, ?_⟩
      · cases fuel <;> simp [AStarTrace, hcf]
      · rw [hxs, h.hstart] at hx; cases hx; exact le_refl _
    | some p =>
      obtain ⟨hpC, _, hstep, vp, vn, hvp, hvn, hle⟩ := h.hlink x p hcf
      rw [hx] at hvn; cases hvn
      cases fuel with
      | zero => exact absurd hf (Nat.not_succ_le_zero _)
      | succ fuel =>
        have hp' : ∀ q, st.CameFrom p = some q → rk q < k := by
          intro q hq
          have h1 := (h.hlink p q hq).2.1 hpC
          have h2 := hp p hcf
          omega
        obtain ⟨rest, hrun, hpath, hlast, hcost⟩ :=
          ih fuel p vp (CellStep G x :: acc) (Nat.le_of_succ_le_succ hf) hvp hp'
        refine ⟨rest ++ [x], ?_, ?_, List.getLastD_concat _ _ _, ?_⟩
        · simp only [AStarTrace, hcf]
          rw [show (⟨G.GetCellPosition x, x⟩ : FPathStep P) = CellStep G x from rfl, hrun]
          simp
        · rw [GridPath_append_singleton, hlast]; exact ⟨hpath, hstep⟩
        · rw [PathCost_append_singleton, hlast]
          exact le_trans (add_le_add_right hcost _) hle

/-- Frontier lemma: a cell reached by a path of cost `v` is either closed with a score of at
most `v`, or some open cell bounds `v` from below through its key. -/
theorem AStarInv_frontier (G : AGAGridActor α P)
    (htri : ∀ p q r, G.Dist p r ≤ G.Dist p q + G.Dist q r)
    (start dest cur : FCellRef) (C : Finset FCellRef) (rk : FCellRef → Nat) (m : α)
    (st : FAStarState α) (h : AStarInv G start dest cur (fun _ => True) C rk m st)
    (c : FCellRef) (v : α) (hr : ReachCost G anyCell start c v) :
    (c ∈ C ∧ ∃ u, st.GScore c = some u ∧ u ≤ v) ∨
      ∃ x ∈ st.OpenSet, ∃ u, st.GScore x = some u ∧
        u + Heuristic G dest x ≤ v + Heuristic G dest c := by
  have disc : ∀ y u v', st.GScore y = some u → u ≤ v' →
      (y ∈ C ∧ ∃ u, st.GScore y = some u ∧ u ≤ v') ∨
        ∃ x ∈ st.OpenSet, ∃ u, st.GScore x = some u ∧
          u + Heuristic G dest x ≤ v' + Heuristic G dest y := by
    intro y u v' hu hle
    rcases (h.hdisc y).mp (by rw [hu]; exact Option.some_ne_none _) with h1 | h1
    · exact Or.inr ⟨y, h1, u, hu, add_le_add_right hle _⟩
    · exact Or.inl ⟨h1, u, hu, hle⟩
  induction hr with
  | refl => exact disc start 0 0 h.hstart (le_refl _)
  | @step c n v _ hstep ih =>
    rcases ih with ⟨hcC, u, hu, hle⟩ | ⟨x, hx, u, hu, hle⟩
    · obtain ⟨o, ho, hno⟩ := hstep.1
      rw [hno] at hstep ⊢
      obtain ⟨v1, u1, hv1, hu1, hle1⟩ := h.hrelaxed c hcC o ho (fun _ => trivial) hstep
      rw [hu] at hv1; cases hv1
      exact disc _ u1 _ hu1 (le_trans hle1 (add_le_add_right hle _))
    · refine Or.inr ⟨x, hx, u, hu, le_trans hle ?_⟩
      rw [add_assoc]
      exact add_le_add_left (Heuristic_consistent G htri dest c n) _

/-- With an empty open set every reachable cell is closed. -/
theorem AStarInv_closure (G : AGAGridActor α P)
    (start dest cur : FCellRef) (C : Finset FCellRef) (rk : FCellRef → Nat) (m : α)
    (st : FAStarState α) (h : AStarInv G start dest cur (fun _ => True) C rk m st)
    (hO : st.OpenSet = []) (c : FCellRef) (v : α) (hr : ReachCost G anyCell start c v) :
    c ∈ C := by
  have disc : ∀ y, st.GScore y ≠ none → y ∈ C := by
    intro y hy
    rcases (h.hdisc y).mp hy with h1 | h1
    · rw [hO] at h1; cases h1
    · exact h1
  induction hr with
  | refl => exact disc start (by rw [h.hstart]; exact Option.some_ne_none _)
  | @step c n v _ hstep ih =>
    obtain ⟨o, ho, hno⟩ := hstep.1
    rw [hno] at hstep ⊢
    obtain ⟨v1, u1, _, hu1, _⟩ := h.hrelaxed c ih o ho (fun _ => trivial) hstep
    exact disc _ (by rw [hu1]; exact Option.some_ne_none _)

theorem AStarInv_card_le (G : AGAGridActor α P) (start dest cur : FCellRef)
    (S : Int × Int → Prop) (C : Finset FCellRef) (rk : FCellRef → Nat) (m : α)
    (st : FAStarState α) (h : AStarInv G start dest cur S C rk m st) :
    C.card ≤ G.XCount * G.YCount :=
  le_trans (Finset.card_le_card (fun c hc => G.mem_Cells c (h.hvalidC c hc))) G.card_Cells_le

/-- Specification of the A* loop: with fuel for every valid cell it returns, either `Active`
with a cheapest path from the start to the destination, or `Invalid` when no path exists. -/
theorem AStarLoop_spec (G : AGAGridActor α P)
    (HeapPop : (FCellRef → α) → List FCellRef → Option (FCellRef × List FCellRef))
    (hpop : IsHeapPop HeapPop)
    (htri : ∀ p q r, G.Dist p r ≤ G.Dist p q + G.Dist q r)
    (StartPoint : P) (start dest : FCellRef) (StepsOut : List (FPathStep P))
    (traceFuel : Nat) (htf : G.XCount * G.YCount ≤ traceFuel) :
    ∀ (fuel : Nat) (st : FAStarState α) (cur : FCellRef) (C : Finset FCellRef)
      (rk : FCellRef → Nat) (m : α),
      AStarInv G start dest cur (fun _ => True) C rk m st →
      G.XCount * G.YCount ≤ fuel + C.card →
      (∃ rest, AStarLoop G HeapPop StartPoint start dest StepsOut traceFuel fuel st =
            some (EGAPathState.GAPS_Active,
              ⟨StartPoint, start⟩ :: (rest.map (CellStep G) ++ StepsOut)) ∧
          GridPath G anyCell start rest ∧ rest.getLastD start = dest ∧
          ∀ rest', GridPath G anyCell start rest' → rest'.getLastD start = dest →
            PathCost G start rest ≤ PathCost G start rest') ∨
        (AStarLoop G HeapPop StartPoint start dest StepsOut traceFuel fuel st =
            some (EGAPathState.GAPS_Invalid, StepsOut) ∧
          ¬ Reachable G anyCell start dest) := by
  intro fuel
  induction fuel with
  | zero =>
    intro st cur C rk m h hN
    unfold AStarLoop
    cases hp : HeapPop st.FScore st.OpenSet with
    | none =>
      right
      refine ⟨rfl, ?_⟩
      rintro ⟨rest, hpath, hlast⟩
      have hO := ((hpop st.FScore st.OpenSet).1).mp hp
      have := AStarInv_closure G start dest cur C rk m st h hO _ _
        (ReachCost_of_path G anyCell start rest hpath)
      rw [hlast] at this
      exact h.hdest this
    | some cr =>
      obtain ⟨c, rest0⟩ := cr
      by_cases hcd : c = dest
      · left
        obtain ⟨hmin, hperm⟩ := (hpop st.FScore st.OpenSet).2 c rest0 hp
        have hcO : c ∈ st.OpenSet := hperm.mem_iff.mp (List.mem_cons_self _ _)
        obtain ⟨vc, hvc⟩ := Option.ne_none_iff_exists'.mp ((h.hdisc c).mpr (Or.inl hcO))
        obtain ⟨rest, hrun, hpath, hlast, hcost⟩ :=
          AStarTrace_spec G start dest cur _ C rk m st h C.card traceFuel c vc StepsOut
            (le_trans (AStarInv_card_le G start dest cur _ C rk m st h) htf) hvc
            (fun p hp' => h.hrank p (h.hlink c p hp').1)
        refine ⟨rest, ?_, hpath, hcd ▸ hlast, ?_⟩
        · simp only [hcd, if_true]
          rw [hcd] at hrun
          rw [hrun]; rfl
        · intro rest' hpath' hlast'
          have hr := ReachCost_of_path G anyCell start rest' hpath'
          rw [hlast'] at hr
          refine le_trans hcost ?_
          rcases AStarInv_frontier G htri start dest cur C rk m st h dest _ hr with
            ⟨hdC, _⟩ | ⟨x, hx, u, hu, hle⟩
          · exact absurd hdC h.hdest
          · have h1 := hmin x hx
            rw [AStarInv_FScore_eq G start dest cur _ C rk m st h c vc hvc,
              AStarInv_FScore_eq G start dest cur _ C rk m st h x u hu, hcd] at h1
            exact le_of_add_le_add_right (le_trans h1 hle)
      · exfalso
        obtain ⟨vc, _, hcC, _, hinv⟩ :=
          AStarInv_pop G HeapPop hpop start dest cur C rk m st h c rest0 hp hcd
        have h1 := AStarInv_card_le G start dest c _ _ _ _ _ hinv
        rw [Finset.card_insert_of_not_mem hcC] at h1
        omega
  | succ fuel ih =>
    intro st cur C rk m h hN
    unfold AStarLoop
    cases hp : HeapPop st.FScore st.OpenSet with
    | none =>
      right
      refine ⟨rfl, ?_⟩
      rintro ⟨rest, hpath, hlast⟩
      have hO := ((hpop st.FScore st.OpenSet).1).mp hp
      have := AStarInv_closure G start dest cur C rk m st h hO _ _
        (ReachCost_of_path G anyCell start rest hpath)
      rw [hlast] at this
      exact h.hdest this
    | some cr =>
      obtain ⟨c, rest0⟩ := cr
      by_cases hcd : c = dest
      · left
        obtain ⟨hmin, hperm⟩ := (hpop st.FScore st.OpenSet).2 c rest0 hp
        have hcO : c ∈ st.OpenSet := hperm.mem_iff.mp (List.mem_cons_self _ _)
        obtain ⟨vc, hvc⟩ := Option.ne_none_iff_exists'.mp ((h.hdisc c).mpr (Or.inl hcO))
        obtain ⟨rest, hrun, hpath, hlast, hcost⟩ :=
          AStarTrace_spec G start dest cur _ C rk m st h C.card traceFuel c vc StepsOut
            (le_trans (AStarInv_card_le G start dest cur _ C rk m st h) htf) hvc
            (fun p hp' => h.hrank p (h.hlink c p hp').1)
        refine ⟨rest, ?_, hpath, hcd ▸ hlast, ?_⟩
        · simp only [hcd, if_true]
          rw [hcd] at hrun
          rw [hrun]; rfl
        · intro rest' hpath' hlast'
          have hr := ReachCost_of_path G anyCell start rest' hpath'
          rw [hlast'] at hr
          refine le_trans hcost ?_
          rcases AStarInv_frontier G htri start dest cur C rk m st h dest _ hr with
            ⟨hdC, _⟩ | ⟨x, hx, u, hu, hle⟩
          · exact absurd hdC h.hdest
          · have h1 := hmin x hx
            rw [AStarInv_FScore_eq G start dest cur _ C rk m st h c vc hvc,
              AStarInv_FScore_eq G start dest cur _ C rk m st h x u hu, hcd] at h1
            exact le_of_add_le_add_right (le_trans h1 hle)
      · obtain ⟨vc, hvc, hcC, _, hinv⟩ :=
          AStarInv_pop G HeapPop hpop start dest cur C rk m st h c rest0 hp hcd
        have hfold := AStarRelax_foldl G htri start dest c (insert c C)
          (Function.update rk c C.card) (vc + Heuristic G dest c) vc (le_refl _)
          (Finset.mem_insert_self _ _)
          (hinv.hstartC.resolve_right (fun hh => Finset.insert_ne_empty _ _ hh.1))
          NeighborOffsets (fun _ ho => ho) (fun _ => False) { st with OpenSet := rest0 }
          hvc hinv
        have hinv' := AStarInv_anti G start dest c _ (fun _ => True)
          (fun o ho _ => Or.inr ho) _ _ _ _ hfold
        have hN' : G.XCount * G.YCount ≤ fuel + (insert c C).card := by
          rw [Finset.card_insert_of_not_mem hcC]; omega
        simp only [hcd, if_false]
        exact ih _ c _ _ _ hinv' hN'

/-- The state A* builds before its loop satisfies the loop invariant. -/
theorem AStarInv_init (G : AGAGridActor α P) (start dest : FCellRef)
    (hs : G.IsValid start = true) :
    AStarInv G start dest start (fun _ => True) ∅ (fun _ => 0) (0 + Heuristic G dest start)
      { OpenSet := [start],
        GScore := Function.update (fun _ => none) start (some 0),
        HScore := Function.update (fun _ => none) start
          (some (G.Dist (G.GetCellPosition start) (G.GetCellPosition dest))),
        CameFrom := fun _ => none } := by
  have hG : ∀ c v, Function.update (fun _ => (none : Option α)) start (some 0) c = some v →
      c = start ∧ v = 0 := by
    intro c v hv
    by_cases hc : c = start
    · rw [hc, Function.update_same] at hv; cases hv; exact ⟨hc, rfl⟩
    · rw [Function.update_noteq hc] at hv; cases hv
  refine
    { hnodup := List.nodup_singleton _, hdisc := ?_,
      hdisj := fun _ _ hc => Finset.not_mem_empty _ hc,
      hh := ?_, hstart := by simp, hstartC := Or.inr ⟨rfl, rfl⟩,
      hsound := ?_, hopen := ?_,
      hclosed := fun _ hc => absurd hc (Finset.not_mem_empty _),
      hrelaxed := fun _ hc => absurd hc (Finset.not_mem_empty _),
      hlink := fun _ _ hcf => Option.noConfusion hcf,
      hroot := ?_, hstartlink := rfl,
      hrank := fun _ hc => absurd hc (Finset.not_mem_empty _),
      hvalidO := ?_, hvalidC := fun _ hc => absurd hc (Finset.not_mem_empty _),
      hdest := Finset.not_mem_empty _ }
  · intro c
    by_cases hc : c = start
    · subst hc; simp
    · simp [hc, Function.update_noteq hc]
  · intro c v hv
    obtain ⟨hc, _⟩ := hG c v hv
    rw [hc]; simp [Heuristic]
  · intro c v hv
    obtain ⟨hc, hv0⟩ := hG c v hv
    rw [hc, hv0]; exact ReachCost.refl
  · intro c _ v hv
    obtain ⟨hc, hv0⟩ := hG c v hv
    rw [hc, hv0]
  · intro n hn _
    obtain ⟨v, hv⟩ := Option.ne_none_iff_exists'.mp hn
    exact (hG n v hv).1
  · intro c hc
    rw [List.mem_singleton] at hc; rw [hc]; exact hs

omit [LinearOrderedAddCommGroup α] in
/-- More fuel does not change the result of the predecessor walk. -/
theorem AStarTrace_mono (G : AGAGridActor α P) (CameFrom : FCellRef → Option FCellRef)
    (fuel : Nat) : ∀ (fuel' : Nat) (x : FCellRef) (acc r : List (FPathStep P)),
      fuel ≤ fuel' → AStarTrace G CameFrom fuel x acc = some r →
      AStarTrace G CameFrom fuel' x acc = some r := by
  induction fuel with
  | zero =>
    intro fuel' x acc r _ hrun
    cases hcf : CameFrom x with
    | none =>
      simp only [AStarTrace, hcf] at hrun
      cases fuel' <;> simpa [AStarTrace, hcf] using hrun
    | some p => simp [AStarTrace, hcf] at hrun
  | succ fuel ih =>
    intro fuel' x acc r hle hrun
    cases fuel' with
    | zero => exact absurd hle (Nat.not_succ_le_zero _)
    | succ fuel' =>
      cases hcf : CameFrom x with
      | none =>
        simp only [AStarTrace, hcf] at hrun ⊢
        exact hrun
      | some p =>
        simp only [AStarTrace, hcf] at hrun ⊢
        exact ih fuel' p _ r (Nat.le_of_succ_le_succ hle) hrun

/-- More fuel does not change the result of the A* loop. -/
theorem AStarLoop_mono (G : AGAGridActor α P)
    (HeapPop : (FCellRef → α) → List FCellRef → Option (FCellRef × List FCellRef))
    (StartPoint : P) (start dest : FCellRef) (StepsOut : List (FPathStep P))
    (traceFuel traceFuel' : Nat) (htf : traceFuel ≤ traceFuel') (fuel : Nat) :
    ∀ (fuel' : Nat) (st : FAStarState α) (r : EGAPathState × List (FPathStep P)),
      fuel ≤ fuel' →
      AStarLoop G HeapPop StartPoint start dest StepsOut traceFuel fuel st = some r →
      AStarLoop G HeapPop StartPoint start dest StepsOut traceFuel' fuel' st = some r := by
  have trace : ∀ (st : FAStarState α) (c : FCellRef) (r : EGAPathState × List (FPathStep P)),
      (AStarTrace G st.CameFrom traceFuel c StepsOut).map
          (fun out => (EGAPathState.GAPS_Active, (⟨StartPoint, start⟩ : FPathStep P) :: out)) =
        some r →
      (AStarTrace G st.CameFrom traceFuel' c StepsOut).map
          (fun out => (EGAPathState.GAPS_Active, (⟨StartPoint, start⟩ : FPathStep P) :: out)) =
        some r := by
    intro st c r hrun
    rw [Option.map_eq_some'] at hrun ⊢
    obtain ⟨out, hout, hr⟩ := hrun
    exact ⟨out, AStarTrace_mono G st.CameFrom traceFuel traceFuel' c StepsOut out htf hout, hr⟩
  induction fuel with
  | zero =>
    intro fuel' st r _ hrun
    unfold AStarLoop at hrun
    cases hp : HeapPop st.FScore st.OpenSet with
    | none =>
      rw [hp] at hrun
      cases fuel' with
      | zero => unfold AStarLoop; rw [hp]; exact hrun
      | succ n => unfold AStarLoop; rw [hp]; exact hrun
    | some cr =>
      obtain ⟨c, rest⟩ := cr
      rw [hp] at hrun
      by_cases hcd : c = dest
      · simp only [hcd, if_true] at hrun
        cases fuel' with
        | zero =>
          unfold AStarLoop; rw [hp]; simp only [hcd, if_true]
          exact trace st dest r hrun
        | succ n =>
          unfold AStarLoop; rw [hp]; simp only [hcd, if_true]
          exact trace st dest r hrun
      · simp [hcd] at hrun
  | succ fuel ih =>
    intro fuel' st r hle hrun
    cases fuel' with
    | zero => exact absurd hle (Nat.not_succ_le_zero _)
    | succ fuel' =>
      unfold AStarLoop at hrun ⊢
      cases hp : HeapPop st.FScore st.OpenSet with
      | none => rw [hp] at hrun; exact hrun
      | some cr =>
        obtain ⟨c, rest⟩ := cr
        rw [hp] at hrun
        by_cases hcd : c = dest
        · simp only [hcd, if_true] at hrun ⊢
          exact trace st dest r hrun
        · simp only [hcd, if_false] at hrun ⊢
          exact ih fuel' _ r (Nat.le_of_succ_le_succ hle) hrun

/-- More fuel does not change the result of `AStar`. -/
theorem AStar_mono (fuel fuel' : Nat) (hle : fuel ≤ fuel')
    (HeapPop : (FCellRef → α) → List FCellRef → Option (FCellRef × List FCellRef))
    (Grid : Option (AGAGridActor α P)) (dest : FCellRef) (StartPoint : P)
    (StepsOut : List (FPathStep P)) (r : EGAPathState × List (FPathStep P))
    (hrun : AStar fuel HeapPop Grid dest StartPoint StepsOut = some r) :
    AStar fuel' HeapPop Grid dest StartPoint StepsOut = some r := by
  cases Grid with
  | none => exact hrun
  | some G =>
    unfold AStar at hrun ⊢
    by_cases hv : (!G.IsValid (G.GetCellRef StartPoint) || !G.IsValid dest) = true
    · simp only [hv, if_true] at hrun ⊢
      exact hrun
    · simp only [hv, if_false] at hrun ⊢
      exact AStarLoop_mono G HeapPop StartPoint _ dest StepsOut fuel fuel' hle fuel fuel' _ r
        hle hrun

/-- Specification of `AStar` on a grid with valid start and destination cells. -/
theorem AStar_spec (G : AGAGridActor α P)
    (HeapPop : (FCellRef → α) → List FCellRef → Option (FCellRef × List FCellRef))
    (hpop : IsHeapPop HeapPop)
    (htri : ∀ p q r, G.Dist p r ≤ G.Dist p q + G.Dist q r)
    (fuel : Nat) (hfuel : G.XCount * G.YCount ≤ fuel)
    (dest : FCellRef) (StartPoint : P) (StepsOut : List (FPathStep P))
    (hs : G.IsValid (G.GetCellRef StartPoint) = true) (hd : G.IsValid dest = true) :
    (∃ rest, AStar fuel HeapPop (some G) dest StartPoint StepsOut =
          some (EGAPathState.GAPS_Active,
            ⟨StartPoint, G.GetCellRef StartPoint⟩ :: (rest.map (CellStep G) ++ StepsOut)) ∧
        GridPath G anyCell (G.GetCellRef StartPoint) rest ∧
        rest.getLastD (G.GetCellRef StartPoint) = dest ∧
        ∀ rest', GridPath G anyCell (G.GetCellRef StartPoint) rest' →
          rest'.getLastD (G.GetCellRef StartPoint) = dest →
          PathCost G (G.GetCellRef StartPoint) rest ≤
            PathCost G (G.GetCellRef StartPoint) rest') ∨
      (AStar fuel HeapPop (some G) dest StartPoint StepsOut =
          some (EGAPathState.GAPS_Invalid, StepsOut) ∧
        ¬ Reachable G anyCell (G.GetCellRef StartPoint) dest) := by
  unfold AStar
  simp only [hs, hd, Bool.not_true, Bool.or_self, Bool.false_eq_true, if_false]
  exact AStarLoop_spec G HeapPop hpop htri StartPoint _ dest StepsOut fuel hfuel fuel _ _ ∅
    (fun _ => 0) _ (AStarInv_init G _ dest hs) (by simpa using hfuel)

/-- C3: with fuel for every valid cell `AStar` returns, and it returns `Invalid` if and only
if the grid is missing, the start cell or the recorded destination cell is invalid, or no
4-connected path (whose cells after the start are valid and traversable) leads from the
start cell to the destination cell; in every other case it returns `Active`. -/
theorem AStar_Invalid_iff_no_route
    (HeapPop : (FCellRef → α) → List FCellRef → Option (FCellRef × List FCellRef))
    (hpop : IsHeapPop HeapPop) (Grid : Option (AGAGridActor α P))
    (htri : ∀ G ∈ Grid, ∀ p q r, G.Dist p r ≤ G.Dist p q + G.Dist q r)
    (fuel : Nat) (hfuel : ∀ G ∈ Grid, G.XCount * G.YCount ≤ fuel)
    (DestinationCell : FCellRef) (StartPoint : P) (StepsOut : List (FPathStep P)) :
    ∃ State Steps, AStar fuel HeapPop Grid DestinationCell StartPoint StepsOut =
        some (State, Steps) ∧
      (State = EGAPathState.GAPS_Invalid ↔ AStarNoRoute Grid DestinationCell StartPoint) ∧
      (State ≠ EGAPathState.GAPS_Invalid → State = EGAPathState.GAPS_Active) := by
  cases Grid with
  | none =>
    exact ⟨EGAPathState.GAPS_Invalid, StepsOut, rfl, by simp [AStarNoRoute], fun h => absurd rfl h⟩
  | some G =>
    by_cases hs : G.IsValid (G.GetCellRef StartPoint) = true
    swap
    · refine ⟨EGAPathState.GAPS_Invalid, StepsOut, by simp [AStar, hs], ?_,
        fun h => absurd rfl h⟩
      simp only [AStarNoRoute, true_iff]
      exact Or.inl (by simpa using hs)
    by_cases hd : G.IsValid DestinationCell = true
    swap
    · refine ⟨EGAPathState.GAPS_Invalid, StepsOut, by simp [AStar, hd], ?_,
        fun h => absurd rfl h⟩
      simp only [AStarNoRoute, true_iff]
      exact Or.inr (Or.inl (by simpa using hd))
    rcases AStar_spec G HeapPop hpop (htri G rfl) fuel (hfuel G rfl) DestinationCell StartPoint
      StepsOut hs hd with ⟨rest, hrun, hpath, hlast, _⟩ | ⟨hrun, hnr⟩
    · refine ⟨_, _, hrun, ?_, fun _ => rfl⟩
      simp only [AStarNoRoute, hs, hd, Bool.true_eq_false, false_or]
      constructor
      · intro h; cases h
      · intro h; exact absurd ⟨rest, hpath, hlast⟩ h
    · refine ⟨_, _, hrun, ?_, fun h => absurd rfl h⟩
      simp only [AStarNoRoute, true_iff]
      exact Or.inr (Or.inr hnr)

/-- Taking the first element of minimal key meets the heap-pop contract. -/
theorem HeapPopFirstMin_isHeapPop : IsHeapPop (HeapPopFirstMin (α := α)) := by
  intro key l
  induction l with
  | nil => exact ⟨by simp [HeapPopFirstMin], fun c rest h => by simp [HeapPopFirstMin] at h⟩
  | cons a l ih =>
    obtain ⟨ih1, ih2⟩ := ih
    cases hp : HeapPopFirstMin key l with
    | none =>
      have hl : l = [] := ih1.mp hp
      subst hl
      refine ⟨by simp [HeapPopFirstMin], ?_⟩
      intro c rest h
      simp only [HeapPopFirstMin, Option.some.injEq, Prod.mk.injEq] at h
      obtain ⟨h1, h2⟩ := h
      subst h1; subst h2
      exact ⟨fun x hx => by rw [List.mem_singleton] at hx; rw [hx], List.Perm.refl _⟩
    | some br =>
      obtain ⟨b, rest0⟩ := br
      obtain ⟨hmin, hperm⟩ := ih2 b rest0 hp
      constructor
      · simp only [HeapPopFirstMin, hp]
        by_cases hle : key a ≤ key b <;> simp [hle]
      · intro c rest h
        simp only [HeapPopFirstMin, hp] at h
        by_cases hle : key a ≤ key b
        · simp only [hle, if_true, Option.some.injEq, Prod.mk.injEq] at h
          obtain ⟨h1, h2⟩ := h
          subst h1; subst h2
          refine ⟨?_, List.Perm.refl _⟩
          intro x hx
          rcases List.mem_cons.mp hx with hx | hx
          · rw [hx]
          · exact le_trans hle (hmin x hx)
        · simp only [hle, if_false, Option.some.injEq, Prod.mk.injEq] at h
          obtain ⟨h1, h2⟩ := h
          subst h1; subst h2
          refine ⟨?_, ?_⟩
          · intro x hx
            rcases List.mem_cons.mp hx with hx | hx
            · rw [hx]; exact le_of_lt (not_le.mp hle)
            · exact hmin x hx
          · exact (List.Perm.swap a b rest0).trans (List.Perm.cons a hperm)

omit [LinearOrderedAddCommGroup α] in
/-- A window that covers the grid does not restrict paths. -/
theorem GridPath_anyCell_iff (G : AGAGridActor α P) (inside : FCellRef → Bool)
    (hin : ∀ c, G.IsValid c = true → inside c = true) (start : FCellRef)
    (rest : List FCellRef) : GridPath G inside start rest ↔ GridPath G anyCell start rest := by
  unfold GridPath
  induction rest generalizing start with
  | nil => simp
  | cons b rest ih =>
    rw [List.chain_cons, List.chain_cons, ih b]
    constructor
    · rintro ⟨⟨h1, h2, h3, _⟩, h5⟩; exact ⟨⟨h1, h2, h3, rfl⟩, h5⟩
    · rintro ⟨⟨h1, h2, h3, _⟩, h5⟩; exact ⟨⟨h1, h2, h3, hin b h2⟩, h5⟩

/-- C2: when `AStar` returns `Active`, the summed edge cost along the consecutive cells of
the returned step list equals the distance Dijkstra stores for the destination cell, for a
distance map that covers the grid: the A* path is a shortest path. -/
theorem AStar_cost_eq_Dijkstra (G : AGAGridActor α P)
    (HeapPop : (FCellRef → α) → List FCellRef → Option (FCellRef × List FCellRef))
    (hpop : IsHeapPop HeapPop) (hnn : ∀ p q, 0 ≤ G.Dist p q)
    (htri : ∀ p q r, G.Dist p r ≤ G.Dist p q + G.Dist q r)
    (fuel fuelD : Nat) (DestinationCell : FCellRef) (StartPoint : P)
    (Steps : List (FPathStep P)) (DistanceMap D : FGAGridMap (WithTop α))
    (hwin : ∀ c, G.IsValid c = true → DistanceMap.InWindow c = true)
    (hA : AStar fuel HeapPop (some G) DestinationCell StartPoint [] =
      some (EGAPathState.GAPS_Active, Steps))
    (hD : Dijkstra fuelD (some G) StartPoint DistanceMap = some (true, D)) :
    D.GetValue DestinationCell = some ((StepsCost G Steps : α) : WithTop α) := by
  have hs : G.IsValid (G.GetCellRef StartPoint) = true := by
    by_contra hs
    simp [AStar, hs] at hA
  have hd : G.IsValid DestinationCell = true := by
    by_contra hd
    simp [AStar, hd] at hA
  have hA' := AStar_mono fuel (max fuel (G.XCount * G.YCount)) (le_max_left _ _) HeapPop
    (some G) DestinationCell StartPoint [] _ hA
  rcases AStar_spec G HeapPop hpop htri (max fuel (G.XCount * G.YCount)) (le_max_right _ _)
    DestinationCell StartPoint [] hs hd with ⟨rest, hrun, hpath, hlast, hopt⟩ | ⟨hrun, _⟩
  swap
  · rw [hrun] at hA'; cases hA'
  rw [hrun] at hA'
  simp only [Option.some.injEq, Prod.mk.injEq, true_and] at hA'
  have hcost : StepsCost G Steps = PathCost G (G.GetCellRef StartPoint) rest := by
    rw [← hA']
    simp [StepsCost, CellStep, Function.comp_def]
  have hinv := Dijkstra_run_inv G hnn fuelD StartPoint DistanceMap D (hwin _ hs) hD
  rw [DijkstraInv_GetValue G _ _ D [] hinv DestinationCell (hwin _ hd), hcost]
  have hconv := GridPath_anyCell_iff G DistanceMap.InWindow hwin (G.GetCellRef StartPoint)
  have hne : D.Data DestinationCell ≠ ⊤ := by
    intro h
    exact (DijkstraInv_top_iff G _ _ (hwin _ hs) D hinv DestinationCell (hwin _ hd)).mp h
      ⟨rest, (hconv rest).mpr hpath, hlast⟩
  obtain ⟨v, hv⟩ := WithTop.ne_top_iff_exists.mp hne
  obtain ⟨⟨rest1, hp1, hl1, hc1⟩, hlow⟩ :=
    DijkstraInv_min G _ _ (hwin _ hs) D hinv DestinationCell (hwin _ hd) v hv.symm
  have h1 : v ≤ PathCost G (G.GetCellRef StartPoint) rest :=
    hlow rest ((hconv rest).mpr hpath) hlast
  have h2 : PathCost G (G.GetCellRef StartPoint) rest ≤ v := by
    rw [← hc1]; exact hopt rest1 ((hconv rest1).mp hp1) hl1
  rw [← hv, le_antisymm h1 h2]

end AStarCorrect

section AStarWitnesses

theorem exDist_triangle (p q r : Int × Int) : exDist p r ≤ exDist p q + exDist q r := by
  unfold exDist
  have h1 := abs_sub_le p.1 q.1 r.1
  have h2 := abs_sub_le p.2 q.2 r.2
  omega

theorem FGAGridMap.InWindow_ofGrid {α P β : Type} (G : AGAGridActor α P) (v : β)
    (c : FCellRef) (h : G.IsValid c = true) : (FGAGridMap.ofGrid G v).InWindow c = true := by
  unfold AGAGridActor.IsValid at h
  unfold FGAGridMap.InWindow FGAGridMap.ofGrid
  simp only [Bool.and_eq_true, decide_eq_true_eq] at h ⊢
  omega

/-- Witness for C2 on the 3 × 3 example grid, from `(0, 0)` to `(2, 2)`. -/
theorem AStar_cost_eq_Dijkstra_witness :
    IsHeapPop (HeapPopFirstMin (α := Int)) ∧
    (∀ p q, 0 ≤ exGrid3.Dist p q) ∧
    (∀ p q r, exGrid3.Dist p r ≤ exGrid3.Dist p q + exGrid3.Dist q r) ∧
    (∀ c, exGrid3.IsValid c = true → exMap3.InWindow c = true) ∧
    AStar 9 HeapPopFirstMin (some exGrid3) ⟨2, 2⟩ ((0 : Int), (0 : Int)) [] =
      some (EGAPathState.GAPS_Active, exSteps3) ∧
    Dijkstra 40 (some exGrid3) ((0 : Int), (0 : Int)) exMap3 = some (true, exField3) ∧
    exField3.GetValue ⟨2, 2⟩ = some ((StepsCost exGrid3 exSteps3 : Int) : WithTop Int) :=
  ⟨HeapPopFirstMin_isHeapPop, exDist_nonneg, exDist_triangle,
    FGAGridMap.InWindow_ofGrid exGrid3 ⊤,
    run_eq_some _ _ EGAPathState.GAPS_Active (by decide), run_eq_some _ _ true (by decide),
    AStar_cost_eq_Dijkstra exGrid3 HeapPopFirstMin HeapPopFirstMin_isHeapPop exDist_nonneg
      exDist_triangle 9 40 ⟨2, 2⟩ ((0 : Int), (0 : Int)) exSteps3 exMap3 exField3
      (FGAGridMap.InWindow_ofGrid exGrid3 ⊤)
      (run_eq_some _ _ EGAPathState.GAPS_Active (by decide))
      (run_eq_some _ _ true (by decide))⟩

/-- Witness for C3 on the 3 × 3 example grid with the blocked centre as destination. -/
theorem AStar_Invalid_iff_no_route_witness :
    IsHeapPop (HeapPopFirstMin (α := Int)) ∧
    (∀ G ∈ some exGrid3, ∀ p q r, G.Dist p r ≤ G.Dist p q + G.Dist q r) ∧
    (∀ G ∈ some exGrid3, G.XCount * G.YCount ≤ 9) ∧
    ∃ State Steps, AStar 9 HeapPopFirstMin (some exGrid3) ⟨1, 1⟩ ((0 : Int), (0 : Int)) [] =
        some (State, Steps) ∧
      (State = EGAPathState.GAPS_Invalid ↔
        AStarNoRoute (some exGrid3) ⟨1, 1⟩ ((0 : Int), (0 : Int))) ∧
      (State ≠ EGAPathState.GAPS_Invalid → State = EGAPathState.GAPS_Active) :=
  have htri : ∀ G ∈ some exGrid3, ∀ p q r, G.Dist p r ≤ G.Dist p q + G.Dist q r := by
    intro G hG; cases hG; exact exDist_triangle
  have hfuel : ∀ G ∈ some exGrid3, G.XCount * G.YCount ≤ 9 := by
    intro G hG; cases hG; decide
  ⟨HeapPopFirstMin_isHeapPop, htri, hfuel,
    AStar_Invalid_iff_no_route HeapPopFirstMin HeapPopFirstMin_isHeapPop (some exGrid3) htri 9
      hfuel ⟨1, 1⟩ ((0 : Int), (0 : Int)) []⟩

end AStarWitnesses

section LineTraceLemmas

variable {α P : Type}

/-- One Bresenham pass, in terms of the remaining steps `rx`, `ry` towards the end cell:
at least one of them goes down by one, and none goes below zero. -/
theorem BresenhamStep_progress (dx dy sx sy ex ey rx ry : Int)
    (hdx : 0 ≤ dx) (hdy : 0 ≤ dy) (hrx0 : 0 ≤ rx) (hry0 : 0 ≤ ry)
    (hrx : rx ≤ dx) (hry : ry ≤ dy) (hne : rx ≠ 0 ∨ ry ≠ 0) :
    ∃ rx' ry', BresenhamStep dx dy sx sy (ex - rx * sx) (ey - ry * sy)
          (dx - dy + rx * dy - ry * dx) =
        (ex - rx' * sx, ey - ry' * sy, dx - dy + rx' * dy - ry' * dx) ∧
      0 ≤ rx' ∧ 0 ≤ ry' ∧ rx' ≤ rx ∧ ry' ≤ ry ∧ rx' + ry' < rx + ry ∧
      rx ≤ rx' + 1 ∧ ry ≤ ry' + 1 := by
  have hxstep : (dx - dy + rx * dy - ry * dx) * 2 > -dy → 1 ≤ rx := by
    intro h
    by_contra hc
    have hrx0' : rx = 0 := by omega
    have hry1 : 1 ≤ ry := by omega
    have hprod : dx ≤ ry * dx := le_mul_of_one_le_left hdx hry1
    rw [hrx0'] at h
    linarith
  have hystep : (dx - dy + rx * dy - ry * dx) * 2 < dx → 1 ≤ ry := by
    intro h
    by_contra hc
    have hry0' : ry = 0 := by omega
    have hrx1 : 1 ≤ rx := by omega
    have hprod : dy ≤ rx * dy := le_mul_of_one_le_left hdy hrx1
    rw [hry0'] at h
    linarith
  unfold BresenhamStep
  by_cases hx : (dx - dy + rx * dy - ry * dx) * 2 > -dy
  · by_cases hy : (dx - dy + rx * dy - ry * dx) * 2 < dx
    · have h1 := hxstep hx
      have h2 := hystep hy
      refine ⟨rx - 1, ry - 1, ?_, by omega, by omega, by omega, by omega, by omega, by omega,
        by omega⟩
      simp only [hx, hy, if_true, Prod.mk.injEq]
      refine ⟨?_, ?_, ?_⟩ <;> first | trivial | ring1
    · have h1 := hxstep hx
      refine ⟨rx - 1, ry, ?_, by omega, by omega, by omega, by omega, by omega, by omega,
        by omega⟩
      simp only [hx, hy, if_true, if_false, Prod.mk.injEq]
      refine ⟨?_, ?_, ?_⟩ <;> first | trivial | ring1
  · by_cases hy : (dx - dy + rx * dy - ry * dx) * 2 < dx
    · have h2 := hystep hy
      refine ⟨rx, ry - 1, ?_, by omega, by omega, by omega, by omega, by omega, by omega,
        by omega⟩
      simp only [hx, hy, if_true, if_false, Prod.mk.injEq]
      refine ⟨?_, ?_, ?_⟩ <;> first | trivial | ring1
    · exfalso
      have hx' := not_lt.mp hx
      have hy' := not_lt.mp hy
      have hsum : dx + dy ≤ 0 := by linarith
      omega

theorem Bresenham_at_end_iff (sx sy ex ey rx ry : Int) (hsx : sx = 1 ∨ sx = -1)
    (hsy : sy = 1 ∨ sy = -1) :
    (ex - rx * sx ≠ ex ∨ ey - ry * sy ≠ ey) ↔ (rx ≠ 0 ∨ ry ≠ 0) := by
  have h1 : ex - rx * sx ≠ ex ↔ rx ≠ 0 := by
    rcases hsx with h | h <;> rw [h] <;> constructor <;> intro h' <;> omega
  have h2 : ey - ry * sy ≠ ey ↔ ry ≠ 0 := by
    rcases hsy with h | h <;> rw [h] <;> constructor <;> intro h' <;> omega
  rw [h1, h2]

/-- The Bresenham walk reaches the end cell within `rx + ry` rounds. -/
theorem BresenhamCells_total (dx dy sx sy ex ey : Int) (hdx : 0 ≤ dx) (hdy : 0 ≤ dy)
    (hsx : sx = 1 ∨ sx = -1) (hsy : sy = 1 ∨ sy = -1) (fuel : Nat) :
    ∀ rx ry : Int, 0 ≤ rx → 0 ≤ ry → rx ≤ dx → ry ≤ dy → rx + ry ≤ fuel →
      ∃ cells, BresenhamCells ⟨ex, ey⟩ dx dy sx sy fuel (ex - rx * sx) (ey - ry * sy)
            (dx - dy + rx * dy - ry * dx) = some cells ∧
        cells.head? = some ⟨ex - rx * sx, ey - ry * sy⟩ ∧
        cells.getLast? = some ⟨ex, ey⟩ := by
  induction fuel with
  | zero =>
    intro rx ry hrx0 hry0 _ _ hf
    have h1 : rx = 0 := by omega
    have h2 : ry = 0 := by omega
    subst h1; subst h2
    refine ⟨[⟨ex, ey⟩], ?_, by simp, by simp⟩
    simp [BresenhamCells]
  | succ fuel ih =>
    intro rx ry hrx0 hry0 hrx hry hf
    by_cases hne : rx ≠ 0 ∨ ry ≠ 0
    · obtain ⟨rx', ry', hstep, h1, h2, h3, h4, h5, _, _⟩ :=
        BresenhamStep_progress dx dy sx sy ex ey rx ry hdx hdy hrx0 hry0 hrx hry hne
      obtain ⟨cells, hc, _, hlast⟩ := ih rx' ry' h1 h2 (le_trans h3 hrx) (le_trans h4 hry)
        (by push_cast at hf ⊢; omega)
      refine ⟨⟨ex - rx * sx, ey - ry * sy⟩ :: cells, ?_, by simp, ?_⟩
      · simp only [BresenhamCells]
        rw [if_pos ((Bresenham_at_end_iff sx sy ex ey rx ry hsx hsy).mpr hne), hstep]
        simp only [hc, Option.map_some']
      · cases cells with
        | nil => simp at hlast
        | cons c cs => rw [List.getLast?_cons_cons]; exact hlast
    · have h1 : rx = 0 := by omega
      have h2 : ry = 0 := by omega
      subst h1; subst h2
      refine ⟨[⟨ex, ey⟩], ?_, by simp, by simp⟩
      simp [BresenhamCells]

/-- The cells of a Bresenham walk are never an empty list. -/
theorem BresenhamCells_ne_nil (EndCell : FCellRef) (dx dy sx sy : Int) (fuel : Nat)
    (X Y E : Int) (cells : List FCellRef)
    (h : BresenhamCells EndCell dx dy sx sy fuel X Y E = some cells) : cells ≠ [] := by
  cases fuel with
  | zero =>
    simp only [BresenhamCells] at h
    split at h
    · cases h
    · cases h; simp
  | succ fuel =>
    simp only [BresenhamCells] at h
    split at h
    · rw [Option.map_eq_some'] at h
      obtain ⟨cs, _, hcs⟩ := h
      rw [← hcs]; simp
    · cases h; simp

/-- The loop of `LineTrace` answers whether every visited cell but the last is traversable. -/
theorem LineTraceLoop_eq_all (G : AGAGridActor α P) (EndCell : FCellRef) (dx dy sx sy : Int)
    (fuel : Nat) : ∀ (X Y E : Int) (cells : List FCellRef),
      BresenhamCells EndCell dx dy sx sy fuel X Y E = some cells →
      LineTraceLoop G EndCell dx dy sx sy fuel X Y E =
        some (cells.dropLast.all G.Traversable) := by
  induction fuel with
  | zero =>
    intro X Y E cells h
    simp only [BresenhamCells] at h
    by_cases hc : X ≠ EndCell.X ∨ Y ≠ EndCell.Y
    · rw [if_pos hc] at h; cases h
    · rw [if_neg hc] at h; cases h
      simp [LineTraceLoop, hc]
  | succ fuel ih =>
    intro X Y E cells h
    simp only [BresenhamCells] at h
    by_cases hc : X ≠ EndCell.X ∨ Y ≠ EndCell.Y
    · rw [if_pos hc, Option.map_eq_some'] at h
      obtain ⟨cs, hcs, hcells⟩ := h
      have hne := BresenhamCells_ne_nil EndCell dx dy sx sy fuel _ _ _ cs hcs
      have hrec := ih _ _ _ cs hcs
      simp only [LineTraceLoop]
      rw [if_pos hc, ← hcells, List.dropLast_cons_of_ne_nil hne, List.all_cons]
      by_cases ht : G.Traversable ⟨X, Y⟩ = true
      · simp only [ht, Bool.not_true, Bool.false_eq_true, if_false, Bool.true_and]
        exact hrec
      · simp [ht]
    · rw [if_neg hc] at h; cases h
      simp [LineTraceLoop, hc]

theorem LineTrace_constants (a b : Int) :
    0 ≤ |b - a| ∧ ((if a < b then (1 : Int) else -1) = 1 ∨ (if a < b then (1 : Int) else -1) = -1) ∧
      a = b - |b - a| * (if a < b then (1 : Int) else -1) := by
  refine ⟨abs_nonneg _, ?_, ?_⟩
  · by_cases h : a < b <;> simp [h]
  · by_cases h : a < b
    · rw [if_pos h, abs_of_pos (by omega)]; omega
    · rw [if_neg h, abs_of_nonpos (by omega)]; omega

/-- The rasterisation between two cells is always produced; it starts at the start cell and
ends at the end cell. -/
theorem Rasterisation_total (StartCell EndCell : FCellRef) :
    ∃ cells, Rasterisation StartCell EndCell = some cells ∧
      cells.head? = some StartCell ∧ cells.getLast? = some EndCell := by
  obtain ⟨sX, sY⟩ := StartCell
  obtain ⟨eX, eY⟩ := EndCell
  obtain ⟨hdx, hsx, hX⟩ := LineTrace_constants sX eX
  obtain ⟨hdy, hsy, hY⟩ := LineTrace_constants sY eY
  have h := BresenhamCells_total |eX - sX| |eY - sY| (if sX < eX then 1 else -1)
    (if sY < eY then 1 else -1) eX eY hdx hdy hsx hsy (|eX - sX| + |eY - sY|).toNat
    |eX - sX| |eY - sY| hdx hdy (le_refl _) (le_refl _)
    (by rw [Int.toNat_of_nonneg (add_nonneg hdx hdy)])
  rw [← hX, ← hY] at h
  obtain ⟨cells, hc, hh, hl⟩ := h
  refine ⟨cells, ?_, hh, hl⟩
  unfold Rasterisation
  simp only
  rw [← hc]
  congr 1
  ring

end LineTraceLemmas

section SmoothingTheorems

variable {α P : Type}

/-- The function `LineTrace` between valid cells answers whether every cell of the rasterisation but the
last is traversable. -/
theorem LineTrace_eq_all (G : AGAGridActor α P) (Start End : P)
    (hs : G.IsValid (G.GetCellRef Start) = true) (he : G.IsValid (G.GetCellRef End) = true)
    (cells : List FCellRef)
    (hc : Rasterisation (G.GetCellRef Start) (G.GetCellRef End) = some cells) :
    LineTrace G Start End = some (cells.dropLast.all G.Traversable) := by
  unfold LineTrace
  simp only [hs, he, Bool.not_true, Bool.or_self, Bool.false_eq_true, if_false]
  exact LineTraceLoop_eq_all G _ _ _ _ _ _ _ _ _ cells hc

/-- The function `LineTrace` always returns. -/
theorem LineTrace_total (G : AGAGridActor α P) (Start End : P) :
    ∃ b, LineTrace G Start End = some b := by
  by_cases hv : G.IsValid (G.GetCellRef Start) = true ∧ G.IsValid (G.GetCellRef End) = true
  · obtain ⟨cells, hc, _, _⟩ := Rasterisation_total (G.GetCellRef Start) (G.GetCellRef End)
    exact ⟨_, LineTrace_eq_all G Start End hv.1 hv.2 cells hc⟩
  · refine ⟨false, ?_⟩
    unfold LineTrace
    rw [if_pos]
    rw [not_and_or] at hv
    rcases hv with h | h
    · simp [h]
    · simp [h]

/-- The inner loop of `SmoothPath` returns, and leaves no more steps than it was given. -/
theorem SmoothAdvance_total (G : AGAGridActor α P) (CurrentPoint : P)
    (l : List (FPathStep P)) : ∀ NextPoint : P,
      ∃ np remaining, SmoothAdvance G CurrentPoint l NextPoint = some (np, remaining) ∧
        remaining.length ≤ l.length := by
  induction l with
  | nil => intro NextPoint; exact ⟨NextPoint, [], rfl, le_refl _⟩
  | cons s rest ih =>
    intro NextPoint
    obtain ⟨b, hb⟩ := LineTrace_total G CurrentPoint s.Point
    cases b with
    | false => exact ⟨NextPoint, s :: rest, by simp [SmoothAdvance, hb], le_refl _⟩
    | true =>
      obtain ⟨np, remaining, h1, h2⟩ := ih s.Point
      exact ⟨np, remaining, by simp [SmoothAdvance, hb, h1],
        le_trans h2 (Nat.le_succ _)⟩

/-- The outer loop of `SmoothPath` returns when it has a round of fuel per input step, and
adds at most one output step per input step. -/
theorem SmoothLoop_total (G : AGAGridActor α P) (fuel : Nat) :
    ∀ (l out : List (FPathStep P)), l.length ≤ fuel →
      ∃ out', SmoothLoop G fuel l out = some out' ∧ out'.length ≤ out.length + l.length := by
  induction fuel with
  | zero =>
    intro l out hl
    have : l = [] := List.length_eq_zero.mp (Nat.le_zero.mp hl)
    subst this
    exact ⟨out, by simp [SmoothLoop], le_refl _⟩
  | succ fuel ih =>
    intro l out hl
    cases l with
    | nil => exact ⟨out, by simp [SmoothLoop], le_refl _⟩
    | cons s rest =>
      obtain ⟨np, remaining, h1, h2⟩ := SmoothAdvance_total G s.Point rest s.Point
      have hlen : remaining.length ≤ fuel := by
        simp only [List.length_cons] at hl; omega
      obtain ⟨out', h3, h4⟩ := ih remaining (out ++ [⟨np, G.GetCellRef np⟩]) hlen
      refine ⟨out', by simp [SmoothLoop, h1, h3], ?_⟩
      simp only [List.length_append, List.length_singleton, List.length_cons,
        List.length_nil] at h4 ⊢
      omega

/-- C5: `SmoothPath` returns `Active` with a step list that has at most as many steps as its
input list. -/
theorem SmoothPath_length_le (G : AGAGridActor α P) (StartPoint : P)
    (UnsmoothedSteps SmoothedStepsOut : List (FPathStep P)) :
    ∃ out, SmoothPath (some G) StartPoint UnsmoothedSteps SmoothedStepsOut =
        some (EGAPathState.GAPS_Active, out) ∧
      out.length ≤ UnsmoothedSteps.length := by
  obtain ⟨out, h1, h2⟩ := SmoothLoop_total G UnsmoothedSteps.length UnsmoothedSteps []
    (le_refl _)
  refine ⟨out, ?_, ?_⟩
  · unfold SmoothPath
    simp only [h1, Option.map_some']
  · simpa using h2

/-- C6, amended: between points that map to valid cells, `LineTrace` returns true if and
only if every cell the Bresenham rasterisation visits from the start cell up to, but not
including, the end cell is traversable; otherwise it returns false.  The end cell is not
tested. -/
theorem LineTrace_iff_all_but_end (G : AGAGridActor α P) (Start End : P)
    (hs : G.IsValid (G.GetCellRef Start) = true) (he : G.IsValid (G.GetCellRef End) = true) :
    ∃ cells, Rasterisation (G.GetCellRef Start) (G.GetCellRef End) = some cells ∧
      cells.head? = some (G.GetCellRef Start) ∧ cells.getLast? = some (G.GetCellRef End) ∧
      (LineTrace G Start End = some true ↔ ∀ c ∈ cells.dropLast, G.Traversable c = true) ∧
      (LineTrace G Start End ≠ some true → LineTrace G Start End = some false) := by
  obtain ⟨cells, hc, hh, hl⟩ := Rasterisation_total (G.GetCellRef Start) (G.GetCellRef End)
  have heq := LineTrace_eq_all G Start End hs he cells hc
  refine ⟨cells, hc, hh, hl, ?_, ?_⟩
  · rw [heq, Option.some.injEq, List.all_eq_true]
  · intro hne
    rw [heq] at hne ⊢
    cases hall : cells.dropLast.all G.Traversable with
    | false => rfl
    | true => rw [hall] at hne; exact absurd rfl hne

/-- Witness for C6 (amended) on the 3 × 3 example grid, from `(0, 0)` to `(2, 1)`. -/
theorem LineTrace_iff_all_but_end_witness :
    exGrid3.IsValid (exGrid3.GetCellRef ((0 : Int), (0 : Int))) = true ∧
    exGrid3.IsValid (exGrid3.GetCellRef ((2 : Int), (1 : Int))) = true ∧
    ∃ cells, Rasterisation (exGrid3.GetCellRef ((0 : Int), (0 : Int)))
        (exGrid3.GetCellRef ((2 : Int), (1 : Int))) = some cells ∧
      cells.head? = some (exGrid3.GetCellRef ((0 : Int), (0 : Int))) ∧
      cells.getLast? = some (exGrid3.GetCellRef ((2 : Int), (1 : Int))) ∧
      (LineTrace exGrid3 ((0 : Int), (0 : Int)) ((2 : Int), (1 : Int)) = some true ↔
        ∀ c ∈ cells.dropLast, exGrid3.Traversable c = true) ∧
      (LineTrace exGrid3 ((0 : Int), (0 : Int)) ((2 : Int), (1 : Int)) ≠ some true →
        LineTrace exGrid3 ((0 : Int), (0 : Int)) ((2 : Int), (1 : Int)) = some false) :=
  ⟨by decide, by decide,
    LineTrace_iff_all_but_end exGrid3 ((0 : Int), (0 : Int)) ((2 : Int), (1 : Int))
      (by decide) (by decide)⟩

/-- Counterexample to C6 as stated: on the 3 × 3 example grid the trace from `(0, 1)` to
the blocked centre `(1, 1)` returns true although the rasterisation, end point included,
contains the non-traversable cell `(1, 1)`. -/
theorem LineTrace_ignores_end_cell :
    exGrid3.IsValid (exGrid3.GetCellRef ((0 : Int), (1 : Int))) = true ∧
    exGrid3.IsValid (exGrid3.GetCellRef ((1 : Int), (1 : Int))) = true ∧
    LineTrace exGrid3 ((0 : Int), (1 : Int)) ((1 : Int), (1 : Int)) = some true ∧
    Rasterisation (exGrid3.GetCellRef ((0 : Int), (1 : Int)))
      (exGrid3.GetCellRef ((1 : Int), (1 : Int))) = some [⟨0, 1⟩, ⟨1, 1⟩] ∧
    exGrid3.Traversable ⟨1, 1⟩ = false := by
  decide

/-- C4, the code at the failing input: on the 3 × 3 grid with `(0, 0)` and `(1, 1)` blocked,
A* from `(0, 1)` to `(2, 0)` returns the path around the centre, `SmoothPath` turns it into
the two steps `(1, 2)`, `(2, 0)`, and `LineTrace` between these two consecutive output steps
returns false. -/
theorem SmoothPath_consecutive_not_visible :
    AStar 9 HeapPopFirstMin (some exGrid3b) ⟨2, 0⟩ ((0 : Int), (1 : Int)) [] =
      some (EGAPathState.GAPS_Active,
        [exStep 0 1, exStep 0 2, exStep 1 2, exStep 2 2, exStep 2 1, exStep 2 0]) ∧
    SmoothPath (some exGrid3b) ((0 : Int), (1 : Int))
        [exStep 0 1, exStep 0 2, exStep 1 2, exStep 2 2, exStep 2 1, exStep 2 0] [] =
      some (EGAPathState.GAPS_Active, [exStep 1 2, exStep 2 0]) ∧
    LineTrace exGrid3b (exStep 1 2).Point (exStep 2 0).Point = some false := by
  decide

end SmoothingTheorems

section ReconstructTheorems

variable {α P : Type} [LinearOrderedAddCommGroup α]

theorem chain_append_singleton {γ : Type} (R : γ → γ → Prop) (a : γ) (l : List γ) (n : γ) :
    List.Chain R a (l ++ [n]) ↔ List.Chain R a l ∧ R (l.getLastD a) n := by
  induction l generalizing a with
  | nil => simp
  | cons b l ih =>
    rw [List.cons_append, List.chain_cons, ih b, List.chain_cons, List.getLastD_cons, and_assoc]

/-- What the neighbour test of `ReconstructPath` accepts. -/
theorem ReconstructAccepts_iff (G : AGAGridActor α P) (D : FGAGridMap (WithTop α))
    (cd : WithTop α) (n : FCellRef) :
    ReconstructAccepts G D cd n = true ↔
      G.IsValid n = true ∧ G.Traversable n = true ∧ ∃ dn, D.GetValue n = some dn ∧ dn < cd := by
  unfold ReconstructAccepts
  by_cases hv : G.IsValid n = true
  swap
  · simp [hv]
  by_cases ht : G.Traversable n = true
  swap
  · simp [ht]
  cases hg : D.GetValue n with
  | none => simp [hv, ht]
  | some dn => simp [hv, ht]

/-- The neighbour the trace-back moves to is adjacent and has a strictly smaller recorded
distance. -/
theorem ReconstructNext_some (G : AGAGridActor α P) (D : FGAGridMap (WithTop α))
    (c : FCellRef) (cd : WithTop α) (n : FCellRef)
    (h : ReconstructNext G D c cd = some n) :
    Adjacent4 c n ∧ G.IsValid n = true ∧ G.Traversable n = true ∧
      ∃ dn, D.GetValue n = some dn ∧ dn < cd := by
  unfold ReconstructNext at h
  have hmem := List.mem_of_find?_eq_some h
  have hacc := List.find?_some h
  rw [List.mem_map] at hmem
  obtain ⟨o, ho, hon⟩ := hmem
  exact ⟨⟨o, ho, hon.symm⟩, (ReconstructAccepts_iff G D cd n).mp hacc⟩

/-- A successful trace-back extends `ReversePath` by a chain of adjacent cells with strictly
decreasing recorded distances that ends at the start cell. -/
theorem ReconstructLoop_true (G : AGAGridActor α P) (D : FGAGridMap (WithTop α))
    (start : FCellRef) (fuel : Nat) :
    ∀ (cur : FCellRef) (rev rev' : List (FPathStep P)),
      ReconstructLoop G D start fuel cur rev = some (true, rev') →
      ∃ ext : List FCellRef, rev' = rev ++ ext.map (CellStep G) ∧
        List.Chain (fun a b => Adjacent4 a b ∧ FieldDecreases D a b) cur ext ∧
        ext.getLastD cur = start := by
  induction fuel with
  | zero =>
    intro cur rev rev' h
    unfold ReconstructLoop at h
    by_cases hc : cur = start
    · simp only [hc, if_true, Option.some.injEq, Prod.mk.injEq, true_and] at h
      exact ⟨[], by simp [h], List.Chain.nil, hc⟩
    · simp only [hc, if_false] at h
      cases hg : D.GetValue cur with
      | none => simp [hg] at h
      | some cd =>
        cases hn : ReconstructNext G D cur cd with
        | none => simp [hg, hn] at h
        | some n => simp [hg, hn] at h
  | succ fuel ih =>
    intro cur rev rev' h
    unfold ReconstructLoop at h
    by_cases hc : cur = start
    · simp only [hc, if_true, Option.some.injEq, Prod.mk.injEq, true_and] at h
      exact ⟨[], by simp [h], List.Chain.nil, hc⟩
    · simp only [hc, if_false] at h
      cases hg : D.GetValue cur with
      | none => simp [hg] at h
      | some cd =>
        cases hn : ReconstructNext G D cur cd with
        | none => simp [hg, hn] at h
        | some n =>
          simp only [hg, hn] at h
          obtain ⟨ext, hrev, hchain, hlast⟩ := ih n _ rev' h
          obtain ⟨hadj, _, _, dn, hdn, hlt⟩ := ReconstructNext_some G D cur cd n hn
          refine ⟨n :: ext, ?_, List.Chain.cons ⟨hadj, cd, dn, hg, hdn, hlt⟩ hchain, ?_⟩
          · rw [hrev]; simp [CellStep]
          · rw [List.getLastD_cons]; exact hlast

theorem Adjacent4_symm (a b : FCellRef) (h : Adjacent4 a b) : Adjacent4 b a := by
  obtain ⟨o, ho, hb⟩ := h
  refine ⟨(-o.1, -o.2), ?_, ?_⟩
  · simp only [NeighborOffsets, List.mem_cons, List.mem_singleton, List.not_mem_nil,
      or_false] at ho ⊢
    rcases ho with h | h | h | h <;> rw [h] <;> simp
  · rw [hb]
    cases a with
    | mk x y => simp [FCellRef.offset]

/-- C7: when `ReconstructPath` returns true, the output path begins at the start cell and
ends at the target cell, consecutive steps are 4-adjacent cells, and walking it from the
target back to the start the recorded distance strictly decreases at every step. -/
theorem ReconstructPath_true_descends (fuel : Nat) (Grid : Option (AGAGridActor α P))
    (DistanceMap : FGAGridMap (WithTop α)) (TargetCell StartCell : FCellRef)
    (OutPath path : List (FPathStep P))
    (h : ReconstructPath fuel Grid DistanceMap TargetCell StartCell OutPath =
      some (true, path)) :
    (path.map FPathStep.CellRef).head? = some StartCell ∧
      (path.map FPathStep.CellRef).getLast? = some TargetCell ∧
      List.Chain' Adjacent4 (path.map FPathStep.CellRef) ∧
      List.Chain' (FieldDecreases DistanceMap) (path.map FPathStep.CellRef).reverse := by
  cases Grid with
  | none => simp [ReconstructPath] at h
  | some G =>
    unfold ReconstructPath at h
    simp only at h
    cases hl : ReconstructLoop G DistanceMap StartCell fuel TargetCell
        [⟨G.GetCellPosition TargetCell, TargetCell⟩] with
    | none => simp [hl] at h
    | some r =>
      obtain ⟨b, rev'⟩ := r
      cases b with
      | false => simp [hl] at h
      | true =>
        simp only [hl, Option.some.injEq, Prod.mk.injEq, true_and] at h
        obtain ⟨ext, hrev, hchain, hlast⟩ := ReconstructLoop_true G DistanceMap StartCell fuel
          TargetCell _ rev' hl
        have hcells : path.map FPathStep.CellRef = (TargetCell :: ext).reverse := by
          rw [← h, hrev]
          simp [CellStep, Function.comp_def]
        have hch : List.Chain' (fun a b => Adjacent4 a b ∧ FieldDecreases DistanceMap a b)
            (TargetCell :: ext) := hchain
        rw [hcells]
        refine ⟨?_, ?_, ?_, ?_⟩
        · rw [List.head?_reverse, List.getLast?_eq_getLast _ (List.cons_ne_nil _ _),
            List.getLast_eq_getLastD, hlast]
        · rw [List.getLast?_reverse]; rfl
        · rw [List.chain'_reverse]
          exact hch.imp (fun a b hab => Adjacent4_symm a b hab.1)
        · rw [List.reverse_reverse]
          exact hch.imp (fun a b hab => hab.2)

/-- Witness for C7 on the 3 × 3 example grid. -/
theorem ReconstructPath_true_descends_witness :
    ReconstructPath 9 (some exGrid3) exField3 ⟨2, 2⟩ ⟨0, 0⟩ [] = some (true, exPath3) ∧
    (exPath3.map FPathStep.CellRef).head? = some ⟨0, 0⟩ ∧
    (exPath3.map FPathStep.CellRef).getLast? = some ⟨2, 2⟩ ∧
    List.Chain' Adjacent4 (exPath3.map FPathStep.CellRef) ∧
    List.Chain' (FieldDecreases exField3) (exPath3.map FPathStep.CellRef).reverse :=
  ⟨run_eq_some _ _ true (by decide),
    ReconstructPath_true_descends 9 (some exGrid3) exField3 ⟨2, 2⟩ ⟨0, 0⟩ [] exPath3
      (run_eq_some _ _ true (by decide))⟩

theorem FGAGridMap.GetValue_eq_some {β : Type} (m : FGAGridMap β) (c : FCellRef) (x : β)
    (h : m.GetValue c = some x) : m.InWindow c = true ∧ x = m.Data c := by
  unfold FGAGridMap.GetValue at h
  by_cases hw : m.InWindow c = true
  · rw [if_pos hw] at h; cases h; exact ⟨hw, rfl⟩
  · rw [if_neg hw] at h; cases h

theorem FGAGridMap.GetValue_of_InWindow {β : Type} (m : FGAGridMap β) (c : FCellRef)
    (h : m.InWindow c = true) : m.GetValue c = some (m.Data c) := by
  unfold FGAGridMap.GetValue; rw [if_pos h]

/-- A cell reached by a path is the start cell, or it was entered by a grid step. -/
theorem ReachCost_cases (G : AGAGridActor α P) (win : FCellRef → Bool) (start c : FCellRef)
    (v : α) (h : ReachCost G win start c v) :
    (c = start ∧ v = 0) ∨
      ∃ p u, ReachCost G win start p u ∧ GridStep G win p c ∧ v = u + G.EdgeDistance p c := by
  cases h with
  | refl => exact Or.inl ⟨rfl, rfl⟩
  | step hp hs => exact Or.inr ⟨_, _, hp, hs, rfl⟩

/-- On a field with an empty-queue invariant, with positive edge costs and a traversable
start cell, every cell other than the start that holds a finite value has a neighbour the
trace-back accepts. -/
theorem DijkstraInv_has_next (G : AGAGridActor α P) (win : FCellRef → Bool)
    (start : FCellRef) (hs : win start = true) (hsv : G.IsValid start = true)
    (hst : G.Traversable start = true)
    (hpos : ∀ c o, o ∈ NeighborOffsets → 0 < G.EdgeDistance c (c.offset o))
    (D : FGAGridMap (WithTop α)) (h : DijkstraInv G win start D [])
    (c : FCellRef) (v : α) (hc : win c = true) (hne : c ≠ start)
    (hv : D.Data c = (v : WithTop α)) :
    ∃ n, ReconstructNext G D c (v : WithTop α) = some n := by
  rcases ReachCost_cases G win start c v (h.hsound c v hc hv) with ⟨h1, _⟩ |
    ⟨p, u, hp, hstep, hvu⟩
  · exact absurd h1 hne
  obtain ⟨o, ho, hco⟩ := hstep.1
  have hlow := DijkstraInv_lower G win start hs D h p u hp
  have hpprops : G.IsValid p = true ∧ G.Traversable p = true := by
    rcases ReachCost_cases G win start p u hp with ⟨h1, _⟩ | ⟨q, _, _, hq, _⟩
    · rw [h1]; exact ⟨hsv, hst⟩
    · exact ⟨hq.2.1, hq.2.2.1⟩
  have hlt : D.Data p < (v : WithTop α) := by
    refine lt_of_le_of_lt hlow.2 ?_
    rw [WithTop.coe_lt_coe, hvu, hco]
    exact lt_add_of_pos_right _ (hpos p o ho)
  have hacc : ReconstructAccepts G D (v : WithTop α) p = true := by
    rw [ReconstructAccepts_iff]
    refine ⟨hpprops.1, hpprops.2, D.Data p, ?_, hlt⟩
    exact FGAGridMap.GetValue_of_InWindow D p (by rw [h.hwin]; exact hlow.1)
  have hmem : p ∈ NeighborOffsets.map c.offset := by
    obtain ⟨o', ho', hpo'⟩ := Adjacent4_symm p c ⟨o, ho, hco⟩
    exact List.mem_map.mpr ⟨o', ho', hpo'.symm⟩
  unfold ReconstructNext
  cases hf : List.find? (ReconstructAccepts G D (v : WithTop α)) (NeighborOffsets.map c.offset) with
  | some n => exact ⟨n, rfl⟩
  | none =>
    rw [List.find?_eq_none] at hf
    exact absurd hacc (hf p hmem)

/-- With a round of fuel per grid cell the trace-back does not get stuck on a field in
which every finite cell other than the start has an acceptable neighbour. -/
theorem ReconstructLoop_succeeds (G : AGAGridActor α P) (D : FGAGridMap (WithTop α))
    (start : FCellRef)
    (hK : ∀ c (v : α), D.InWindow c = true → c ≠ start → D.Data c = (v : WithTop α) →
      ∃ n, ReconstructNext G D c (v : WithTop α) = some n)
    (fuel : Nat) :
    ∀ (cur : FCellRef) (rev : List (FPathStep P)) (V : Finset FCellRef) (v : α),
      (∀ c ∈ V, G.IsValid c = true ∧ D.Data cur < D.Data c) →
      D.InWindow cur = true → D.Data cur = (v : WithTop α) →
      (cur ≠ start → G.IsValid cur = true) →
      G.XCount * G.YCount ≤ fuel + V.card →
      ∃ rev', ReconstructLoop G D start fuel cur rev = some (true, rev') := by
  induction fuel with
  | zero =>
    intro cur rev V v hV hw hv hval hN
    unfold ReconstructLoop
    by_cases hc : cur = start
    · exact ⟨rev, by simp [hc]⟩
    · exfalso
      have hnot : cur ∉ V := fun hin => absurd (hV cur hin).2 (lt_irrefl _)
      have hsub : insert cur V ⊆ G.Cells := by
        intro c hcin
        rcases Finset.mem_insert.mp hcin with h1 | h1
        · rw [h1]; exact G.mem_Cells cur (hval hc)
        · exact G.mem_Cells c (hV c h1).1
      have hcard := le_trans (Finset.card_le_card hsub) G.card_Cells_le
      rw [Finset.card_insert_of_not_mem hnot] at hcard
      omega
  | succ fuel ih =>
    intro cur rev V v hV hw hv hval hN
    unfold ReconstructLoop
    by_cases hc : cur = start
    · exact ⟨rev, by simp [hc]⟩
    · obtain ⟨n, hn⟩ := hK cur v hw hc hv
      obtain ⟨_, hnval, _, dn, hdn, hlt⟩ := ReconstructNext_some G D cur _ n hn
      obtain ⟨hnw, hdnd⟩ := FGAGridMap.GetValue_eq_some D n dn hdn
      rw [hdnd] at hlt
      obtain ⟨u, hu⟩ := WithTop.ne_top_iff_exists.mp
        (ne_of_lt (lt_of_lt_of_le hlt le_top))
      have hnot : cur ∉ V := fun hin => absurd (hV cur hin).2 (lt_irrefl _)
      have hV' : ∀ c ∈ insert cur V, G.IsValid c = true ∧ D.Data n < D.Data c := by
        intro c hcin
        rcases Finset.mem_insert.mp hcin with h1 | h1
        · rw [h1, hv]; exact ⟨hval hc, hlt⟩
        · exact ⟨(hV c h1).1, lt_trans (hv ▸ hlt) (hV c h1).2⟩
      have hN' : G.XCount * G.YCount ≤ fuel + (insert cur V).card := by
        rw [Finset.card_insert_of_not_mem hnot]; omega
      obtain ⟨rev', hrev'⟩ := ih n (rev ++ [⟨G.GetCellPosition n, n⟩]) (insert cur V) u hV'
        hnw hu.symm (fun _ => hnval) hN'
      refine ⟨rev', ?_⟩
      simp only [hc, if_false, FGAGridMap.GetValue_of_InWindow D cur hw, hv, hn]
      exact hrev'

/-- The function `Dijkstra` returns true only from a valid start cell. -/
theorem Dijkstra_true_valid (G : AGAGridActor α P) (fuel : Nat) (StartPoint : P)
    (DistanceMap D : FGAGridMap (WithTop α))
    (hrun : Dijkstra fuel (some G) StartPoint DistanceMap = some (true, D)) :
    G.IsValid (G.GetCellRef StartPoint) = true := by
  by_contra hval
  simp [Dijkstra, hval] at hrun

end ReconstructTheorems

section ReconstructWitnesses

end ReconstructWitnesses

section OccupancyLemmas

variable {α P : Type} [LinearOrderedField α]

omit [LinearOrderedField α] in
theorem AGAGridActor.mem_ScanCells (G : AGAGridActor α P) (c : FCellRef) :
    c ∈ G.ScanCells ↔ G.IsValid c = true := by
  cases c with
  | mk x y =>
    unfold AGAGridActor.ScanCells AGAGridActor.IsValid
    simp only [List.mem_flatMap, List.mem_range, List.mem_map, FCellRef.mk.injEq,
      Int.ofNat_eq_coe, Bool.and_eq_true, decide_eq_true_eq]
    constructor
    · rintro ⟨a, ha, b, hb, hx, hy⟩
      subst hx; subst hy
      refine ⟨⟨⟨?_, ?_⟩, ?_⟩, ?_⟩ <;> omega
    · rintro ⟨⟨⟨h1, h2⟩, h3⟩, h4⟩
      exact ⟨x.toNat, by omega, y.toNat, by omega, by omega, by omega⟩

omit [LinearOrderedField α] in
theorem AGAGridActor.nodup_ScanCells (G : AGAGridActor α P) : G.ScanCells.Nodup := by
  unfold AGAGridActor.ScanCells
  rw [List.nodup_flatMap]
  constructor
  · intro x _
    refine @List.Nodup.map _ _ (List.range G.YCount)
      (fun y : Nat => FCellRef.mk (Int.ofNat x) (Int.ofNat y)) ?_ (List.nodup_range _)
    intro a b hab
    simp only [FCellRef.mk.injEq, Int.ofNat_eq_coe, Nat.cast_inj, true_and] at hab
    exact hab
  · refine List.Pairwise.imp_of_mem ?_ (List.nodup_range G.XCount)
    intro a b _ _ hab
    simp only [Function.onFun]
    intro c hca hcb
    rw [List.mem_map] at hca hcb
    obtain ⟨y1, _, h1⟩ := hca
    obtain ⟨y2, _, h2⟩ := hcb
    rw [← h2] at h1
    simp only [FCellRef.mk.injEq, Int.ofNat_eq_coe, Nat.cast_inj] at h1
    exact hab h1.1

omit [LinearOrderedField α] in
theorem FGAGridMap.mem_WindowCells {β : Type} (m : FGAGridMap β) (c : FCellRef) :
    c ∈ m.WindowCells ↔ m.InWindow c = true := by
  cases c with
  | mk x y =>
    unfold FGAGridMap.WindowCells FGAGridMap.InWindow
    simp only [Finset.mem_image, Finset.mem_product, Finset.mem_Icc, Prod.exists,
      FCellRef.mk.injEq, Bool.and_eq_true, decide_eq_true_eq]
    constructor
    · rintro ⟨a, b, ⟨⟨h1, h2⟩, h3, h4⟩, hx, hy⟩
      subst hx; subst hy
      exact ⟨⟨⟨h1, h2⟩, h3⟩, h4⟩
    · rintro ⟨⟨⟨h1, h2⟩, h3⟩, h4⟩
      exact ⟨x, y, ⟨⟨h1, h2⟩, h3, h4⟩, rfl, rfl⟩

theorem FGAGridMap.SetValue_self {β : Type} (m : FGAGridMap β) (c : FCellRef) :
    m.SetValue c (m.Data c) = m := by
  unfold FGAGridMap.SetValue
  split
  · rw [Function.update_eq_self]
  · rfl

/-- A loop over distinct cells whose body rewrites the visited cell from its own old value
acts pointwise. -/
theorem foldl_pointwise {β : Type} (g : FCellRef → β → β)
    (body : FGAGridMap β → FCellRef → FGAGridMap β)
    (hbody : ∀ m c, body m c = m.SetValue c (g c (m.Data c)))
    (l : List FCellRef) (hl : l.Nodup) (m : FGAGridMap β) :
    (∀ c, (l.foldl body m).InWindow c = m.InWindow c) ∧
      ∀ c, (l.foldl body m).Data c =
        if c ∈ l ∧ m.InWindow c = true then g c (m.Data c) else m.Data c := by
  induction l generalizing m with
  | nil => exact ⟨fun _ => rfl, fun c => by simp⟩
  | cons a l ih =>
    obtain ⟨hal, hl'⟩ := List.nodup_cons.mp hl
    obtain ⟨h1, h2⟩ := ih hl' (body m a)
    rw [List.foldl_cons]
    constructor
    · intro c; rw [h1, hbody, FGAGridMap.InWindow_SetValue]
    · intro c
      rw [h2, hbody, FGAGridMap.InWindow_SetValue, FGAGridMap.Data_SetValue]
      by_cases hca : c = a
      · subst hca
        by_cases hw : m.InWindow c = true
        · simp [hal, hw]
        · simp [hal, hw]
      · by_cases hcl : c ∈ l
        · by_cases hw : m.InWindow c = true
          · simp [hca, hcl, hw]
          · simp [hca, hcl, hw]
        · simp [hca, hcl]

theorem MapTotal_foldl (m : FGAGridMap α) (l : List FCellRef) (a : α) :
    l.foldl (fun acc Cell => match m.GetValue Cell with
        | some Prob => acc + Prob
        | none => acc) a =
      a + (l.map (fun c => if m.InWindow c = true then m.Data c else 0)).sum := by
  induction l generalizing a with
  | nil => simp
  | cons c l ih =>
    rw [List.foldl_cons, ih, List.map_cons, List.sum_cons]
    unfold FGAGridMap.GetValue
    by_cases hw : m.InWindow c = true
    · simp [hw, add_assoc]
    · simp [hw]

/-- The summation loops compute the sum over the scanned cells inside the window. -/
theorem MapTotal_eq_ScanSum (G : AGAGridActor α P) (m : FGAGridMap α) :
    MapTotal G m = ScanSum G m := by
  unfold MapTotal ScanSum
  rw [MapTotal_foldl, zero_add, List.sum_toFinset _ G.nodup_ScanCells]

/-- For a map whose window lies inside the grid, the summation loops compute the sum of all
its values. -/
theorem ScanSum_eq_Total (G : AGAGridActor α P) (m : FGAGridMap α)
    (hwin : ∀ c, m.InWindow c = true → G.IsValid c = true) : ScanSum G m = m.Total := by
  unfold ScanSum FGAGridMap.Total
  rw [← Finset.sum_filter]
  refine Finset.sum_congr ?_ (fun _ _ => rfl)
  ext c
  rw [Finset.mem_filter, List.mem_toFinset, G.mem_ScanCells, m.mem_WindowCells]
  constructor
  · exact fun h => h.2
  · exact fun h => ⟨hwin c h, h⟩

theorem ScanSum_nonneg (G : AGAGridActor α P) (m : FGAGridMap α)
    (hnn : ∀ c, m.InWindow c = true → 0 ≤ m.Data c) :
    0 ≤ ScanSum G m := by
  unfold ScanSum
  refine Finset.sum_nonneg ?_
  intro c _
  by_cases hw : m.InWindow c = true
  · rw [if_pos hw]; exact hnn c hw
  · rw [if_neg hw]

theorem NormalizeBody_eq (T : α) (m : FGAGridMap α) (c : FCellRef) :
    NormalizeBody T m c = m.SetValue c (m.Data c / T) := by
  unfold NormalizeBody FGAGridMap.GetValue
  by_cases hw : m.InWindow c = true
  · simp [hw]
  · simp [hw, FGAGridMap.SetValue]

theorem ClearBlockedBody_eq (G : AGAGridActor α P) (m : FGAGridMap α) (c : FCellRef) :
    ClearBlockedBody G m c =
      m.SetValue c ((fun c p => if G.Traversable c = true then p else 0) c (m.Data c)) := by
  unfold ClearBlockedBody
  by_cases ht : G.Traversable c = true
  · simp [ht, FGAGridMap.SetValue_self]
  · simp [ht]

theorem ClearVisibleBody_eq (vis : FGAGridMap α) (m : FGAGridMap α) (c : FCellRef) :
    ClearVisibleBody vis m c =
      m.SetValue c ((fun c p => if IsVisibleCell vis c = true then 0 else p) c (m.Data c)) := by
  unfold ClearVisibleBody IsVisibleCell
  cases hv : vis.GetValue c with
  | none => simp [hv, FGAGridMap.SetValue_self]
  | some v =>
    by_cases hpos : v > 0
    · simp [hv, hpos]
    · simp [hv, hpos, FGAGridMap.SetValue_self]

/-- A renormalisation pass keeps the window and the non-negativity of the entries stored in
it, and leaves a total of 0 or 1. -/
theorem Renormalize_spec (G : AGAGridActor α P) (m : FGAGridMap α)
    (hnn : ∀ c, m.InWindow c = true → 0 ≤ m.Data c) :
    (∀ c, (Renormalize G m).InWindow c = m.InWindow c) ∧
      (∀ c, (Renormalize G m).InWindow c = true → 0 ≤ (Renormalize G m).Data c) ∧
      (ScanSum G (Renormalize G m) = 0 ∨ ScanSum G (Renormalize G m) = 1) := by
  unfold Renormalize
  simp only
  by_cases hT : MapTotal G m > 0
  · rw [if_pos hT]
    obtain ⟨h1, h2⟩ := foldl_pointwise (fun _ p => p / MapTotal G m)
      (NormalizeBody (MapTotal G m)) (NormalizeBody_eq _) G.ScanCells G.nodup_ScanCells m
    refine ⟨h1, ?_, Or.inr ?_⟩
    · intro c hc
      rw [h1] at hc
      rw [h2]
      split
      · exact div_nonneg (hnn c hc) (le_of_lt hT)
      · exact hnn c hc
    · have hsum : ScanSum G (G.ScanCells.foldl (NormalizeBody (MapTotal G m)) m) =
          ScanSum G m / MapTotal G m := by
        unfold ScanSum
        rw [Finset.sum_div]
        refine Finset.sum_congr rfl ?_
        intro c hc
        rw [List.mem_toFinset] at hc
        rw [h1, h2]
        by_cases hw : m.InWindow c = true
        · simp [hw, hc]
        · simp [hw]
      rw [hsum, ← MapTotal_eq_ScanSum]
      exact div_self (ne_of_gt hT)
  · rw [if_neg hT]
    refine ⟨fun _ => rfl, hnn, Or.inl ?_⟩
    have h0 := ScanSum_nonneg G m hnn
    rw [MapTotal_eq_ScanSum] at hT
    exact le_antisymm (not_lt.mp hT) h0

/-- The update keeps the window and leaves a total of 0 or 1 on a grid whose stored
entries are non-negative. -/
theorem OccupancyMapUpdate_spec (G : AGAGridActor α P) (Observers : List (FPerceiver α))
    (OccupancyMap : FGAGridMap α)
    (hnn : ∀ c, OccupancyMap.InWindow c = true → 0 ≤ OccupancyMap.Data c) :
    (∀ c, (OccupancyMapUpdate (some G) Observers OccupancyMap).InWindow c =
        OccupancyMap.InWindow c) ∧
      (ScanSum G (OccupancyMapUpdate (some G) Observers OccupancyMap) = 0 ∨
        ScanSum G (OccupancyMapUpdate (some G) Observers OccupancyMap) = 1) := by
  unfold OccupancyMapUpdate
  simp only
  obtain ⟨hw1, hd1⟩ := foldl_pointwise
    (fun c p => if IsVisibleCell (BuildVisibility G Observers) c = true then 0 else p)
    (ClearVisibleBody (BuildVisibility G Observers))
    (ClearVisibleBody_eq (BuildVisibility G Observers)) G.ScanCells G.nodup_ScanCells
    OccupancyMap
  have hnn1 : ∀ c, (G.ScanCells.foldl (ClearVisibleBody (BuildVisibility G Observers))
      OccupancyMap).InWindow c = true →
      0 ≤ (G.ScanCells.foldl (ClearVisibleBody (BuildVisibility G Observers))
        OccupancyMap).Data c := by
    intro c hc
    rw [hw1] at hc
    rw [hd1]
    split
    · split
      · exact le_refl _
      · exact hnn c hc
    · exact hnn c hc
  obtain ⟨hw2, hnn2, _⟩ := Renormalize_spec G _ hnn1
  obtain ⟨hw3, hd3⟩ := foldl_pointwise (fun c p => if G.Traversable c = true then p else 0)
    (ClearBlockedBody G) (ClearBlockedBody_eq G)
    G.ScanCells G.nodup_ScanCells (Renormalize G
      (G.ScanCells.foldl (ClearVisibleBody (BuildVisibility G Observers)) OccupancyMap))
  have hnn3 : ∀ c, (G.ScanCells.foldl (ClearBlockedBody G) (Renormalize G
      (G.ScanCells.foldl (ClearVisibleBody (BuildVisibility G Observers))
        OccupancyMap))).InWindow c = true →
      0 ≤ (G.ScanCells.foldl (ClearBlockedBody G) (Renormalize G
        (G.ScanCells.foldl (ClearVisibleBody (BuildVisibility G Observers))
          OccupancyMap))).Data c := by
    intro c hc
    rw [hw3] at hc
    rw [hd3]
    split
    · split
      · exact hnn2 c hc
      · exact le_refl _
    · exact hnn2 c hc
  obtain ⟨hw4, _, hsum⟩ := Renormalize_spec G _ hnn3
  exact ⟨fun c => by rw [hw4, hw3, hw2, hw1], hsum⟩

/-- After a collapse the map holds 1 at the observed cell, when that cell is valid and inside
the window, and 0 everywhere else. -/
theorem OccupancyMapSetPosition_Total (G : AGAGridActor α P) (OccupancyMap : FGAGridMap α)
    (Position : P) :
    (OccupancyMapSetPosition (some G) OccupancyMap Position).Total = 0 ∨
      (OccupancyMapSetPosition (some G) OccupancyMap Position).Total = 1 := by
  have hcells : ∀ m' : FGAGridMap α, (∀ c, m'.InWindow c = OccupancyMap.InWindow c) →
      m'.WindowCells = OccupancyMap.WindowCells := by
    intro m' h
    ext c
    rw [FGAGridMap.mem_WindowCells, FGAGridMap.mem_WindowCells, h]
  unfold OccupancyMapSetPosition
  simp only
  by_cases hv : G.IsValid (G.GetCellRefClamped Position) = true ∧
      OccupancyMap.InWindow (G.GetCellRefClamped Position) = true
  · right
    rw [if_pos hv.1]
    unfold FGAGridMap.Total
    rw [hcells _ (fun c => by simp)]
    have hdata : ∀ c, ((OccupancyMap.ResetData 0).SetValue (G.GetCellRefClamped Position)
        1).Data c = if G.GetCellRefClamped Position = c then 1 else 0 := by
      intro c
      rw [FGAGridMap.Data_SetValue, FGAGridMap.InWindow_ResetData]
      by_cases hc : c = G.GetCellRefClamped Position
      · simp [hc, hv.2]
      · simp [hc, Ne.symm hc, FGAGridMap.ResetData]
    simp only [hdata]
    rw [Finset.sum_ite_eq, if_pos ((FGAGridMap.mem_WindowCells _ _).mpr hv.2)]
  · left
    have hzero : ∀ c, (if G.IsValid (G.GetCellRefClamped Position) = true then
        (OccupancyMap.ResetData 0).SetValue (G.GetCellRefClamped Position) 1
        else OccupancyMap.ResetData 0).Data c = 0 := by
      intro c
      by_cases h1 : G.IsValid (G.GetCellRefClamped Position) = true
      · have h2 : ¬ OccupancyMap.InWindow (G.GetCellRefClamped Position) = true :=
          fun h2 => hv ⟨h1, h2⟩
        rw [if_pos h1, FGAGridMap.Data_SetValue, FGAGridMap.InWindow_ResetData]
        simp [h2, FGAGridMap.ResetData]
      · rw [if_neg h1]; rfl
    unfold FGAGridMap.Total
    exact Finset.sum_eq_zero (fun c _ => hzero c)

/-- C9: for a belief grid whose stored entries are non-negative and whose window lies inside
the grid, after
`OccupancyMapUpdate` and after `OccupancyMapSetPosition` the sum of all belief values is
exactly 0 or exactly 1. -/
theorem OccupancyMap_total_zero_or_one (G : AGAGridActor α P)
    (Observers : List (FPerceiver α)) (OccupancyMap : FGAGridMap α) (Position : P)
    (hnn : ∀ c, OccupancyMap.InWindow c = true → 0 ≤ OccupancyMap.Data c)
    (hwin : ∀ c, OccupancyMap.InWindow c = true → G.IsValid c = true) :
    ((OccupancyMapUpdate (some G) Observers OccupancyMap).Total = 0 ∨
        (OccupancyMapUpdate (some G) Observers OccupancyMap).Total = 1) ∧
      ((OccupancyMapSetPosition (some G) OccupancyMap Position).Total = 0 ∨
        (OccupancyMapSetPosition (some G) OccupancyMap Position).Total = 1) := by
  obtain ⟨hw, hsum⟩ := OccupancyMapUpdate_spec G Observers OccupancyMap hnn
  refine ⟨?_, OccupancyMapSetPosition_Total G OccupancyMap Position⟩
  rw [← ScanSum_eq_Total G _ (fun c hc => hwin c (by rw [← hw]; exact hc))]
  exact hsum

end OccupancyLemmas

section OccupancyWitnesses

theorem exBelief3_nonneg (c : FCellRef) (_h : exBelief3.InWindow c = true) :
    0 ≤ exBelief3.Data c := by
  unfold exBelief3
  simp only
  split
  · norm_num
  · split <;> norm_num

theorem exBelief3_window (c : FCellRef) (h : exBelief3.InWindow c = true) :
    exGrid3Q.IsValid c = true := by
  unfold FGAGridMap.InWindow exBelief3 at h
  unfold AGAGridActor.IsValid exGrid3Q
  simp only [Bool.and_eq_true, decide_eq_true_eq] at h ⊢
  omega

/-- Witness for C9 on the 3 × 3 example grid with no observer. -/
theorem OccupancyMap_total_zero_or_one_witness :
    (∀ c, exBelief3.InWindow c = true → 0 ≤ exBelief3.Data c) ∧
    (∀ c, exBelief3.InWindow c = true → exGrid3Q.IsValid c = true) ∧
    ((OccupancyMapUpdate (some exGrid3Q) [] exBelief3).Total = 0 ∨
        (OccupancyMapUpdate (some exGrid3Q) [] exBelief3).Total = 1) ∧
      ((OccupancyMapSetPosition (some exGrid3Q) exBelief3 ((1 : Int), (2 : Int))).Total = 0 ∨
        (OccupancyMapSetPosition (some exGrid3Q) exBelief3 ((1 : Int), (2 : Int))).Total = 1) :=
  ⟨exBelief3_nonneg, exBelief3_window,
    OccupancyMap_total_zero_or_one exGrid3Q [] exBelief3 ((1 : Int), (2 : Int))
      exBelief3_nonneg exBelief3_window⟩

end OccupancyWitnesses

section DiffuseTheorems

variable {α P : Type} [LinearOrderedField α]

omit [LinearOrderedField α] in
theorem FGAGridMap.IsValid_of_InWindow_ofGrid {β : Type} (G : AGAGridActor α P) (v : β)
    (c : FCellRef) (h : (FGAGridMap.ofGrid G v).InWindow c = true) : G.IsValid c = true := by
  unfold FGAGridMap.InWindow FGAGridMap.ofGrid at h
  unfold AGAGridActor.IsValid
  simp only [Bool.and_eq_true, decide_eq_true_eq] at h ⊢
  omega

/-- The map `OccupancyMapDiffuse` leaves covers the grid, and each of its cells is computed
from the map before the call. -/
theorem OccupancyMapDiffuse_spec (G : AGAGridActor α P) (OccupancyMap : FGAGridMap α) :
    (∀ c, (OccupancyMapDiffuse (some G) OccupancyMap).InWindow c = true →
        G.IsValid c = true) ∧
      ∀ c, G.IsValid c = true →
        (OccupancyMapDiffuse (some G) OccupancyMap).Data c =
          (1 - DiffusionRate) * (OccupancyMap.GetValue c).getD 0 +
            DiffusionRate * (NeighborOffsets.map c.offset).foldl
              (fun acc Neighbor =>
                if G.IsValid Neighbor then acc + (OccupancyMap.GetValue Neighbor).getD 0
                else acc) 0 := by
  obtain ⟨h1, h2⟩ := foldl_pointwise
    (fun c (_ : α) => (1 - DiffusionRate) * (OccupancyMap.GetValue c).getD 0 +
      DiffusionRate * (NeighborOffsets.map c.offset).foldl
        (fun acc Neighbor =>
          if G.IsValid Neighbor then acc + (OccupancyMap.GetValue Neighbor).getD 0
          else acc) 0)
    (DiffuseBody G OccupancyMap) (fun _ _ => rfl) G.ScanCells G.nodup_ScanCells
    (FGAGridMap.ofGrid G 0)
  constructor
  · intro c hc
    unfold OccupancyMapDiffuse at hc
    rw [h1] at hc
    exact FGAGridMap.IsValid_of_InWindow_ofGrid G 0 c hc
  · intro c hc
    unfold OccupancyMapDiffuse
    rw [h2, if_pos ⟨(G.mem_ScanCells c).mpr hc, FGAGridMap.InWindow_ofGrid G 0 c hc⟩]

end DiffuseTheorems

section TickWitnesses

theorem exTick_map : exTick.2 = OccupancyMapDiffuse (some exGridT)
    (OccupancyMapSetPosition (some exGridT) (FGAGridMap.ofGrid exGridT 0)
      ((1 : Int), (1 : Int))) := by
  simp [exTick, TickComponent, IsImmediate, exPerceiver, FTargetCache.IsKnown]

theorem exTick_MapTotal : MapTotal exGridT exTick.2 = 13 / 10 := by
  simp [exTick, TickComponent, IsImmediate, exPerceiver, OccupancyMapSetPosition, exGridT,
    exGrid3Q, FTargetCache.IsKnown, OccupancyMapDiffuse, AGAGridActor.ScanCells, DiffuseBody,
    AGAGridActor.IsValid, FGAGridMap.GetValue, FGAGridMap.SetValue, FGAGridMap.ResetData,
    FGAGridMap.ofGrid, FGAGridMap.InWindow, List.range_succ, NeighborOffsets, FCellRef.offset,
    DiffusionRate, Function.update_apply, MapTotal]
  norm_num

/-- C10, the code at the failing input: a target standing at the centre of the 3 × 3 grid
`exGridT` is observed (`Immediate`); at the end of that tick its belief grid sums to 13/10,
and the non-traversable cell `(1, 0)` holds belief 1/10. -/
theorem TickComponent_leaves_unnormalised_belief :
    exTick.1.State = ETargetState.GATS_Immediate ∧
    exTick.2.Total = 13 / 10 ∧
    exGridT.Traversable ⟨1, 0⟩ = false ∧
    exTick.2.GetValue ⟨1, 0⟩ = some (1 / 10) := by
  refine ⟨?_, ?_, by decide, ?_⟩
  · simp [exTick, TickComponent, IsImmediate, exPerceiver, FTargetCache.IsKnown]
  · rw [← ScanSum_eq_Total exGridT exTick.2, ← MapTotal_eq_ScanSum]
    · exact exTick_MapTotal
    · intro c hc
      rw [exTick_map] at hc
      exact (OccupancyMapDiffuse_spec exGridT _).1 c hc
  · simp [exTick, TickComponent, IsImmediate, exPerceiver, OccupancyMapSetPosition, exGridT,
      exGrid3Q, FTargetCache.IsKnown, OccupancyMapDiffuse, AGAGridActor.ScanCells, DiffuseBody,
      AGAGridActor.IsValid, FGAGridMap.GetValue, FGAGridMap.SetValue, FGAGridMap.ResetData,
      FGAGridMap.ofGrid, FGAGridMap.InWindow, List.range_succ, NeighborOffsets,
      FCellRef.offset, DiffusionRate, Function.update_apply]

end TickWitnesses

section DijkstraTerminates

variable {α P : Type} [LinearOrderedAddCommGroup α]

/-- The scan of `MinIndex` returns an index inside the queue whose element has the least
distance. -/
theorem MinIndexScan_spec (pre rest : List (FQueueElement α)) (e : FQueueElement α) :
    ∀ (mi : Nat) (md : α), mi < pre.length → (pre.getD mi e).Distance = md →
      (∀ x ∈ pre, md ≤ x.Distance) →
      MinIndexScan rest pre.length mi md < (pre ++ rest).length ∧
        ∀ x ∈ pre ++ rest,
          ((pre ++ rest).getD (MinIndexScan rest pre.length mi md) e).Distance ≤ x.Distance := by
  induction rest generalizing pre with
  | nil =>
    intro mi md hmi hmd hmin
    simp only [MinIndexScan, List.append_nil]
    exact ⟨hmi, fun x hx => hmd ▸ hmin x hx⟩
  | cons a rest ih =>
    intro mi md hmi hmd hmin
    have hlen : (pre ++ [a]).length = pre.length + 1 := by simp
    have happ : pre ++ a :: rest = (pre ++ [a]) ++ rest := by simp
    simp only [MinIndexScan]
    by_cases hlt : a.Distance < md
    · rw [if_pos hlt, happ, ← hlen]
      refine ih (pre ++ [a]) pre.length a.Distance (by simp) ?_ ?_
      · rw [List.getD_eq_getElem _ _ (by simp)]
        simp
      · intro x hx
        rcases List.mem_append.mp hx with hx | hx
        · exact le_trans (le_of_lt hlt) (hmin x hx)
        · rw [List.mem_singleton] at hx; rw [hx]
    · rw [if_neg hlt, happ, ← hlen]
      refine ih (pre ++ [a]) mi md (by simp; omega) ?_ ?_
      · rw [List.getD_eq_getElem _ _ (by simp; omega), List.getElem_append_left hmi,
          ← List.getD_eq_getElem _ e hmi]
        exact hmd
      · intro x hx
        rcases List.mem_append.mp hx with hx | hx
        · exact hmin x hx
        · rw [List.mem_singleton] at hx; rw [hx]; exact not_lt.mp hlt

/-- The element `MinIndex` selects has the least distance of the queue. -/
theorem MinIndex_spec (e : FQueueElement α) (rest : List (FQueueElement α)) :
    MinIndex (e :: rest) < (e :: rest).length ∧
      ∀ x ∈ e :: rest, ((e :: rest).getD (MinIndex (e :: rest)) e).Distance ≤ x.Distance := by
  have h := MinIndexScan_spec [e] rest e 0 e.Distance (by simp) (by simp)
    (fun x hx => by rw [List.mem_singleton] at hx; rw [hx])
  simpa [MinIndex] using h

/-- One pass of the neighbour loop body keeps the termination facts. -/
theorem DijkstraRelax_term (G : AGAGridActor α P) (hnn : ∀ p q, 0 ≤ G.Dist p q)
    (win : FCellRef → Bool) (Current : FQueueElement α)
    (D0 : FGAGridMap (WithTop α)) (Q0 : List (FQueueElement α)) (k : Nat)
    (S : Int × Int → Prop) (D : FGAGridMap (WithTop α)) (Q : List (FQueueElement α))
    (o : Int × Int) (ho : o ∈ NeighborOffsets)
    (h : DijkstraTermMid G win Current.Cell Current.Distance D0 Q0 k S D Q) :
    DijkstraTermMid G win Current.Cell Current.Distance D0 Q0 (k + 1) (fun o' => S o' ∨ o' = o)
      (DijkstraRelax G Current (D, Q) o).1 (DijkstraRelax G Current (D, Q) o).2 := by
  have keep : (¬ GridStep G win Current.Cell (Current.Cell.offset o) ∨
      D.Data (Current.Cell.offset o) ≤
        ((Current.Distance + G.EdgeDistance Current.Cell (Current.Cell.offset o) : α) :
          WithTop α)) →
      DijkstraTermMid G win Current.Cell Current.Distance D0 Q0 (k + 1)
        (fun o' => S o' ∨ o' = o) D Q := by
    intro hk
    refine ⟨h.hwin, h.hle, h.hnew, le_trans h.hlen (by omega), h.hnopush, ?_⟩
    intro o' ho' hs
    rcases ho' with ho' | ho'
    · exact h.hdone o' ho' hs
    · subst ho'
      rcases hk with hk | hk
      · exact absurd hs hk
      · exact hk
  unfold DijkstraRelax
  by_cases hval : G.IsValid (Current.Cell.offset o) = true
  swap
  · simp only [hval]
    exact keep (Or.inl (fun hs => hval hs.2.1))
  by_cases htr : G.Traversable (Current.Cell.offset o) = true
  swap
  · simp only [hval, htr]
    exact keep (Or.inl (fun hs => htr hs.2.2.1))
  by_cases hin : win (Current.Cell.offset o) = true
  swap
  · have : D.GetValue (Current.Cell.offset o) = none := by
      unfold FGAGridMap.GetValue; rw [h.hwin]; simp [hin]
    simp only [hval, htr, this]
    exact keep (Or.inl (fun hs => hin hs.2.2.2))
  have hget : D.GetValue (Current.Cell.offset o) = some (D.Data (Current.Cell.offset o)) := by
    unfold FGAGridMap.GetValue; rw [h.hwin]; simp [hin]
  simp only [hval, htr, hget, Bool.not_true, Bool.false_eq_true, if_false]
  by_cases hlt : ((Current.Distance + G.EdgeDistance Current.Cell (Current.Cell.offset o) : α) :
      WithTop α) < D.Data (Current.Cell.offset o)
  swap
  · simp only [hlt, if_false]
    exact keep (Or.inr (not_lt.mp hlt))
  simp only [hlt, if_true]
  have hstep : GridStep G win Current.Cell (Current.Cell.offset o) :=
    ⟨⟨o, ho, rfl⟩, hval, htr, hin⟩
  have hDin : D.InWindow (Current.Cell.offset o) = true := by rw [h.hwin]; exact hin
  have hdata : ∀ c', (D.SetValue (Current.Cell.offset o)
      ((Current.Distance + G.EdgeDistance Current.Cell (Current.Cell.offset o) : α) :
        WithTop α)).Data c' =
      if c' = Current.Cell.offset o then
        ((Current.Distance + G.EdgeDistance Current.Cell (Current.Cell.offset o) : α) :
          WithTop α)
      else D.Data c' := by
    intro c'; rw [FGAGridMap.Data_SetValue]; simp [hDin]
  have hle : ∀ c', (D.SetValue (Current.Cell.offset o)
      ((Current.Distance + G.EdgeDistance Current.Cell (Current.Cell.offset o) : α) :
        WithTop α)).Data c' ≤ D.Data c' := by
    intro c'; rw [hdata]; split
    · next hc => rw [hc]; exact le_of_lt hlt
    · exact le_refl _
  refine ⟨?_, fun x => le_trans (hle x) (h.hle x), ?_, ?_, ?_, ?_⟩
  · intro c; rw [FGAGridMap.InWindow_SetValue]; exact h.hwin c
  · intro e he
    rcases List.mem_append.mp he with he | he
    · exact h.hnew e he
    · rw [List.mem_singleton] at he
      rw [he]
      exact Or.inr ⟨le_add_of_nonneg_right (hnn _ _), hin⟩
  · simp only [List.length_append, List.length_singleton]
    have := h.hlen
    omega
  · intro hno
    exfalso
    have h1 := lt_of_lt_of_le hlt (h.hle (Current.Cell.offset o))
    exact absurd (hno _ hstep) (not_le.mpr h1)
  · intro o' ho' hs
    rcases ho' with ho' | ho'
    · exact le_trans (hle _) (h.hdone o' ho' hs)
    · subst ho'
      rw [hdata]; simp

theorem DijkstraTermMid_anti (G : AGAGridActor α P) (win : FCellRef → Bool) (c : FCellRef)
    (d : α) (D0 : FGAGridMap (WithTop α)) (Q0 : List (FQueueElement α)) (k : Nat)
    (S S' : Int × Int → Prop) (hS : ∀ o, S' o → S o)
    (D : FGAGridMap (WithTop α)) (Q : List (FQueueElement α))
    (h : DijkstraTermMid G win c d D0 Q0 k S D Q) : DijkstraTermMid G win c d D0 Q0 k S' D Q :=
  ⟨h.hwin, h.hle, h.hnew, h.hlen, h.hnopush, fun o ho => h.hdone o (hS o ho)⟩

/-- The whole neighbour loop keeps the termination facts. -/
theorem DijkstraRelax_foldl_term (G : AGAGridActor α P) (hnn : ∀ p q, 0 ≤ G.Dist p q)
    (win : FCellRef → Bool) (Current : FQueueElement α)
    (D0 : FGAGridMap (WithTop α)) (Q0 : List (FQueueElement α))
    (os : List (Int × Int)) (hos : ∀ o ∈ os, o ∈ NeighborOffsets) :
    ∀ (k : Nat) (S : Int × Int → Prop) (st : FGAGridMap (WithTop α) × List (FQueueElement α)),
      DijkstraTermMid G win Current.Cell Current.Distance D0 Q0 k S st.1 st.2 →
      DijkstraTermMid G win Current.Cell Current.Distance D0 Q0 (k + os.length)
        (fun o' => S o' ∨ o' ∈ os)
        (os.foldl (DijkstraRelax G Current) st).1 (os.foldl (DijkstraRelax G Current) st).2 := by
  induction os with
  | nil =>
    intro k S st h
    refine DijkstraTermMid_anti G win _ _ D0 Q0 k S _ ?_ _ _ h
    intro o ho; simpa using ho
  | cons o os ih =>
    intro k S st h
    rw [List.foldl_cons]
    have h1 := DijkstraRelax_term G hnn win Current D0 Q0 k S st.1 st.2 o
      (hos o (List.mem_cons_self _ _)) h
    have h2 := ih (fun o' ho' => hos o' (List.mem_cons_of_mem _ ho')) (k + 1) _ _ h1
    have hk : k + 1 + os.length = k + (o :: os).length := by
      simp only [List.length_cons]; omega
    rw [hk] at h2
    refine DijkstraTermMid_anti G win _ _ D0 Q0 _ _ _ ?_ _ _ h2
    intro o' ho'
    rcases ho' with ho' | ho'
    · exact Or.inl (Or.inl ho')
    · rcases List.mem_cons.mp ho' with ho' | ho'
      · exact Or.inl (Or.inr ho')
      · exact Or.inr ho'

/-- The frontier loop returns when its fuel covers the queue plus four pushes for every cell
that may still push. -/
theorem DijkstraLoop_terminates (G : AGAGridActor α P) (hnn : ∀ p q, 0 ≤ G.Dist p q)
    (win : FCellRef → Bool) (start : FCellRef) (fuel : Nat) :
    ∀ (D : FGAGridMap (WithTop α)) (Q : List (FQueueElement α)) (U : Finset FCellRef) (m : α),
      DijkstraTermInv G win start U m D Q → Q.length + 4 * U.card ≤ fuel →
      ∃ D', DijkstraLoop G fuel D Q = some D' := by
  induction fuel with
  | zero =>
    intro D Q U m _ hf
    have hQ : Q = [] := List.length_eq_zero.mp (by omega)
    subst hQ
    exact ⟨D, by simp [DijkstraLoop]⟩
  | succ fuel ih =>
    intro D Q U m h hf
    cases Q with
    | nil => exact ⟨D, by simp [DijkstraLoop]⟩
    | cons e rest =>
      obtain ⟨hi, hmin⟩ := MinIndex_spec e rest
      have hcurQ : (e :: rest).getD (MinIndex (e :: rest)) e ∈ e :: rest :=
        getD_mem_of_default_mem _ _ e (List.mem_cons_self _ _)
      have hmd := h.hlow _ hcurQ
      have hlen0 : ((e :: rest).eraseIdx (MinIndex (e :: rest))).length = rest.length := by
        rw [List.length_eraseIdx, if_pos hi]; simp
      have hmid : DijkstraTermMid G win ((e :: rest).getD (MinIndex (e :: rest)) e).Cell
          ((e :: rest).getD (MinIndex (e :: rest)) e).Distance D
          ((e :: rest).eraseIdx (MinIndex (e :: rest))) 0 (fun _ => False) D
          ((e :: rest).eraseIdx (MinIndex (e :: rest))) :=
        ⟨h.hwin, fun _ => le_refl _, fun _ he => Or.inl he, le_refl _, fun _ => rfl,
          fun _ ho => absurd ho id⟩
      have hf' := DijkstraRelax_foldl_term G hnn win ((e :: rest).getD (MinIndex (e :: rest)) e)
        D ((e :: rest).eraseIdx (MinIndex (e :: rest))) NeighborOffsets (fun _ ho => ho) 0
        (fun _ => False) (D, (e :: rest).eraseIdx (MinIndex (e :: rest))) hmid
      have hinv : DijkstraTermInv G win start
          (U.erase ((e :: rest).getD (MinIndex (e :: rest)) e).Cell)
          ((e :: rest).getD (MinIndex (e :: rest)) e).Distance
          (NeighborOffsets.foldl (DijkstraRelax G ((e :: rest).getD (MinIndex (e :: rest)) e))
            (D, (e :: rest).eraseIdx (MinIndex (e :: rest)))).1
          (NeighborOffsets.foldl (DijkstraRelax G ((e :: rest).getD (MinIndex (e :: rest)) e))
            (D, (e :: rest).eraseIdx (MinIndex (e :: rest)))).2 := by
        refine ⟨hf'.hwin, ?_, ?_, ?_⟩
        · intro x hx
          rcases hf'.hnew x hx with h1 | h1
          · exact hmin x (List.mem_of_mem_eraseIdx h1)
          · exact h1.1
        · intro x hx
          rcases hf'.hnew x hx with h1 | h1
          · exact h.hcell x (List.mem_of_mem_eraseIdx h1)
          · exact Or.inl h1.2
        · intro x hx hxU d' hd' n hn
          by_cases hxc : x = ((e :: rest).getD (MinIndex (e :: rest)) e).Cell
          · obtain ⟨o, ho, hno⟩ := hn.1
            rw [hxc] at hn hno ⊢
            rw [hno] at hn ⊢
            refine le_trans (hf'.hdone o (Or.inr ho) hn) ?_
            rw [WithTop.coe_le_coe]
            exact add_le_add_right hd' _
          · have hxU' : x ∉ U := fun hin => hxU (Finset.mem_erase.mpr ⟨hxc, hin⟩)
            exact le_trans (hf'.hle n) (h.hU x hx hxU' d' (le_trans hmd hd') n hn)
      have hlen := hf'.hlen
      simp only [List.length_cons, NeighborOffsets, List.length_nil] at hlen hf
      have hmeasure : (NeighborOffsets.foldl
            (DijkstraRelax G ((e :: rest).getD (MinIndex (e :: rest)) e))
            (D, (e :: rest).eraseIdx (MinIndex (e :: rest)))).2.length +
          4 * (U.erase ((e :: rest).getD (MinIndex (e :: rest)) e).Cell).card ≤ fuel := by
        by_cases hcU : ((e :: rest).getD (MinIndex (e :: rest)) e).Cell ∈ U
        · rw [Finset.card_erase_of_mem hcU]
          have hpos : 0 < U.card := Finset.card_pos.mpr ⟨_, hcU⟩
          simp only [NeighborOffsets] at hlen ⊢
          omega
        · rw [Finset.erase_eq_of_not_mem hcU]
          have hno := h.hU _ (h.hcell _ hcurQ) hcU
          have hQ := hf'.hnopush (fun n hn => hno _ hmd n hn)
          rw [hQ, hlen0]
          omega
      obtain ⟨D', hD'⟩ := ih _ _ _ _ hinv hmeasure
      exact ⟨D', by simp only [DijkstraLoop]; exact hD'⟩

/-- Termination of `Dijkstra`: with four rounds of fuel for every cell of the distance map's
window, and five more, the call returns. -/
theorem Dijkstra_terminates (Grid : Option (AGAGridActor α P))
    (hnn : ∀ G ∈ Grid, ∀ p q, 0 ≤ G.Dist p q) (fuel : Nat) (StartPoint : P)
    (DistanceMap : FGAGridMap (WithTop α))
    (hfuel : 4 * DistanceMap.WindowCells.card + 5 ≤ fuel) :
    ∃ r, Dijkstra fuel Grid StartPoint DistanceMap = some r := by
  cases Grid with
  | none => exact ⟨_, rfl⟩
  | some G =>
    unfold Dijkstra
    by_cases hval : G.IsValid (G.GetCellRef StartPoint) = true
    swap
    · exact ⟨(false, DistanceMap), by simp [hval]⟩
    simp only [hval, Bool.not_true, Bool.false_eq_true, if_false]
    have hinv : DijkstraTermInv G DistanceMap.InWindow (G.GetCellRef StartPoint)
        (insert (G.GetCellRef StartPoint) DistanceMap.WindowCells) 0
        ((DistanceMap.ResetData ⊤).SetValue (G.GetCellRef StartPoint) ((0 : α) : WithTop α))
        [⟨G.GetCellRef StartPoint, 0⟩] := by
      refine ⟨fun x => by simp, ?_, ?_, ?_⟩
      · intro e he
        rw [List.mem_singleton] at he; rw [he]
      · intro e he
        rw [List.mem_singleton] at he; rw [he]; exact Or.inr rfl
      · intro c hc hcU
        exfalso
        apply hcU
        rcases hc with hc | hc
        · exact Finset.mem_insert_of_mem ((FGAGridMap.mem_WindowCells _ _).mpr hc)
        · rw [hc]; exact Finset.mem_insert_self _ _
    have hcard := Finset.card_insert_le (G.GetCellRef StartPoint) DistanceMap.WindowCells
    obtain ⟨D', hD'⟩ := DijkstraLoop_terminates G (hnn G rfl) DistanceMap.InWindow
      (G.GetCellRef StartPoint) fuel _ _ _ _ hinv
      (by simp only [List.length_singleton]; omega)
    exact ⟨(true, D'), by rw [hD']; rfl⟩

end DijkstraTerminates

section CollapseTheorems

variable {α P : Type} [LinearOrderedField α]

/-- C11: after `OccupancyMapSetPosition(Position)` on a grid, the belief grid keeps its
window, the cell that `GetCellRef(Position, true)` resolves the position to holds 1 when it
is a valid cell inside the window, and every other cell holds 0. -/
theorem OccupancyMapSetPosition_one_cell (G : AGAGridActor α P) (OccupancyMap : FGAGridMap α)
    (Position : P) :
    (∀ c, (OccupancyMapSetPosition (some G) OccupancyMap Position).InWindow c =
        OccupancyMap.InWindow c) ∧
      ∀ c, (OccupancyMapSetPosition (some G) OccupancyMap Position).Data c =
        if c = G.GetCellRefClamped Position ∧
            G.IsValid (G.GetCellRefClamped Position) = true ∧
            OccupancyMap.InWindow (G.GetCellRefClamped Position) = true
        then 1 else 0 := by
  unfold OccupancyMapSetPosition
  simp only
  by_cases hv : G.IsValid (G.GetCellRefClamped Position) = true
  · rw [if_pos hv]
    refine ⟨fun c => by simp, fun c => ?_⟩
    rw [FGAGridMap.Data_SetValue, FGAGridMap.InWindow_ResetData]
    by_cases hw : OccupancyMap.InWindow (G.GetCellRefClamped Position) = true
    · by_cases hc : c = G.GetCellRefClamped Position
      · simp [hc, hv, hw]
      · simp [hc, hw, FGAGridMap.ResetData]
    · simp [hw, FGAGridMap.ResetData]
  · rw [if_neg hv]
    refine ⟨fun c => by simp, fun c => ?_⟩
    simp [hv, FGAGridMap.ResetData]

end CollapseTheorems

section EvidenceTheorems

variable {α P : Type} [LinearOrderedField α]

theorem VisibilityBody_eq (obs : FPerceiver α) (vis : FGAGridMap α) (c : FCellRef) :
    VisibilityBody obs vis c =
      vis.SetValue c ((fun c v => if obs.Sees c = true then 1 else v) c (vis.Data c)) := by
  unfold VisibilityBody FPerceiver.Sees
  cases h1 : obs.InCone c <;> cases h2 : obs.InRange c <;> cases h3 : obs.Occluded c <;>
    simp [h1, h2, h3, FGAGridMap.SetValue_self]

/-- A cell of the grid that some perceiver with a pawn sees, or that is already marked, is
marked in the visibility grid after the loop over the perceivers. -/
theorem BuildVisibility_foldl (G : AGAGridActor α P) (c : FCellRef)
    (hc : G.IsValid c = true) (l : List (FPerceiver α)) :
    ∀ vis : FGAGridMap α, vis.InWindow c = true →
      (vis.Data c = 1 ∨ ∃ obs ∈ l, obs.HasPawn = true ∧ obs.Sees c = true) →
      (l.foldl (fun vis obs =>
          if !obs.HasPawn then vis else G.ScanCells.foldl (VisibilityBody obs) vis) vis).InWindow
          c = true ∧
        (l.foldl (fun vis obs =>
          if !obs.HasPawn then vis else G.ScanCells.foldl (VisibilityBody obs) vis) vis).Data
          c = 1 := by
  induction l with
  | nil =>
    intro vis hw h
    rcases h with h | ⟨obs, hobs, _⟩
    · exact ⟨hw, h⟩
    · exact absurd hobs (List.not_mem_nil _)
  | cons o l ih =>
    intro vis hw h
    rw [List.foldl_cons]
    obtain ⟨h1, h2⟩ := foldl_pointwise (fun c v => if o.Sees c = true then (1 : α) else v)
      (VisibilityBody o) (VisibilityBody_eq o) G.ScanCells G.nodup_ScanCells vis
    by_cases hp : o.HasPawn = true
    · simp only [hp, Bool.not_true, Bool.false_eq_true, if_false]
      refine ih _ (by rw [h1]; exact hw) ?_
      rw [h2, if_pos ⟨(G.mem_ScanCells c).mpr hc, hw⟩]
      by_cases hs : o.Sees c = true
      · left; rw [if_pos hs]
      · rw [if_neg hs]
        rcases h with h | ⟨obs, hobs, hpo, hso⟩
        · exact Or.inl h
        · rcases List.mem_cons.mp hobs with e | hmem
          · subst e; exact absurd hso hs
          · exact Or.inr ⟨obs, hmem, hpo, hso⟩
    · have hp' : o.HasPawn = false := by simpa using hp
      simp only [hp', Bool.not_false, if_true]
      refine ih _ hw ?_
      rcases h with h | ⟨obs, hobs, hpo, hso⟩
      · exact Or.inl h
      · rcases List.mem_cons.mp hobs with e | hmem
        · subst e; rw [hp'] at hpo; exact absurd hpo (by decide)
        · exact Or.inr ⟨obs, hmem, hpo, hso⟩

/-- A renormalisation pass keeps a zero entry. -/
theorem Renormalize_Data_zero (G : AGAGridActor α P) (m : FGAGridMap α) (c : FCellRef)
    (h : m.Data c = 0) :
    (∀ c, (Renormalize G m).InWindow c = m.InWindow c) ∧ (Renormalize G m).Data c = 0 := by
  unfold Renormalize
  simp only
  by_cases hT : MapTotal G m > 0
  · rw [if_pos hT]
    obtain ⟨h1, h2⟩ := foldl_pointwise (fun _ p => p / MapTotal G m)
      (NormalizeBody (MapTotal G m)) (NormalizeBody_eq _) G.ScanCells G.nodup_ScanCells m
    refine ⟨h1, ?_⟩
    rw [h2, h]
    simp
  · rw [if_neg hT]
    exact ⟨fun _ => rfl, h⟩

/-- C12: after `OccupancyMapUpdate`, a cell of the grid and of the belief grid that is in
the vision cone, in the vision range and not occluded for at least one registered perceiver
that has a pawn holds belief exactly 0. -/
theorem OccupancyMapUpdate_clears_seen_cells (G : AGAGridActor α P)
    (Observers : List (FPerceiver α)) (OccupancyMap : FGAGridMap α) (c : FCellRef)
    (obs : FPerceiver α) (hobs : obs ∈ Observers) (hpawn : obs.HasPawn = true)
    (hcell : G.IsValid c = true) (hwin : OccupancyMap.InWindow c = true)
    (hcone : obs.InCone c = true) (hrange : obs.InRange c = true)
    (hlos : obs.Occluded c = false) :
    (OccupancyMapUpdate (some G) Observers OccupancyMap).GetValue c = some 0 := by
  have hsees : obs.Sees c = true := by
    unfold FPerceiver.Sees
    simp [hcone, hrange, hlos]
  have hvis : IsVisibleCell (BuildVisibility G Observers) c = true := by
    obtain ⟨hw, hd⟩ := BuildVisibility_foldl G c hcell Observers (FGAGridMap.ofGrid G 0)
      (FGAGridMap.InWindow_ofGrid G 0 c hcell) (Or.inr ⟨obs, hobs, hpawn, hsees⟩)
    unfold IsVisibleCell FGAGridMap.GetValue BuildVisibility
    rw [if_pos hw, hd]
    simp
  unfold OccupancyMapUpdate
  simp only
  obtain ⟨hw1, hd1⟩ := foldl_pointwise
    (fun c p => if IsVisibleCell (BuildVisibility G Observers) c = true then 0 else p)
    (ClearVisibleBody (BuildVisibility G Observers))
    (ClearVisibleBody_eq (BuildVisibility G Observers)) G.ScanCells G.nodup_ScanCells
    OccupancyMap
  have hz1 : (G.ScanCells.foldl (ClearVisibleBody (BuildVisibility G Observers))
      OccupancyMap).Data c = 0 := by
    rw [hd1, if_pos ⟨(G.mem_ScanCells c).mpr hcell, hwin⟩, if_pos hvis]
  obtain ⟨hw2, hz2⟩ := Renormalize_Data_zero G _ c hz1
  obtain ⟨hw3, hd3⟩ := foldl_pointwise (fun c p => if G.Traversable c = true then p else 0)
    (ClearBlockedBody G) (ClearBlockedBody_eq G)
    G.ScanCells G.nodup_ScanCells (Renormalize G
      (G.ScanCells.foldl (ClearVisibleBody (BuildVisibility G Observers)) OccupancyMap))
  have hz3 : (G.ScanCells.foldl (ClearBlockedBody G) (Renormalize G
      (G.ScanCells.foldl (ClearVisibleBody (BuildVisibility G Observers))
        OccupancyMap))).Data c = 0 := by
    rw [hd3, hz2]
    simp
  obtain ⟨hw4, hz4⟩ := Renormalize_Data_zero G _ c hz3
  unfold FGAGridMap.GetValue
  rw [hw4, hw3, hw2, hw1, if_pos hwin, hz4]

end EvidenceTheorems

section CentroidTheorems

variable {α P : Type} [LinearOrderedField α]

theorem Renormalize_InWindow (G : AGAGridActor α P) (m : FGAGridMap α) (c : FCellRef) :
    (Renormalize G m).InWindow c = m.InWindow c := by
  unfold Renormalize
  simp only
  by_cases hT : MapTotal G m > 0
  · rw [if_pos hT]
    exact (foldl_pointwise (fun _ p => p / MapTotal G m)
      (NormalizeBody (MapTotal G m)) (NormalizeBody_eq _) G.ScanCells G.nodup_ScanCells m).1 c
  · rw [if_neg hT]

/-- The update keeps the window of the belief grid. -/
theorem OccupancyMapUpdate_InWindow (G : AGAGridActor α P) (Observers : List (FPerceiver α))
    (OccupancyMap : FGAGridMap α) (c : FCellRef) :
    (OccupancyMapUpdate (some G) Observers OccupancyMap).InWindow c =
      OccupancyMap.InWindow c := by
  unfold OccupancyMapUpdate
  simp only
  rw [Renormalize_InWindow,
    (foldl_pointwise (fun c p => if G.Traversable c = true then p else 0)
      (ClearBlockedBody G) (ClearBlockedBody_eq G) G.ScanCells G.nodup_ScanCells _).1,
    Renormalize_InWindow,
    (foldl_pointwise
      (fun c p => if IsVisibleCell (BuildVisibility G Observers) c = true then 0 else p)
      (ClearVisibleBody (BuildVisibility G Observers))
      (ClearVisibleBody_eq (BuildVisibility G Observers)) G.ScanCells G.nodup_ScanCells
      OccupancyMap).1]

variable [AddCommGroup P] [Module α P]

theorem CentroidBody_foldl (G : AGAGridActor α P) (m : FGAGridMap α) (l : List FCellRef)
    (acc : P × α) :
    l.foldl (CentroidBody G m) acc =
      (acc.1 + (l.map (fun c =>
          if m.InWindow c = true then m.Data c • G.GetCellPosition c else 0)).sum,
        acc.2 + (l.map (fun c => if m.InWindow c = true then m.Data c else 0)).sum) := by
  induction l generalizing acc with
  | nil => simp
  | cons c l ih =>
    rw [List.foldl_cons, ih, List.map_cons, List.sum_cons, List.map_cons, List.sum_cons]
    unfold CentroidBody FGAGridMap.GetValue
    by_cases hw : m.InWindow c = true
    · simp [hw, add_assoc]
    · simp [hw]

/-- Step 4 on a map whose window lies inside the grid: the centroid of the map when its
total is positive, the previous position otherwise. -/
theorem OccupancyMapCentroid_eq (G : AGAGridActor α P) (m : FGAGridMap α)
    (LastKnownPosition : P) (hwin : ∀ c, m.InWindow c = true → G.IsValid c = true) :
    OccupancyMapCentroid G m LastKnownPosition =
      if 0 < m.Total then
        m.Total⁻¹ • m.WindowCells.sum (fun c => m.Data c • G.GetCellPosition c)
      else LastKnownPosition := by
  have hset : G.ScanCells.toFinset.filter (fun c => m.InWindow c = true) = m.WindowCells := by
    ext c
    rw [Finset.mem_filter, List.mem_toFinset, G.mem_ScanCells, m.mem_WindowCells]
    exact ⟨fun h => h.2, fun h => ⟨hwin c h, h⟩⟩
  unfold OccupancyMapCentroid
  simp only
  rw [CentroidBody_foldl]
  simp only [zero_add, gt_iff_lt]
  rw [← List.sum_toFinset _ G.nodup_ScanCells, ← List.sum_toFinset _ G.nodup_ScanCells,
    ← Finset.sum_filter, ← Finset.sum_filter, hset]
  rfl

/-- C13: for a belief grid whose window lies inside the grid, the last known position after
`OccupancyMapUpdate` is the probability-weighted centroid of the final belief grid, the sum
of `p(c) · position(c)` over all its cells divided by the sum of `p(c)`, when that total is
positive, and the previous last known position otherwise. -/
theorem OccupancyMapUpdate_last_known_is_centroid (G : AGAGridActor α P)
    (Observers : List (FPerceiver α)) (OccupancyMap : FGAGridMap α) (LastKnownPosition : P)
    (hwin : ∀ c, OccupancyMap.InWindow c = true → G.IsValid c = true) :
    OccupancyMapUpdateLastKnown (some G) Observers OccupancyMap LastKnownPosition =
      if 0 < (OccupancyMapUpdate (some G) Observers OccupancyMap).Total then
        ((OccupancyMapUpdate (some G) Observers OccupancyMap).Total)⁻¹ •
          (OccupancyMapUpdate (some G) Observers OccupancyMap).WindowCells.sum
            (fun c => (OccupancyMapUpdate (some G) Observers OccupancyMap).Data c •
              G.GetCellPosition c)
      else LastKnownPosition := by
  unfold OccupancyMapUpdateLastKnown
  simp only
  exact OccupancyMapCentroid_eq G _ LastKnownPosition
    (fun c hc => hwin c (by rw [← OccupancyMapUpdate_InWindow G Observers]; exact hc))

end CentroidTheorems

section EvidenceWitnesses

theorem exBelief3_windowV (c : FCellRef) (h : exBelief3.InWindow c = true) :
    exGridV.IsValid c = true := by
  unfold FGAGridMap.InWindow exBelief3 at h
  unfold AGAGridActor.IsValid exGridV
  simp only [Bool.and_eq_true, decide_eq_true_eq] at h ⊢
  omega

/-- Witness for C12: the perceiver `exSeer` sees the corner `(0, 0)` of the 3 × 3 grid. -/
theorem OccupancyMapUpdate_clears_seen_cells_witness :
    exSeer ∈ [exSeer] ∧ exSeer.HasPawn = true ∧ exGrid3Q.IsValid ⟨0, 0⟩ = true ∧
    exBelief3.InWindow ⟨0, 0⟩ = true ∧ exSeer.InCone ⟨0, 0⟩ = true ∧
    exSeer.InRange ⟨0, 0⟩ = true ∧ exSeer.Occluded ⟨0, 0⟩ = false ∧
    (OccupancyMapUpdate (some exGrid3Q) [exSeer] exBelief3).GetValue ⟨0, 0⟩ = some 0 :=
  ⟨List.mem_singleton.mpr rfl, rfl, by decide, by decide, rfl, rfl, rfl,
    OccupancyMapUpdate_clears_seen_cells exGrid3Q [exSeer] exBelief3 ⟨0, 0⟩ exSeer
      (List.mem_singleton.mpr rfl) rfl (by decide) (by decide) rfl rfl rfl⟩

/-- Witness for C13 on the 3 × 3 grid `exGridV` with no observer. -/
theorem OccupancyMapUpdate_last_known_is_centroid_witness :
    (∀ c, exBelief3.InWindow c = true → exGridV.IsValid c = true) ∧
    OccupancyMapUpdateLastKnown (some exGridV) [] exBelief3 ((0 : ℚ), (0 : ℚ)) =
      if 0 < (OccupancyMapUpdate (some exGridV) [] exBelief3).Total then
        ((OccupancyMapUpdate (some exGridV) [] exBelief3).Total)⁻¹ •
          (OccupancyMapUpdate (some exGridV) [] exBelief3).WindowCells.sum
            (fun c => (OccupancyMapUpdate (some exGridV) [] exBelief3).Data c •
              exGridV.GetCellPosition c)
      else ((0 : ℚ), (0 : ℚ)) :=
  ⟨exBelief3_windowV,
    OccupancyMapUpdate_last_known_is_centroid exGridV [] exBelief3 ((0 : ℚ), (0 : ℚ))
      exBelief3_windowV⟩

end EvidenceWitnesses

section DiffuseFormula

variable {α P : Type} [LinearOrderedField α]

theorem foldl_cond_add (p : FCellRef → Bool) (f : FCellRef → α)
    (l : List FCellRef) (a : α) :
    l.foldl (fun acc n => if p n = true then acc + f n else acc) a =
      a + ((l.filter p).map f).sum := by
  induction l generalizing a with
  | nil => simp
  | cons n l ih =>
    rw [List.foldl_cons, ih]
    by_cases hp : p n = true
    · simp [hp, add_assoc]
    · simp [hp]

/-- C14: after `OccupancyMapDiffuse` every cell of the grid holds
`(1 - r) · old(cell) + r · (sum of old(n) over its in-bounds 4-neighbours n)` with
`r = 1/10`, where `old` reads the belief grid as it was before the call (a cell outside its
window reads as 0). -/
theorem OccupancyMapDiffuse_simultaneous (G : AGAGridActor α P) (OccupancyMap : FGAGridMap α)
    (c : FCellRef) (hc : G.IsValid c = true) :
    (OccupancyMapDiffuse (some G) OccupancyMap).GetValue c =
      some ((1 - 1 / 10) * (OccupancyMap.GetValue c).getD 0 +
        1 / 10 * (((NeighborOffsets.map c.offset).filter (fun n => G.IsValid n)).map
          (fun n => (OccupancyMap.GetValue n).getD 0)).sum) := by
  obtain ⟨h1, h2⟩ := foldl_pointwise
    (fun c (_ : α) => (1 - DiffusionRate) * (OccupancyMap.GetValue c).getD 0 +
      DiffusionRate * (NeighborOffsets.map c.offset).foldl
        (fun acc Neighbor =>
          if G.IsValid Neighbor then acc + (OccupancyMap.GetValue Neighbor).getD 0
          else acc) 0)
    (DiffuseBody G OccupancyMap) (fun _ _ => rfl) G.ScanCells G.nodup_ScanCells
    (FGAGridMap.ofGrid G 0)
  have hw : (FGAGridMap.ofGrid G (0 : α)).InWindow c = true :=
    FGAGridMap.InWindow_ofGrid G 0 c hc
  unfold OccupancyMapDiffuse
  simp only
  rw [FGAGridMap.GetValue_of_InWindow _ c (by rw [h1]; exact hw), h2,
    if_pos ⟨(G.mem_ScanCells c).mpr hc, hw⟩,
    foldl_cond_add (fun n => G.IsValid n) (fun n => (OccupancyMap.GetValue n).getD 0),
    zero_add]
  rfl

end DiffuseFormula

section DiffuseWitnesses

/-- Witness for C14 at the centre of the 3 × 3 example grid. -/
theorem OccupancyMapDiffuse_simultaneous_witness :
    exGrid3Q.IsValid ⟨1, 1⟩ = true ∧
    (OccupancyMapDiffuse (some exGrid3Q) exBelief3).GetValue ⟨1, 1⟩ =
      some ((1 - 1 / 10) * (exBelief3.GetValue ⟨1, 1⟩).getD 0 +
        1 / 10 * (((NeighborOffsets.map (FCellRef.offset ⟨1, 1⟩)).filter
          (fun n => exGrid3Q.IsValid n)).map
          (fun n => (exBelief3.GetValue n).getD 0)).sum) :=
  ⟨by decide, OccupancyMapDiffuse_simultaneous exGrid3Q exBelief3 ⟨1, 1⟩ (by decide)⟩

end DiffuseWitnesses

section AwarenessTheorems

variable {α : Type} [LinearOrderedField α]

theorem Clamp_unit (x : α) : 0 ≤ Clamp x 0 1 ∧ Clamp x 0 1 ≤ 1 := by
  unfold Clamp
  by_cases h0 : x < 0
  · rw [if_pos h0]; exact ⟨le_refl _, zero_le_one⟩
  · rw [if_neg h0]
    by_cases h1 : x < 1
    · rw [if_pos h1]; exact ⟨not_lt.mp h0, le_of_lt h1⟩
    · rw [if_neg h1]; exact ⟨zero_le_one, le_refl _⟩

/-- A call that gets past the early returns stores an awareness in `[0, 1]`. -/
theorem UpdateTargetData_runs (NewTargetData : FTargetData α) (inp : FPerceptionInput α)
    (TargetData : Option (FTargetData α)) (hrun : inp.Runs = true) :
    ∃ d, UpdateTargetData NewTargetData inp TargetData = some d ∧
      0 ≤ d.Awareness ∧ d.Awareness ≤ 1 := by
  unfold FPerceptionInput.Runs at hrun
  simp only [Bool.and_eq_true] at hrun
  obtain ⟨⟨h1, h2⟩, h3⟩ := hrun
  unfold UpdateTargetData
  simp only [h1, h2, h3, Bool.not_true, Bool.or_self, Bool.false_eq_true, if_false]
  split_ifs <;> exact ⟨_, rfl, Clamp_unit _⟩

/-- Any call keeps a stored awareness in `[0, 1]`. -/
theorem UpdateTargetData_keeps (NewTargetData : FTargetData α) (inp : FPerceptionInput α)
    (d : FTargetData α) (h : 0 ≤ d.Awareness ∧ d.Awareness ≤ 1) :
    ∃ d', UpdateTargetData NewTargetData inp (some d) = some d' ∧
      0 ≤ d'.Awareness ∧ d'.Awareness ≤ 1 := by
  by_cases hrun : inp.Runs = true
  · exact UpdateTargetData_runs NewTargetData inp (some d) hrun
  · refine ⟨d, ?_, h⟩
    unfold FPerceptionInput.Runs at hrun
    unfold UpdateTargetData
    cases h1 : inp.HasOwnerPawn <;> cases h2 : inp.HasTargetComponent <;>
      cases h3 : inp.HasTargetActor <;> simp [h1, h2, h3] at hrun ⊢

theorem UpdateRun_keeps (NewTargetData : FTargetData α) (inputs : List (FPerceptionInput α)) :
    ∀ d : FTargetData α, 0 ≤ d.Awareness ∧ d.Awareness ≤ 1 →
      ∃ d', UpdateRun NewTargetData inputs (some d) = some d' ∧
        0 ≤ d'.Awareness ∧ d'.Awareness ≤ 1 := by
  induction inputs with
  | nil => intro d h; exact ⟨d, rfl, h⟩
  | cons inp l ih =>
    intro d h
    obtain ⟨d1, h1, h1'⟩ := UpdateTargetData_keeps NewTargetData inp d h
    obtain ⟨d2, h2, h2'⟩ := ih d1 h1'
    refine ⟨d2, ?_, h2'⟩
    unfold UpdateRun at h2 ⊢
    rw [List.foldl_cons, h1]
    exact h2

/-- C15: for every initial entry (any initial awareness), every list of tick inputs (any
tick durations, visible or not) in which at least one call of `UpdateTargetData` gets past
its early returns, the awareness stored after the last tick lies in `[0, 1]`. -/
theorem UpdateTargetData_awareness_in_unit_interval (NewTargetData : FTargetData α)
    (TargetData : Option (FTargetData α)) (inputs : List (FPerceptionInput α))
    (hrun : ∃ inp ∈ inputs, inp.Runs = true) :
    ∃ d, UpdateRun NewTargetData inputs TargetData = some d ∧
      0 ≤ d.Awareness ∧ d.Awareness ≤ 1 := by
  induction inputs generalizing TargetData with
  | nil =>
    obtain ⟨inp, hmem, _⟩ := hrun
    exact absurd hmem (List.not_mem_nil _)
  | cons inp l ih =>
    by_cases hr : inp.Runs = true
    · obtain ⟨d1, h1, h1'⟩ := UpdateTargetData_runs NewTargetData inp TargetData hr
      obtain ⟨d2, h2, h2'⟩ := UpdateRun_keeps NewTargetData l d1 h1'
      refine ⟨d2, ?_, h2'⟩
      unfold UpdateRun at h2 ⊢
      rw [List.foldl_cons, h1]
      exact h2
    · obtain ⟨x, hx, hxr⟩ := hrun
      rcases List.mem_cons.mp hx with e | hmem
      · subst e; exact absurd hxr hr
      · obtain ⟨d, hd, hd'⟩ := ih (UpdateTargetData NewTargetData inp TargetData)
          ⟨x, hmem, hxr⟩
        refine ⟨d, ?_, hd'⟩
        unfold UpdateRun at hd ⊢
        rw [List.foldl_cons]
        exact hd

end AwarenessTheorems

section AwarenessWitnesses

/-- Witness for C15: one visible tick of 3 seconds from an initial awareness of 5. -/
theorem UpdateTargetData_awareness_in_unit_interval_witness :
    (∃ inp ∈ [exInput], inp.Runs = true) ∧
    ∃ d, UpdateRun (⟨false, 0⟩ : FTargetData ℚ) [exInput] (some ⟨false, 5⟩) = some d ∧
      0 ≤ d.Awareness ∧ d.Awareness ≤ 1 :=
  ⟨⟨exInput, List.mem_singleton.mpr rfl, rfl⟩,
    UpdateTargetData_awareness_in_unit_interval ⟨false, 0⟩ (some ⟨false, 5⟩) [exInput]
      ⟨exInput, List.mem_singleton.mpr rfl, rfl⟩⟩

end AwarenessWitnesses

section ClassificationTheorems

variable {α P : Type} [LinearOrderedField α] [AddCommGroup P] [Module α P]

/-- The classification after one tick, from the perceivers' awareness and the state
before. -/
theorem TickComponent_State (Grid : Option (AGAGridActor α P))
    (Observers : List (FPerceiver α)) (OwnerLocation : P)
    (st : FTargetCache P × FGAGridMap α) :
    (TickComponent Grid Observers OwnerLocation st).1.State =
      if IsImmediate Observers = true then ETargetState.GATS_Immediate
      else if st.1.IsKnown = true then ETargetState.GATS_Hidden
      else st.1.State := by
  by_cases hi : IsImmediate Observers = true
  · simp [TickComponent, hi, FTargetCache.IsKnown]
  · by_cases hk : st.1.State = ETargetState.GATS_Unknown
    · simp [TickComponent, hi, hk, FTargetCache.IsKnown]
    · simp [TickComponent, hi, hk, FTargetCache.IsKnown]

theorem TickRun_IsKnown (Grid : Option (AGAGridActor α P))
    (ticks : List (List (FPerceiver α) × P)) :
    ∀ st : FTargetCache P × FGAGridMap α,
      (TickRun Grid ticks st).1.IsKnown =
        (st.1.IsKnown || ticks.any (fun u => IsImmediate u.1)) := by
  induction ticks with
  | nil => intro st; simp [TickRun]
  | cons t l ih =>
    intro st
    have h := ih (TickComponent Grid t.1 t.2 st)
    unfold TickRun at h ⊢
    rw [List.foldl_cons, h, List.any_cons]
    have hs := TickComponent_State Grid t.1 t.2 st
    have hk : (TickComponent Grid t.1 t.2 st).1.IsKnown =
        (st.1.IsKnown || IsImmediate t.1) := by
      unfold FTargetCache.IsKnown at hs ⊢
      rw [hs]
      by_cases hi : IsImmediate t.1 = true
      · simp [hi]
      · by_cases hk : st.1.State = ETargetState.GATS_Unknown
        · simp [hi, hk]
        · simp [hi, hk]
    rw [hk, Bool.or_assoc]

/-- C16: after every tick of a target that starts `Unknown`, its classification is
`Immediate` if and only if some perception component's awareness of it is at least 1 at
that tick; otherwise it is `Hidden` if and only if some earlier tick was immediate;
otherwise it is `Unknown`. -/
theorem TickComponent_classification (Grid : Option (AGAGridActor α P))
    (ticks : List (List (FPerceiver α) × P)) (t : List (FPerceiver α) × P) (Position : P)
    (OccupancyMap : FGAGridMap α) :
    (TickRun Grid (ticks ++ [t]) (⟨ETargetState.GATS_Unknown, Position⟩, OccupancyMap)).1.State =
      if IsImmediate t.1 = true then ETargetState.GATS_Immediate
      else if ticks.any (fun u => IsImmediate u.1) = true then ETargetState.GATS_Hidden
      else ETargetState.GATS_Unknown := by
  have hk := TickRun_IsKnown Grid ticks (⟨ETargetState.GATS_Unknown, Position⟩, OccupancyMap)
  have hrun : TickRun Grid (ticks ++ [t])
      (⟨ETargetState.GATS_Unknown, Position⟩, OccupancyMap) =
      TickComponent Grid t.1 t.2
        (TickRun Grid ticks (⟨ETargetState.GATS_Unknown, Position⟩, OccupancyMap)) := by
    unfold TickRun
    rw [List.foldl_append]
    rfl
  rw [hrun, TickComponent_State, hk]
  by_cases hi : IsImmediate t.1 = true
  · simp [hi]
  · by_cases ha : ticks.any (fun u => IsImmediate u.1) = true
    · simp [hi, ha]
    · have hu : (TickRun Grid ticks
          (⟨ETargetState.GATS_Unknown, Position⟩, OccupancyMap)).1.State =
          ETargetState.GATS_Unknown := by
        have : (TickRun Grid ticks
            (⟨ETargetState.GATS_Unknown, Position⟩, OccupancyMap)).1.IsKnown = false := by
          rw [hk]; simp [FTargetCache.IsKnown, ha]
        unfold FTargetCache.IsKnown at this
        simpa using this
      simp [hi, ha, FTargetCache.IsKnown, hu]

end ClassificationTheorems

section BoundsLemmas

variable {β : Type}

theorem FGAGridMap.mem_BoundsCells (m : FGAGridMap β) (c : FCellRef) :
    c ∈ m.BoundsCells ↔ m.MinX ≤ c.X ∧ c.X < m.MaxX ∧ m.MinY ≤ c.Y ∧ c.Y < m.MaxY := by
  cases c with
  | mk x y =>
    unfold FGAGridMap.BoundsCells
    simp only [List.mem_flatMap, List.mem_range, List.mem_map, FCellRef.mk.injEq,
      Int.ofNat_eq_coe]
    constructor
    · rintro ⟨j, hj, i, hi, hx, hy⟩
      subst hx; subst hy
      refine ⟨?_, ?_, ?_, ?_⟩ <;> omega
    · rintro ⟨h1, h2, h3, h4⟩
      exact ⟨(y - m.MinY).toNat, by omega, (x - m.MinX).toNat, by omega, by omega, by omega⟩

theorem FGAGridMap.nodup_BoundsCells (m : FGAGridMap β) : m.BoundsCells.Nodup := by
  unfold FGAGridMap.BoundsCells
  rw [List.nodup_flatMap]
  constructor
  · intro j _
    refine @List.Nodup.map _ _ (List.range (m.MaxX - m.MinX).toNat)
      (fun i : Nat => FCellRef.mk (m.MinX + Int.ofNat i) (m.MinY + Int.ofNat j)) ?_
      (List.nodup_range _)
    intro a b hab
    simp only [FCellRef.mk.injEq, Int.ofNat_eq_coe, and_true] at hab
    omega
  · refine List.Pairwise.imp_of_mem ?_ (List.nodup_range (m.MaxY - m.MinY).toNat)
    intro a b _ _ hab
    simp only [Function.onFun]
    intro c hca hcb
    rw [List.mem_map] at hca hcb
    obtain ⟨i1, _, h1⟩ := hca
    obtain ⟨i2, _, h2⟩ := hcb
    rw [← h2] at h1
    simp only [FCellRef.mk.injEq, Int.ofNat_eq_coe] at h1
    omega

/-- Every cell the bounds loops visit lies inside the window. -/
theorem FGAGridMap.InWindow_of_mem_BoundsCells (m : FGAGridMap β) (c : FCellRef)
    (h : c ∈ m.BoundsCells) : m.InWindow c = true := by
  rw [FGAGridMap.mem_BoundsCells] at h
  unfold FGAGridMap.InWindow
  simp only [Bool.and_eq_true, decide_eq_true_eq]
  refine ⟨⟨⟨?_, ?_⟩, ?_⟩, ?_⟩ <;> omega

theorem FGAGridMap.BoundsCells_SetValue (m : FGAGridMap β) (c : FCellRef) (v : β) :
    (m.SetValue c v).BoundsCells = m.BoundsCells := by
  unfold FGAGridMap.SetValue
  split <;> rfl

/-- A loop whose body writes one cell keeps the bounds the loops scan. -/
theorem foldl_BoundsCells (g : FCellRef → β → β)
    (body : FGAGridMap β → FCellRef → FGAGridMap β)
    (hbody : ∀ m c, body m c = m.SetValue c (g c (m.Data c)))
    (l : List FCellRef) (m : FGAGridMap β) :
    (l.foldl body m).BoundsCells = m.BoundsCells := by
  induction l generalizing m with
  | nil => rfl
  | cons a l ih => rw [List.foldl_cons, ih, hbody, FGAGridMap.BoundsCells_SetValue]

end BoundsLemmas

section LayerTheorems

variable {α P : Type} [LinearOrderedRing α]

/-- The input switch returns from the function only in the line-of-sight case, with a
target and without a world. -/
theorem LayerInput_ne_none (FLT_MAX : α) (G : AGAGridActor α P) (Target : Option P)
    (World : Option (P → P → Bool)) (DistanceMap : FGAGridMap (WithTop α))
    (Layer : FFunctionLayer α)
    (hworld : Layer.Input = ESpatialInput.SI_LOS → Target.isSome = true →
      World.isSome = true) (c : FCellRef) :
    ∃ x, LayerInput FLT_MAX G Target World DistanceMap Layer c = some x := by
  unfold LayerInput
  cases hI : Layer.Input with
  | SI_None => exact ⟨_, rfl⟩
  | SI_TargetRange => cases Target <;> exact ⟨_, rfl⟩
  | SI_PathDistance =>
    simp only
    cases DistanceMap.GetValue c with
    | none => exact ⟨_, rfl⟩
    | some d => simp only; split <;> exact ⟨_, rfl⟩
  | SI_LOS =>
    cases hT : Target with
    | none => exact ⟨_, rfl⟩
    | some t =>
      cases hW : World with
      | none =>
        have := hworld hI (by rw [hT]; rfl)
        rw [hW] at this
        exact Bool.noConfusion this
      | some w => exact ⟨_, rfl⟩

/-- The body of the cell loop of `EvaluateLayer` rewrites the visited cell from its own old
value. -/
theorem EvaluateCell_eq (FLT_MAX : α) (G : AGAGridActor α P) (Target : Option P)
    (World : Option (P → P → Bool)) (DistanceMap : FGAGridMap (WithTop α))
    (Layer : FFunctionLayer α)
    (hworld : Layer.Input = ESpatialInput.SI_LOS → Target.isSome = true →
      World.isSome = true) (m : FGAGridMap α) (c : FCellRef) :
    EvaluateCell FLT_MAX G Target World DistanceMap Layer m c =
      some (m.SetValue c ((fun c v => if G.Traversable c = true then
        LayerCombine Layer.Op v (LayerValue FLT_MAX G Target World DistanceMap Layer c)
        else v) c (m.Data c))) := by
  obtain ⟨x, hx⟩ := LayerInput_ne_none FLT_MAX G Target World DistanceMap Layer hworld c
  unfold EvaluateCell LayerValue
  by_cases ht : G.Traversable c = true
  · simp only [ht, if_true, hx, Option.getD_some]
    by_cases hw : m.InWindow c = true
    · rw [FGAGridMap.GetValue_of_InWindow m c hw, Option.getD_some]
    · unfold FGAGridMap.SetValue
      simp [hw]
  · simp only [ht, Bool.false_eq_true, if_false, FGAGridMap.SetValue_self]

theorem EvaluateStep_foldl (FLT_MAX : α) (G : AGAGridActor α P) (Target : Option P)
    (World : Option (P → P → Bool)) (DistanceMap : FGAGridMap (WithTop α))
    (Layer : FFunctionLayer α)
    (hworld : Layer.Input = ESpatialInput.SI_LOS → Target.isSome = true →
      World.isSome = true) (l : List FCellRef) (m : FGAGridMap α) :
    l.foldl (EvaluateStep FLT_MAX G Target World DistanceMap Layer) (m, false) =
      (l.foldl (fun m c => m.SetValue c ((fun c v => if G.Traversable c = true then
        LayerCombine Layer.Op v (LayerValue FLT_MAX G Target World DistanceMap Layer c)
        else v) c (m.Data c))) m, false) := by
  induction l generalizing m with
  | nil => rfl
  | cons a l ih =>
    have hstep : EvaluateStep FLT_MAX G Target World DistanceMap Layer (m, false) a =
        (m.SetValue a ((fun c v => if G.Traversable c = true then
          LayerCombine Layer.Op v (LayerValue FLT_MAX G Target World DistanceMap Layer c)
          else v) a (m.Data a)), false) := by
      unfold EvaluateStep
      rw [EvaluateCell_eq FLT_MAX G Target World DistanceMap Layer hworld]
      rfl
    rw [List.foldl_cons, List.foldl_cons, hstep]
    exact ih _

/-- One layer that does not return: the scanned bounds and the window stay, and every
scanned traversable cell is combined with the layer's curve value. -/
theorem EvaluateLayer_spec (FLT_MAX : α) (G : AGAGridActor α P) (Target : Option P)
    (World : Option (P → P → Bool)) (DistanceMap : FGAGridMap (WithTop α))
    (Layer : FFunctionLayer α)
    (hworld : Layer.Input = ESpatialInput.SI_LOS → Target.isSome = true →
      World.isSome = true) (GridMap : FGAGridMap α) :
    (EvaluateLayer FLT_MAX (some G) Target World Layer GridMap DistanceMap).BoundsCells =
        GridMap.BoundsCells ∧
      (∀ c, (EvaluateLayer FLT_MAX (some G) Target World Layer GridMap DistanceMap).InWindow c =
        GridMap.InWindow c) ∧
      ∀ c, (EvaluateLayer FLT_MAX (some G) Target World Layer GridMap DistanceMap).Data c =
        if c ∈ GridMap.BoundsCells ∧ G.Traversable c = true then
          LayerCombine Layer.Op (GridMap.Data c)
            (LayerValue FLT_MAX G Target World DistanceMap Layer c)
        else GridMap.Data c := by
  have heq : EvaluateLayer FLT_MAX (some G) Target World Layer GridMap DistanceMap =
      GridMap.BoundsCells.foldl (fun m c => m.SetValue c ((fun c v =>
        if G.Traversable c = true then
          LayerCombine Layer.Op v (LayerValue FLT_MAX G Target World DistanceMap Layer c)
        else v) c (m.Data c))) GridMap := by
    unfold EvaluateLayer
    simp only
    rw [EvaluateStep_foldl FLT_MAX G Target World DistanceMap Layer hworld]
  obtain ⟨h1, h2⟩ := foldl_pointwise (fun c v => if G.Traversable c = true then
      LayerCombine Layer.Op v (LayerValue FLT_MAX G Target World DistanceMap Layer c)
      else v)
    (fun m c => m.SetValue c ((fun c v => if G.Traversable c = true then
      LayerCombine Layer.Op v (LayerValue FLT_MAX G Target World DistanceMap Layer c)
      else v) c (m.Data c)))
    (fun _ _ => rfl) GridMap.BoundsCells GridMap.nodup_BoundsCells GridMap
  have h0 := foldl_BoundsCells (fun c v => if G.Traversable c = true then
      LayerCombine Layer.Op v (LayerValue FLT_MAX G Target World DistanceMap Layer c)
      else v)
    (fun m c => m.SetValue c ((fun c v => if G.Traversable c = true then
      LayerCombine Layer.Op v (LayerValue FLT_MAX G Target World DistanceMap Layer c)
      else v) c (m.Data c)))
    (fun _ _ => rfl) GridMap.BoundsCells GridMap
  rw [heq]
  refine ⟨h0, h1, fun c => ?_⟩
  rw [h2]
  by_cases hc : c ∈ GridMap.BoundsCells
  · by_cases ht : G.Traversable c = true
    · simp [hc, ht, GridMap.InWindow_of_mem_BoundsCells c hc]
    · simp [hc, ht]
  · simp [hc]

/-- All layers, none of which returns: every scanned traversable cell holds the fold of the
layers' combine steps over its initial value; every other cell keeps its value. -/
theorem EvaluateLayers_spec (FLT_MAX : α) (G : AGAGridActor α P) (Target : Option P)
    (World : Option (P → P → Bool)) (DistanceMap : FGAGridMap (WithTop α))
    (Layers : List (FFunctionLayer α))
    (hworld : ∀ L ∈ Layers, L.Input = ESpatialInput.SI_LOS → Target.isSome = true →
      World.isSome = true) :
    ∀ GridMap : FGAGridMap α,
      (EvaluateLayers FLT_MAX (some G) Target World Layers GridMap DistanceMap).BoundsCells =
          GridMap.BoundsCells ∧
        (∀ c, (EvaluateLayers FLT_MAX (some G) Target World Layers GridMap
            DistanceMap).InWindow c = GridMap.InWindow c) ∧
        ∀ c, (EvaluateLayers FLT_MAX (some G) Target World Layers GridMap DistanceMap).Data c =
          if c ∈ GridMap.BoundsCells ∧ G.Traversable c = true then
            Layers.foldl (fun acc L => LayerCombine L.Op acc
              (LayerValue FLT_MAX G Target World DistanceMap L c)) (GridMap.Data c)
          else GridMap.Data c := by
  induction Layers with
  | nil =>
    intro GridMap
    refine ⟨rfl, fun _ => rfl, fun c => ?_⟩
    unfold EvaluateLayers
    simp
  | cons L Ls ih =>
    intro GridMap
    obtain ⟨a1, a2, a3⟩ := EvaluateLayer_spec FLT_MAX G Target World DistanceMap L
      (hworld L (List.mem_cons_self _ _)) GridMap
    obtain ⟨b1, b2, b3⟩ := ih (fun L' hL' => hworld L' (List.mem_cons_of_mem _ hL'))
      (EvaluateLayer FLT_MAX (some G) Target World L GridMap DistanceMap)
    have hunf : EvaluateLayers FLT_MAX (some G) Target World (L :: Ls) GridMap DistanceMap =
        EvaluateLayers FLT_MAX (some G) Target World Ls
          (EvaluateLayer FLT_MAX (some G) Target World L GridMap DistanceMap) DistanceMap := by
      unfold EvaluateLayers
      rw [List.foldl_cons]
    rw [hunf]
    refine ⟨b1.trans a1, fun c => (b2 c).trans (a2 c), fun c => ?_⟩
    rw [b3, a1, a3, List.foldl_cons]
    by_cases hc : c ∈ GridMap.BoundsCells ∧ G.Traversable c = true
    · simp only [if_pos hc]
    · simp only [if_neg hc]

theorem foldl_LayerCombine (f : FFunctionLayer α → α) (Layers : List (FFunctionLayer α))
    (hops : ∀ L ∈ Layers, L.Op = ESpatialOp.SO_Add ∨ L.Op = ESpatialOp.SO_Multiply) :
    ∀ a : α, Layers.foldl (fun acc L => LayerCombine L.Op acc (f L)) a =
      Layers.foldl (fun acc L =>
        if L.Op = ESpatialOp.SO_Add then acc + f L else acc * f L) a := by
  induction Layers with
  | nil => intro a; rfl
  | cons L Ls ih =>
    intro a
    rw [List.foldl_cons, List.foldl_cons,
      ih (fun L' hL' => hops L' (List.mem_cons_of_mem _ hL'))]
    rcases hops L (List.mem_cons_self _ _) with h | h
    · simp [LayerCombine, h]
    · simp [LayerCombine, h]

/-- C19: for a layer list whose operators are Add or Multiply (and none of whose layers
returns early for want of a world), after the layer loop of `ChoosePosition` every
traversable cell the loops scan (`MinX ≤ X < MaxX`, `MinY ≤ Y < MaxY`) holds the
left-to-right fold, from accumulator 0, of `acc + curve(input)` for Add layers and
`acc · curve(input)` for Multiply layers; every other cell holds 0. -/
theorem EvaluateLayers_accumulates (FLT_MAX : α) (G : AGAGridActor α P) (Target : Option P)
    (World : Option (P → P → Bool)) (DistanceMap : FGAGridMap (WithTop α))
    (Layers : List (FFunctionLayer α)) (GridBox : FGridBox)
    (hops : ∀ L ∈ Layers, L.Op = ESpatialOp.SO_Add ∨ L.Op = ESpatialOp.SO_Multiply)
    (hworld : ∀ L ∈ Layers, L.Input = ESpatialInput.SI_LOS → Target.isSome = true →
      World.isSome = true) (c : FCellRef) :
    (EvaluateLayers FLT_MAX (some G) Target World Layers (FGAGridMap.ofBox GridBox 0)
        DistanceMap).Data c =
      if (GridBox.MinX ≤ c.X ∧ c.X < GridBox.MaxX ∧ GridBox.MinY ≤ c.Y ∧
          c.Y < GridBox.MaxY) ∧ G.Traversable c = true then
        Layers.foldl (fun acc L =>
          if L.Op = ESpatialOp.SO_Add then
            acc + LayerValue FLT_MAX G Target World DistanceMap L c
          else acc * LayerValue FLT_MAX G Target World DistanceMap L c) 0
      else 0 := by
  rw [(EvaluateLayers_spec FLT_MAX G Target World DistanceMap Layers hworld
    (FGAGridMap.ofBox GridBox 0)).2.2 c]
  have hm := FGAGridMap.mem_BoundsCells (FGAGridMap.ofBox GridBox (0 : α)) c
  by_cases hc : (GridBox.MinX ≤ c.X ∧ c.X < GridBox.MaxX ∧ GridBox.MinY ≤ c.Y ∧
      c.Y < GridBox.MaxY) ∧ G.Traversable c = true
  · rw [if_pos hc, if_pos ⟨hm.mpr hc.1, hc.2⟩,
      foldl_LayerCombine (fun L => LayerValue FLT_MAX G Target World DistanceMap L c) Layers
        hops]
    rfl
  · rw [if_neg hc, if_neg (fun h => hc ⟨hm.mp h.1, h.2⟩)]
    rfl

end LayerTheorems

section FrameLemmas

variable {α P : Type} [LinearOrderedRing α]

omit [LinearOrderedRing α] in
theorem FGAGridMap.SameBounds_SetValue (m : FGAGridMap α) (c : FCellRef) (v : α) :
    m.SameBounds (m.SetValue c v) := by
  unfold FGAGridMap.SetValue FGAGridMap.SameBounds
  split <;> exact ⟨rfl, rfl, rfl, rfl⟩

omit [LinearOrderedRing α] in
theorem FGAGridMap.SameBounds_trans {m1 m2 m3 : FGAGridMap α} (h1 : m1.SameBounds m2)
    (h2 : m2.SameBounds m3) : m1.SameBounds m3 :=
  ⟨h2.1.trans h1.1, h2.2.1.trans h1.2.1, h2.2.2.1.trans h1.2.2.1, h2.2.2.2.trans h1.2.2.2⟩

omit [LinearOrderedRing α] in
theorem FGAGridMap.SameBounds_BoundsCells {m m' : FGAGridMap α} (h : m.SameBounds m') :
    m'.BoundsCells = m.BoundsCells := by
  unfold FGAGridMap.BoundsCells
  rw [h.1, h.2.1, h.2.2.1, h.2.2.2]

omit [LinearOrderedRing α] in
theorem FGAGridMap.SameBounds_InWindow {m m' : FGAGridMap α} (h : m.SameBounds m')
    (c : FCellRef) : m'.InWindow c = m.InWindow c := by
  unfold FGAGridMap.InWindow
  rw [h.1, h.2.1, h.2.2.1, h.2.2.2]

theorem EvaluateStep_foldl_SameBounds (FLT_MAX : α) (G : AGAGridActor α P)
    (Target : Option P) (World : Option (P → P → Bool))
    (DistanceMap : FGAGridMap (WithTop α)) (Layer : FFunctionLayer α) (m : FGAGridMap α)
    (l : List FCellRef) :
    ∀ st : FGAGridMap α × Bool, m.SameBounds st.1 →
      m.SameBounds
        (l.foldl (EvaluateStep FLT_MAX G Target World DistanceMap Layer) st).1 := by
  induction l with
  | nil => intro st h; exact h
  | cons a l ih =>
    intro st h
    rw [List.foldl_cons]
    apply ih
    unfold EvaluateStep
    by_cases hf : st.2 = true
    · rw [if_pos hf]; exact h
    · rw [if_neg hf]
      unfold EvaluateCell
      by_cases ht : G.Traversable a = true
      · rw [if_pos ht]
        cases LayerInput FLT_MAX G Target World DistanceMap Layer a with
        | none => exact h
        | some x => exact FGAGridMap.SameBounds_trans h (FGAGridMap.SameBounds_SetValue _ _ _)
      · rw [if_neg ht]; exact h

/-- The layer loop keeps the bounds of the grid map, whatever the layers do. -/
theorem EvaluateLayers_SameBounds (FLT_MAX : α) (G : AGAGridActor α P) (Target : Option P)
    (World : Option (P → P → Bool)) (DistanceMap : FGAGridMap (WithTop α))
    (Layers : List (FFunctionLayer α)) :
    ∀ GridMap : FGAGridMap α, GridMap.SameBounds
      (EvaluateLayers FLT_MAX (some G) Target World Layers GridMap DistanceMap) := by
  induction Layers with
  | nil => intro GridMap; exact ⟨rfl, rfl, rfl, rfl⟩
  | cons L Ls ih =>
    intro GridMap
    have h1 : GridMap.SameBounds
        (EvaluateLayer FLT_MAX (some G) Target World L GridMap DistanceMap) :=
      EvaluateStep_foldl_SameBounds FLT_MAX G Target World DistanceMap L GridMap _
        (GridMap, false) ⟨rfl, rfl, rfl, rfl⟩
    have h2 := ih (EvaluateLayer FLT_MAX (some G) Target World L GridMap DistanceMap)
    unfold EvaluateLayers at h2 ⊢
    rw [List.foldl_cons]
    exact FGAGridMap.SameBounds_trans h1 h2

end FrameLemmas

section ChooseTheorems

variable {α P : Type} [LinearOrderedRing α]

theorem BestCellBody_eq (G : AGAGridActor α P) (GridMap : FGAGridMap α)
    (DistanceMap : FGAGridMap (WithTop α)) (st : Option FCellRef × α) (c : FCellRef) :
    BestCellBody G GridMap DistanceMap st c =
      if IsCandidate G DistanceMap c = true ∧ (GridMap.GetValue c).getD 0 < st.2 then
        (some c, (GridMap.GetValue c).getD 0)
      else st := by
  unfold BestCellBody IsCandidate
  by_cases ht : G.Traversable c = true
  · cases hd : DistanceMap.GetValue c with
    | none => simp [ht]
    | some d =>
      by_cases hlt : d < ⊤
      · simp [ht, hlt]
      · simp [ht, hlt]
  · simp [ht]

/-- A scan that keeps the first strictly smaller value ends with the first candidate of
least value, when some candidate is below the initial value. -/
theorem first_min_foldl (cand : FCellRef → Bool) (val : FCellRef → α) (l : List FCellRef) :
    ∀ (b0 : Option FCellRef) (v0 : α),
      (l.foldl (fun (st : Option FCellRef × α) c =>
          if cand c = true ∧ val c < st.2 then (some c, val c) else st) (b0, v0) = (b0, v0) ∧
        ∀ x ∈ l, cand x = true → v0 ≤ val x) ∨
      ∃ pre c post, l = pre ++ c :: post ∧
        l.foldl (fun (st : Option FCellRef × α) c =>
          if cand c = true ∧ val c < st.2 then (some c, val c) else st) (b0, v0) =
            (some c, val c) ∧
        cand c = true ∧ val c < v0 ∧
        (∀ x ∈ pre, cand x = true → val c < val x) ∧
        (∀ x ∈ post, cand x = true → val c ≤ val x) := by
  induction l with
  | nil => intro b0 v0; exact Or.inl ⟨rfl, fun x hx => absurd hx (List.not_mem_nil _)⟩
  | cons a l ih =>
    intro b0 v0
    rw [List.foldl_cons]
    by_cases ha : cand a = true ∧ val a < v0
    · simp only [ha, and_self, if_true]
      rcases ih (some a) (val a) with ⟨h1, h2⟩ | ⟨pre, c, post, hl, hr, hc, hlt, hpre, hpost⟩
      · refine Or.inr ⟨[], a, l, rfl, h1, ha.1, ha.2, ?_, h2⟩
        intro x hx; exact absurd hx (List.not_mem_nil _)
      · refine Or.inr ⟨a :: pre, c, post, by rw [hl]; rfl, hr, hc, lt_trans hlt ha.2, ?_, hpost⟩
        intro x hx hcx
        rcases List.mem_cons.mp hx with e | hmem
        · rw [e]; exact hlt
        · exact hpre x hmem hcx
    · simp only [ha, if_false]
      rcases ih b0 v0 with ⟨h1, h2⟩ | ⟨pre, c, post, hl, hr, hc, hlt, hpre, hpost⟩
      · refine Or.inl ⟨h1, ?_⟩
        intro x hx hcx
        rcases List.mem_cons.mp hx with e | hmem
        · rw [e]; rw [e] at hcx
          exact not_lt.mp (fun h => ha ⟨hcx, h⟩)
        · exact h2 x hmem hcx
      · refine Or.inr ⟨a :: pre, c, post, by rw [hl]; rfl, hr, hc, hlt, ?_, hpost⟩
        intro x hx hcx
        rcases List.mem_cons.mp hx with e | hmem
        · rw [e]; rw [e] at hcx
          exact lt_of_lt_of_le hlt (not_lt.mp (fun h => ha ⟨hcx, h⟩))
        · exact hpre x hmem hcx

omit [LinearOrderedRing α] in
/-- The bounds loops visit the cells in scan order. -/
theorem FGAGridMap.pairwise_BoundsCells {β : Type} (m : FGAGridMap β) :
    m.BoundsCells.Pairwise ScanBefore := by
  unfold FGAGridMap.BoundsCells
  rw [List.pairwise_flatMap]
  constructor
  · intro j _
    rw [List.pairwise_map]
    refine List.Pairwise.imp ?_ (List.pairwise_lt_range _)
    intro a b hab
    right
    simp only [Int.ofNat_eq_coe, true_and]
    omega
  · refine List.Pairwise.imp ?_ (List.pairwise_lt_range _)
    intro a b hab x hx y hy
    rw [List.mem_map] at hx hy
    obtain ⟨i1, _, h1⟩ := hx
    obtain ⟨i2, _, h2⟩ := hy
    left
    rw [← h1, ← h2]
    simp only [Int.ofNat_eq_coe]
    omega

omit [LinearOrderedRing α] in
/-- In a split of the scanned cells, the cells before the split point come earlier in scan
order and the cells after it later. -/
theorem FGAGridMap.BoundsCells_split {β : Type} (m : FGAGridMap β) (pre post : List FCellRef)
    (c : FCellRef) (h : m.BoundsCells = pre ++ c :: post) :
    (∀ x ∈ pre, ScanBefore x c) ∧ (∀ x ∈ post, ScanBefore c x) := by
  have hp := m.pairwise_BoundsCells
  rw [h, List.pairwise_append] at hp
  obtain ⟨_, h2, h3⟩ := hp
  exact ⟨fun x hx => h3 x hx c (List.mem_cons_self _ _), fun x hx => List.rel_of_pairwise_cons h2 hx⟩

/-- Step 3 of `ChoosePosition`: either no candidate the loops scan has a total below
`FLT_MAX` and no cell is chosen, or the chosen cell is the first scanned candidate of least
total. -/
theorem ChooseScan_spec (G : AGAGridActor α P) (GridMap : FGAGridMap α)
    (DistanceMap : FGAGridMap (WithTop α)) (FLT_MAX : α) :
    ((GridMap.BoundsCells.foldl (BestCellBody G GridMap DistanceMap) (none, FLT_MAX)).1 = none ∧
        ∀ x ∈ GridMap.BoundsCells, IsCandidate G DistanceMap x = true →
          FLT_MAX ≤ GridMap.Data x) ∨
      ∃ pre c post, GridMap.BoundsCells = pre ++ c :: post ∧
        (GridMap.BoundsCells.foldl (BestCellBody G GridMap DistanceMap) (none, FLT_MAX)).1 =
          some c ∧
        IsCandidate G DistanceMap c = true ∧ GridMap.Data c < FLT_MAX ∧
        (∀ x ∈ pre, IsCandidate G DistanceMap x = true → GridMap.Data c < GridMap.Data x) ∧
        (∀ x ∈ post, IsCandidate G DistanceMap x = true →
          GridMap.Data c ≤ GridMap.Data x) := by
  have hfun : BestCellBody G GridMap DistanceMap =
      fun (st : Option FCellRef × α) c =>
        if IsCandidate G DistanceMap c = true ∧ (GridMap.GetValue c).getD 0 < st.2 then
          (some c, (GridMap.GetValue c).getD 0)
        else st :=
    funext (fun st => funext (fun c => BestCellBody_eq G GridMap DistanceMap st c))
  have hval : ∀ x ∈ GridMap.BoundsCells, (GridMap.GetValue x).getD 0 = GridMap.Data x := by
    intro x hx
    rw [FGAGridMap.GetValue_of_InWindow _ _ (GridMap.InWindow_of_mem_BoundsCells x hx),
      Option.getD_some]
  rw [hfun]
  rcases first_min_foldl (IsCandidate G DistanceMap) (fun c => (GridMap.GetValue c).getD 0)
    GridMap.BoundsCells none FLT_MAX with ⟨h1, h2⟩ | ⟨pre, c, post, hl, hr, hc, hlt, hpre, hpost⟩
  · left
    refine ⟨by rw [h1], fun x hx hcx => ?_⟩
    rw [← hval x hx]
    exact h2 x hx hcx
  · right
    have hmem : ∀ x, x ∈ pre ∨ x = c ∨ x ∈ post → x ∈ GridMap.BoundsCells := by
      intro x hx
      rw [hl, List.mem_append, List.mem_cons]
      exact hx
    have hvc := hval c (hmem c (Or.inr (Or.inl rfl)))
    refine ⟨pre, c, post, hl, by rw [hr], hc, by rw [← hvc]; exact hlt, ?_, ?_⟩
    · intro x hx hcx
      rw [← hvc, ← hval x (hmem x (Or.inl hx))]
      exact hpre x hx hcx
    · intro x hx hcx
      rw [← hvc, ← hval x (hmem x (Or.inr (Or.inr hx)))]
      exact hpost x hx hcx

/-- The function `ChoosePosition` after a successful Dijkstra call, in terms of the scan of step 3. -/
theorem ChoosePosition_eq (fuel : Nat) (FLT_MAX : α) (Layers : List (FFunctionLayer α))
    (G : AGAGridActor α P) (GridBox : FGridBox) (Target : Option P)
    (World : Option (P → P → Bool)) (PawnLocation : P) (D : FGAGridMap (WithTop α))
    (hD : Dijkstra fuel (some G) PawnLocation (FGAGridMap.ofBox GridBox ⊤) = some (true, D)) :
    ChoosePosition fuel FLT_MAX (some Layers) (some G) (some GridBox) true Target World
        PawnLocation =
      match ((EvaluateLayers FLT_MAX (some G) Target World Layers
          (FGAGridMap.ofBox GridBox 0) D).BoundsCells.foldl
          (BestCellBody G (EvaluateLayers FLT_MAX (some G) Target World Layers
            (FGAGridMap.ofBox GridBox 0) D) D) (none, FLT_MAX)).1 with
      | none => some (false, none)
      | some BestCell =>
        if !G.IsValid BestCell then some (false, some BestCell)
        else some (true, some BestCell) := by
  unfold ChoosePosition
  simp only [Bool.not_true, Bool.false_eq_true, if_false, hD]

/-- C17: whenever `ChoosePosition` returns true, the chosen cell is one of the cells the
loops scan (`MinX ≤ X < MaxX`, `MinY ≤ Y < MaxY`), it is traversable with a distance below
`FLT_MAX` in the field Dijkstra produced, its accumulated total is at most that of every
such cell, and every other such cell with the same total comes later in scan order (rows by
increasing `Y`, within a row by increasing `X`). -/
theorem ChoosePosition_chooses_first_minimum (fuel : Nat) (FLT_MAX : α)
    (SpatialFunction : Option (List (FFunctionLayer α))) (Grid : Option (AGAGridActor α P))
    (CellRect : Option FGridBox) (HasPathComponent : Bool) (Target : Option P)
    (World : Option (P → P → Bool)) (PawnLocation : P) (best : Option FCellRef)
    (h : ChoosePosition fuel FLT_MAX SpatialFunction Grid CellRect HasPathComponent Target
      World PawnLocation = some (true, best)) :
    ∃ Layers G GridBox DistanceMap BestCell,
      SpatialFunction = some Layers ∧ Grid = some G ∧ CellRect = some GridBox ∧
      best = some BestCell ∧
      Dijkstra fuel (some G) PawnLocation (FGAGridMap.ofBox GridBox ⊤) =
        some (true, DistanceMap) ∧
      (GridBox.MinX ≤ BestCell.X ∧ BestCell.X < GridBox.MaxX ∧ GridBox.MinY ≤ BestCell.Y ∧
        BestCell.Y < GridBox.MaxY) ∧
      IsCandidate G DistanceMap BestCell = true ∧
      ∀ x, (GridBox.MinX ≤ x.X ∧ x.X < GridBox.MaxX ∧ GridBox.MinY ≤ x.Y ∧
          x.Y < GridBox.MaxY) → IsCandidate G DistanceMap x = true →
        (EvaluateLayers FLT_MAX (some G) Target World Layers (FGAGridMap.ofBox GridBox 0)
            DistanceMap).Data BestCell ≤
          (EvaluateLayers FLT_MAX (some G) Target World Layers (FGAGridMap.ofBox GridBox 0)
            DistanceMap).Data x ∧
        ((EvaluateLayers FLT_MAX (some G) Target World Layers (FGAGridMap.ofBox GridBox 0)
            DistanceMap).Data x =
          (EvaluateLayers FLT_MAX (some G) Target World Layers (FGAGridMap.ofBox GridBox 0)
            DistanceMap).Data BestCell → x = BestCell ∨ ScanBefore BestCell x) := by
  cases SpatialFunction with
  | none => simp [ChoosePosition] at h
  | some Layers =>
    cases Grid with
    | none => simp [ChoosePosition] at h
    | some G =>
      cases CellRect with
      | none => simp [ChoosePosition] at h
      | some GridBox =>
        cases HasPathComponent with
        | false => simp [ChoosePosition] at h
        | true =>
          cases hD : Dijkstra fuel (some G) PawnLocation (FGAGridMap.ofBox GridBox ⊤) with
          | none => simp [ChoosePosition, hD] at h
          | some r =>
            obtain ⟨b, D⟩ := r
            cases b with
            | false => simp [ChoosePosition, hD] at h
            | true =>
              rw [ChoosePosition_eq fuel FLT_MAX Layers G GridBox Target World PawnLocation D
                hD] at h
              have hb := FGAGridMap.SameBounds_BoundsCells
                (EvaluateLayers_SameBounds FLT_MAX G Target World D Layers
                  (FGAGridMap.ofBox GridBox 0))
              have hm := fun c =>
                FGAGridMap.mem_BoundsCells (FGAGridMap.ofBox GridBox (0 : α)) c
              rcases ChooseScan_spec G (EvaluateLayers FLT_MAX (some G) Target World Layers
                (FGAGridMap.ofBox GridBox 0) D) D FLT_MAX with
                ⟨h1, _⟩ | ⟨pre, c, post, hl, hr, hc, _, hpre, hpost⟩
              · rw [h1] at h
                simp at h
              · rw [hr] at h
                simp only at h
                by_cases hv : G.IsValid c = true
                · simp only [hv, Bool.not_true, Bool.false_eq_true, if_false,
                    Option.some.injEq, Prod.mk.injEq, true_and] at h
                  rw [hb] at hl
                  obtain ⟨_, hafter⟩ := FGAGridMap.BoundsCells_split _ pre post c hl
                  have hcmem : c ∈ (FGAGridMap.ofBox GridBox (0 : α)).BoundsCells := by
                    rw [hl]; simp
                  refine ⟨Layers, G, GridBox, D, c, rfl, rfl, rfl, h.symm, hD,
                    (hm c).mp hcmem, hc, ?_⟩
                  intro x hx hcx
                  have hxmem := (hm x).mpr hx
                  rw [hl, List.mem_append, List.mem_cons] at hxmem
                  rcases hxmem with hxp | hxc | hxq
                  · have hlt := hpre x hxp hcx
                    exact ⟨le_of_lt hlt, fun e => absurd e (ne_of_gt hlt)⟩
                  · rw [hxc]
                    exact ⟨le_refl _, fun _ => Or.inl rfl⟩
                  · exact ⟨hpost x hxq hcx, fun _ => Or.inr (hafter x hxq)⟩
                · simp [hv] at h

omit [LinearOrderedRing α] in
/-- The window of a map has at most width times height cells. -/
theorem FGAGridMap.card_WindowCells_le {β : Type} (m : FGAGridMap β) :
    m.WindowCells.card ≤ (m.MaxX + 1 - m.MinX).toNat * (m.MaxY + 1 - m.MinY).toNat := by
  unfold FGAGridMap.WindowCells
  refine le_trans Finset.card_image_le ?_
  rw [Finset.card_product, Int.card_Icc, Int.card_Icc]

theorem IsCandidate_Traversable (G : AGAGridActor α P) (DistanceMap : FGAGridMap (WithTop α))
    (c : FCellRef) (h : IsCandidate G DistanceMap c = true) : G.Traversable c = true := by
  unfold IsCandidate at h
  rw [Bool.and_eq_true] at h
  exact h.1

/-- C18, amended: with a scoring function, a grid, a cell rectangle and a path component,
on a grid with non-negative distances whose traversable cells are valid, and with four
rounds of Dijkstra fuel per cell of the window and five more, `ChoosePosition` returns; it
returns true if and only if Dijkstra succeeds from the pawn's location and some cell the
loops scan is traversable, has a distance below `FLT_MAX` in Dijkstra's field and an
accumulated total strictly below `FLT_MAX`. -/
theorem ChoosePosition_true_iff (fuel : Nat) (FLT_MAX : α) (Layers : List (FFunctionLayer α))
    (G : AGAGridActor α P) (GridBox : FGridBox) (Target : Option P)
    (World : Option (P → P → Bool)) (PawnLocation : P)
    (hnn : ∀ p q, 0 ≤ G.Dist p q)
    (hfuel : 4 * ((GridBox.MaxX + 1 - GridBox.MinX).toNat *
      (GridBox.MaxY + 1 - GridBox.MinY).toNat) + 5 ≤ fuel)
    (htrav : ∀ c, G.Traversable c = true → G.IsValid c = true) :
    ∃ r best, ChoosePosition fuel FLT_MAX (some Layers) (some G) (some GridBox) true Target
        World PawnLocation = some (r, best) ∧
      (r = true ↔
        ∃ DistanceMap, Dijkstra fuel (some G) PawnLocation (FGAGridMap.ofBox GridBox ⊤) =
            some (true, DistanceMap) ∧
          ∃ c, (GridBox.MinX ≤ c.X ∧ c.X < GridBox.MaxX ∧ GridBox.MinY ≤ c.Y ∧
              c.Y < GridBox.MaxY) ∧
            IsCandidate G DistanceMap c = true ∧
            (EvaluateLayers FLT_MAX (some G) Target World Layers (FGAGridMap.ofBox GridBox 0)
              DistanceMap).Data c < FLT_MAX) := by
  have hcard := FGAGridMap.card_WindowCells_le (FGAGridMap.ofBox GridBox (⊤ : WithTop α))
  have hfuel' : 4 * (FGAGridMap.ofBox GridBox (⊤ : WithTop α)).WindowCells.card + 5 ≤ fuel :=
    le_trans (Nat.add_le_add_right (Nat.mul_le_mul_left 4 hcard) 5) hfuel
  obtain ⟨r0, hr0⟩ := Dijkstra_terminates (some G)
    (fun G' hG' => by cases hG'; exact hnn) fuel PawnLocation
    (FGAGridMap.ofBox GridBox ⊤) hfuel'
  obtain ⟨b, D⟩ := r0
  cases b with
  | false =>
    refine ⟨false, none, by simp [ChoosePosition, hr0], ?_⟩
    constructor
    · intro h; exact Bool.noConfusion h
    · rintro ⟨D', hD', _⟩
      rw [hr0] at hD'
      simp at hD'
  | true =>
    rw [ChoosePosition_eq fuel FLT_MAX Layers G GridBox Target World PawnLocation D hr0]
    have hb := FGAGridMap.SameBounds_BoundsCells
      (EvaluateLayers_SameBounds FLT_MAX G Target World D Layers
        (FGAGridMap.ofBox GridBox 0))
    have hm := fun c => FGAGridMap.mem_BoundsCells (FGAGridMap.ofBox GridBox (0 : α)) c
    rcases ChooseScan_spec G (EvaluateLayers FLT_MAX (some G) Target World Layers
      (FGAGridMap.ofBox GridBox 0) D) D FLT_MAX with
      ⟨h1, h2⟩ | ⟨pre, c, post, hl, hr, hc, hlt, _, _⟩
    · refine ⟨false, none, by rw [h1], ?_⟩
      constructor
      · intro h; exact Bool.noConfusion h
      · rintro ⟨D', hD', c, hbox, hcand, hlt⟩
        rw [hr0] at hD'
        simp only [Option.some.injEq, Prod.mk.injEq, true_and] at hD'
        subst hD'
        have hmem : c ∈ (EvaluateLayers FLT_MAX (some G) Target World Layers
            (FGAGridMap.ofBox GridBox 0) D).BoundsCells := by
          rw [hb]; exact (hm c).mpr hbox
        exact absurd hlt (not_lt.mpr (h2 c hmem hcand))
    · have hv : G.IsValid c = true := htrav c (IsCandidate_Traversable G D c hc)
      refine ⟨true, some c, by rw [hr]; simp [hv], ?_⟩
      constructor
      · intro _
        have hmem : c ∈ (FGAGridMap.ofBox GridBox (0 : α)).BoundsCells := by
          rw [← hb, hl]; simp
        exact ⟨D, hr0, c, (hm c).mp hmem, hc, hlt⟩
      · intro _; rfl

end ChooseTheorems

section ChooseWitnesses

theorem exGridS_valid (c : FCellRef) (h : exGridS.Traversable c = true) :
    exGridS.IsValid c = true := by
  unfold exGridS at h
  unfold AGAGridActor.IsValid exGridS
  simp only [decide_eq_true_eq, Bool.and_eq_true] at h ⊢
  refine ⟨⟨⟨?_, ?_⟩, ?_⟩, ?_⟩ <;> omega

/-- Witness for C17: with the layer `exPathLayer` the cells `(2, 0)` and `(0, 2)` share the
least total 0, and the first of them in scan order is chosen. -/
theorem ChoosePosition_chooses_first_minimum_witness :
    ChoosePosition 69 (1000 : Int) (some [exPathLayer]) (some exGridS) (some exBoxS) true
        none none ((0 : Int), (0 : Int)) = some (true, some ⟨2, 0⟩) ∧
    ∃ Layers G GridBox DistanceMap BestCell,
      some [exPathLayer] = some Layers ∧ some exGridS = some G ∧ some exBoxS = some GridBox ∧
      some (⟨2, 0⟩ : FCellRef) = some BestCell ∧
      Dijkstra 69 (some G) ((0 : Int), (0 : Int)) (FGAGridMap.ofBox GridBox ⊤) =
        some (true, DistanceMap) ∧
      (GridBox.MinX ≤ BestCell.X ∧ BestCell.X < GridBox.MaxX ∧ GridBox.MinY ≤ BestCell.Y ∧
        BestCell.Y < GridBox.MaxY) ∧
      IsCandidate G DistanceMap BestCell = true ∧
      ∀ x, (GridBox.MinX ≤ x.X ∧ x.X < GridBox.MaxX ∧ GridBox.MinY ≤ x.Y ∧
          x.Y < GridBox.MaxY) → IsCandidate G DistanceMap x = true →
        (EvaluateLayers 1000 (some G) none none Layers (FGAGridMap.ofBox GridBox 0)
            DistanceMap).Data BestCell ≤
          (EvaluateLayers 1000 (some G) none none Layers (FGAGridMap.ofBox GridBox 0)
            DistanceMap).Data x ∧
        ((EvaluateLayers 1000 (some G) none none Layers (FGAGridMap.ofBox GridBox 0)
            DistanceMap).Data x =
          (EvaluateLayers 1000 (some G) none none Layers (FGAGridMap.ofBox GridBox 0)
            DistanceMap).Data BestCell → x = BestCell ∨ ScanBefore BestCell x) :=
  ⟨by decide,
    ChoosePosition_chooses_first_minimum 69 1000 (some [exPathLayer]) (some exGridS)
      (some exBoxS) true none none ((0 : Int), (0 : Int)) (some ⟨2, 0⟩) (by decide)⟩

/-- Counterexample to C18 as stated: a scoring function (one target-range layer with the
identity curve), the grid and the path component are available and the pawn's own cell
`(0, 0)` is a traversable scanned cell at Dijkstra distance 0, yet `ChoosePosition` returns
false: without a target every total is `FLT_MAX`, which is not below the initial
`BestValue`. -/
theorem ChoosePosition_fails_with_reachable_candidate :
    ChoosePosition 69 (1000 : Int) (some [exRangeLayer]) (some exGridS) (some exBoxS) true
        none none ((0 : Int), (0 : Int)) = some (false, none) ∧
    Dijkstra 69 (some exGridS) ((0 : Int), (0 : Int)) (FGAGridMap.ofBox exBoxS ⊤) =
      some (true, exFieldS) ∧
    (⟨0, 0⟩ : FCellRef) ∈ (FGAGridMap.ofBox exBoxS (0 : Int)).BoundsCells ∧
    exGridS.Traversable ⟨0, 0⟩ = true ∧
    exFieldS.GetValue ⟨0, 0⟩ = some (((0 : Int) : Int) : WithTop Int) :=
  ⟨by decide, run_eq_some _ _ true (by decide), by decide, by decide, by decide⟩

/-- Witness for C18 (amended) on the 3 × 3 grid `exGridS`. -/
theorem ChoosePosition_true_iff_witness :
    (∀ p q, 0 ≤ exGridS.Dist p q) ∧
    4 * ((exBoxS.MaxX + 1 - exBoxS.MinX).toNat * (exBoxS.MaxY + 1 - exBoxS.MinY).toNat) + 5 ≤
      69 ∧
    (∀ c, exGridS.Traversable c = true → exGridS.IsValid c = true) ∧
    ∃ r best, ChoosePosition 69 (1000 : Int) (some [exPathLayer]) (some exGridS) (some exBoxS)
        true none none ((0 : Int), (0 : Int)) = some (r, best) ∧
      (r = true ↔
        ∃ DistanceMap, Dijkstra 69 (some exGridS) ((0 : Int), (0 : Int))
            (FGAGridMap.ofBox exBoxS ⊤) = some (true, DistanceMap) ∧
          ∃ c, (exBoxS.MinX ≤ c.X ∧ c.X < exBoxS.MaxX ∧ exBoxS.MinY ≤ c.Y ∧
              c.Y < exBoxS.MaxY) ∧
            IsCandidate exGridS DistanceMap c = true ∧
            (EvaluateLayers 1000 (some exGridS) none none [exPathLayer]
              (FGAGridMap.ofBox exBoxS 0) DistanceMap).Data c < 1000) :=
  ⟨exDist_nonneg, by decide, exGridS_valid,
    ChoosePosition_true_iff 69 1000 [exPathLayer] exGridS exBoxS none none
      ((0 : Int), (0 : Int)) exDist_nonneg (by decide) exGridS_valid⟩

theorem exLayers_ops : ∀ L ∈ [exPathLayer, exDoubleLayer],
    L.Op = ESpatialOp.SO_Add ∨ L.Op = ESpatialOp.SO_Multiply := by
  intro L hL
  simp only [List.mem_cons, List.mem_singleton, List.not_mem_nil, or_false] at hL
  rcases hL with h | h
  · rw [h]; exact Or.inl rfl
  · rw [h]; exact Or.inr rfl

theorem exLayers_world : ∀ L ∈ [exPathLayer, exDoubleLayer],
    L.Input = ESpatialInput.SI_LOS → (none : Option (Int × Int)).isSome = true →
      (none : Option (Int × Int → Int × Int → Bool)).isSome = true := by
  intro L _ _ h
  exact Bool.noConfusion h

/-- Witness for C19: the layers `exPathLayer` (Add) and `exDoubleLayer` (Multiply) at the
corner `(0, 0)` of `exGridS`. -/
theorem EvaluateLayers_accumulates_witness :
    (∀ L ∈ [exPathLayer, exDoubleLayer],
      L.Op = ESpatialOp.SO_Add ∨ L.Op = ESpatialOp.SO_Multiply) ∧
    (∀ L ∈ [exPathLayer, exDoubleLayer],
      L.Input = ESpatialInput.SI_LOS → (none : Option (Int × Int)).isSome = true →
        (none : Option (Int × Int → Int × Int → Bool)).isSome = true) ∧
    (EvaluateLayers (1000 : Int) (some exGridS) none none [exPathLayer, exDoubleLayer]
        (FGAGridMap.ofBox exBoxS 0) exFieldS).Data ⟨0, 0⟩ =
      if (exBoxS.MinX ≤ (⟨0, 0⟩ : FCellRef).X ∧ (⟨0, 0⟩ : FCellRef).X < exBoxS.MaxX ∧
          exBoxS.MinY ≤ (⟨0, 0⟩ : FCellRef).Y ∧ (⟨0, 0⟩ : FCellRef).Y < exBoxS.MaxY) ∧
          exGridS.Traversable ⟨0, 0⟩ = true then
        [exPathLayer, exDoubleLayer].foldl (fun acc L =>
          if L.Op = ESpatialOp.SO_Add then
            acc + LayerValue 1000 exGridS none none exFieldS L ⟨0, 0⟩
          else acc * LayerValue 1000 exGridS none none exFieldS L ⟨0, 0⟩) 0
      else 0 :=
  ⟨exLayers_ops, exLayers_world,
    EvaluateLayers_accumulates 1000 exGridS none none exFieldS [exPathLayer, exDoubleLayer]
      exBoxS exLayers_ops exLayers_world ⟨0, 0⟩⟩

end ChooseWitnesses

section RefreshTheorems

variable {α P : Type} [LinearOrderedAddCommGroup α]

/-- With fuel for every cell `AStar` returns: `Invalid` with the output list untouched, or
`Active` on a grid with a non-empty output list. -/
theorem AStar_returns
    (HeapPop : (FCellRef → α) → List FCellRef → Option (FCellRef × List FCellRef))
    (hpop : IsHeapPop HeapPop) (Grid : Option (AGAGridActor α P))
    (htri : ∀ G ∈ Grid, ∀ p q r, G.Dist p r ≤ G.Dist p q + G.Dist q r)
    (fuel : Nat) (hfuel : ∀ G ∈ Grid, G.XCount * G.YCount ≤ fuel)
    (DestinationCell : FCellRef) (StartPoint : P) (StepsOut : List (FPathStep P)) :
    ∃ State Steps, AStar fuel HeapPop Grid DestinationCell StartPoint StepsOut =
        some (State, Steps) ∧
      ((State = EGAPathState.GAPS_Invalid ∧ Steps = StepsOut) ∨
        (State = EGAPathState.GAPS_Active ∧ Steps ≠ [] ∧ ∃ G, Grid = some G)) := by
  cases Grid with
  | none => exact ⟨EGAPathState.GAPS_Invalid, StepsOut, rfl, Or.inl ⟨rfl, rfl⟩⟩
  | some G =>
    by_cases hv : G.IsValid (G.GetCellRef StartPoint) = true ∧ G.IsValid DestinationCell = true
    · rcases AStar_spec G HeapPop hpop (htri G rfl) fuel (hfuel G rfl) DestinationCell
        StartPoint StepsOut hv.1 hv.2 with ⟨rest, h1, _⟩ | ⟨h1, _⟩
      · exact ⟨_, _, h1, Or.inr ⟨rfl, List.cons_ne_nil _ _, G, rfl⟩⟩
      · exact ⟨_, _, h1, Or.inl ⟨rfl, rfl⟩⟩
    · refine ⟨EGAPathState.GAPS_Invalid, StepsOut, ?_, Or.inl ⟨rfl, rfl⟩⟩
      unfold AStar
      by_cases h1 : G.IsValid (G.GetCellRef StartPoint) = true
      · have h2 : G.IsValid DestinationCell = false := by
          cases h : G.IsValid DestinationCell with
          | false => rfl
          | true => exact absurd ⟨h1, h⟩ hv
        simp [h1, h2]
      · simp [h1]

/-- C20: with a valid destination and fuel for every grid cell `RefreshPath` returns.  It
publishes `Finished` exactly when the distance from the agent's position to the destination
is at most `ArrivalDistance`, and then leaves the step list untouched.  Otherwise it runs
A* from the agent's position with an empty output list: when A* returns `Invalid` it
publishes `Invalid` with an empty step list, and when A* returns `Active` it publishes the
state and the step list that `SmoothPath` returns for the A* path.  The other members are
unchanged. -/
theorem RefreshPath_publishes
    (HeapPop : (FCellRef → α) → List FCellRef → Option (FCellRef × List FCellRef))
    (hpop : IsHeapPop HeapPop) (Dist : P → P → α) (Grid : Option (AGAGridActor α P))
    (htri : ∀ G ∈ Grid, ∀ p q r, G.Dist p r ≤ G.Dist p q + G.Dist q r)
    (fuel : Nat) (hfuel : ∀ G ∈ Grid, G.XCount * G.YCount ≤ fuel)
    (StartPoint : P) (pc : UGAPathComponent α P) (hvalid : pc.bDestinationValid = true) :
    ∃ pc', RefreshPath fuel HeapPop Dist Grid StartPoint pc = some pc' ∧
      (pc'.Destination = pc.Destination ∧ pc'.DestinationCell = pc.DestinationCell ∧
        pc'.bDestinationValid = pc.bDestinationValid ∧
        pc'.ArrivalDistance = pc.ArrivalDistance) ∧
      (pc'.State = EGAPathState.GAPS_Finished ↔
        Dist StartPoint pc.Destination ≤ pc.ArrivalDistance) ∧
      (Dist StartPoint pc.Destination ≤ pc.ArrivalDistance → pc'.Steps = pc.Steps) ∧
      (¬ Dist StartPoint pc.Destination ≤ pc.ArrivalDistance →
        ∃ State UnsmoothedSteps,
          AStar fuel HeapPop Grid pc.DestinationCell StartPoint [] =
            some (State, UnsmoothedSteps) ∧
          ((State = EGAPathState.GAPS_Invalid ∧ pc'.State = EGAPathState.GAPS_Invalid ∧
              pc'.Steps = []) ∨
            (State = EGAPathState.GAPS_Active ∧
              SmoothPath Grid StartPoint UnsmoothedSteps [] =
                some (pc'.State, pc'.Steps)))) := by
  unfold RefreshPath
  have hb : (!pc.bDestinationValid) = false := by rw [hvalid]; rfl
  rw [hb]
  simp only [Bool.false_eq_true, if_false]
  by_cases hd : Dist StartPoint pc.Destination ≤ pc.ArrivalDistance
  · rw [if_pos hd]
    exact ⟨_, rfl, ⟨rfl, rfl, rfl, rfl⟩, ⟨fun _ => hd, fun _ => rfl⟩, fun _ => rfl,
      fun h => absurd hd h⟩
  · rw [if_neg hd]
    obtain ⟨State, U, hA, hcase⟩ := AStar_returns HeapPop hpop Grid htri fuel hfuel
      pc.DestinationCell StartPoint []
    rw [hA]
    rcases hcase with ⟨hs, hU⟩ | ⟨hs, _, G, hG⟩
    · subst hs
      simp only [reduceCtorEq, if_false]
      refine ⟨_, rfl, ⟨rfl, rfl, rfl, rfl⟩, ⟨fun h => ?_, fun h => absurd h hd⟩,
        fun h => absurd h hd, fun _ => ⟨_, _, rfl, Or.inl ⟨rfl, rfl, rfl⟩⟩⟩
      have h' : EGAPathState.GAPS_Invalid = EGAPathState.GAPS_Finished := h
      cases h'
    · subst hs
      subst hG
      obtain ⟨out, h1, _⟩ := SmoothLoop_total G U.length U [] (le_refl _)
      have hS : SmoothPath (some G) StartPoint U [] =
          some (EGAPathState.GAPS_Active, out) := by
        unfold SmoothPath
        simp only [h1, Option.map_some']
      simp only [if_true, hS]
      refine ⟨_, rfl, ⟨rfl, rfl, rfl, rfl⟩, ⟨fun h => ?_, fun h => absurd h hd⟩,
        fun h => absurd h hd, fun _ => ⟨_, _, rfl, Or.inr ⟨rfl, hS⟩⟩⟩
      have h' : EGAPathState.GAPS_Active = EGAPathState.GAPS_Finished := h
      cases h'

end RefreshTheorems

section RefreshWitnesses

/-- Witness for C20 on the 3 × 3 example grid, from `(0, 0)` towards `(2, 2)`. -/
theorem RefreshPath_publishes_witness :
    IsHeapPop (HeapPopFirstMin (α := Int)) ∧
    (∀ G ∈ some exGrid3, ∀ p q r, G.Dist p r ≤ G.Dist p q + G.Dist q r) ∧
    (∀ G ∈ some exGrid3, G.XCount * G.YCount ≤ 9) ∧
    exPathComponent.bDestinationValid = true ∧
    ∃ pc', RefreshPath 9 HeapPopFirstMin exDist (some exGrid3) ((0 : Int), (0 : Int))
        exPathComponent = some pc' ∧
      (pc'.Destination = exPathComponent.Destination ∧
        pc'.DestinationCell = exPathComponent.DestinationCell ∧
        pc'.bDestinationValid = exPathComponent.bDestinationValid ∧
        pc'.ArrivalDistance = exPathComponent.ArrivalDistance) ∧
      (pc'.State = EGAPathState.GAPS_Finished ↔
        exDist ((0 : Int), (0 : Int)) exPathComponent.Destination ≤
          exPathComponent.ArrivalDistance) ∧
      (exDist ((0 : Int), (0 : Int)) exPathComponent.Destination ≤
          exPathComponent.ArrivalDistance → pc'.Steps = exPathComponent.Steps) ∧
      (¬ exDist ((0 : Int), (0 : Int)) exPathComponent.Destination ≤
          exPathComponent.ArrivalDistance →
        ∃ State UnsmoothedSteps,
          AStar 9 HeapPopFirstMin (some exGrid3) exPathComponent.DestinationCell
            ((0 : Int), (0 : Int)) [] = some (State, UnsmoothedSteps) ∧
          ((State = EGAPathState.GAPS_Invalid ∧ pc'.State = EGAPathState.GAPS_Invalid ∧
              pc'.Steps = []) ∨
            (State = EGAPathState.GAPS_Active ∧
              SmoothPath (some exGrid3) ((0 : Int), (0 : Int)) UnsmoothedSteps [] =
                some (pc'.State, pc'.Steps)))) :=
  have htri : ∀ G ∈ some exGrid3, ∀ p q r, G.Dist p r ≤ G.Dist p q + G.Dist q r := by
    intro G hG; cases hG; exact exDist_triangle
  have hfuel : ∀ G ∈ some exGrid3, G.XCount * G.YCount ≤ 9 := by
    intro G hG; cases hG; decide
  ⟨HeapPopFirstMin_isHeapPop, htri, hfuel, rfl,
    RefreshPath_publishes HeapPopFirstMin HeapPopFirstMin_isHeapPop exDist (some exGrid3) htri
      9 hfuel ((0 : Int), (0 : Int)) exPathComponent rfl⟩

end RefreshWitnesses

section FollowTheorems

variable {α P : Type} [LinearOrderedAddCommGroup α]

/-- C21: on an `Active` path component whose step list is `Step0 :: Rest`, `FollowPath`
returns; it removes the first step exactly when the agent is within `ArrivalDistance` of it
and removes nothing else; the state becomes `Finished` exactly when that removal empties
the list, and otherwise stays `Active` with a non-empty step list; the other members are
unchanged. -/
theorem FollowPath_pops_at_most_one (Dist : P → P → α) (StartPoint : P)
    (pc : UGAPathComponent α P) (Step0 : FPathStep P) (Rest : List (FPathStep P))
    (hstate : pc.State = EGAPathState.GAPS_Active) (hsteps : pc.Steps = Step0 :: Rest) :
    ∃ pc' request, FollowPath Dist StartPoint pc = some (pc', request) ∧
      pc'.Steps = (if Dist StartPoint Step0.Point ≤ pc.ArrivalDistance then Rest
        else Step0 :: Rest) ∧
      (pc'.State = EGAPathState.GAPS_Finished ↔
        Dist StartPoint Step0.Point ≤ pc.ArrivalDistance ∧ Rest = []) ∧
      (pc'.State ≠ EGAPathState.GAPS_Finished →
        pc'.State = EGAPathState.GAPS_Active ∧ pc'.Steps ≠ []) ∧
      pc'.Destination = pc.Destination ∧ pc'.DestinationCell = pc.DestinationCell ∧
      pc'.bDestinationValid = pc.bDestinationValid ∧
      pc'.ArrivalDistance = pc.ArrivalDistance := by
  unfold FollowPath
  rw [hsteps]
  simp only [hstate, ne_eq, not_true_eq_false, if_false]
  by_cases hd : Dist StartPoint Step0.Point ≤ pc.ArrivalDistance
  · rw [if_pos hd, if_pos hd]
    cases Rest with
    | nil =>
      exact ⟨_, _, rfl, rfl, ⟨fun _ => ⟨hd, rfl⟩, fun _ => rfl⟩,
        fun h => absurd rfl h, rfl, rfl, rfl, rfl⟩
    | cons Step1 Rest' =>
      refine ⟨_, _, rfl, rfl, ⟨fun h => ?_, fun h => absurd h.2 (List.cons_ne_nil _ _)⟩,
        fun _ => ⟨rfl, List.cons_ne_nil _ _⟩, rfl, rfl, rfl, rfl⟩
      have h' : EGAPathState.GAPS_Active = EGAPathState.GAPS_Finished := h
      cases h'
  · rw [if_neg hd, if_neg hd]
    refine ⟨_, _, rfl, hsteps, ⟨fun h => ?_, fun h => absurd h.1 hd⟩,
      fun _ => ⟨hstate, by rw [hsteps]; exact List.cons_ne_nil _ _⟩, rfl, rfl, rfl, rfl⟩
    rw [hstate] at h
    cases h

theorem FollowPath_pops_at_most_one_witness :
    exPathActive.State = EGAPathState.GAPS_Active ∧
    exPathActive.Steps = exStep 0 0 :: [exStep 2 2] ∧
    ∃ pc' request, FollowPath exDist ((0 : Int), (0 : Int)) exPathActive = some (pc', request) ∧
      pc'.Steps = (if exDist ((0 : Int), (0 : Int)) (exStep 0 0).Point ≤
          exPathActive.ArrivalDistance then [exStep 2 2]
        else exStep 0 0 :: [exStep 2 2]) ∧
      (pc'.State = EGAPathState.GAPS_Finished ↔
        exDist ((0 : Int), (0 : Int)) (exStep 0 0).Point ≤ exPathActive.ArrivalDistance ∧
          [exStep 2 2] = []) ∧
      (pc'.State ≠ EGAPathState.GAPS_Finished →
        pc'.State = EGAPathState.GAPS_Active ∧ pc'.Steps ≠ []) ∧
      pc'.Destination = exPathActive.Destination ∧
      pc'.DestinationCell = exPathActive.DestinationCell ∧
      pc'.bDestinationValid = exPathActive.bDestinationValid ∧
      pc'.ArrivalDistance = exPathActive.ArrivalDistance :=
  ⟨rfl, rfl, FollowPath_pops_at_most_one exDist ((0 : Int), (0 : Int)) exPathActive
    (exStep 0 0) [exStep 2 2] rfl rfl⟩

end FollowTheorems

section DestinationWitnesses

/-- C22, the code at the failing input: after `SetDestination` to `(2, 2)` and then to the
point `(7, 7)`, which resolves to an invalid cell, the returned state is `Invalid` but the
destination is marked valid and the recorded destination cell is still `(2, 2)`; the next
tick plans to that stale cell and publishes `Active` with a path that ends in `(2, 2)`. -/
theorem SetDestination_marks_invalid_point_valid :
    exGrid3.IsValid (exGrid3.GetCellRef ((7 : Int), (7 : Int))) = false ∧
    exPathReset.Destination = ((7 : Int), (7 : Int)) ∧
    exPathReset.State = EGAPathState.GAPS_Invalid ∧
    exPathReset.bDestinationValid = true ∧
    exPathReset.DestinationCell = ⟨2, 2⟩ ∧
    exPathTick.State = EGAPathState.GAPS_Active ∧
    (exPathTick.Steps.getLast?).map FPathStep.CellRef = some ⟨2, 2⟩ := by
  refine ⟨by decide, by decide, by decide, by decide, by decide, by decide, by decide⟩

end DestinationWitnesses

section DijkstraSource

variable {α P : Type} [LinearOrderedAddCommGroup α]

/-- C23: after `Dijkstra` returns true from a start point whose cell lies inside the
distance map's window, on a grid with non-negative distances, the value stored for the
start cell is exactly 0. -/
theorem Dijkstra_start_value_zero (G : AGAGridActor α P) (hnn : ∀ p q, 0 ≤ G.Dist p q)
    (fuel : Nat) (StartPoint : P) (DistanceMap D : FGAGridMap (WithTop α))
    (hstart : DistanceMap.InWindow (G.GetCellRef StartPoint) = true)
    (hrun : Dijkstra fuel (some G) StartPoint DistanceMap = some (true, D)) :
    D.GetValue (G.GetCellRef StartPoint) = some ((0 : α) : WithTop α) := by
  have hinv := Dijkstra_run_inv G hnn fuel StartPoint DistanceMap D hstart hrun
  rw [DijkstraInv_GetValue G _ _ D [] hinv _ hstart, hinv.hstart]

end DijkstraSource

section DijkstraSourceWitnesses

/-- Witness for C23 on the 3 × 3 example grid, from the corner `(0, 0)`. -/
theorem Dijkstra_start_value_zero_witness :
    (∀ p q, 0 ≤ exGrid3.Dist p q) ∧
    exMap3.InWindow (exGrid3.GetCellRef ((0 : Int), (0 : Int))) = true ∧
    Dijkstra 40 (some exGrid3) ((0 : Int), (0 : Int)) exMap3 = some (true, exField3) ∧
    exField3.GetValue (exGrid3.GetCellRef ((0 : Int), (0 : Int))) =
      some (((0 : Int) : Int) : WithTop Int) :=
  ⟨exDist_nonneg, by decide, run_eq_some _ _ true (by decide),
    Dijkstra_start_value_zero exGrid3 exDist_nonneg 40 ((0 : Int), (0 : Int)) exMap3 exField3
      (by decide) (run_eq_some _ _ true (by decide))⟩

end DijkstraSourceWitnesses

section DijkstraMonotone

variable {α P : Type} [LinearOrderedAddCommGroup α]

/-- A derivation that reaches `b` extends along any path that starts at `b`. -/
theorem ReachCost_extend (G : AGAGridActor α P) (inside : FCellRef → Bool)
    (start : FCellRef) (rest : List FCellRef) :
    ∀ (b : FCellRef) (u : α), ReachCost G inside start b u → GridPath G inside b rest →
      ReachCost G inside start (rest.getLastD b) (u + PathCost G b rest) := by
  induction rest with
  | nil => intro b u h _; simpa [PathCost] using h
  | cons c rest ih =>
    intro b u h hp
    unfold GridPath at hp
    rw [List.chain_cons] at hp
    have h1 := ih c (u + G.EdgeDistance b c) (ReachCost.step h hp.1) hp.2
    rw [List.getLastD_cons, PathCost, ← add_assoc]
    exact h1

/-- Along a path that continues a shortest route to `s` into a shortest route to its last
cell, the stored distances never go down. -/
theorem DijkstraInv_chain (G : AGAGridActor α P) (hnn : ∀ p q, 0 ≤ G.Dist p q)
    (win : FCellRef → Bool) (start : FCellRef) (hs : win start = true)
    (D : FGAGridMap (WithTop α)) (hinv : DijkstraInv G win start D [])
    (rest : List FCellRef) :
    ∀ (s : FCellRef) (v : α), win s = true → D.Data s = (v : WithTop α) →
      GridPath G win s rest →
      D.Data (rest.getLastD s) = ((v + PathCost G s rest : α) : WithTop α) →
      List.Chain (FieldNondecreasing D) s rest := by
  induction rest with
  | nil => intro s v _ _ _ _; exact List.Chain.nil
  | cons b rest ih =>
    intro s v hws hDs hp hlast
    unfold GridPath at hp
    rw [List.chain_cons] at hp
    obtain ⟨hstep, hrest⟩ := hp
    have hwb : win b = true := hstep.2.2.2
    have hrel : D.Data b ≤ ((v + G.EdgeDistance s b : α) : WithTop α) := by
      rcases hinv.hpend s v hws hDs with ⟨e, he, _⟩ | h1
      · cases he
      · exact h1 b hstep
    obtain ⟨u, hu⟩ := WithTop.ne_top_iff_exists.mp
      (ne_of_lt (lt_of_le_of_lt hrel (WithTop.coe_lt_top _)))
    have hub : u ≤ v + G.EdgeDistance s b := by
      rw [← hu, WithTop.coe_le_coe] at hrel
      exact hrel
    have hreach := ReachCost_extend G win start rest b u (hinv.hsound b u hwb hu.symm) hrest
    have hlow := (DijkstraInv_lower G win start hs D hinv _ _ hreach).2
    rw [List.getLastD_cons] at hlast
    rw [hlast, WithTop.coe_le_coe, PathCost] at hlow
    have hle : v + G.EdgeDistance s b ≤ u := by
      have h2 : v + G.EdgeDistance s b + PathCost G b rest ≤ u + PathCost G b rest := by
        rw [add_assoc]; exact hlow
      exact le_of_add_le_add_right h2
    have hueq : u = v + G.EdgeDistance s b := le_antisymm hub hle
    refine List.Chain.cons ?_ (ih b u hwb hu.symm hrest ?_)
    · refine ⟨v, u, ?_, ?_, ?_⟩
      · unfold FGAGridMap.GetValue; rw [hinv.hwin, hws, hDs]; rfl
      · unfold FGAGridMap.GetValue; rw [hinv.hwin, hwb, ← hu]; rfl
      · rw [hueq]
        exact le_add_of_nonneg_right (hnn _ _)
    · rw [hlast, hueq, PathCost, add_assoc]

/-- C24, amended: after `Dijkstra` returns true (start cell inside the window, non-negative
distances), along every 4-connected path of valid traversable cells inside the window that
starts at the source and is a shortest path to its last cell (its summed edge cost is the
distance stored for that cell), every cell has a recorded finite distance that is greater
than or equal to the distance of the cell preceding it. -/
theorem Dijkstra_nondecreasing_along_shortest_paths (G : AGAGridActor α P)
    (hnn : ∀ p q, 0 ≤ G.Dist p q) (fuel : Nat) (StartPoint : P)
    (DistanceMap D : FGAGridMap (WithTop α))
    (hstart : DistanceMap.InWindow (G.GetCellRef StartPoint) = true)
    (hrun : Dijkstra fuel (some G) StartPoint DistanceMap = some (true, D))
    (rest : List FCellRef)
    (hp : GridPath G DistanceMap.InWindow (G.GetCellRef StartPoint) rest)
    (hshort : D.GetValue (rest.getLastD (G.GetCellRef StartPoint)) =
      some ((PathCost G (G.GetCellRef StartPoint) rest : α) : WithTop α)) :
    List.Chain (FieldNondecreasing D) (G.GetCellRef StartPoint) rest := by
  have hinv := Dijkstra_run_inv G hnn fuel StartPoint DistanceMap D hstart hrun
  refine DijkstraInv_chain G hnn DistanceMap.InWindow (G.GetCellRef StartPoint) hstart D hinv
    rest (G.GetCellRef StartPoint) 0 hstart hinv.hstart hp ?_
  rw [zero_add]
  exact ((FGAGridMap.GetValue_eq_some D _ _ hshort).2).symm

end DijkstraMonotone

section DijkstraMonotoneWitnesses

/-- Witness for C24 (amended): a shortest path from `(0, 0)` to `(2, 2)` on the 3 × 3
example grid. -/
theorem Dijkstra_nondecreasing_along_shortest_paths_witness :
    (∀ p q, 0 ≤ exGrid3.Dist p q) ∧
    exMap3.InWindow (exGrid3.GetCellRef ((0 : Int), (0 : Int))) = true ∧
    Dijkstra 40 (some exGrid3) ((0 : Int), (0 : Int)) exMap3 = some (true, exField3) ∧
    GridPath exGrid3 exMap3.InWindow (exGrid3.GetCellRef ((0 : Int), (0 : Int)))
      [⟨1, 0⟩, ⟨2, 0⟩, ⟨2, 1⟩, ⟨2, 2⟩] ∧
    exField3.GetValue
        (([⟨1, 0⟩, ⟨2, 0⟩, ⟨2, 1⟩, ⟨2, 2⟩] : List FCellRef).getLastD
          (exGrid3.GetCellRef ((0 : Int), (0 : Int)))) =
      some ((PathCost exGrid3 (exGrid3.GetCellRef ((0 : Int), (0 : Int)))
        [⟨1, 0⟩, ⟨2, 0⟩, ⟨2, 1⟩, ⟨2, 2⟩] : Int) : WithTop Int) ∧
    List.Chain (FieldNondecreasing exField3) (exGrid3.GetCellRef ((0 : Int), (0 : Int)))
      [⟨1, 0⟩, ⟨2, 0⟩, ⟨2, 1⟩, ⟨2, 2⟩] :=
  ⟨exDist_nonneg, by decide, run_eq_some _ _ true (by decide), by decide, by decide,
    Dijkstra_nondecreasing_along_shortest_paths exGrid3 exDist_nonneg 40
      ((0 : Int), (0 : Int)) exMap3 exField3 (by decide) (run_eq_some _ _ true (by decide))
      [⟨1, 0⟩, ⟨2, 0⟩, ⟨2, 1⟩, ⟨2, 2⟩] (by decide) (by decide)⟩

/-- Counterexample to C24 as stated: on the 3 × 3 example grid the cells `(0, 0)`, `(1, 0)`,
`(0, 0)` form a 4-connected path of traversable cells that starts at the Dijkstra source
`(0, 0)`, yet its last cell has distance 0, below the distance 1 of the cell before it. -/
theorem Dijkstra_distance_drops_on_a_returning_path :
    Dijkstra 40 (some exGrid3) ((0 : Int), (0 : Int)) exMap3 = some (true, exField3) ∧
    GridPath exGrid3 exMap3.InWindow (exGrid3.GetCellRef ((0 : Int), (0 : Int)))
      [⟨1, 0⟩, ⟨0, 0⟩] ∧
    exField3.GetValue ⟨1, 0⟩ = some (((1 : Int) : Int) : WithTop Int) ∧
    exField3.GetValue ⟨0, 0⟩ = some (((0 : Int) : Int) : WithTop Int) :=
  ⟨run_eq_some _ _ true (by decide), by decide, by decide, by decide⟩

end DijkstraMonotoneWitnesses

section AStarShape

variable {α P : Type} [LinearOrderedAddCommGroup α]

/-- An `Active` result of `AStar`, called with an empty output list, on a grid: the start
step followed by the steps of a grid path from the start cell to the destination cell. -/
theorem AStar_Active_steps (G : AGAGridActor α P)
    (HeapPop : (FCellRef → α) → List FCellRef → Option (FCellRef × List FCellRef))
    (hpop : IsHeapPop HeapPop) (htri : ∀ p q r, G.Dist p r ≤ G.Dist p q + G.Dist q r)
    (fuel : Nat) (DestinationCell : FCellRef) (StartPoint : P) (Steps : List (FPathStep P))
    (hA : AStar fuel HeapPop (some G) DestinationCell StartPoint [] =
      some (EGAPathState.GAPS_Active, Steps)) :
    ∃ rest, Steps = ⟨StartPoint, G.GetCellRef StartPoint⟩ :: rest.map (CellStep G) ∧
      GridPath G anyCell (G.GetCellRef StartPoint) rest ∧
      rest.getLastD (G.GetCellRef StartPoint) = DestinationCell ∧
      ∀ rest', GridPath G anyCell (G.GetCellRef StartPoint) rest' →
        rest'.getLastD (G.GetCellRef StartPoint) = DestinationCell →
        PathCost G (G.GetCellRef StartPoint) rest ≤
          PathCost G (G.GetCellRef StartPoint) rest' := by
  have hs : G.IsValid (G.GetCellRef StartPoint) = true := by
    by_contra hs
    simp [AStar, hs] at hA
  have hd : G.IsValid DestinationCell = true := by
    by_contra hd
    simp [AStar, hd] at hA
  have hA' := AStar_mono fuel (max fuel (G.XCount * G.YCount)) (le_max_left _ _) HeapPop
    (some G) DestinationCell StartPoint [] _ hA
  rcases AStar_spec G HeapPop hpop htri (max fuel (G.XCount * G.YCount)) (le_max_right _ _)
    DestinationCell StartPoint [] hs hd with ⟨rest, hrun, hpath, hlast, hopt⟩ | ⟨hrun, _⟩
  · rw [hrun] at hA'
    simp only [Option.some.injEq, Prod.mk.injEq, true_and, List.append_nil] at hA'
    exact ⟨rest, hA'.symm, hpath, hlast, hopt⟩
  · rw [hrun] at hA'; cases hA'

/-- C25: whenever `AStar`, called with an empty output list, returns `Active`, the output
starts with the start point paired with the start cell, the last output step's cell is the
destination cell, every step after the first is a valid traversable cell placed at its cell
centre, and the cells of consecutive steps are 4-adjacent. -/
theorem AStar_Active_path_shape
    (HeapPop : (FCellRef → α) → List FCellRef → Option (FCellRef × List FCellRef))
    (hpop : IsHeapPop HeapPop) (Grid : Option (AGAGridActor α P))
    (htri : ∀ G ∈ Grid, ∀ p q r, G.Dist p r ≤ G.Dist p q + G.Dist q r)
    (fuel : Nat) (DestinationCell : FCellRef) (StartPoint : P) (Steps : List (FPathStep P))
    (hA : AStar fuel HeapPop Grid DestinationCell StartPoint [] =
      some (EGAPathState.GAPS_Active, Steps)) :
    ∃ G tail, Grid = some G ∧
      Steps = ⟨StartPoint, G.GetCellRef StartPoint⟩ :: tail ∧
      (Steps.getLast?).map FPathStep.CellRef = some DestinationCell ∧
      (∀ s ∈ tail, G.IsValid s.CellRef = true ∧ G.Traversable s.CellRef = true ∧
        s.Point = G.GetCellPosition s.CellRef) ∧
      List.Chain Adjacent4 (G.GetCellRef StartPoint) (tail.map FPathStep.CellRef) := by
  cases Grid with
  | none => simp [AStar] at hA
  | some G =>
    obtain ⟨rest, hS, hpath, hlast, _⟩ := AStar_Active_steps G HeapPop hpop (htri G rfl) fuel
      DestinationCell StartPoint Steps hA
    have hcells : (rest.map (CellStep G)).map FPathStep.CellRef = rest := by
      rw [List.map_map]
      exact List.map_id rest
    refine ⟨G, rest.map (CellStep G), rfl, hS, ?_, ?_, ?_⟩
    · rw [← List.getLast?_map, hS, List.map_cons, hcells, List.getLast?_cons,
        ← List.getLastD_eq_getLast?, hlast]
    · intro s hs
      rw [List.mem_map] at hs
      obtain ⟨c, hc, rfl⟩ := hs
      have hall : ∀ (a : FCellRef) (l : List FCellRef), GridPath G anyCell a l →
          ∀ x ∈ l, G.IsValid x = true ∧ G.Traversable x = true := by
        intro a l
        induction l generalizing a with
        | nil => intro _ x hx; exact absurd hx (List.not_mem_nil _)
        | cons b l ih =>
          intro hp x hx
          unfold GridPath at hp
          rw [List.chain_cons] at hp
          rcases List.mem_cons.mp hx with e | hmem
          · rw [e]; exact ⟨hp.1.2.1, hp.1.2.2.1⟩
          · exact ih b hp.2 x hmem
      have h := hall _ _ hpath c hc
      exact ⟨h.1, h.2, rfl⟩
    · rw [hcells]
      exact List.Chain.imp (fun a b h => h.1) hpath

end AStarShape

section AStarShapeWitnesses

/-- Witness for C25 on the 3 × 3 example grid, from `(0, 0)` to `(2, 2)`. -/
theorem AStar_Active_path_shape_witness :
    IsHeapPop (HeapPopFirstMin (α := Int)) ∧
    (∀ G ∈ some exGrid3, ∀ p q r, G.Dist p r ≤ G.Dist p q + G.Dist q r) ∧
    AStar 9 HeapPopFirstMin (some exGrid3) ⟨2, 2⟩ ((0 : Int), (0 : Int)) [] =
      some (EGAPathState.GAPS_Active, exSteps3) ∧
    ∃ G tail, some exGrid3 = some G ∧
      exSteps3 = ⟨((0 : Int), (0 : Int)), G.GetCellRef ((0 : Int), (0 : Int))⟩ :: tail ∧
      (exSteps3.getLast?).map FPathStep.CellRef = some ⟨2, 2⟩ ∧
      (∀ s ∈ tail, G.IsValid s.CellRef = true ∧ G.Traversable s.CellRef = true ∧
        s.Point = G.GetCellPosition s.CellRef) ∧
      List.Chain Adjacent4 (G.GetCellRef ((0 : Int), (0 : Int)))
        (tail.map FPathStep.CellRef) :=
  have htri : ∀ G ∈ some exGrid3, ∀ p q r, G.Dist p r ≤ G.Dist p q + G.Dist q r := by
    intro G hG; cases hG; exact exDist_triangle
  ⟨HeapPopFirstMin_isHeapPop, htri, run_eq_some _ _ EGAPathState.GAPS_Active (by decide),
    AStar_Active_path_shape HeapPopFirstMin HeapPopFirstMin_isHeapPop (some exGrid3) htri 9
      ⟨2, 2⟩ ((0 : Int), (0 : Int)) exSteps3
      (run_eq_some _ _ EGAPathState.GAPS_Active (by decide))⟩

end AStarShapeWitnesses

section DijkstraLoopTermination

variable {α P : Type} [LinearOrderedAddCommGroup α]

/-- C26: on a grid with non-negative distances, for every start point and every distance
map, the frontier loop of `Dijkstra` empties its queue within four pops per cell of the
distance map's window and five more: with that much fuel the call returns, and it returns
true exactly when the grid is present and the start cell is valid. -/
theorem Dijkstra_frontier_loop_terminates (Grid : Option (AGAGridActor α P))
    (hnn : ∀ G ∈ Grid, ∀ p q, 0 ≤ G.Dist p q) (fuel : Nat) (StartPoint : P)
    (DistanceMap : FGAGridMap (WithTop α))
    (hfuel : 4 * ((DistanceMap.MaxX + 1 - DistanceMap.MinX).toNat *
      (DistanceMap.MaxY + 1 - DistanceMap.MinY).toNat) + 5 ≤ fuel) :
    ∃ Result D, Dijkstra fuel Grid StartPoint DistanceMap = some (Result, D) ∧
      (Result = true ↔ ∃ G, Grid = some G ∧ G.IsValid (G.GetCellRef StartPoint) = true) := by
  have hcard := FGAGridMap.card_WindowCells_le DistanceMap
  have hfuel' : 4 * DistanceMap.WindowCells.card + 5 ≤ fuel :=
    le_trans (Nat.add_le_add_right (Nat.mul_le_mul_left 4 hcard) 5) hfuel
  obtain ⟨r, hr⟩ := Dijkstra_terminates Grid hnn fuel StartPoint DistanceMap hfuel'
  obtain ⟨b, D⟩ := r
  refine ⟨b, D, hr, ?_⟩
  cases Grid with
  | none =>
    simp only [Dijkstra, Option.some.injEq, Prod.mk.injEq] at hr
    constructor
    · intro h; rw [h] at hr; exact absurd hr.1 (by decide)
    · rintro ⟨G, hG, _⟩; cases hG
  | some G =>
    by_cases hv : G.IsValid (G.GetCellRef StartPoint) = true
    · constructor
      · intro _; exact ⟨G, rfl, hv⟩
      · intro _
        simp only [Dijkstra, hv, Bool.not_true, Bool.false_eq_true, if_false,
          Option.map_eq_some', Prod.mk.injEq] at hr
        obtain ⟨_, _, h1, _⟩ := hr
        exact h1.symm
    · constructor
      · intro h
        simp [Dijkstra, hv] at hr
        rw [h] at hr
        exact absurd hr.1 (by decide)
      · rintro ⟨G', hG', hv'⟩
        cases hG'
        exact absurd hv' hv

end DijkstraLoopTermination

section DijkstraLoopTerminationWitnesses

/-- Witness for C26 on the 3 × 3 example grid. -/
theorem Dijkstra_frontier_loop_terminates_witness :
    (∀ G ∈ some exGrid3, ∀ p q, 0 ≤ G.Dist p q) ∧
    4 * ((exMap3.MaxX + 1 - exMap3.MinX).toNat * (exMap3.MaxY + 1 - exMap3.MinY).toNat) + 5 ≤
      41 ∧
    ∃ Result D, Dijkstra 41 (some exGrid3) ((0 : Int), (0 : Int)) exMap3 = some (Result, D) ∧
      (Result = true ↔
        ∃ G, some exGrid3 = some G ∧ G.IsValid (G.GetCellRef ((0 : Int), (0 : Int))) = true) :=
  have hnn : ∀ G ∈ some exGrid3, ∀ p q, 0 ≤ G.Dist p q := by
    intro G hG; cases hG; exact exDist_nonneg
  ⟨hnn, by decide,
    Dijkstra_frontier_loop_terminates (some exGrid3) hnn 41 ((0 : Int), (0 : Int)) exMap3
      (by decide)⟩

end DijkstraLoopTerminationWitnesses

section ScenarioAStar

variable {α P : Type} [LinearOrderedAddCommGroup α]

omit [LinearOrderedAddCommGroup α] in
/-- Every step of a grid path raises `X + Y` by at most one. -/
theorem GridPath_length_ge (G : AGAGridActor α P) (inside : FCellRef → Bool)
    (rest : List FCellRef) :
    ∀ a : FCellRef, GridPath G inside a rest →
      (rest.getLastD a).X + (rest.getLastD a).Y - (a.X + a.Y) ≤ (rest.length : Int) := by
  induction rest with
  | nil => intro a _; simp
  | cons b rest ih =>
    intro a hp
    unfold GridPath at hp
    rw [List.chain_cons] at hp
    have h1 := ih b hp.2
    obtain ⟨o, ho, hb⟩ := hp.1.1
    have h2 : b.X + b.Y - (a.X + a.Y) ≤ 1 := by
      rw [hb]
      simp only [NeighborOffsets, List.mem_cons, List.mem_singleton, List.not_mem_nil,
        or_false] at ho
      rcases ho with h | h | h | h <;> rw [h] <;> simp only [FCellRef.offset] <;> omega
    rw [List.getLastD_cons, List.length_cons]
    push_cast
    omega

/-- A successful `Dijkstra` call from a valid start cell returns true. -/
theorem Dijkstra_valid_true (G : AGAGridActor α P) (fuel : Nat) (StartPoint : P)
    (DistanceMap D : FGAGridMap (WithTop α)) (b : Bool)
    (hv : G.IsValid (G.GetCellRef StartPoint) = true)
    (hr : Dijkstra fuel (some G) StartPoint DistanceMap = some (b, D)) : b = true := by
  simp only [Dijkstra, hv, Bool.not_true, Bool.false_eq_true, if_false,
    Option.map_eq_some', Prod.mk.injEq] at hr
  obtain ⟨_, _, h1, _⟩ := hr
  exact h1.symm

/-- The cost of an `Active` A* result is the value Dijkstra stores for the destination. -/
theorem AStar_steps_cost (G : AGAGridActor α P)
    (HeapPop : (FCellRef → α) → List FCellRef → Option (FCellRef × List FCellRef))
    (hpop : IsHeapPop HeapPop) (hnn : ∀ p q, 0 ≤ G.Dist p q)
    (htri : ∀ p q r, G.Dist p r ≤ G.Dist p q + G.Dist q r)
    (fuel fuelD : Nat) (DestinationCell : FCellRef) (StartPoint : P)
    (Steps : List (FPathStep P)) (DistanceMap D : FGAGridMap (WithTop α))
    (hwin : ∀ c, G.IsValid c = true → DistanceMap.InWindow c = true)
    (hs : G.IsValid (G.GetCellRef StartPoint) = true)
    (hd : G.IsValid DestinationCell = true)
    (hA : AStar fuel HeapPop (some G) DestinationCell StartPoint [] =
      some (EGAPathState.GAPS_Active, Steps))
    (hD : Dijkstra fuelD (some G) StartPoint DistanceMap = some (true, D)) :
    D.GetValue DestinationCell = some ((StepsCost G Steps : α) : WithTop α) := by
  obtain ⟨rest, hS, hpath, hlast, hopt⟩ := AStar_Active_steps G HeapPop hpop htri fuel
    DestinationCell StartPoint Steps hA
  have hcost : StepsCost G Steps = PathCost G (G.GetCellRef StartPoint) rest := by
    rw [hS]
    simp [StepsCost, CellStep, Function.comp_def]
  have hinv := Dijkstra_run_inv G hnn fuelD StartPoint DistanceMap D (hwin _ hs) hD
  rw [DijkstraInv_GetValue G _ _ D [] hinv DestinationCell (hwin _ hd), hcost]
  have hconv := GridPath_anyCell_iff G DistanceMap.InWindow hwin (G.GetCellRef StartPoint)
  have hne : D.Data DestinationCell ≠ ⊤ := by
    intro h
    exact (DijkstraInv_top_iff G _ _ (hwin _ hs) D hinv DestinationCell (hwin _ hd)).mp h
      ⟨rest, (hconv rest).mpr hpath, hlast⟩
  obtain ⟨v, hv⟩ := WithTop.ne_top_iff_exists.mp hne
  obtain ⟨⟨rest1, hp1, hl1, hc1⟩, hlow⟩ :=
    DijkstraInv_min G _ _ (hwin _ hs) D hinv DestinationCell (hwin _ hd) v hv.symm
  have h1 : v ≤ PathCost G (G.GetCellRef StartPoint) rest :=
    hlow rest ((hconv rest).mpr hpath) hlast
  have h2 : PathCost G (G.GetCellRef StartPoint) rest ≤ v := by
    rw [← hc1]; exact hopt rest1 ((hconv rest1).mp hp1) hl1
  rw [← hv, le_antisymm h1 h2]

/-- C28: on every 5 × 5 grid whose cells are all traversable (distances non-negative and
obeying the triangle inequality, any heap pop that removes a minimal key), from a start
point in cell `(0, 0)` to the destination cell `(4, 4)`, `AStar` returns `Active` with at
least 9 steps (so at least 5), and the cost of the returned path equals the distance that
Dijkstra from the same start stores for `(4, 4)`. -/
theorem AStar_scenario_five_by_five (G : AGAGridActor α P)
    (HeapPop : (FCellRef → α) → List FCellRef → Option (FCellRef × List FCellRef))
    (hpop : IsHeapPop HeapPop) (hnn : ∀ p q, 0 ≤ G.Dist p q)
    (htri : ∀ p q r, G.Dist p r ≤ G.Dist p q + G.Dist q r)
    (hX : G.XCount = 5) (hY : G.YCount = 5)
    (htrav : ∀ c, G.IsValid c = true → G.Traversable c = true)
    (StartPoint : P) (hstart : G.GetCellRef StartPoint = ⟨0, 0⟩)
    (fuel fuelD : Nat) (hfuel : 25 ≤ fuel) (hfuelD : 105 ≤ fuelD) :
    ∃ Steps D, AStar fuel HeapPop (some G) ⟨4, 4⟩ StartPoint [] =
        some (EGAPathState.GAPS_Active, Steps) ∧
      5 ≤ Steps.length ∧ 9 ≤ Steps.length ∧
      Dijkstra fuelD (some G) StartPoint (FGAGridMap.ofGrid G ⊤) = some (true, D) ∧
      D.GetValue ⟨4, 4⟩ = some ((StepsCost G Steps : α) : WithTop α) := by
  have hval : ∀ x y : Int, 0 ≤ x → x < 5 → 0 ≤ y → y < 5 → G.IsValid ⟨x, y⟩ = true := by
    intro x y h1 h2 h3 h4
    unfold AGAGridActor.IsValid
    rw [hX, hY]
    simp only [Bool.and_eq_true, decide_eq_true_eq]
    refine ⟨⟨⟨?_, ?_⟩, ?_⟩, ?_⟩ <;> omega
  have hs : G.IsValid (G.GetCellRef StartPoint) = true := by
    rw [hstart]; exact hval 0 0 (by omega) (by omega) (by omega) (by omega)
  have hd : G.IsValid ⟨4, 4⟩ = true := hval 4 4 (by omega) (by omega) (by omega) (by omega)
  have hstep : ∀ a b : FCellRef, (∃ o ∈ NeighborOffsets, b = a.offset o) →
      G.IsValid b = true → GridStep G anyCell a b :=
    fun a b h hv => ⟨h, hv, htrav b hv, rfl⟩
  have hreach : Reachable G anyCell (G.GetCellRef StartPoint) ⟨4, 4⟩ := by
    rw [hstart]
    refine ⟨[⟨1, 0⟩, ⟨2, 0⟩, ⟨3, 0⟩, ⟨4, 0⟩, ⟨4, 1⟩, ⟨4, 2⟩, ⟨4, 3⟩, ⟨4, 4⟩], ?_, rfl⟩
    unfold GridPath
    refine List.Chain.cons (hstep _ _ ⟨(1, 0), by decide, rfl⟩
      (hval 1 0 (by omega) (by omega) (by omega) (by omega))) ?_
    refine List.Chain.cons (hstep _ _ ⟨(1, 0), by decide, rfl⟩
      (hval 2 0 (by omega) (by omega) (by omega) (by omega))) ?_
    refine List.Chain.cons (hstep _ _ ⟨(1, 0), by decide, rfl⟩
      (hval 3 0 (by omega) (by omega) (by omega) (by omega))) ?_
    refine List.Chain.cons (hstep _ _ ⟨(1, 0), by decide, rfl⟩
      (hval 4 0 (by omega) (by omega) (by omega) (by omega))) ?_
    refine List.Chain.cons (hstep _ _ ⟨(0, 1), by decide, rfl⟩
      (hval 4 1 (by omega) (by omega) (by omega) (by omega))) ?_
    refine List.Chain.cons (hstep _ _ ⟨(0, 1), by decide, rfl⟩
      (hval 4 2 (by omega) (by omega) (by omega) (by omega))) ?_
    refine List.Chain.cons (hstep _ _ ⟨(0, 1), by decide, rfl⟩
      (hval 4 3 (by omega) (by omega) (by omega) (by omega))) ?_
    exact List.Chain.cons (hstep _ _ ⟨(0, 1), by decide, rfl⟩
      (hval 4 4 (by omega) (by omega) (by omega) (by omega))) List.Chain.nil
  have hfuel' : G.XCount * G.YCount ≤ fuel := by rw [hX, hY]; exact hfuel
  rcases AStar_spec G HeapPop hpop htri fuel hfuel' ⟨4, 4⟩ StartPoint [] hs hd with
    ⟨rest, hrun, hpath, hlast, _⟩ | ⟨_, hno⟩
  swap
  · exact absurd hreach hno
  have hlen := GridPath_length_ge G anyCell rest (G.GetCellRef StartPoint) hpath
  rw [hlast, hstart] at hlen
  have hlen' : 8 ≤ rest.length := by
    have : ((4 : Int) + 4 - (0 + 0)) ≤ (rest.length : Int) := hlen
    omega
  have hwin : ∀ c, G.IsValid c = true →
      (FGAGridMap.ofGrid G (⊤ : WithTop α)).InWindow c = true :=
    FGAGridMap.InWindow_ofGrid G ⊤
  have hcard := FGAGridMap.card_WindowCells_le (FGAGridMap.ofGrid G (⊤ : WithTop α))
  have hdims : ((FGAGridMap.ofGrid G (⊤ : WithTop α)).MaxX + 1 -
      (FGAGridMap.ofGrid G (⊤ : WithTop α)).MinX).toNat *
      ((FGAGridMap.ofGrid G (⊤ : WithTop α)).MaxY + 1 -
        (FGAGridMap.ofGrid G (⊤ : WithTop α)).MinY).toNat = 25 := by
    simp only [FGAGridMap.ofGrid, hX, hY]
    decide
  rw [hdims] at hcard
  obtain ⟨r, hr⟩ := Dijkstra_terminates (some G) (fun G' hG' => by cases hG'; exact hnn)
    fuelD StartPoint (FGAGridMap.ofGrid G ⊤) (by omega)
  obtain ⟨b, D⟩ := r
  have hb := Dijkstra_valid_true G fuelD StartPoint _ D b hs hr
  subst hb
  refine ⟨_, D, hrun, ?_, ?_, hr, ?_⟩
  · simp only [List.append_nil, List.length_cons, List.length_map]; omega
  · simp only [List.append_nil, List.length_cons, List.length_map]; omega
  · exact AStar_steps_cost G HeapPop hpop hnn htri fuel fuelD ⟨4, 4⟩ StartPoint _ _ D hwin hs
      hd hrun hr

end ScenarioAStar

section ScenarioAStarWitnesses

/-- Witness for C28: the 5 × 5 grid `exGrid5` with the city-block distance. -/
theorem AStar_scenario_five_by_five_witness :
    IsHeapPop (HeapPopFirstMin (α := Int)) ∧
    (∀ p q, 0 ≤ exGrid5.Dist p q) ∧
    (∀ p q r, exGrid5.Dist p r ≤ exGrid5.Dist p q + exGrid5.Dist q r) ∧
    exGrid5.XCount = 5 ∧ exGrid5.YCount = 5 ∧
    (∀ c, exGrid5.IsValid c = true → exGrid5.Traversable c = true) ∧
    exGrid5.GetCellRef ((0 : Int), (0 : Int)) = ⟨0, 0⟩ ∧ 25 ≤ 25 ∧ 105 ≤ 105 ∧
    ∃ Steps D, AStar 25 HeapPopFirstMin (some exGrid5) ⟨4, 4⟩ ((0 : Int), (0 : Int)) [] =
        some (EGAPathState.GAPS_Active, Steps) ∧
      5 ≤ Steps.length ∧ 9 ≤ Steps.length ∧
      Dijkstra 105 (some exGrid5) ((0 : Int), (0 : Int)) (FGAGridMap.ofGrid exGrid5 ⊤) =
        some (true, D) ∧
      D.GetValue ⟨4, 4⟩ = some ((StepsCost exGrid5 Steps : Int) : WithTop Int) :=
  ⟨HeapPopFirstMin_isHeapPop, exDist_nonneg, exDist_triangle, rfl, rfl, fun _ _ => rfl, rfl,
    le_refl _, le_refl _,
    AStar_scenario_five_by_five exGrid5 HeapPopFirstMin HeapPopFirstMin_isHeapPop
      exDist_nonneg exDist_triangle rfl rfl (fun _ _ => rfl) ((0 : Int), (0 : Int)) rfl 25 105
      (le_refl _) (le_refl _)⟩

end ScenarioAStarWitnesses

section LayerNoneWitnesses

/-- C29, the code at the failing input: on the 3 × 3 grid `exGridS` the traversable cell
`(0, 0)` holds the total 5 after the Add layer `exAddFive`; after the following layer
`exNoneThree`, whose combine operator is `None` and whose curve value is 3, it holds 0: the
running total is overwritten, not accumulated to 8. -/
theorem EvaluateLayer_None_overwrites_total :
    exGridS.Traversable ⟨0, 0⟩ = true ∧
    (EvaluateLayers (1000 : Int) (some exGridS) none none [exAddFive]
      (FGAGridMap.ofBox exBoxS 0) exFieldS).GetValue ⟨0, 0⟩ = some 5 ∧
    LayerValue (1000 : Int) exGridS none none exFieldS exNoneThree ⟨0, 0⟩ = 3 ∧
    (EvaluateLayers (1000 : Int) (some exGridS) none none [exAddFive, exNoneThree]
      (FGAGridMap.ofBox exBoxS 0) exFieldS).GetValue ⟨0, 0⟩ = some 0 := by
  refine ⟨by decide, by decide, by decide, by decide⟩

end LayerNoneWitnesses

section LineTraceAxis

variable {α P : Type}

/-- A Bresenham walk whose every pass moves by the same unit vector `(ux, uy)` and keeps the
error term tests each of the `k` cells before the end cell, in order. -/
theorem LineTraceLoop_axis (G : AGAGridActor α P) (ex ey dx dy sx sy E ux uy : Int)
    (hu : (ux ≠ 0 ∨ uy ≠ 0))
    (hstep : ∀ X Y, BresenhamStep dx dy sx sy X Y E = (X + ux, Y + uy, E)) :
    ∀ (k fuel : Nat), k ≤ fuel →
      ∃ r, LineTraceLoop G ⟨ex, ey⟩ dx dy sx sy fuel (ex - k * ux) (ey - k * uy) E = some r ∧
        (r = true ↔ ∀ i : Nat, 1 ≤ i → i ≤ k →
          G.Traversable ⟨ex - i * ux, ey - i * uy⟩ = true) := by
  intro k
  induction k with
  | zero =>
    intro fuel _
    refine ⟨true, ?_, ⟨fun _ i h1 h2 => absurd (le_trans h1 h2) (by omega), fun _ => rfl⟩⟩
    cases fuel <;> simp [LineTraceLoop]
  | succ k ih =>
    intro fuel hf
    cases fuel with
    | zero => omega
    | succ fuel =>
      have hne : (ex - ((k + 1 : Nat) : Int) * ux ≠ ex ∨ ey - ((k + 1 : Nat) : Int) * uy ≠ ey) := by
        rcases hu with h | h
        · left
          intro h'
          have : ((k + 1 : Nat) : Int) * ux = 0 := by omega
          rcases mul_eq_zero.mp this with h0 | h0
          · omega
          · exact h h0
        · right
          intro h'
          have : ((k + 1 : Nat) : Int) * uy = 0 := by omega
          rcases mul_eq_zero.mp this with h0 | h0
          · omega
          · exact h h0
      obtain ⟨r, hr, hiff⟩ := ih fuel (by omega)
      have hx : ex - ((k + 1 : Nat) : Int) * ux + ux = ex - (k : Int) * ux := by
        push_cast; ring
      have hy : ey - ((k + 1 : Nat) : Int) * uy + uy = ey - (k : Int) * uy := by
        push_cast; ring
      by_cases ht : G.Traversable ⟨ex - ((k + 1 : Nat) : Int) * ux,
          ey - ((k + 1 : Nat) : Int) * uy⟩ = true
      · refine ⟨r, ?_, ?_⟩
        · rw [LineTraceLoop]
          simp only [hne, if_true, ht, Bool.not_true, Bool.false_eq_true, if_false, hstep, hx,
            hy]
          exact hr
        · rw [hiff]
          constructor
          · intro h i h1 h2
            by_cases hik : i ≤ k
            · exact h i h1 hik
            · have : i = k + 1 := by omega
              rw [this]; exact ht
          · intro h i h1 h2
            exact h i h1 (by omega)
      · refine ⟨false, ?_, ?_⟩
        · rw [LineTraceLoop]
          simp only [hne, if_true, ht, Bool.not_false, if_true]
        · constructor
          · intro h; exact Bool.noConfusion h
          · intro h
            exact absurd (h (k + 1) (by omega) (le_refl _)) ht

/-- The trace along a row: it tests the cells from the start cell up to, but not including,
the end cell. -/
theorem LineTraceLoop_row (G : AGAGridActor α P) (aX bX y sy : Int) :
    ∃ r, LineTraceLoop G ⟨bX, y⟩ |bX - aX| 0 (if aX < bX then 1 else -1) sy
        (|bX - aX| + 0).toNat aX y (|bX - aX| - 0) = some r ∧
      (r = true ↔ ∀ x, min aX bX ≤ x → x ≤ max aX bX → x ≠ bX →
        G.Traversable ⟨x, y⟩ = true) := by
  rcases lt_trichotomy aX bX with h | h | h
  · have hd : |bX - aX| = bX - aX := abs_of_pos (by omega)
    rw [hd, if_pos h]
    have hstep : ∀ X Y, BresenhamStep (bX - aX) 0 1 sy X Y (bX - aX - 0) =
        (X + 1, Y + 0, bX - aX - 0) := by
      intro X Y
      have h1 : (bX - aX - 0) * 2 > -0 := by omega
      have h2 : ¬ (bX - aX - 0) * 2 < bX - aX := by omega
      simp only [BresenhamStep, h1, h2, if_true, if_false]
      simp
    obtain ⟨r, hr, hiff⟩ := LineTraceLoop_axis G bX y (bX - aX) 0 1 sy (bX - aX - 0) 1 0
      (Or.inl one_ne_zero) hstep (bX - aX).toNat (bX - aX).toNat (le_refl _)
    have e1 : bX - (((bX - aX).toNat : Nat) : Int) * 1 = aX := by omega
    have e2 : y - (((bX - aX).toNat : Nat) : Int) * 0 = y := by omega
    have e3 : (bX - aX + 0).toNat = (bX - aX).toNat := by simp
    rw [e1, e2] at hr
    refine ⟨r, by rw [e3]; exact hr, ?_⟩
    rw [hiff]
    constructor
    · intro hall x hx1 hx2 hx3
      have h3 := hall (bX - x).toNat (by omega) (by omega)
      have hc : (⟨bX - (((bX - x).toNat : Nat) : Int) * 1,
          y - (((bX - x).toNat : Nat) : Int) * 0⟩ : FCellRef) = ⟨x, y⟩ := by
        congr 1 <;> omega
      rw [hc] at h3; exact h3
    · intro hall i hi1 hi2
      have h3 := hall (bX - i) (by omega) (by omega) (by omega)
      have hc : (⟨bX - (i : Int) * 1, y - (i : Int) * 0⟩ : FCellRef) = ⟨bX - i, y⟩ := by
        congr 1 <;> omega
      rw [hc]; exact h3
  · subst h
    refine ⟨true, ?_, ⟨fun _ x hx1 hx2 hx3 => absurd (by omega) hx3, fun _ => rfl⟩⟩
    simp [LineTraceLoop]
  · have hd : |bX - aX| = aX - bX := by rw [abs_of_neg (by omega)]; omega
    rw [hd, if_neg (by omega)]
    have hstep : ∀ X Y, BresenhamStep (aX - bX) 0 (-1) sy X Y (aX - bX - 0) =
        (X + -1, Y + 0, aX - bX - 0) := by
      intro X Y
      have h1 : (aX - bX - 0) * 2 > -0 := by omega
      have h2 : ¬ (aX - bX - 0) * 2 < aX - bX := by omega
      simp only [BresenhamStep, h1, h2, if_true, if_false]
      simp
    obtain ⟨r, hr, hiff⟩ := LineTraceLoop_axis G bX y (aX - bX) 0 (-1) sy (aX - bX - 0) (-1) 0
      (Or.inl (by omega)) hstep (aX - bX).toNat (aX - bX).toNat (le_refl _)
    have e1 : bX - (((aX - bX).toNat : Nat) : Int) * -1 = aX := by omega
    have e2 : y - (((aX - bX).toNat : Nat) : Int) * 0 = y := by omega
    have e3 : (aX - bX + 0).toNat = (aX - bX).toNat := by simp
    rw [e1, e2] at hr
    refine ⟨r, by rw [e3]; exact hr, ?_⟩
    rw [hiff]
    constructor
    · intro hall x hx1 hx2 hx3
      have h3 := hall (x - bX).toNat (by omega) (by omega)
      have hc : (⟨bX - (((x - bX).toNat : Nat) : Int) * -1,
          y - (((x - bX).toNat : Nat) : Int) * 0⟩ : FCellRef) = ⟨x, y⟩ := by
        congr 1 <;> omega
      rw [hc] at h3; exact h3
    · intro hall i hi1 hi2
      have h3 := hall (bX + i) (by omega) (by omega) (by omega)
      have hc : (⟨bX - (i : Int) * -1, y - (i : Int) * 0⟩ : FCellRef) = ⟨bX + i, y⟩ := by
        congr 1 <;> omega
      rw [hc]; exact h3

/-- The trace along a column: it tests the cells from the start cell up to, but not
including, the end cell. -/
theorem LineTraceLoop_column (G : AGAGridActor α P) (x aY bY sx : Int) :
    ∃ r, LineTraceLoop G ⟨x, bY⟩ 0 |bY - aY| sx (if aY < bY then 1 else -1)
        (0 + |bY - aY|).toNat x aY (0 - |bY - aY|) = some r ∧
      (r = true ↔ ∀ y, min aY bY ≤ y → y ≤ max aY bY → y ≠ bY →
        G.Traversable ⟨x, y⟩ = true) := by
  rcases lt_trichotomy aY bY with h | h | h
  · have hd : |bY - aY| = bY - aY := abs_of_pos (by omega)
    rw [hd, if_pos h]
    have hstep : ∀ X Y, BresenhamStep 0 (bY - aY) sx 1 X Y (0 - (bY - aY)) =
        (X + 0, Y + 1, 0 - (bY - aY)) := by
      intro X Y
      have h1 : ¬ (0 - (bY - aY)) * 2 > -(bY - aY) := by omega
      have h2 : (0 - (bY - aY)) * 2 < 0 := by omega
      simp only [BresenhamStep, h1, h2, if_true, if_false]
      simp
    obtain ⟨r, hr, hiff⟩ := LineTraceLoop_axis G x bY 0 (bY - aY) sx 1 (0 - (bY - aY)) 0 1
      (Or.inr one_ne_zero) hstep (bY - aY).toNat (bY - aY).toNat (le_refl _)
    have e1 : bY - (((bY - aY).toNat : Nat) : Int) * 1 = aY := by omega
    have e2 : x - (((bY - aY).toNat : Nat) : Int) * 0 = x := by omega
    have e3 : (0 + (bY - aY)).toNat = (bY - aY).toNat := by simp
    rw [e1, e2] at hr
    refine ⟨r, by rw [e3]; exact hr, ?_⟩
    rw [hiff]
    constructor
    · intro hall y hy1 hy2 hy3
      have h3 := hall (bY - y).toNat (by omega) (by omega)
      have hc : (⟨x - (((bY - y).toNat : Nat) : Int) * 0,
          bY - (((bY - y).toNat : Nat) : Int) * 1⟩ : FCellRef) = ⟨x, y⟩ := by
        congr 1 <;> omega
      rw [hc] at h3; exact h3
    · intro hall i hi1 hi2
      have h3 := hall (bY - i) (by omega) (by omega) (by omega)
      have hc : (⟨x - (i : Int) * 0, bY - (i : Int) * 1⟩ : FCellRef) = ⟨x, bY - i⟩ := by
        congr 1 <;> omega
      rw [hc]; exact h3
  · subst h
    refine ⟨true, ?_, ⟨fun _ y hy1 hy2 hy3 => absurd (by omega) hy3, fun _ => rfl⟩⟩
    simp [LineTraceLoop]
  · have hd : |bY - aY| = aY - bY := by rw [abs_of_neg (by omega)]; omega
    rw [hd, if_neg (by omega)]
    have hstep : ∀ X Y, BresenhamStep 0 (aY - bY) sx (-1) X Y (0 - (aY - bY)) =
        (X + 0, Y + -1, 0 - (aY - bY)) := by
      intro X Y
      have h1 : ¬ (0 - (aY - bY)) * 2 > -(aY - bY) := by omega
      have h2 : (0 - (aY - bY)) * 2 < 0 := by omega
      simp only [BresenhamStep, h1, h2, if_true, if_false]
      simp
    obtain ⟨r, hr, hiff⟩ := LineTraceLoop_axis G x bY 0 (aY - bY) sx (-1) (0 - (aY - bY)) 0 (-1)
      (Or.inr (by omega)) hstep (aY - bY).toNat (aY - bY).toNat (le_refl _)
    have e1 : bY - (((aY - bY).toNat : Nat) : Int) * -1 = aY := by omega
    have e2 : x - (((aY - bY).toNat : Nat) : Int) * 0 = x := by omega
    have e3 : (0 + (aY - bY)).toNat = (aY - bY).toNat := by simp
    rw [e1, e2] at hr
    refine ⟨r, by rw [e3]; exact hr, ?_⟩
    rw [hiff]
    constructor
    · intro hall y hy1 hy2 hy3
      have h3 := hall (y - bY).toNat (by omega) (by omega)
      have hc : (⟨x - (((y - bY).toNat : Nat) : Int) * 0,
          bY - (((y - bY).toNat : Nat) : Int) * -1⟩ : FCellRef) = ⟨x, y⟩ := by
        congr 1 <;> omega
      rw [hc] at h3; exact h3
    · intro hall i hi1 hi2
      have h3 := hall (bY + i) (by omega) (by omega) (by omega)
      have hc : (⟨x - (i : Int) * 0, bY - (i : Int) * -1⟩ : FCellRef) = ⟨x, bY + i⟩ := by
        congr 1 <;> omega
      rw [hc]; exact h3

/-- Between two valid cells of one row or one column, `LineTrace` returns, and it succeeds
exactly when every cell of the segment other than the end cell is traversable. -/
theorem LineTrace_axis (G : AGAGridActor α P) (Start End : P)
    (hs : G.IsValid (G.GetCellRef Start) = true) (he : G.IsValid (G.GetCellRef End) = true)
    (hax : (G.GetCellRef Start).Y = (G.GetCellRef End).Y ∨
      (G.GetCellRef Start).X = (G.GetCellRef End).X) :
    ∃ r, LineTrace G Start End = some r ∧
      (r = true ↔ ∀ c, InBoundingBox (G.GetCellRef Start) (G.GetCellRef End) c →
        c ≠ G.GetCellRef End → G.Traversable c = true) := by
  unfold LineTrace
  simp only [hs, he, Bool.not_true, Bool.or_self, Bool.false_eq_true, if_false]
  generalize G.GetCellRef Start = a at hax ⊢
  generalize G.GetCellRef End = b at hax ⊢
  obtain ⟨aX, aY⟩ := a
  obtain ⟨bX, bY⟩ := b
  simp only at hax
  rcases hax with h | h
  · subst h
    obtain ⟨r, hr, hiff⟩ := LineTraceLoop_row G aX bX aY (if aY < aY then 1 else -1)
    refine ⟨r, by simpa using hr, ?_⟩
    rw [hiff]
    constructor
    · rintro hall ⟨cx, cy⟩ ⟨h1, h2, h3, h4⟩ hne
      simp only [min_self, max_self] at h3 h4
      have hy : cy = aY := le_antisymm h4 h3
      subst hy
      exact hall cx h1 h2 (fun hx => hne (by rw [hx]))
    · intro hall x h1 h2 hne
      exact hall ⟨x, aY⟩ ⟨h1, h2, by simp, by simp⟩ (fun hc => hne (by simpa using hc))
  · subst h
    obtain ⟨r, hr, hiff⟩ := LineTraceLoop_column G aX aY bY (if aX < aX then 1 else -1)
    refine ⟨r, by simpa using hr, ?_⟩
    rw [hiff]
    constructor
    · rintro hall ⟨cx, cy⟩ ⟨h1, h2, h3, h4⟩ hne
      simp only [min_self, max_self] at h1 h2
      have hx : cx = aX := le_antisymm h2 h1
      subst hx
      exact hall cy h3 h4 (fun hy => hne (by rw [hy]))
    · intro hall y h1 h2 hne
      exact hall ⟨aX, y⟩ ⟨by simp, by simp, h1, h2⟩ (fun hc => hne (by simpa using hc))

end LineTraceAxis

/-! ## C30: a pair of cells with different results in the two directions -/

section LineTraceSymmetry

variable {α : Type} {P : Type}

/-- Claim C30, counterexample: on the 3×3 grid whose centre is blocked, the cells (0,0) and
(1,2) are valid and traversable; the trace from (0,0) to (1,2) passes through (0,1) and
succeeds, the trace from (1,2) to (0,0) passes through the blocked centre and fails. -/
theorem LineTrace_not_symmetric :
    exGrid3.IsValid (exGrid3.GetCellRef ((0 : Int), (0 : Int))) = true ∧
    exGrid3.IsValid (exGrid3.GetCellRef ((1 : Int), (2 : Int))) = true ∧
    exGrid3.Traversable (exGrid3.GetCellRef ((0 : Int), (0 : Int))) = true ∧
    exGrid3.Traversable (exGrid3.GetCellRef ((1 : Int), (2 : Int))) = true ∧
    Rasterisation (exGrid3.GetCellRef ((0 : Int), (0 : Int)))
      (exGrid3.GetCellRef ((1 : Int), (2 : Int))) = some [⟨0, 0⟩, ⟨0, 1⟩, ⟨1, 2⟩] ∧
    Rasterisation (exGrid3.GetCellRef ((1 : Int), (2 : Int)))
      (exGrid3.GetCellRef ((0 : Int), (0 : Int))) = some [⟨1, 2⟩, ⟨1, 1⟩, ⟨0, 0⟩] ∧
    LineTrace exGrid3 ((0 : Int), (0 : Int)) ((1 : Int), (2 : Int)) = some true ∧
    LineTrace exGrid3 ((1 : Int), (2 : Int)) ((0 : Int), (0 : Int)) = some false := by
  decide

end LineTraceSymmetry

/-! ## The total after diffusion -/

section DiffuseTotal

variable {α P : Type} [LinearOrderedField α]

theorem FGAGridMap.ValueOrZero_eq (m : FGAGridMap α) (c : FCellRef) :
    m.ValueOrZero c = if m.InWindow c = true then m.Data c else 0 := by
  unfold FGAGridMap.ValueOrZero FGAGridMap.GetValue
  by_cases hw : m.InWindow c = true
  · simp [hw]
  · simp [hw]

theorem ScanSum_eq_ValueOrZero (G : AGAGridActor α P) (m : FGAGridMap α) :
    ScanSum G m = G.ScanCells.toFinset.sum m.ValueOrZero := by
  unfold ScanSum
  exact Finset.sum_congr rfl (fun c _ => (m.ValueOrZero_eq c).symm)

/-- The neighbour loop of `OccupancyMapDiffuse` adds the values of the in-bounds neighbours. -/
theorem NeighborSum_foldl (G : AGAGridActor α P) (m : FGAGridMap α) (l : List FCellRef)
    (a : α) :
    l.foldl (fun acc Neighbor =>
        if G.IsValid Neighbor then acc + (m.GetValue Neighbor).getD 0 else acc) a =
      a + (l.map (fun n => if G.IsValid n = true then m.ValueOrZero n else 0)).sum := by
  induction l generalizing a with
  | nil => simp
  | cons n l ih =>
    rw [List.foldl_cons, ih, List.map_cons, List.sum_cons]
    by_cases hv : G.IsValid n = true
    · simp [hv, FGAGridMap.ValueOrZero, add_assoc]
    · simp [hv]

/-- Summing the value of the neighbour at a fixed offset over the cells of the grid is
summing, over the cells of the grid, the value of each cell that has a neighbour at the
opposite offset. -/
theorem ScanCells_sum_shift (G : AGAGridActor α P) (v : FCellRef → α) (ox oy : Int) :
    G.ScanCells.toFinset.sum
        (fun c => if G.IsValid (c.offset (ox, oy)) = true then v (c.offset (ox, oy)) else 0) =
      G.ScanCells.toFinset.sum
        (fun d => if G.IsValid (d.offset (-ox, -oy)) = true then v d else 0) := by
  rw [← Finset.sum_filter, ← Finset.sum_filter]
  refine Finset.sum_nbij' (fun c => c.offset (ox, oy)) (fun d => d.offset (-ox, -oy))
    ?_ ?_ ?_ ?_ ?_
  · intro c hc
    rw [Finset.mem_filter, List.mem_toFinset, G.mem_ScanCells] at hc ⊢
    refine ⟨hc.2, ?_⟩
    have e : (c.offset (ox, oy)).offset (-ox, -oy) = c := by
      cases c; simp [FCellRef.offset]
    rw [e]; exact hc.1
  · intro d hd
    rw [Finset.mem_filter, List.mem_toFinset, G.mem_ScanCells] at hd ⊢
    refine ⟨hd.2, ?_⟩
    have e : (d.offset (-ox, -oy)).offset (ox, oy) = d := by
      cases d; simp [FCellRef.offset]
    rw [e]; exact hd.1
  · intro c _
    cases c; simp [FCellRef.offset]
  · intro d _
    cases d; simp [FCellRef.offset]
  · intro c _
    rfl

/-- The in-bounds neighbours of a cell, counted offset by offset. -/
theorem AGAGridActor.Degree_eq (G : AGAGridActor α P) (c : FCellRef) :
    (G.Degree c : α) =
      (if G.IsValid (c.offset (1, 0)) = true then 1 else 0) +
      (if G.IsValid (c.offset (-1, 0)) = true then 1 else 0) +
      (if G.IsValid (c.offset (0, 1)) = true then 1 else 0) +
      (if G.IsValid (c.offset (0, -1)) = true then 1 else 0) := by
  unfold AGAGridActor.Degree NeighborOffsets
  cases h1 : G.IsValid (c.offset (1, 0)) <;> cases h2 : G.IsValid (c.offset (-1, 0)) <;>
    cases h3 : G.IsValid (c.offset (0, 1)) <;> cases h4 : G.IsValid (c.offset (0, -1)) <;>
    simp [List.filter, h1, h2, h3, h4] <;> norm_num

/-- The sum over the grid after `OccupancyMapDiffuse`: `(1 - r)` times the sum before plus
`r` times the sum of each cell's value weighted by its number of in-bounds neighbours. -/
theorem OccupancyMapDiffuse_ScanSum (G : AGAGridActor α P) (m : FGAGridMap α) :
    ScanSum G (OccupancyMapDiffuse (some G) m) =
      (1 - DiffusionRate) * ScanSum G m +
        DiffusionRate * G.ScanCells.toFinset.sum (fun c => (G.Degree c : α) * m.ValueOrZero c) := by
  obtain ⟨hw, hd⟩ := OccupancyMapDiffuse_spec G m
  have hin : ∀ c ∈ G.ScanCells.toFinset,
      (if (OccupancyMapDiffuse (some G) m).InWindow c = true then
          (OccupancyMapDiffuse (some G) m).Data c else 0) =
        (1 - DiffusionRate) * m.ValueOrZero c +
          DiffusionRate *
            ((if G.IsValid (c.offset (1, 0)) = true then m.ValueOrZero (c.offset (1, 0)) else 0) +
             (if G.IsValid (c.offset (-1, 0)) = true then m.ValueOrZero (c.offset (-1, 0)) else 0) +
             (if G.IsValid (c.offset (0, 1)) = true then m.ValueOrZero (c.offset (0, 1)) else 0) +
             (if G.IsValid (c.offset (0, -1)) = true then m.ValueOrZero (c.offset (0, -1))
               else 0)) := by
    intro c hc
    rw [List.mem_toFinset, G.mem_ScanCells] at hc
    have hwc : (OccupancyMapDiffuse (some G) m).InWindow c = true := by
      unfold OccupancyMapDiffuse
      rw [(foldl_pointwise (fun c (_ : α) => (1 - DiffusionRate) * (m.GetValue c).getD 0 +
        DiffusionRate * (NeighborOffsets.map c.offset).foldl
          (fun acc Neighbor =>
            if G.IsValid Neighbor then acc + (m.GetValue Neighbor).getD 0 else acc) 0)
        (DiffuseBody G m) (fun _ _ => rfl) G.ScanCells G.nodup_ScanCells
        (FGAGridMap.ofGrid G 0)).1]
      exact FGAGridMap.InWindow_ofGrid G 0 c hc
    rw [if_pos hwc, hd c hc, NeighborSum_foldl]
    simp [NeighborOffsets, FGAGridMap.ValueOrZero, add_assoc]
  unfold ScanSum
  rw [Finset.sum_congr rfl hin]
  simp only [Finset.sum_add_distrib, ← Finset.mul_sum]
  rw [ScanCells_sum_shift G m.ValueOrZero 1 0, ScanCells_sum_shift G m.ValueOrZero (-1) 0,
    ScanCells_sum_shift G m.ValueOrZero 0 1, ScanCells_sum_shift G m.ValueOrZero 0 (-1)]
  simp only [neg_neg, neg_zero]
  rw [← Finset.sum_add_distrib, ← Finset.sum_add_distrib, ← Finset.sum_add_distrib]
  congr 1
  · congr 1
    exact Finset.sum_congr rfl (fun c _ => m.ValueOrZero_eq c)
  · congr 1
    refine Finset.sum_congr rfl ?_
    intro c _
    rw [G.Degree_eq c]
    cases h1 : G.IsValid (c.offset (1, 0)) <;> cases h2 : G.IsValid (c.offset (-1, 0)) <;>
      cases h3 : G.IsValid (c.offset (0, 1)) <;> cases h4 : G.IsValid (c.offset (0, -1)) <;>
      simp <;> ring

end DiffuseTotal

/-! ## Hidden ticks with nothing in view -/

section HiddenTicks

variable {α P : Type} [LinearOrderedField α]

omit [LinearOrderedField α] in
/-- On a grid at least two cells wide and two cells high every cell has at least two
in-bounds neighbours. -/
theorem AGAGridActor.Degree_ge_two (G : AGAGridActor α P) (hX : 2 ≤ G.XCount)
    (hY : 2 ≤ G.YCount) (c : FCellRef) (hc : G.IsValid c = true) : 2 ≤ G.Degree c := by
  have hx : G.IsValid (c.offset (1, 0)) = true ∨ G.IsValid (c.offset (-1, 0)) = true := by
    unfold AGAGridActor.IsValid FCellRef.offset at *
    simp only [Bool.and_eq_true, decide_eq_true_eq] at hc ⊢
    omega
  have hy : G.IsValid (c.offset (0, 1)) = true ∨ G.IsValid (c.offset (0, -1)) = true := by
    unfold AGAGridActor.IsValid FCellRef.offset at *
    simp only [Bool.and_eq_true, decide_eq_true_eq] at hc ⊢
    omega
  unfold AGAGridActor.Degree NeighborOffsets
  cases h1 : G.IsValid (c.offset (1, 0)) <;> cases h2 : G.IsValid (c.offset (-1, 0)) <;>
    cases h3 : G.IsValid (c.offset (0, 1)) <;> cases h4 : G.IsValid (c.offset (0, -1)) <;>
    simp_all [List.filter]

theorem FGAGridMap.ValueOrZero_nonneg (m : FGAGridMap α)
    (hnn : ∀ c, m.InWindow c = true → 0 ≤ m.Data c) (c : FCellRef) : 0 ≤ m.ValueOrZero c := by
  rw [m.ValueOrZero_eq]
  split
  · exact hnn c (by assumption)
  · exact le_refl _

/-- On a grid at least two cells wide and two cells high, diffusion multiplies the sum of a
non-negative map by at least 11/10. -/
theorem OccupancyMapDiffuse_ScanSum_ge (G : AGAGridActor α P) (hX : 2 ≤ G.XCount)
    (hY : 2 ≤ G.YCount) (m : FGAGridMap α)
    (hnn : ∀ c, m.InWindow c = true → 0 ≤ m.Data c) :
    11 / 10 * ScanSum G m ≤ ScanSum G (OccupancyMapDiffuse (some G) m) := by
  rw [OccupancyMapDiffuse_ScanSum]
  have h2 : 2 * ScanSum G m ≤
      G.ScanCells.toFinset.sum (fun c => (G.Degree c : α) * m.ValueOrZero c) := by
    rw [ScanSum_eq_ValueOrZero, Finset.mul_sum]
    refine Finset.sum_le_sum ?_
    intro c hc
    rw [List.mem_toFinset, G.mem_ScanCells] at hc
    have hd : (2 : α) ≤ (G.Degree c : α) := by
      exact_mod_cast G.Degree_ge_two hX hY c hc
    exact mul_le_mul_of_nonneg_right hd (m.ValueOrZero_nonneg hnn c)
  unfold DiffusionRate
  linarith

omit [LinearOrderedField α] in
/-- A cell has at most four in-bounds neighbours. -/
theorem AGAGridActor.Degree_le_four (G : AGAGridActor α P) (c : FCellRef) : G.Degree c ≤ 4 := by
  unfold AGAGridActor.Degree
  exact le_trans (List.length_filter_le _ _) (by simp [NeighborOffsets])

/-- Diffusion multiplies the sum of a non-negative map by at most 13/10. -/
theorem OccupancyMapDiffuse_ScanSum_le (G : AGAGridActor α P) (m : FGAGridMap α)
    (hnn : ∀ c, m.InWindow c = true → 0 ≤ m.Data c) :
    ScanSum G (OccupancyMapDiffuse (some G) m) ≤ 13 / 10 * ScanSum G m := by
  rw [OccupancyMapDiffuse_ScanSum]
  have h4 : G.ScanCells.toFinset.sum (fun c => (G.Degree c : α) * m.ValueOrZero c) ≤
      4 * ScanSum G m := by
    rw [ScanSum_eq_ValueOrZero, Finset.mul_sum]
    refine Finset.sum_le_sum ?_
    intro c _
    have hd : (G.Degree c : α) ≤ 4 := by
      exact_mod_cast G.Degree_le_four c
    exact mul_le_mul_of_nonneg_right hd (m.ValueOrZero_nonneg hnn c)
  unfold DiffusionRate
  linarith

/-- Diffusion keeps the entries of a non-negative map non-negative. -/
theorem OccupancyMapDiffuse_nonneg (G : AGAGridActor α P) (m : FGAGridMap α)
    (hnn : ∀ c, m.InWindow c = true → 0 ≤ m.Data c) (c : FCellRef)
    (hc : (OccupancyMapDiffuse (some G) m).InWindow c = true) :
    0 ≤ (OccupancyMapDiffuse (some G) m).Data c := by
  obtain ⟨hw, hd⟩ := OccupancyMapDiffuse_spec G m
  rw [hd c (hw c hc), NeighborSum_foldl, zero_add]
  have h1 : (0 : α) ≤ (m.GetValue c).getD 0 := m.ValueOrZero_nonneg hnn c
  have h2 : (0 : α) ≤ ((NeighborOffsets.map c.offset).map
      (fun n => if G.IsValid n = true then m.ValueOrZero n else 0)).sum := by
    refine List.sum_nonneg ?_
    intro x hx
    rw [List.mem_map] at hx
    obtain ⟨n, _, rfl⟩ := hx
    split
    · exact m.ValueOrZero_nonneg hnn n
    · exact le_refl _
  have h3 : (0 : α) ≤ 1 - DiffusionRate := by unfold DiffusionRate; norm_num
  have h4 : (0 : α) ≤ DiffusionRate := by unfold DiffusionRate; norm_num
  exact add_nonneg (mul_nonneg h3 h1) (mul_nonneg h4 h2)

/-- A renormalisation pass on a map with a positive sum leaves the sum 1. -/
theorem Renormalize_ScanSum_one (G : AGAGridActor α P) (m : FGAGridMap α)
    (hpos : 0 < ScanSum G m) : ScanSum G (Renormalize G m) = 1 := by
  have hT : MapTotal G m > 0 := by rw [MapTotal_eq_ScanSum]; exact hpos
  unfold Renormalize
  simp only
  rw [if_pos hT]
  obtain ⟨h1, h2⟩ := foldl_pointwise (fun _ p => p / MapTotal G m)
    (NormalizeBody (MapTotal G m)) (NormalizeBody_eq _) G.ScanCells G.nodup_ScanCells m
  have hsum : ScanSum G (G.ScanCells.foldl (NormalizeBody (MapTotal G m)) m) =
      ScanSum G m / MapTotal G m := by
    unfold ScanSum
    rw [Finset.sum_div]
    refine Finset.sum_congr rfl ?_
    intro c hc
    rw [List.mem_toFinset] at hc
    rw [h1, h2]
    by_cases hw : m.InWindow c = true
    · simp [hw, hc]
    · simp [hw]
  rw [hsum, ← MapTotal_eq_ScanSum]
  exact div_self (ne_of_gt hT)

omit [LinearOrderedField α] in
/-- A loop whose body changes nothing changes nothing. -/
theorem foldl_fixed {β γ : Type} (body : β → γ → β) (l : List γ)
    (h : ∀ x ∈ l, ∀ m, body m x = m) (m : β) : l.foldl body m = m := by
  induction l generalizing m with
  | nil => rfl
  | cons a l ih =>
    rw [List.foldl_cons, h a (List.mem_cons_self _ _)]
    exact ih (fun x hx => h x (List.mem_cons_of_mem _ hx)) m

/-- When no perceiver sees any cell, the visibility grid stays all zero. -/
theorem BuildVisibility_blind (G : AGAGridActor α P) (Observers : List (FPerceiver α))
    (hblind : ∀ obs ∈ Observers, ∀ c, obs.Sees c = false) :
    BuildVisibility G Observers = FGAGridMap.ofGrid G 0 := by
  unfold BuildVisibility
  refine foldl_fixed _ _ ?_ _
  intro obs hobs vis
  by_cases hp : obs.HasPawn = true
  · simp only [hp, Bool.not_true, Bool.false_eq_true, if_false]
    refine foldl_fixed _ _ ?_ _
    intro c _ vis'
    rw [VisibilityBody_eq]
    simp only [hblind obs hobs c, Bool.false_eq_true, if_false]
    exact FGAGridMap.SetValue_self vis' c
  · have hp' : obs.HasPawn = false := by simpa using hp
    simp [hp']

/-- On a grid of traversable cells with no cell in view, the update is two renormalisation
passes. -/
theorem OccupancyMapUpdate_blind (G : AGAGridActor α P) (htrav : ∀ c, G.Traversable c = true)
    (Observers : List (FPerceiver α))
    (hblind : ∀ obs ∈ Observers, ∀ c, obs.Sees c = false) (m : FGAGridMap α) :
    OccupancyMapUpdate (some G) Observers m = Renormalize G (Renormalize G m) := by
  unfold OccupancyMapUpdate
  simp only
  have hvis : ∀ c, IsVisibleCell (BuildVisibility G Observers) c = false := by
    intro c
    rw [BuildVisibility_blind G Observers hblind]
    unfold IsVisibleCell FGAGridMap.GetValue
    by_cases hw : (FGAGridMap.ofGrid G (0 : α)).InWindow c = true
    · rw [if_pos hw]
      simp [FGAGridMap.ofGrid]
    · rw [if_neg hw]
  have h1 : G.ScanCells.foldl (ClearVisibleBody (BuildVisibility G Observers)) m = m := by
    refine foldl_fixed _ _ ?_ _
    intro c _ m'
    rw [ClearVisibleBody_eq]
    simp only [hvis c, Bool.false_eq_true, if_false]
    exact FGAGridMap.SetValue_self m' c
  rw [h1]
  have h2 : G.ScanCells.foldl (ClearBlockedBody G) (Renormalize G m) = Renormalize G m := by
    refine foldl_fixed _ _ ?_ _
    intro c _ m'
    rw [ClearBlockedBody_eq]
    simp only [htrav c, if_true]
    exact FGAGridMap.SetValue_self m' c
  rw [h2]

/-- After a collapse to a valid cell inside the window the entries are non-negative and
their sum over the grid is 1. -/
theorem OccupancyMapSetPosition_ScanSum (G : AGAGridActor α P) (OccupancyMap : FGAGridMap α)
    (Position : P) (hv : G.IsValid (G.GetCellRefClamped Position) = true)
    (hw : OccupancyMap.InWindow (G.GetCellRefClamped Position) = true) :
    (∀ c, 0 ≤ (OccupancyMapSetPosition (some G) OccupancyMap Position).Data c) ∧
      ScanSum G (OccupancyMapSetPosition (some G) OccupancyMap Position) = 1 := by
  have hdata : ∀ c, (OccupancyMapSetPosition (some G) OccupancyMap Position).Data c =
      if c = G.GetCellRefClamped Position then 1 else 0 := by
    intro c
    unfold OccupancyMapSetPosition
    simp only
    rw [if_pos hv, FGAGridMap.Data_SetValue, FGAGridMap.InWindow_ResetData]
    by_cases hc : c = G.GetCellRefClamped Position
    · simp [hc, hw]
    · simp [hc, FGAGridMap.ResetData]
  have hwin : ∀ c, (OccupancyMapSetPosition (some G) OccupancyMap Position).InWindow c =
      OccupancyMap.InWindow c := by
    intro c
    unfold OccupancyMapSetPosition
    simp only
    rw [if_pos hv]
    simp
  constructor
  · intro c
    rw [hdata]
    split
    · exact zero_le_one
    · exact le_refl _
  · unfold ScanSum
    have hterm : ∀ c ∈ G.ScanCells.toFinset,
        (if (OccupancyMapSetPosition (some G) OccupancyMap Position).InWindow c = true then
          (OccupancyMapSetPosition (some G) OccupancyMap Position).Data c else 0) =
        if c = G.GetCellRefClamped Position then 1 else 0 := by
      intro c _
      rw [hwin, hdata]
      by_cases hc : c = G.GetCellRefClamped Position
      · rw [hc, if_pos hw]
      · rw [if_neg hc]; simp
    rw [Finset.sum_congr rfl hterm, Finset.sum_ite_eq',
      if_pos (List.mem_toFinset.mpr ((G.mem_ScanCells _).mpr hv))]

end HiddenTicks

section HiddenTickRuns

variable {α P : Type} [LinearOrderedField α] [AddCommGroup P] [Module α P]

/-- The tick of a target that is observed: the belief collapses to the observed position
and is then diffused. -/
theorem TickComponent_observed (Grid : Option (AGAGridActor α P))
    (Observers : List (FPerceiver α)) (OwnerLocation : P)
    (st : FTargetCache P × FGAGridMap α) (hi : IsImmediate Observers = true) :
    TickComponent Grid Observers OwnerLocation st =
      (⟨ETargetState.GATS_Immediate, OwnerLocation⟩,
        OccupancyMapDiffuse Grid (OccupancyMapSetPosition Grid st.2 OwnerLocation)) := by
  simp [TickComponent, hi, FTargetCache.IsKnown]

/-- The tick of a known target that no perceiver is fully aware of: the belief is updated
and then diffused. -/
theorem TickComponent_hidden (Grid : Option (AGAGridActor α P))
    (Observers : List (FPerceiver α)) (OwnerLocation : P)
    (st : FTargetCache P × FGAGridMap α) (hi : IsImmediate Observers = false)
    (hk : st.1.State ≠ ETargetState.GATS_Unknown) :
    TickComponent Grid Observers OwnerLocation st =
      (⟨ETargetState.GATS_Hidden,
          OccupancyMapUpdateLastKnown Grid Observers st.2 st.1.Position⟩,
        OccupancyMapDiffuse Grid (OccupancyMapUpdate Grid Observers st.2)) := by
  simp [TickComponent, hi, hk, FTargetCache.IsKnown]

/-- A hidden tick with nothing in view, on a grid of traversable cells at least two cells
wide and high: from a non-negative belief with a positive sum it leaves a non-negative
belief over the grid whose sum is at least 11/10. -/
theorem TickComponent_hidden_sum (G : AGAGridActor α P) (hX : 2 ≤ G.XCount)
    (hY : 2 ≤ G.YCount) (htrav : ∀ c, G.Traversable c = true)
    (Observers : List (FPerceiver α))
    (hblind : ∀ obs ∈ Observers, ∀ c, obs.Sees c = false)
    (hi : IsImmediate Observers = false) (OwnerLocation : P)
    (st : FTargetCache P × FGAGridMap α) (hk : st.1.State ≠ ETargetState.GATS_Unknown)
    (hnn : ∀ c, st.2.InWindow c = true → 0 ≤ st.2.Data c) (hpos : 0 < ScanSum G st.2) :
    (TickComponent (some G) Observers OwnerLocation st).1.State = ETargetState.GATS_Hidden ∧
      (∀ c, (TickComponent (some G) Observers OwnerLocation st).2.InWindow c = true →
        G.IsValid c = true) ∧
      (∀ c, (TickComponent (some G) Observers OwnerLocation st).2.InWindow c = true →
        0 ≤ (TickComponent (some G) Observers OwnerLocation st).2.Data c) ∧
      11 / 10 ≤ ScanSum G (TickComponent (some G) Observers OwnerLocation st).2 ∧
      ScanSum G (TickComponent (some G) Observers OwnerLocation st).2 ≤ 13 / 10 := by
  rw [TickComponent_hidden (some G) Observers OwnerLocation st hi hk,
    OccupancyMapUpdate_blind G htrav Observers hblind]
  obtain ⟨_, hnn1, _⟩ := Renormalize_spec G st.2 hnn
  have hs1 := Renormalize_ScanSum_one G st.2 hpos
  obtain ⟨_, hnn2, _⟩ := Renormalize_spec G (Renormalize G st.2) hnn1
  have hs2 := Renormalize_ScanSum_one G (Renormalize G st.2) (by rw [hs1]; exact one_pos)
  refine ⟨rfl, (OccupancyMapDiffuse_spec G _).1, OccupancyMapDiffuse_nonneg G _ hnn2, ?_, ?_⟩
  · have h := OccupancyMapDiffuse_ScanSum_ge G hX hY _ hnn2
    rw [hs2, mul_one] at h
    exact h
  · have h := OccupancyMapDiffuse_ScanSum_le G _ hnn2
    rw [hs2, mul_one] at h
    exact h

/-- An observed tick at a valid cell inside the window, on a grid at least two cells wide
and high, leaves a non-negative belief over the grid whose sum lies between 11/10 and
13/10. -/
theorem TickComponent_observed_sum (G : AGAGridActor α P) (hX : 2 ≤ G.XCount)
    (hY : 2 ≤ G.YCount) (Observers : List (FPerceiver α))
    (hi : IsImmediate Observers = true) (OwnerLocation : P)
    (st : FTargetCache P × FGAGridMap α)
    (hv : G.IsValid (G.GetCellRefClamped OwnerLocation) = true)
    (hw : st.2.InWindow (G.GetCellRefClamped OwnerLocation) = true) :
    (TickComponent (some G) Observers OwnerLocation st).1.State =
        ETargetState.GATS_Immediate ∧
      (∀ c, (TickComponent (some G) Observers OwnerLocation st).2.InWindow c = true →
        G.IsValid c = true) ∧
      (∀ c, (TickComponent (some G) Observers OwnerLocation st).2.InWindow c = true →
        0 ≤ (TickComponent (some G) Observers OwnerLocation st).2.Data c) ∧
      11 / 10 ≤ ScanSum G (TickComponent (some G) Observers OwnerLocation st).2 ∧
      ScanSum G (TickComponent (some G) Observers OwnerLocation st).2 ≤ 13 / 10 := by
  rw [TickComponent_observed (some G) Observers OwnerLocation st hi]
  obtain ⟨hnn, hs⟩ := OccupancyMapSetPosition_ScanSum G st.2 OwnerLocation hv hw
  refine ⟨rfl, (OccupancyMapDiffuse_spec G _).1,
    OccupancyMapDiffuse_nonneg G _ (fun c _ => hnn c), ?_, ?_⟩
  · have h := OccupancyMapDiffuse_ScanSum_ge G hX hY _ (fun c _ => hnn c)
    rw [hs, mul_one] at h
    exact h
  · have h := OccupancyMapDiffuse_ScanSum_le G _ (fun c _ => hnn c)
    rw [hs, mul_one] at h
    exact h

/-- A non-empty run of hidden ticks with nothing in view, on a grid of traversable cells at
least two cells wide and high: from a known target and a non-negative belief with a positive
sum it leaves the target `Hidden` and a belief over the grid whose sum lies between 11/10
and 13/10. -/
theorem TickRun_hidden_sum (G : AGAGridActor α P) (hX : 2 ≤ G.XCount)
    (hY : 2 ≤ G.YCount) (htrav : ∀ c, G.Traversable c = true)
    (ticks : List (List (FPerceiver α) × P)) :
    (∀ t ∈ ticks, IsImmediate t.1 = false ∧ ∀ obs ∈ t.1, ∀ c, obs.Sees c = false) →
    ticks ≠ [] →
    ∀ st : FTargetCache P × FGAGridMap α, st.1.State ≠ ETargetState.GATS_Unknown →
      (∀ c, st.2.InWindow c = true → 0 ≤ st.2.Data c) → 0 < ScanSum G st.2 →
      (TickRun (some G) ticks st).1.State = ETargetState.GATS_Hidden ∧
        (∀ c, (TickRun (some G) ticks st).2.InWindow c = true → G.IsValid c = true) ∧
        11 / 10 ≤ ScanSum G (TickRun (some G) ticks st).2 ∧
        ScanSum G (TickRun (some G) ticks st).2 ≤ 13 / 10 := by
  induction ticks with
  | nil => intro _ h; exact absurd rfl h
  | cons t l ih =>
    intro hticks _ st hk hnn hpos
    obtain ⟨hi, hblind⟩ := hticks t (List.mem_cons_self _ _)
    obtain ⟨h1, h2, h3, h4, h5⟩ :=
      TickComponent_hidden_sum G hX hY htrav t.1 hblind hi t.2 st hk hnn hpos
    have hrun : TickRun (some G) (t :: l) st =
        TickRun (some G) l (TickComponent (some G) t.1 t.2 st) := rfl
    rw [hrun]
    by_cases hl : l = []
    · subst hl
      exact ⟨h1, h2, h4, h5⟩
    · refine ih (fun u hu => hticks u (List.mem_cons_of_mem _ hu)) hl _ ?_ h3 ?_
      · rw [h1]; decide
      · exact lt_of_lt_of_le (by norm_num) h4

end HiddenTickRuns

/-! ## C27: the scenario of an observation followed by three hidden ticks -/

section ScenarioTheorems

/-- C27, the code at the scenario: on the 5 × 5 grid of traversable cells, where `(2, 2)`
has four in-bounds neighbours and no perceiver sees any cell, after the target is observed
at `(2, 2)` and then hidden for three ticks the target is `Hidden` and the belief grid sums
to at least 11/10 and at most 13/10, so not to 1. -/
theorem TickRun_scenario_total_exceeds_one :
    (∀ c, exGrid5Q.Traversable c = true) ∧
    (∀ o ∈ NeighborOffsets, exGrid5Q.IsValid ((⟨2, 2⟩ : FCellRef).offset o) = true) ∧
    (∀ c, exPerceiver.Sees c = false ∧ exBlind.Sees c = false) ∧
    exScenario.1.State = ETargetState.GATS_Hidden ∧
    11 / 10 ≤ exScenario.2.Total ∧ exScenario.2.Total ≤ 13 / 10 ∧
    exScenario.2.Total ≠ 1 := by
  obtain ⟨h1, _, h3, h4, _⟩ := TickComponent_observed_sum exGrid5Q (by decide) (by decide)
    [exPerceiver] (by simp [IsImmediate, exPerceiver]) ((2 : ℚ), (2 : ℚ))
    (⟨ETargetState.GATS_Unknown, ((0 : ℚ), (0 : ℚ))⟩, FGAGridMap.ofGrid exGrid5Q 0)
    (by decide) (by decide)
  obtain ⟨r1, r2, r3, r4⟩ := TickRun_hidden_sum exGrid5Q (by decide) (by decide)
    (fun _ => rfl) exHiddenTicks
    (by simp [exHiddenTicks, IsImmediate, exBlind, FPerceiver.Sees])
    (by simp [exHiddenTicks]) _ (by rw [h1]; decide) h3 (lt_of_lt_of_le (by norm_num) h4)
  have heq : exScenario = TickRun (some exGrid5Q) exHiddenTicks
      (TickComponent (some exGrid5Q) [exPerceiver] ((2 : ℚ), (2 : ℚ))
        (⟨ETargetState.GATS_Unknown, ((0 : ℚ), (0 : ℚ))⟩,
          FGAGridMap.ofGrid exGrid5Q 0)) := by
    unfold exScenario TickRun
    rw [List.foldl_cons]
  rw [heq, ← ScanSum_eq_Total exGrid5Q _ r2]
  refine ⟨fun _ => rfl, by decide, fun c => ⟨rfl, rfl⟩, r1, r3, r4, ?_⟩
  intro h
  rw [h] at r3
  norm_num at r3

end ScenarioTheorems

/-! ## C31: smoothing keeps the destination and the order of the points -/

section SmoothOrder

variable {α P : Type}

/-- Two lists with the same last element still have the same last element after the same
element is put in front of both. -/
theorem getLast_cons_congr {γ : Type} (a : γ) (l1 l2 : List γ)
    (h : l1.getLast? = l2.getLast?) : (a :: l1).getLast? = (a :: l2).getLast? := by
  cases l1 with
  | nil =>
    cases l2 with
    | nil => rfl
    | cons b l2 =>
      rw [List.getLast?_nil, List.getLast?_eq_getLast _ (List.cons_ne_nil _ _)] at h
      cases h
  | cons b l1 =>
    cases l2 with
    | nil =>
      rw [List.getLast?_nil, List.getLast?_eq_getLast _ (List.cons_ne_nil _ _)] at h
      cases h
    | cons c l2 =>
      rw [List.getLast?_cons_cons, List.getLast?_cons_cons]
      exact h

/-- The inner loop of `SmoothPath`: the point it returns followed by the points of the steps
it leaves is a sublist of the point it was given followed by the points of its steps, with
the same last point. -/
theorem SmoothAdvance_sublist (G : AGAGridActor α P) (CurrentPoint : P)
    (l : List (FPathStep P)) : ∀ (NextPoint np : P) (remaining : List (FPathStep P)),
      SmoothAdvance G CurrentPoint l NextPoint = some (np, remaining) →
      List.Sublist (np :: remaining.map FPathStep.Point) (NextPoint :: l.map FPathStep.Point) ∧
        (np :: remaining.map FPathStep.Point).getLast? =
          (NextPoint :: l.map FPathStep.Point).getLast? := by
  induction l with
  | nil =>
    intro NextPoint np remaining h
    simp only [SmoothAdvance, Option.some.injEq, Prod.mk.injEq] at h
    obtain ⟨h1, h2⟩ := h
    subst h1; subst h2
    exact ⟨List.Sublist.refl _, rfl⟩
  | cons s rest ih =>
    intro NextPoint np remaining h
    unfold SmoothAdvance at h
    cases hb : LineTrace G CurrentPoint s.Point with
    | none => rw [hb] at h; cases h
    | some b =>
      rw [hb] at h
      cases b with
      | false =>
        simp only [Option.some.injEq, Prod.mk.injEq] at h
        obtain ⟨h1, h2⟩ := h
        subst h1; subst h2
        exact ⟨List.Sublist.refl _, rfl⟩
      | true =>
        obtain ⟨h1, h2⟩ := ih s.Point np remaining h
        refine ⟨List.Sublist.cons NextPoint h1, ?_⟩
        rw [h2, List.map_cons, List.getLast?_cons_cons]

/-- The outer loop of `SmoothPath` appends steps whose points form a sublist of the points of
its input steps, with the same last point; each appended step carries the cell of its
point. -/
theorem SmoothLoop_sublist (G : AGAGridActor α P) (fuel : Nat) :
    ∀ (l acc out : List (FPathStep P)), SmoothLoop G fuel l acc = some out →
      ∃ new, out = acc ++ new ∧
        List.Sublist (new.map FPathStep.Point) (l.map FPathStep.Point) ∧
        (new.map FPathStep.Point).getLast? = (l.map FPathStep.Point).getLast? ∧
        ∀ s ∈ new, s.CellRef = G.GetCellRef s.Point := by
  induction fuel with
  | zero =>
    intro l acc out h
    cases l with
    | nil =>
      simp only [SmoothLoop, Option.some.injEq] at h
      exact ⟨[], by rw [← h, List.append_nil], List.Sublist.refl _, rfl,
        fun s hs => absurd hs (List.not_mem_nil _)⟩
    | cons s rest => simp [SmoothLoop] at h
  | succ fuel ih =>
    intro l acc out h
    cases l with
    | nil =>
      simp only [SmoothLoop, Option.some.injEq] at h
      exact ⟨[], by rw [← h, List.append_nil], List.Sublist.refl _, rfl,
        fun s hs => absurd hs (List.not_mem_nil _)⟩
    | cons s rest =>
      unfold SmoothLoop at h
      cases hadv : SmoothAdvance G s.Point rest s.Point with
      | none => rw [hadv] at h; cases h
      | some r =>
        obtain ⟨np, remaining⟩ := r
        rw [hadv] at h
        obtain ⟨new, h1, h2, h3, h4⟩ := ih remaining _ out h
        obtain ⟨a1, a2⟩ := SmoothAdvance_sublist G s.Point rest s.Point np remaining hadv
        refine ⟨⟨np, G.GetCellRef np⟩ :: new, ?_, ?_, ?_, ?_⟩
        · rw [h1, List.append_assoc]; rfl
        · exact List.Sublist.trans (List.Sublist.cons₂ np h2) a1
        · rw [List.map_cons, List.map_cons, ← a2]
          exact getLast_cons_congr np _ _ h3
        · intro x hx
          rcases List.mem_cons.mp hx with e | hm
          · rw [e]
          · exact h4 x hm

/-- On a grid and a non-empty input step list `SmoothPath` returns `Active` with a non-empty
output. -/
theorem SmoothPath_Active_ne_nil (G : AGAGridActor α P) (StartPoint : P)
    (UnsmoothedSteps SmoothedStepsOut : List (FPathStep P)) (hne : UnsmoothedSteps ≠ []) :
    ∃ out, SmoothPath (some G) StartPoint UnsmoothedSteps SmoothedStepsOut =
        some (EGAPathState.GAPS_Active, out) ∧ out ≠ [] := by
  obtain ⟨out, h1, _⟩ := SmoothLoop_total G UnsmoothedSteps.length UnsmoothedSteps []
    (le_refl _)
  obtain ⟨new, e, _, hlast, _⟩ :=
    SmoothLoop_sublist G UnsmoothedSteps.length UnsmoothedSteps [] out h1
  rw [List.nil_append] at e
  subst e
  refine ⟨out, ?_, ?_⟩
  · unfold SmoothPath
    simp only [h1, Option.map_some']
  · intro hnil
    rw [hnil, List.getLast?_eq_getLast _
      (fun h => hne (List.map_eq_nil_iff.mp h))] at hlast
    simp at hlast

/-- C31: on a grid and a non-empty input step list `SmoothPath` returns `Active` with a
non-empty output whose last step has the point of the last input step; the output points
form a sublist of the input points, that is, every output point is an input point and the
order is kept; each output step carries the cell of its point. -/
theorem SmoothPath_keeps_destination_and_order (G : AGAGridActor α P) (StartPoint : P)
    (UnsmoothedSteps SmoothedStepsOut : List (FPathStep P)) (hne : UnsmoothedSteps ≠ []) :
    ∃ out, SmoothPath (some G) StartPoint UnsmoothedSteps SmoothedStepsOut =
        some (EGAPathState.GAPS_Active, out) ∧
      out ≠ [] ∧
      (out.getLast?).map FPathStep.Point = (UnsmoothedSteps.getLast?).map FPathStep.Point ∧
      List.Sublist (out.map FPathStep.Point) (UnsmoothedSteps.map FPathStep.Point) ∧
      ∀ s ∈ out, s.CellRef = G.GetCellRef s.Point := by
  obtain ⟨out, h1, _⟩ := SmoothLoop_total G UnsmoothedSteps.length UnsmoothedSteps []
    (le_refl _)
  obtain ⟨new, e, hsub, hlast, hcell⟩ :=
    SmoothLoop_sublist G UnsmoothedSteps.length UnsmoothedSteps [] out h1
  rw [List.nil_append] at e
  subst e
  have hl : (out.getLast?).map FPathStep.Point =
      (UnsmoothedSteps.getLast?).map FPathStep.Point := by
    rw [← List.getLast?_map, ← List.getLast?_map]
    exact hlast
  refine ⟨out, ?_, ?_, hl, hsub, hcell⟩
  · unfold SmoothPath
    simp only [h1, Option.map_some']
  · intro hnil
    rw [hnil] at hl
    rw [List.getLast?_eq_getLast _ hne] at hl
    simp at hl

end SmoothOrder

section SmoothOrderWitnesses

/-- Witness for C31 on the step list A* returns on the 3 × 3 example grid from `(0, 0)` to
`(2, 2)`. -/
theorem SmoothPath_keeps_destination_and_order_witness :
    [exStep 0 0, exStep 1 0, exStep 2 0, exStep 2 1, exStep 2 2] ≠ [] ∧
    ∃ out, SmoothPath (some exGrid3) ((0 : Int), (0 : Int))
        [exStep 0 0, exStep 1 0, exStep 2 0, exStep 2 1, exStep 2 2] [] =
        some (EGAPathState.GAPS_Active, out) ∧
      out ≠ [] ∧
      (out.getLast?).map FPathStep.Point =
        (([exStep 0 0, exStep 1 0, exStep 2 0, exStep 2 1, exStep 2 2] : List _).getLast?).map
          FPathStep.Point ∧
      List.Sublist (out.map FPathStep.Point)
        ([exStep 0 0, exStep 1 0, exStep 2 0, exStep 2 1, exStep 2 2].map FPathStep.Point) ∧
      ∀ s ∈ out, s.CellRef = exGrid3.GetCellRef s.Point :=
  ⟨List.cons_ne_nil _ _,
    SmoothPath_keeps_destination_and_order exGrid3 ((0 : Int), (0 : Int))
      [exStep 0 0, exStep 1 0, exStep 2 0, exStep 2 1, exStep 2 2] [] (List.cons_ne_nil _ _)⟩

end SmoothOrderWitnesses

/-! ## C32: the assertions of `FollowPath` after `RefreshPath` -/

section FollowAssertions

variable {α P : Type} [LinearOrderedAddCommGroup α]

/-- Whatever the heap pop does, an `Active` result of the A* loop has the start step in
front. -/
theorem AStarLoop_Active_ne_nil (G : AGAGridActor α P)
    (HeapPop : (FCellRef → α) → List FCellRef → Option (FCellRef × List FCellRef))
    (StartPoint : P) (start dest : FCellRef) (StepsOut : List (FPathStep P))
    (traceFuel : Nat) (fuel : Nat) :
    ∀ (st : FAStarState α) (Steps : List (FPathStep P)),
      AStarLoop G HeapPop StartPoint start dest StepsOut traceFuel fuel st =
        some (EGAPathState.GAPS_Active, Steps) → Steps ≠ [] := by
  have trace : ∀ (st : FAStarState α) (c : FCellRef) (Steps : List (FPathStep P)),
      (AStarTrace G st.CameFrom traceFuel c StepsOut).map
          (fun out => (EGAPathState.GAPS_Active, (⟨StartPoint, start⟩ : FPathStep P) :: out)) =
        some (EGAPathState.GAPS_Active, Steps) → Steps ≠ [] := by
    intro st c Steps hrun
    rw [Option.map_eq_some'] at hrun
    obtain ⟨out, _, hr⟩ := hrun
    simp only [Prod.mk.injEq, true_and] at hr
    rw [← hr]
    exact List.cons_ne_nil _ _
  induction fuel with
  | zero =>
    intro st Steps hrun
    unfold AStarLoop at hrun
    cases hp : HeapPop st.FScore st.OpenSet with
    | none =>
      rw [hp] at hrun
      simp at hrun
    | some cr =>
      obtain ⟨c, rest⟩ := cr
      rw [hp] at hrun
      by_cases hcd : c = dest
      · simp only [hcd, if_true] at hrun
        exact trace st dest Steps hrun
      · simp [hcd] at hrun
  | succ fuel ih =>
    intro st Steps hrun
    unfold AStarLoop at hrun
    cases hp : HeapPop st.FScore st.OpenSet with
    | none =>
      rw [hp] at hrun
      simp at hrun
    | some cr =>
      obtain ⟨c, rest⟩ := cr
      rw [hp] at hrun
      by_cases hcd : c = dest
      · simp only [hcd, if_true] at hrun
        exact trace st dest Steps hrun
      · simp only [hcd, if_false] at hrun
        exact ih _ Steps hrun

/-- Whatever the heap pop does, an `Active` result of `AStar` comes from a grid and has a
non-empty step list. -/
theorem AStar_Active_ne_nil (fuel : Nat)
    (HeapPop : (FCellRef → α) → List FCellRef → Option (FCellRef × List FCellRef))
    (Grid : Option (AGAGridActor α P)) (DestinationCell : FCellRef) (StartPoint : P)
    (StepsOut Steps : List (FPathStep P))
    (h : AStar fuel HeapPop Grid DestinationCell StartPoint StepsOut =
      some (EGAPathState.GAPS_Active, Steps)) :
    Steps ≠ [] ∧ ∃ G, Grid = some G := by
  cases Grid with
  | none => simp [AStar] at h
  | some G =>
    refine ⟨?_, G, rfl⟩
    unfold AStar at h
    simp only at h
    split at h
    · simp at h
    · exact AStarLoop_Active_ne_nil G HeapPop StartPoint _ _ StepsOut fuel fuel _ Steps h

/-- An `Active` state published by `RefreshPath` comes with a non-empty step list. -/
theorem RefreshPath_Active_ne_nil (fuel : Nat)
    (HeapPop : (FCellRef → α) → List FCellRef → Option (FCellRef × List FCellRef))
    (Dist : P → P → α) (Grid : Option (AGAGridActor α P)) (StartPoint : P)
    (pc pc1 : UGAPathComponent α P)
    (hR : RefreshPath fuel HeapPop Dist Grid StartPoint pc = some pc1)
    (hA : pc1.State = EGAPathState.GAPS_Active) :
    pc.bDestinationValid = true ∧ pc1.Steps ≠ [] := by
  unfold RefreshPath at hR
  by_cases hv : pc.bDestinationValid = true
  · refine ⟨hv, ?_⟩
    have hb : (!pc.bDestinationValid) = false := by rw [hv]; rfl
    rw [hb] at hR
    simp only [Bool.false_eq_true, if_false] at hR
    by_cases hd : Dist StartPoint pc.Destination ≤ pc.ArrivalDistance
    · rw [if_pos hd] at hR
      simp only [Option.some.injEq] at hR
      rw [← hR] at hA
      have h' : EGAPathState.GAPS_Finished = EGAPathState.GAPS_Active := hA
      cases h'
    · rw [if_neg hd] at hR
      cases hAS : AStar fuel HeapPop Grid pc.DestinationCell StartPoint [] with
      | none => rw [hAS] at hR; cases hR
      | some r =>
        obtain ⟨State, U⟩ := r
        rw [hAS] at hR
        simp only at hR
        by_cases hs : State = EGAPathState.GAPS_Active
        · subst hs
          obtain ⟨hU, G, hG⟩ := AStar_Active_ne_nil fuel HeapPop Grid pc.DestinationCell
            StartPoint [] U hAS
          subst hG
          obtain ⟨out, hS, hne⟩ := SmoothPath_Active_ne_nil G StartPoint U [] hU
          rw [if_pos rfl, hS] at hR
          simp only [Option.some.injEq] at hR
          rw [← hR]
          exact hne
        · rw [if_neg hs] at hR
          simp only [Option.some.injEq] at hR
          rw [← hR] at hA
          exact absurd hA hs
  · have hb : (!pc.bDestinationValid) = true := by
      cases h : pc.bDestinationValid with
      | true => exact absurd h hv
      | false => rfl
    rw [hb, if_pos rfl] at hR
    cases hR

/-- C32: whenever `RefreshPath` publishes the state `Active`, the step list it publishes is
not empty, the call of `FollowPath` that follows passes both of its assertions and returns,
and so does the tick that made the two calls. -/
theorem RefreshPath_Active_satisfies_FollowPath (fuel : Nat)
    (HeapPop : (FCellRef → α) → List FCellRef → Option (FCellRef × List FCellRef))
    (Dist : P → P → α) (Grid : Option (AGAGridActor α P)) (StartPoint : P)
    (pc pc1 : UGAPathComponent α P)
    (hR : RefreshPath fuel HeapPop Dist Grid StartPoint pc = some pc1)
    (hA : pc1.State = EGAPathState.GAPS_Active) :
    pc1.Steps ≠ [] ∧
      ∃ r, FollowPath Dist StartPoint pc1 = some r ∧
        UGAPathComponent.TickComponent fuel HeapPop Dist Grid StartPoint pc = some r := by
  obtain ⟨hv, hne⟩ := RefreshPath_Active_ne_nil fuel HeapPop Dist Grid StartPoint pc pc1 hR hA
  refine ⟨hne, ?_⟩
  have hF : ∃ r, FollowPath Dist StartPoint pc1 = some r := by
    unfold FollowPath
    rw [if_neg (by rw [hA]; exact fun h => h rfl)]
    cases hS : pc1.Steps with
    | nil => exact absurd hS hne
    | cons Step0 Rest =>
      simp only
      by_cases hd : Dist StartPoint Step0.Point ≤ pc1.ArrivalDistance
      · rw [if_pos hd]
        cases Rest with
        | nil => exact ⟨_, rfl⟩
        | cons Step1 Rest' => exact ⟨_, rfl⟩
      · rw [if_neg hd]
        exact ⟨_, rfl⟩
  obtain ⟨r, hr⟩ := hF
  refine ⟨r, hr, ?_⟩
  unfold UGAPathComponent.TickComponent
  rw [if_pos hv, hR]
  simp only
  rw [if_pos hA, hr]

end FollowAssertions

section FollowAssertionsWitnesses

/-- Witness for C32 on the 3 × 3 example grid, from `(0, 0)` towards `(2, 2)`. -/
theorem RefreshPath_Active_satisfies_FollowPath_witness :
    RefreshPath 9 HeapPopFirstMin exDist (some exGrid3) ((0 : Int), (0 : Int))
      exPathComponent = some exPathRefreshed ∧
    exPathRefreshed.State = EGAPathState.GAPS_Active ∧
    exPathRefreshed.Steps ≠ [] ∧
      ∃ r, FollowPath exDist ((0 : Int), (0 : Int)) exPathRefreshed = some r ∧
        UGAPathComponent.TickComponent 9 HeapPopFirstMin exDist (some exGrid3)
          ((0 : Int), (0 : Int)) exPathComponent = some r :=
  ⟨(Option.some_get _).symm, by decide,
    RefreshPath_Active_satisfies_FollowPath 9 HeapPopFirstMin exDist (some exGrid3)
      ((0 : Int), (0 : Int)) exPathComponent exPathRefreshed (Option.some_get _).symm
      (by decide)⟩

end FollowAssertionsWitnesses

/-! ## C33: the Bresenham loop of `LineTrace` -/

section LineTraceBound

variable {α P : Type}

/-- The recording loop returns the result of the loop of `LineTrace`. -/
theorem LineTraceInspect_fst (G : AGAGridActor α P) (EndCell : FCellRef)
    (dx dy sx sy : Int) (fuel : Nat) : ∀ X Y E : Int,
      (LineTraceInspect G EndCell dx dy sx sy fuel X Y E).map Prod.fst =
        LineTraceLoop G EndCell dx dy sx sy fuel X Y E := by
  induction fuel with
  | zero =>
    intro X Y E
    simp only [LineTraceInspect, LineTraceLoop]
    split
    · split <;> rfl
    · rfl
  | succ fuel ih =>
    intro X Y E
    simp only [LineTraceInspect, LineTraceLoop]
    split
    · split
      · rfl
      · rw [← ih, Option.map_map]
        rfl
    · rfl

/-- The recording run returns the result of `LineTrace` when given the fuel of
`LineTrace`. -/
theorem LineTraceRecord_fst (G : AGAGridActor α P) (Start End : P) :
    (LineTraceRecord G Start End
        (|(G.GetCellRef End).X - (G.GetCellRef Start).X| +
          |(G.GetCellRef End).Y - (G.GetCellRef Start).Y|).toNat).map Prod.fst =
      LineTrace G Start End := by
  unfold LineTraceRecord LineTrace
  simp only
  split
  · rfl
  · exact LineTraceInspect_fst G _ _ _ _ _ _ _ _ _

/-- When the x axis is the major axis, every Bresenham pass moves in x. -/
theorem BresenhamStep_x_major (dx dy sx sy X Y E : Int) (hmaj : dy ≤ dx)
    (h1 : E * 2 > -dy) (h2 : dx = dy → E * 2 < dx) :
    (BresenhamStep dx dy sx sy X Y E).1 = X + sx ∧
      (BresenhamStep dx dy sx sy X Y E).2.2 * 2 > -dy ∧
      (dx = dy → (BresenhamStep dx dy sx sy X Y E).2.2 * 2 < dx) := by
  unfold BresenhamStep
  by_cases hy : E * 2 < dx
  · simp only [h1, hy, if_true]
    refine ⟨trivial, ?_, ?_⟩ <;> omega
  · simp only [h1, hy, if_true, if_false]
    refine ⟨trivial, ?_, ?_⟩ <;> omega

/-- When the y axis is the major axis, every Bresenham pass moves in y. -/
theorem BresenhamStep_y_major (dx dy sx sy X Y E : Int) (hmaj : dx ≤ dy)
    (h1 : E * 2 < dx) (h2 : dx = dy → E * 2 > -dy) :
    (BresenhamStep dx dy sx sy X Y E).2.1 = Y + sy ∧
      (BresenhamStep dx dy sx sy X Y E).2.2 * 2 < dx ∧
      (dx = dy → (BresenhamStep dx dy sx sy X Y E).2.2 * 2 > -dy) := by
  unfold BresenhamStep
  by_cases hx : E * 2 > -dy
  · simp only [h1, hx, if_true]
    refine ⟨trivial, ?_, ?_⟩ <;> omega
  · simp only [h1, hx, if_true, if_false]
    refine ⟨trivial, ?_, ?_⟩ <;> omega

/-- A Bresenham walk with a measure that every pass lowers by one, under an invariant of the
error term: the loop returns within that many passes, whatever fuel it has beyond them; it
inspects one cell per pass, all of them between the current cell and the end cell. -/
theorem LineTraceInspect_measure (G : AGAGridActor α P) (dx dy sx sy ex ey : Int)
    (hdx : 0 ≤ dx) (hdy : 0 ≤ dy) (hsx : sx = 1 ∨ sx = -1) (hsy : sy = 1 ∨ sy = -1)
    (Inv : Int → Prop) (m : Int → Int → Int) (hm00 : m 0 0 = 0)
    (hm : ∀ rx ry, 0 ≤ rx → 0 ≤ ry → 0 ≤ m rx ry)
    (hstep : ∀ rx ry rx' ry', 0 ≤ rx → 0 ≤ ry → rx ≤ dx → ry ≤ dy → (rx ≠ 0 ∨ ry ≠ 0) →
      Inv (dx - dy + rx * dy - ry * dx) →
      BresenhamStep dx dy sx sy (ex - rx * sx) (ey - ry * sy) (dx - dy + rx * dy - ry * dx) =
        (ex - rx' * sx, ey - ry' * sy, dx - dy + rx' * dy - ry' * dx) →
      Inv (dx - dy + rx' * dy - ry' * dx) ∧ m rx' ry' + 1 = m rx ry) :
    ∀ (n : Nat) (rx ry : Int), 0 ≤ rx → 0 ≤ ry → rx ≤ dx → ry ≤ dy →
      Inv (dx - dy + rx * dy - ry * dx) → m rx ry = n →
      ∃ r log, (∀ fuel : Nat, n ≤ fuel →
          LineTraceInspect G ⟨ex, ey⟩ dx dy sx sy fuel (ex - rx * sx) (ey - ry * sy)
            (dx - dy + rx * dy - ry * dx) = some (r, log)) ∧
        log.length ≤ n ∧ (r = true → log.length = n) ∧
        ∀ c ∈ log, ∃ qx qy : Int, c = ⟨ex - qx * sx, ey - qy * sy⟩ ∧
          0 ≤ qx ∧ qx ≤ rx ∧ 0 ≤ qy ∧ qy ≤ ry := by
  intro n
  induction n with
  | zero =>
    intro rx ry hrx0 hry0 hrx hry hI hmn
    have hend : ¬ (rx ≠ 0 ∨ ry ≠ 0) := by
      intro hne
      obtain ⟨rx', ry', hs, h1, h2, _⟩ :=
        BresenhamStep_progress dx dy sx sy ex ey rx ry hdx hdy hrx0 hry0 hrx hry hne
      obtain ⟨_, hm1⟩ := hstep rx ry rx' ry' hrx0 hry0 hrx hry hne hI hs
      have := hm rx' ry' h1 h2
      rw [hmn] at hm1
      push_cast at hm1
      omega
    have e1 : rx = 0 := by omega
    have e2 : ry = 0 := by omega
    subst e1; subst e2
    refine ⟨true, [], ?_, le_refl _, fun _ => rfl, fun c hc => absurd hc (List.not_mem_nil _)⟩
    intro fuel _
    cases fuel <;> simp [LineTraceInspect]
  | succ n ih =>
    intro rx ry hrx0 hry0 hrx hry hI hmn
    have hne : rx ≠ 0 ∨ ry ≠ 0 := by
      by_contra hc
      have e1 : rx = 0 := by omega
      have e2 : ry = 0 := by omega
      rw [e1, e2, hm00] at hmn
      push_cast at hmn
      omega
    have hcond := (Bresenham_at_end_iff sx sy ex ey rx ry hsx hsy).mpr hne
    by_cases ht : G.Traversable ⟨ex - rx * sx, ey - ry * sy⟩ = true
    · obtain ⟨rx', ry', hs, h1, h2, h3, h4, _⟩ :=
        BresenhamStep_progress dx dy sx sy ex ey rx ry hdx hdy hrx0 hry0 hrx hry hne
      obtain ⟨hI', hm1⟩ := hstep rx ry rx' ry' hrx0 hry0 hrx hry hne hI hs
      have hmn' : m rx' ry' = n := by
        rw [hmn] at hm1
        push_cast at hm1
        omega
      obtain ⟨r, log, hall, hlen, hexact, hbox⟩ :=
        ih rx' ry' h1 h2 (le_trans h3 hrx) (le_trans h4 hry) hI' hmn'
      refine ⟨r, ⟨ex - rx * sx, ey - ry * sy⟩ :: log, ?_, ?_, ?_, ?_⟩
      · intro fuel hf
        cases fuel with
        | zero => omega
        | succ f =>
          simp only [LineTraceInspect]
          rw [if_pos hcond]
          simp only [ht, Bool.not_true, Bool.false_eq_true, if_false]
          rw [hs]
          simp only [hall f (by omega), Option.map_some']
      · simp only [List.length_cons]; omega
      · intro hr
        simp only [List.length_cons]
        rw [hexact hr]
      · intro c hc
        rcases List.mem_cons.mp hc with e | hmem
        · exact ⟨rx, ry, e, hrx0, le_refl _, hry0, le_refl _⟩
        · obtain ⟨qx, qy, hq, q1, q2, q3, q4⟩ := hbox c hmem
          exact ⟨qx, qy, hq, q1, le_trans q2 h3, q3, le_trans q4 h4⟩
    · have ht' : G.Traversable ⟨ex - rx * sx, ey - ry * sy⟩ = false := by
        simpa using ht
      refine ⟨false, [⟨ex - rx * sx, ey - ry * sy⟩], ?_, ?_, ?_, ?_⟩
      · intro fuel _
        cases fuel with
        | zero =>
          simp only [LineTraceInspect]
          rw [if_pos hcond]
          simp [ht']
        | succ f =>
          simp only [LineTraceInspect]
          rw [if_pos hcond]
          simp [ht']
      · simp
      · intro h; cases h
      · intro c hc
        rw [List.mem_singleton] at hc
        exact ⟨rx, ry, hc, hrx0, le_refl _, hry0, le_refl _⟩

/-- The Bresenham walk of `LineTrace` from the start cell: it returns within `max dx dy`
passes, inspects one cell per pass, and every inspected cell lies between the start cell and
the end cell in both coordinates. -/
theorem LineTraceInspect_bound (G : AGAGridActor α P) (dx dy sx sy ex ey : Int)
    (hdx : 0 ≤ dx) (hdy : 0 ≤ dy) (hsx : sx = 1 ∨ sx = -1) (hsy : sy = 1 ∨ sy = -1) :
    ∃ r log, (∀ fuel : Nat, (max dx dy).toNat ≤ fuel →
        LineTraceInspect G ⟨ex, ey⟩ dx dy sx sy fuel (ex - dx * sx) (ey - dy * sy)
          (dx - dy) = some (r, log)) ∧
      log.length ≤ (max dx dy).toNat ∧ (r = true → log.length = (max dx dy).toNat) ∧
      ∀ c ∈ log, ∃ qx qy : Int, c = ⟨ex - qx * sx, ey - qy * sy⟩ ∧
        0 ≤ qx ∧ qx ≤ dx ∧ 0 ≤ qy ∧ qy ≤ dy := by
  have hE : dx - dy = dx - dy + dx * dy - dy * dx := by ring
  rw [hE]
  by_cases hxy : dy ≤ dx
  · by_cases hpos : 0 < dx
    · have hmax : max dx dy = dx := max_eq_left hxy
      rw [hmax]
      refine LineTraceInspect_measure G dx dy sx sy ex ey hdx hdy hsx hsy
        (fun E => E * 2 > -dy ∧ (dx = dy → E * 2 < dx)) (fun rx _ => rx) rfl
        (fun rx _ h _ => h) ?_ dx.toNat dx dy hdx hdy (le_refl _) (le_refl _) ?_ ?_
      · intro rx ry rx' ry' _ _ _ _ _ hI hs
        obtain ⟨a1, a2, a3⟩ := BresenhamStep_x_major dx dy sx sy (ex - rx * sx)
          (ey - ry * sy) (dx - dy + rx * dy - ry * dx) hxy hI.1 hI.2
        rw [hs] at a1 a2 a3
        simp only at a1 a2 a3
        refine ⟨⟨a2, a3⟩, ?_⟩
        show rx' + 1 = rx
        rcases hsx with e | e <;> rw [e] at a1 <;> omega
      · rw [← hE]
        constructor
        · omega
        · intro h; omega
      · simp only
        omega
    · have e1 : dx = 0 := by omega
      have e2 : dy = 0 := by omega
      subst e1; subst e2
      refine ⟨true, [], ?_, by simp, fun _ => by simp,
        fun c hc => absurd hc (List.not_mem_nil _)⟩
      intro fuel _
      cases fuel <;> simp [LineTraceInspect]
  · have hxy' : dx ≤ dy := by omega
    have hpos : 0 < dy := by omega
    have hmax : max dx dy = dy := max_eq_right hxy'
    rw [hmax]
    refine LineTraceInspect_measure G dx dy sx sy ex ey hdx hdy hsx hsy
      (fun E => E * 2 < dx ∧ (dx = dy → E * 2 > -dy)) (fun _ ry => ry) rfl
      (fun _ ry _ h => h) ?_ dy.toNat dx dy hdx hdy (le_refl _) (le_refl _) ?_ ?_
    · intro rx ry rx' ry' _ _ _ _ _ hI hs
      obtain ⟨a1, a2, a3⟩ := BresenhamStep_y_major dx dy sx sy (ex - rx * sx)
        (ey - ry * sy) (dx - dy + rx * dy - ry * dx) hxy' hI.1 hI.2
      rw [hs] at a1 a2 a3
      simp only at a1 a2 a3
      refine ⟨⟨a2, a3⟩, ?_⟩
      show ry' + 1 = ry
      rcases hsy with e | e <;> rw [e] at a1 <;> omega
    · rw [← hE]
      constructor
      · omega
      · intro h; omega
    · simp only
      omega

end LineTraceBound

section LineTraceBoundClaim

variable {α P : Type}

/-- C33: between two valid cells the Bresenham loop of `LineTrace` terminates within
`max |dx| |dy|` passes, whatever fuel it has beyond them, and `LineTrace` returns its
result; the loop inspects one cell per pass, exactly `max |dx| |dy|` of them when no cell
blocks it, and every inspected cell lies inside the bounding rectangle of the start and the
end cell. -/
theorem LineTrace_loop_terminates_in_bounding_box (G : AGAGridActor α P) (Start End : P)
    (hs : G.IsValid (G.GetCellRef Start) = true) (he : G.IsValid (G.GetCellRef End) = true) :
    ∃ r log,
      (∀ fuel : Nat,
        (max |(G.GetCellRef End).X - (G.GetCellRef Start).X|
          |(G.GetCellRef End).Y - (G.GetCellRef Start).Y|).toNat ≤ fuel →
        LineTraceRecord G Start End fuel = some (r, log)) ∧
      LineTrace G Start End = some r ∧
      log.length ≤ (max |(G.GetCellRef End).X - (G.GetCellRef Start).X|
          |(G.GetCellRef End).Y - (G.GetCellRef Start).Y|).toNat ∧
      (r = true → log.length =
        (max |(G.GetCellRef End).X - (G.GetCellRef Start).X|
          |(G.GetCellRef End).Y - (G.GetCellRef Start).Y|).toNat) ∧
      ∀ c ∈ log, InBoundingBox (G.GetCellRef Start) (G.GetCellRef End) c := by
  have key : ∃ r log,
      (∀ fuel : Nat,
        (max |(G.GetCellRef End).X - (G.GetCellRef Start).X|
          |(G.GetCellRef End).Y - (G.GetCellRef Start).Y|).toNat ≤ fuel →
        LineTraceRecord G Start End fuel = some (r, log)) ∧
      log.length ≤ (max |(G.GetCellRef End).X - (G.GetCellRef Start).X|
          |(G.GetCellRef End).Y - (G.GetCellRef Start).Y|).toNat ∧
      (r = true → log.length =
        (max |(G.GetCellRef End).X - (G.GetCellRef Start).X|
          |(G.GetCellRef End).Y - (G.GetCellRef Start).Y|).toNat) ∧
      ∀ c ∈ log, InBoundingBox (G.GetCellRef Start) (G.GetCellRef End) c := by
    unfold LineTraceRecord
    simp only [hs, he, Bool.not_true, Bool.or_self, Bool.false_eq_true, if_false]
    generalize G.GetCellRef Start = a
    generalize G.GetCellRef End = b
    obtain ⟨aX, aY⟩ := a
    obtain ⟨bX, bY⟩ := b
    simp only
    obtain ⟨hx0, hsx, hxe⟩ := LineTrace_constants aX bX
    obtain ⟨hy0, hsy, hye⟩ := LineTrace_constants aY bY
    obtain ⟨r, log, hall, hlen, hex, hbox⟩ := LineTraceInspect_bound G |bX - aX| |bY - aY|
      (if aX < bX then 1 else -1) (if aY < bY then 1 else -1) bX bY hx0 hy0 hsx hsy
    rw [← hxe, ← hye] at hall
    refine ⟨r, log, hall, hlen, hex, ?_⟩
    intro c hc
    obtain ⟨qx, qy, hq, q1, q2, q3, q4⟩ := hbox c hc
    rw [hq]
    unfold InBoundingBox
    simp only
    refine ⟨?_, ?_, ?_, ?_⟩
    · by_cases hlt : aX < bX
      · simp only [hlt, if_true] at hxe ⊢; omega
      · simp only [hlt, if_false] at hxe ⊢; omega
    · by_cases hlt : aX < bX
      · simp only [hlt, if_true] at hxe ⊢; omega
      · simp only [hlt, if_false] at hxe ⊢; omega
    · by_cases hlt : aY < bY
      · simp only [hlt, if_true] at hye ⊢; omega
      · simp only [hlt, if_false] at hye ⊢; omega
    · by_cases hlt : aY < bY
      · simp only [hlt, if_true] at hye ⊢; omega
      · simp only [hlt, if_false] at hye ⊢; omega
  obtain ⟨r, log, hall, hlen, hex, hbox⟩ := key
  refine ⟨r, log, hall, ?_, hlen, hex, hbox⟩
  have h1 := abs_nonneg ((G.GetCellRef End).X - (G.GetCellRef Start).X)
  have h2 := abs_nonneg ((G.GetCellRef End).Y - (G.GetCellRef Start).Y)
  rw [← LineTraceRecord_fst, hall _ (by omega)]
  rfl

end LineTraceBoundClaim

section LineTraceBoundWitnesses

/-- Witness for C33 on the 3 × 3 example grid, from `(0, 0)` to `(2, 1)`. -/
theorem LineTrace_loop_terminates_in_bounding_box_witness :
    exGrid3.IsValid (exGrid3.GetCellRef ((0 : Int), (0 : Int))) = true ∧
    exGrid3.IsValid (exGrid3.GetCellRef ((2 : Int), (1 : Int))) = true ∧
    ∃ r log,
      (∀ fuel : Nat,
        (max |(exGrid3.GetCellRef ((2 : Int), (1 : Int))).X -
            (exGrid3.GetCellRef ((0 : Int), (0 : Int))).X|
          |(exGrid3.GetCellRef ((2 : Int), (1 : Int))).Y -
            (exGrid3.GetCellRef ((0 : Int), (0 : Int))).Y|).toNat ≤ fuel →
        LineTraceRecord exGrid3 ((0 : Int), (0 : Int)) ((2 : Int), (1 : Int)) fuel =
          some (r, log)) ∧
      LineTrace exGrid3 ((0 : Int), (0 : Int)) ((2 : Int), (1 : Int)) = some r ∧
      log.length ≤ (max |(exGrid3.GetCellRef ((2 : Int), (1 : Int))).X -
            (exGrid3.GetCellRef ((0 : Int), (0 : Int))).X|
          |(exGrid3.GetCellRef ((2 : Int), (1 : Int))).Y -
            (exGrid3.GetCellRef ((0 : Int), (0 : Int))).Y|).toNat ∧
      (r = true → log.length =
        (max |(exGrid3.GetCellRef ((2 : Int), (1 : Int))).X -
            (exGrid3.GetCellRef ((0 : Int), (0 : Int))).X|
          |(exGrid3.GetCellRef ((2 : Int), (1 : Int))).Y -
            (exGrid3.GetCellRef ((0 : Int), (0 : Int))).Y|).toNat) ∧
      ∀ c ∈ log, InBoundingBox (exGrid3.GetCellRef ((0 : Int), (0 : Int)))
        (exGrid3.GetCellRef ((2 : Int), (1 : Int))) c :=
  ⟨by decide, by decide,
    LineTrace_loop_terminates_in_bounding_box exGrid3 ((0 : Int), (0 : Int))
      ((2 : Int), (1 : Int)) (by decide) (by decide)⟩

end LineTraceBoundWitnesses

/-! ## C34: diffusion and the total mass -/

section DiffuseMass

variable {α P : Type} [LinearOrderedField α]

/-- The degree-weighted sum over the scanned cells is the degree-weighted sum over the
window of a map that lies on the grid. -/
theorem ScanCells_sum_Degree (G : AGAGridActor α P) (m : FGAGridMap α)
    (hwin : ∀ c, m.InWindow c = true → G.IsValid c = true) :
    G.ScanCells.toFinset.sum (fun c => (G.Degree c : α) * m.ValueOrZero c) =
      m.WindowCells.sum (fun c => (G.Degree c : α) * m.Data c) := by
  have h := ScanSum_eq_Total G { m with Data := fun c => (G.Degree c : α) * m.Data c } hwin
  unfold ScanSum FGAGridMap.Total at h
  refine Eq.trans ?_ h
  refine Finset.sum_congr rfl ?_
  intro c _
  rw [m.ValueOrZero_eq]
  by_cases hw : m.InWindow c = true
  · have hw' : ({ m with Data := fun c => (G.Degree c : α) * m.Data c } :
        FGAGridMap α).InWindow c = true := hw
    rw [if_pos hw, if_pos hw']
  · have hw' : ¬ ({ m with Data := fun c => (G.Degree c : α) * m.Data c } :
        FGAGridMap α).InWindow c = true := hw
    rw [if_neg hw, if_neg hw', mul_zero]

/-- C34: for a belief grid that lies on the grid, the total after `OccupancyMapDiffuse` is
`(1 - r) * S + r * Σ deg(c) * v(c)` with `r = 1/10`, `S` the total before, `v(c)` the value
before and `deg(c)` the number of in-bounds 4-neighbours of `c`.  A unit mass on a cell with
four in-bounds neighbours becomes a total of 13/10, and when every cell of the grid has an
in-bounds neighbour the total of a non-negative grid does not decrease. -/
theorem OccupancyMapDiffuse_total (G : AGAGridActor α P) (m : FGAGridMap α)
    (hwin : ∀ c, m.InWindow c = true → G.IsValid c = true) :
    (OccupancyMapDiffuse (some G) m).Total =
        (1 - DiffusionRate) * m.Total +
          DiffusionRate * m.WindowCells.sum (fun c => (G.Degree c : α) * m.Data c) ∧
      (∀ c0, m.InWindow c0 = true → G.Degree c0 = 4 →
        (∀ c, m.InWindow c = true → m.Data c = if c = c0 then 1 else 0) →
        (OccupancyMapDiffuse (some G) m).Total = 13 / 10) ∧
      ((∀ c, G.IsValid c = true → 1 ≤ G.Degree c) →
        (∀ c, m.InWindow c = true → 0 ≤ m.Data c) →
        m.Total ≤ (OccupancyMapDiffuse (some G) m).Total) := by
  have hformula : (OccupancyMapDiffuse (some G) m).Total =
      (1 - DiffusionRate) * m.Total +
        DiffusionRate * m.WindowCells.sum (fun c => (G.Degree c : α) * m.Data c) := by
    rw [← ScanSum_eq_Total G _ (OccupancyMapDiffuse_spec G m).1, OccupancyMapDiffuse_ScanSum,
      ScanSum_eq_Total G m hwin, ScanCells_sum_Degree G m hwin]
  refine ⟨hformula, ?_, ?_⟩
  · intro c0 hc0 hdeg hdata
    have hS : m.Total = 1 := by
      unfold FGAGridMap.Total
      rw [Finset.sum_congr rfl (fun c hc => hdata c ((m.mem_WindowCells c).mp hc)),
        Finset.sum_ite_eq', if_pos ((m.mem_WindowCells c0).mpr hc0)]
    have hD : m.WindowCells.sum (fun c => (G.Degree c : α) * m.Data c) = 4 := by
      have hterm : ∀ c ∈ m.WindowCells, (G.Degree c : α) * m.Data c =
          if c = c0 then (4 : α) else 0 := by
        intro c hc
        rw [hdata c ((m.mem_WindowCells c).mp hc)]
        by_cases e : c = c0
        · rw [if_pos e, if_pos e, e, hdeg]; norm_num
        · rw [if_neg e, if_neg e, mul_zero]
      rw [Finset.sum_congr rfl hterm, Finset.sum_ite_eq',
        if_pos ((m.mem_WindowCells c0).mpr hc0)]
    rw [hformula, hS, hD]
    unfold DiffusionRate
    norm_num
  · intro hdeg hnn
    have hge : m.Total ≤ m.WindowCells.sum (fun c => (G.Degree c : α) * m.Data c) := by
      unfold FGAGridMap.Total
      refine Finset.sum_le_sum ?_
      intro c hc
      have hw := (m.mem_WindowCells c).mp hc
      have h1 : (1 : α) ≤ (G.Degree c : α) := by
        exact_mod_cast hdeg c (hwin c hw)
      exact le_mul_of_one_le_left (hnn c hw) h1
    rw [hformula]
    unfold DiffusionRate
    linarith

end DiffuseMass

section DiffuseMassWitnesses

theorem exUnit3_window (c : FCellRef) (h : exUnit3.InWindow c = true) :
    exGrid3Q.IsValid c = true := by
  unfold FGAGridMap.InWindow exUnit3 at h
  unfold AGAGridActor.IsValid exGrid3Q
  simp only [Bool.and_eq_true, decide_eq_true_eq] at h ⊢
  omega

/-- Witness for C34: a unit mass on the centre of the 3 × 3 example grid, which has four
in-bounds neighbours, becomes a total of 13/10. -/
theorem OccupancyMapDiffuse_total_witness :
    (∀ c, exUnit3.InWindow c = true → exGrid3Q.IsValid c = true) ∧
    exUnit3.InWindow ⟨1, 1⟩ = true ∧ exGrid3Q.Degree ⟨1, 1⟩ = 4 ∧
    (∀ c, exUnit3.InWindow c = true → exUnit3.Data c = if c = ⟨1, 1⟩ then 1 else 0) ∧
    (OccupancyMapDiffuse (some exGrid3Q) exUnit3).Total = 13 / 10 :=
  ⟨exUnit3_window, by decide, by decide, fun _ _ => rfl,
    (OccupancyMapDiffuse_total exGrid3Q exUnit3 exUnit3_window).2.1 ⟨1, 1⟩ (by decide)
      (by decide) (fun _ _ => rfl)⟩

end DiffuseMassWitnesses

/-! ## C35: the trace-back loop on an arbitrary distance map -/

section TraceBackTermination

variable {α P : Type} [LinearOrderedAddCommGroup α]

/-- The trace-back loop returns when it has a round of fuel per cell of the window whose
value is strictly below the value of the current cell: every move goes to such a cell, and
that cell has strictly fewer cells below it. -/
theorem ReconstructLoop_terminates (G : AGAGridActor α P) (D : FGAGridMap (WithTop α))
    (start : FCellRef) (fuel : Nat) :
    ∀ (cur : FCellRef) (rev : List (FPathStep P)),
      (∀ cd, D.GetValue cur = some cd →
        (D.WindowCells.filter (fun x => D.Data x < cd)).card ≤ fuel) →
      ∃ r, ReconstructLoop G D start fuel cur rev = some r := by
  have hmove : ∀ (cur n : FCellRef) (cd : WithTop α), D.GetValue cur = some cd →
      ReconstructNext G D cur cd = some n →
      D.GetValue n = some (D.Data n) ∧
        (D.WindowCells.filter (fun x => D.Data x < D.Data n)).card + 1 ≤
          (D.WindowCells.filter (fun x => D.Data x < cd)).card := by
    intro cur n cd _ hn
    obtain ⟨_, _, _, dn, hdn, hlt⟩ := ReconstructNext_some G D cur cd n hn
    obtain ⟨hw, hd⟩ := FGAGridMap.GetValue_eq_some D n dn hdn
    rw [hd] at hlt hdn
    have hmem : n ∈ D.WindowCells.filter (fun x => D.Data x < cd) := by
      rw [Finset.mem_filter, FGAGridMap.mem_WindowCells]
      exact ⟨hw, hlt⟩
    have hsub : D.WindowCells.filter (fun x => D.Data x < D.Data n) ⊆
        (D.WindowCells.filter (fun x => D.Data x < cd)).erase n := by
      intro x hx
      rw [Finset.mem_filter] at hx
      rw [Finset.mem_erase, Finset.mem_filter]
      refine ⟨?_, hx.1, lt_trans hx.2 hlt⟩
      intro e
      rw [e] at hx
      exact lt_irrefl _ hx.2
    have hcard := Finset.card_le_card hsub
    rw [Finset.card_erase_of_mem hmem] at hcard
    have hpos : 0 < (D.WindowCells.filter (fun x => D.Data x < cd)).card :=
      Finset.card_pos.mpr ⟨n, hmem⟩
    exact ⟨hdn, by omega⟩
  induction fuel with
  | zero =>
    intro cur rev hcard
    by_cases hc : cur = start
    · exact ⟨(true, rev), by unfold ReconstructLoop; simp [hc]⟩
    · cases hg : D.GetValue cur with
      | none => exact ⟨(false, rev), by unfold ReconstructLoop; simp [hc, hg]⟩
      | some cd =>
        cases hn : ReconstructNext G D cur cd with
        | none => exact ⟨(false, rev), by unfold ReconstructLoop; simp [hc, hg, hn]⟩
        | some n =>
          exfalso
          have h1 := (hmove cur n cd hg hn).2
          have h2 := hcard cd hg
          omega
  | succ fuel ih =>
    intro cur rev hcard
    by_cases hc : cur = start
    · exact ⟨(true, rev), by unfold ReconstructLoop; simp [hc]⟩
    · cases hg : D.GetValue cur with
      | none => exact ⟨(false, rev), by unfold ReconstructLoop; simp [hc, hg]⟩
      | some cd =>
        cases hn : ReconstructNext G D cur cd with
        | none => exact ⟨(false, rev), by unfold ReconstructLoop; simp [hc, hg, hn]⟩
        | some n =>
          obtain ⟨hgn, h1⟩ := hmove cur n cd hg hn
          have h2 := hcard cd hg
          obtain ⟨r, hr⟩ := ih n (rev ++ [⟨G.GetCellPosition n, n⟩]) (by
            intro dn hdn
            rw [hgn] at hdn
            cases hdn
            omega)
          refine ⟨r, ?_⟩
          unfold ReconstructLoop
          simp only [hc, if_false, hg, hn]
          exact hr

/-- Cells along which the recorded distance strictly decreases are pairwise distinct. -/
theorem FieldDecreases_chain_nodup (D : FGAGridMap (WithTop α)) (a : FCellRef)
    (l : List FCellRef) (h : List.Chain (FieldDecreases D) a l) : (a :: l).Nodup := by
  have htrans : IsTrans FCellRef (FieldDecreases D) := by
    refine ⟨?_⟩
    rintro x y z ⟨dx, dy, hx, hy, hxy⟩ ⟨dy', dz, hy', hz, hyz⟩
    rw [hy] at hy'
    cases hy'
    exact ⟨dx, dz, hx, hz, lt_trans hyz hxy⟩
  have hp : List.Pairwise (FieldDecreases D) (a :: l) := List.Chain.pairwise h
  refine hp.imp ?_
  rintro x y ⟨dx, dy, hx, hy, hxy⟩ e
  rw [e, hy] at hx
  cases hx
  exact lt_irrefl _ hxy

/-- C35: for every distance map, grid, target cell and start cell, `ReconstructPath` returns
when its trace-back loop has a round of fuel per cell of the distance map's window; when it
returns true no cell occurs twice on the output path, and when it returns false the output
path is empty. -/
theorem ReconstructPath_terminates_without_repeats (Grid : Option (AGAGridActor α P))
    (DistanceMap : FGAGridMap (WithTop α)) (TargetCell StartCell : FCellRef)
    (OutPath : List (FPathStep P)) (fuel : Nat)
    (hfuel : (DistanceMap.MaxX + 1 - DistanceMap.MinX).toNat *
      (DistanceMap.MaxY + 1 - DistanceMap.MinY).toNat ≤ fuel) :
    ∃ b path, ReconstructPath fuel Grid DistanceMap TargetCell StartCell OutPath =
        some (b, path) ∧
      (b = true → (path.map FPathStep.CellRef).Nodup) ∧
      (b = false → ∀ G, Grid = some G → path = []) := by
  cases Grid with
  | none =>
    refine ⟨false, OutPath, rfl, (fun h => by cases h), (fun _ G hG => by cases hG)⟩
  | some G =>
    obtain ⟨r, hr⟩ := ReconstructLoop_terminates G DistanceMap StartCell fuel TargetCell
      [⟨G.GetCellPosition TargetCell, TargetCell⟩]
      (fun cd _ => le_trans (Finset.card_filter_le _ _)
        (le_trans (FGAGridMap.card_WindowCells_le DistanceMap) hfuel))
    obtain ⟨b, rev'⟩ := r
    cases b with
    | false =>
      refine ⟨false, [], ?_, (fun h => by cases h), (fun _ _ _ => rfl)⟩
      unfold ReconstructPath
      simp only [hr]
    | true =>
      refine ⟨true, rev'.reverse, ?_, (fun _ => ?_), (fun h => by cases h)⟩
      · unfold ReconstructPath
        simp only [hr]
      · obtain ⟨ext, hrev, hchain, _⟩ := ReconstructLoop_true G DistanceMap StartCell fuel
          TargetCell _ rev' hr
        have hcells : rev'.reverse.map FPathStep.CellRef = (TargetCell :: ext).reverse := by
          rw [hrev]
          simp [CellStep, Function.comp_def]
        rw [hcells, List.nodup_reverse]
        exact FieldDecreases_chain_nodup DistanceMap TargetCell ext
          (hchain.imp (fun a b hab => hab.2))

end TraceBackTermination

section TraceBackTerminationWitnesses

/-- Witness for C35 on the 3 × 3 example grid with the map `exRamp3`, which is not a
Dijkstra field (it holds 16 at `(2, 2)`, where the field from `(0, 0)` holds 4): the
trace-back makes four moves, `(2,2)`, `(1,2)`, `(0,2)`, `(0,1)`, `(0,0)`, returns true, and
no cell occurs twice on the path of five steps. -/
theorem ReconstructPath_terminates_without_repeats_witness :
    (exRamp3.MaxX + 1 - exRamp3.MinX).toNat * (exRamp3.MaxY + 1 - exRamp3.MinY).toNat ≤ 9 ∧
    exRamp3.GetValue ⟨2, 2⟩ = some (((16 : Int) : Int) : WithTop Int) ∧
    exField3.GetValue ⟨2, 2⟩ = some (((4 : Int) : Int) : WithTop Int) ∧
    ReconstructPath 9 (some exGrid3) exRamp3 ⟨2, 2⟩ ⟨0, 0⟩ [] = some (true, exRampPath) ∧
    exRampPath.map FPathStep.CellRef = [⟨0, 0⟩, ⟨0, 1⟩, ⟨0, 2⟩, ⟨1, 2⟩, ⟨2, 2⟩] ∧
    (exRampPath.map FPathStep.CellRef).Nodup := by
  have hrun : ReconstructPath 9 (some exGrid3) exRamp3 ⟨2, 2⟩ ⟨0, 0⟩ [] =
      some (true, exRampPath) := run_eq_some _ _ true (by decide)
  obtain ⟨b, path, h, hnodup, _⟩ :=
    ReconstructPath_terminates_without_repeats (some exGrid3) exRamp3 ⟨2, 2⟩ ⟨0, 0⟩
      ([] : List (FPathStep (Int × Int))) 9 (by decide)
  rw [hrun] at h
  simp only [Option.some.injEq, Prod.mk.injEq] at h
  obtain ⟨hb, hp⟩ := h
  subst hp
  exact ⟨by decide, by decide, by decide, hrun, by decide, hnodup hb.symm⟩

end TraceBackTerminationWitnesses

/-! ## C36: the trace-back on a grid with one edge length -/

section UniformTrace

variable {α P : Type} [LinearOrderedAddCommGroup α]

/-- On a grid whose adjacent cell centres are all `e` apart, the cost of reaching a cell is
a multiple of `e`. -/
theorem ReachCost_uniform (G : AGAGridActor α P) (e : α)
    (huni : ∀ c o, o ∈ NeighborOffsets → G.EdgeDistance c (c.offset o) = e)
    (win : FCellRef → Bool) (start c : FCellRef) (v : α)
    (h : ReachCost G win start c v) : ∃ k : Nat, v = k • e := by
  induction h with
  | refl => exact ⟨0, (zero_nsmul e).symm⟩
  | step _ hs ih =>
    obtain ⟨k, hk⟩ := ih
    obtain ⟨o, ho, hn⟩ := hs.1
    refine ⟨k + 1, ?_⟩
    rw [hk, hn, huni _ o ho, succ_nsmul]

/-- On a grid whose adjacent cell centres are all `e` apart, a walk over adjacent cells
costs `e` per move. -/
theorem PathCost_uniform (G : AGAGridActor α P) (e : α)
    (huni : ∀ c o, o ∈ NeighborOffsets → G.EdgeDistance c (c.offset o) = e)
    (l : List FCellRef) : ∀ a : FCellRef, List.Chain Adjacent4 a l →
      PathCost G a l = l.length • e := by
  induction l with
  | nil => intro a _; simp [PathCost]
  | cons b l ih =>
    intro a h
    rw [List.chain_cons] at h
    obtain ⟨⟨o, ho, hb⟩, hrest⟩ := h
    rw [PathCost, ih b hrest, List.length_cons, succ_nsmul, hb, huni a o ho, add_comm]

/-- On the field of Dijkstra over a grid whose adjacent cell centres are all `e > 0` apart,
a successful trace-back from a cell at distance `k • e` makes exactly `k` moves, each onto an
adjacent cell, and ends at the start cell. -/
theorem ReconstructLoop_uniform (G : AGAGridActor α P) (e : α) (he : 0 < e)
    (huni : ∀ c o, o ∈ NeighborOffsets → G.EdgeDistance c (c.offset o) = e)
    (win : FCellRef → Bool) (start : FCellRef)
    (D : FGAGridMap (WithTop α)) (hinv : DijkstraInv G win start D []) (fuel : Nat) :
    ∀ (cur : FCellRef) (rev rev' : List (FPathStep P)) (k : Nat) (v : α),
      (cur ≠ start → G.IsValid cur = true ∧ G.Traversable cur = true) →
      win cur = true → D.Data cur = (v : WithTop α) → v = k • e →
      ReconstructLoop G D start fuel cur rev = some (true, rev') →
      ∃ ext : List FCellRef, rev' = rev ++ ext.map (CellStep G) ∧ ext.length = k ∧
        List.Chain Adjacent4 cur ext ∧ ext.getLastD cur = start := by
  have hzero : ∀ (k : Nat) (v : α), D.Data start = (v : WithTop α) → v = k • e → k = 0 := by
    intro k v hk hv
    rw [hinv.hstart, WithTop.coe_eq_coe] at hk
    by_contra hne
    have h1 : (1 : Nat) • e ≤ k • e := nsmul_le_nsmul_left he.le (by omega)
    rw [one_nsmul, ← hv, ← hk] at h1
    exact absurd he (not_lt.mpr h1)
  have hmove : ∀ (cur n : FCellRef) (k : Nat) (v : α),
      (cur ≠ start → G.IsValid cur = true ∧ G.Traversable cur = true) → cur ≠ start →
      win cur = true → D.Data cur = (v : WithTop α) → v = k • e →
      ReconstructNext G D cur (v : WithTop α) = some n →
      Adjacent4 cur n ∧ G.IsValid n = true ∧ G.Traversable n = true ∧ win n = true ∧
        ∃ (j : Nat) (u : α), k = j + 1 ∧ D.Data n = (u : WithTop α) ∧ u = j • e := by
    intro cur n k v hcur hne hw hk hv hn
    obtain ⟨hadj, hnv, hnt, dn, hdn, hlt⟩ := ReconstructNext_some G D cur _ n hn
    obtain ⟨hnw, hnd⟩ := FGAGridMap.GetValue_eq_some D n dn hdn
    rw [hinv.hwin] at hnw
    obtain ⟨u, hu⟩ := WithTop.ne_top_iff_exists.mp (ne_of_lt (lt_of_lt_of_le hlt le_top))
    rw [← hu, WithTop.coe_lt_coe] at hlt
    have hDn : D.Data n = (u : WithTop α) := by rw [← hnd, hu]
    obtain ⟨j, hj⟩ := ReachCost_uniform G e huni win start n u (hinv.hsound n u hnw hDn)
    have hjk : j < k := by
      by_contra hc
      rw [hj, hv] at hlt
      exact absurd hlt (not_lt.mpr (nsmul_le_nsmul_left he.le (not_lt.mp hc)))
    obtain ⟨o, ho, hco⟩ := Adjacent4_symm cur n hadj
    have hstep : GridStep G win n cur := ⟨⟨o, ho, hco⟩, (hcur hne).1, (hcur hne).2, hw⟩
    have hrel : D.Data cur ≤ ((u + G.EdgeDistance n cur : α) : WithTop α) := by
      rcases hinv.hpend n u hnw hDn with ⟨x, hx, _⟩ | h1
      · cases hx
      · exact h1 cur hstep
    rw [hk, WithTop.coe_le_coe, hco, huni n o ho, hj, ← succ_nsmul, hv] at hrel
    have hkj : k ≤ j + 1 := by
      by_contra hc
      exact absurd hrel (not_le.mpr (nsmul_lt_nsmul_left he (not_le.mp hc)))
    exact ⟨hadj, hnv, hnt, hnw, j, u, by omega, hDn, hj⟩
  induction fuel with
  | zero =>
    intro cur rev rev' k v hcur hw hk hv h
    unfold ReconstructLoop at h
    by_cases hc : cur = start
    · simp only [hc, if_true, Option.some.injEq, Prod.mk.injEq, true_and] at h
      rw [hc] at hk
      exact ⟨[], by simp [h], (hzero k v hk hv).symm, List.Chain.nil, hc⟩
    · simp only [hc, if_false, DijkstraInv_GetValue G win start D [] hinv cur hw, hk] at h
      cases hn : ReconstructNext G D cur (v : WithTop α) with
      | none => simp [hn] at h
      | some n => simp [hn] at h
  | succ fuel ih =>
    intro cur rev rev' k v hcur hw hk hv h
    unfold ReconstructLoop at h
    by_cases hc : cur = start
    · simp only [hc, if_true, Option.some.injEq, Prod.mk.injEq, true_and] at h
      rw [hc] at hk
      exact ⟨[], by simp [h], (hzero k v hk hv).symm, List.Chain.nil, hc⟩
    · simp only [hc, if_false, DijkstraInv_GetValue G win start D [] hinv cur hw, hk] at h
      cases hn : ReconstructNext G D cur (v : WithTop α) with
      | none => simp [hn] at h
      | some n =>
        simp only [hn] at h
        obtain ⟨hadj, hnv, hnt, hnw, j, u, hkj, hDn, hj⟩ :=
          hmove cur n k v hcur hc hw hk hv hn
        obtain ⟨ext, hrev, hlen, hchain, hlast⟩ :=
          ih n _ rev' j u (fun _ => ⟨hnv, hnt⟩) hnw hDn hj h
        refine ⟨n :: ext, ?_, ?_, List.Chain.cons hadj hchain, ?_⟩
        · rw [hrev]; simp [CellStep]
        · rw [List.length_cons, hlen, hkj]
        · rw [List.getLastD_cons]; exact hlast

end UniformTrace

section UniformTraceClaim

variable {α P : Type} [LinearOrderedAddCommGroup α]

/-- On a grid whose adjacent cell centres are all `e` apart, a step list over adjacent cells
costs `e` per move. -/
theorem StepsCost_uniform (G : AGAGridActor α P) (e : α)
    (huni : ∀ c o, o ∈ NeighborOffsets → G.EdgeDistance c (c.offset o) = e)
    (path : List (FPathStep P)) (h : List.Chain' Adjacent4 (path.map FPathStep.CellRef)) :
    StepsCost G path = (path.length - 1) • e := by
  cases path with
  | nil => simp [StepsCost]
  | cons s rest =>
    have hc : List.Chain Adjacent4 s.CellRef (rest.map FPathStep.CellRef) := h
    rw [StepsCost, PathCost_uniform G e huni _ _ hc, List.length_map, List.length_cons,
      Nat.add_sub_cancel]

/-- C36: on a grid whose adjacent cell centres are all the same distance `e > 0` apart, with
the field Dijkstra produced from a traversable start cell and a target cell with the finite
distance `d`, `ReconstructPath` (given a round of fuel per grid cell) returns true with a
path of exactly `k + 1` steps where `d = k • e`; the cost of that path is `d`, the minimum
over all paths from the start cell to the target cell. -/
theorem ReconstructPath_uniform_grid_shortest (G : AGAGridActor α P) (e : α) (he : 0 < e)
    (huni : ∀ c o, o ∈ NeighborOffsets → G.EdgeDistance c (c.offset o) = e)
    (hnn : ∀ p q, 0 ≤ G.Dist p q)
    (fuelD fuel : Nat) (StartPoint : P) (DistanceMap D : FGAGridMap (WithTop α))
    (TargetCell : FCellRef) (OutPath : List (FPathStep P)) (d : α)
    (hwin : DistanceMap.InWindow (G.GetCellRef StartPoint) = true)
    (hst : G.Traversable (G.GetCellRef StartPoint) = true)
    (hD : Dijkstra fuelD (some G) StartPoint DistanceMap = some (true, D))
    (hT : D.GetValue TargetCell = some (d : WithTop α))
    (hfuel : G.XCount * G.YCount ≤ fuel) :
    ∃ (path : List (FPathStep P)) (k : Nat),
      ReconstructPath fuel (some G) D TargetCell (G.GetCellRef StartPoint) OutPath =
        some (true, path) ∧
      d = k • e ∧ path.length = k + 1 ∧ StepsCost G path = d ∧
      IsMinPathCost G DistanceMap.InWindow (G.GetCellRef StartPoint) TargetCell d := by
  have hinv := Dijkstra_run_inv G hnn fuelD StartPoint DistanceMap D hwin hD
  have hsv := Dijkstra_true_valid G fuelD StartPoint DistanceMap D hD
  have hpos : ∀ c o, o ∈ NeighborOffsets → 0 < G.EdgeDistance c (c.offset o) := by
    intro c o ho
    rw [huni c o ho]
    exact he
  obtain ⟨hTw, hTd⟩ := FGAGridMap.GetValue_eq_some D TargetCell _ hT
  have hTw' : DistanceMap.InWindow TargetCell = true := by
    rw [← hinv.hwin]; exact hTw
  have hreach := hinv.hsound TargetCell d hTw' hTd.symm
  obtain ⟨k, hk⟩ := ReachCost_uniform G e huni _ _ TargetCell d hreach
  have hTprops : TargetCell ≠ G.GetCellRef StartPoint →
      G.IsValid TargetCell = true ∧ G.Traversable TargetCell = true := by
    intro hne
    rcases ReachCost_cases G _ _ TargetCell d hreach with ⟨h1, _⟩ | ⟨_, _, _, hq, _⟩
    · exact absurd h1 hne
    · exact ⟨hq.2.1, hq.2.2.1⟩
  have hK : ∀ c (u : α), D.InWindow c = true → c ≠ G.GetCellRef StartPoint →
      D.Data c = (u : WithTop α) →
      ∃ n, ReconstructNext G D c (u : WithTop α) = some n := by
    intro c u hc hne hu
    rw [hinv.hwin] at hc
    exact DijkstraInv_has_next G _ _ hwin hsv hst hpos D hinv c u hc hne hu
  obtain ⟨rev', hrev'⟩ := ReconstructLoop_succeeds G D (G.GetCellRef StartPoint) hK fuel
    TargetCell [⟨G.GetCellPosition TargetCell, TargetCell⟩] ∅ d
    (fun c hc => absurd hc (Finset.not_mem_empty _)) hTw hTd.symm
    (fun hne => (hTprops hne).1) (by simpa using hfuel)
  obtain ⟨ext, hrev, hlen, hchain, _⟩ := ReconstructLoop_uniform G e he huni
    DistanceMap.InWindow (G.GetCellRef StartPoint) D hinv fuel TargetCell _ rev' k d
    hTprops hTw' hTd.symm hk hrev'
  have hcells : rev'.reverse.map FPathStep.CellRef = (TargetCell :: ext).reverse := by
    rw [hrev]
    simp [CellStep, Function.comp_def]
  have hadj : List.Chain' Adjacent4 (rev'.reverse.map FPathStep.CellRef) := by
    rw [hcells, List.chain'_reverse]
    have hch : List.Chain' Adjacent4 (TargetCell :: ext) := hchain
    exact hch.imp (fun a b hab => Adjacent4_symm a b hab)
  have hlength : rev'.reverse.length = k + 1 := by
    rw [List.length_reverse, hrev, List.length_append, List.length_map, hlen,
      List.length_singleton, add_comm]
  refine ⟨rev'.reverse, k, by simp [ReconstructPath, hrev'], hk, hlength, ?_,
    DijkstraInv_min G _ _ hwin D hinv TargetCell hTw' d hTd.symm⟩
  rw [StepsCost_uniform G e huni _ hadj, hlength, Nat.add_sub_cancel, hk]

end UniformTraceClaim

section UniformTraceWitnesses

theorem exGrid3_edge_one (c : FCellRef) (o : Int × Int) (ho : o ∈ NeighborOffsets) :
    exGrid3.EdgeDistance c (c.offset o) = 1 := by
  simp only [NeighborOffsets, List.mem_cons, List.mem_singleton, List.not_mem_nil,
    or_false] at ho
  rcases ho with h | h | h | h <;> rw [h] <;>
    simp [AGAGridActor.EdgeDistance, exGrid3, exDist, FCellRef.offset]

/-- Witness for C36 on the 3 × 3 example grid, whose adjacent cell centres are 1 apart: the
field from `(0, 0)` and the target `(2, 2)` at distance 4. -/
theorem ReconstructPath_uniform_grid_shortest_witness :
    (0 : Int) < 1 ∧
    (∀ c o, o ∈ NeighborOffsets → exGrid3.EdgeDistance c (c.offset o) = 1) ∧
    (∀ p q, 0 ≤ exGrid3.Dist p q) ∧
    exMap3.InWindow (exGrid3.GetCellRef ((0 : Int), (0 : Int))) = true ∧
    exGrid3.Traversable (exGrid3.GetCellRef ((0 : Int), (0 : Int))) = true ∧
    Dijkstra 40 (some exGrid3) ((0 : Int), (0 : Int)) exMap3 = some (true, exField3) ∧
    exField3.GetValue ⟨2, 2⟩ = some (((4 : Int) : Int) : WithTop Int) ∧
    exGrid3.XCount * exGrid3.YCount ≤ 9 ∧
    ∃ (path : List (FPathStep (Int × Int))) (k : Nat),
      ReconstructPath 9 (some exGrid3) exField3 ⟨2, 2⟩
        (exGrid3.GetCellRef ((0 : Int), (0 : Int))) [] = some (true, path) ∧
      (4 : Int) = k • (1 : Int) ∧ path.length = k + 1 ∧ StepsCost exGrid3 path = 4 ∧
      IsMinPathCost exGrid3 exMap3.InWindow (exGrid3.GetCellRef ((0 : Int), (0 : Int)))
        ⟨2, 2⟩ 4 :=
  ⟨by decide, exGrid3_edge_one, exDist_nonneg, by decide, by decide,
    run_eq_some _ _ true (by decide), by decide, by decide,
    ReconstructPath_uniform_grid_shortest exGrid3 1 (by decide) exGrid3_edge_one
      exDist_nonneg 40 9 ((0 : Int), (0 : Int)) exMap3 exField3 ⟨2, 2⟩ [] 4 (by decide)
      (by decide) (run_eq_some _ _ true (by decide)) (by decide) (by decide)⟩

end UniformTraceWitnesses

/-! ## The Bresenham walk in closed form -/

section WalkClosedForm

variable {α P : Type}

/-- One Bresenham pass of an x-major walk moves in x and keeps the invariant of the error
term. -/
theorem BresenhamStep_XMajorInv (dx dy sx sy X Y E : Int) (hdy : 0 ≤ dy) (hmaj : dy ≤ dx)
    (h : XMajorInv dx dy E) :
    (BresenhamStep dx dy sx sy X Y E).1 = X + sx ∧
      XMajorInv dx dy (BresenhamStep dx dy sx sy X Y E).2.2 := by
  obtain ⟨h1, h2, h3, h4⟩ := h
  unfold BresenhamStep XMajorInv
  by_cases hy : E * 2 < dx
  · simp only [h3, hy, if_true]
    refine ⟨trivial, ?_, ?_, ?_, ?_⟩ <;> omega
  · simp only [h3, hy, if_true, if_false]
    refine ⟨trivial, ?_, ?_, ?_, ?_⟩ <;> omega

/-- In one column of an x-major walk at most one cell is nearest to the line. -/
theorem line_unique (dx dy qx q1 q2 : Int) (hpos : 0 < dx)
    (h1l : -dx ≤ 2 * (qx * dy - q1 * dx)) (h1u : 2 * (qx * dy - q1 * dx) < dx)
    (h2l : -dx ≤ 2 * (qx * dy - q2 * dx)) (h2u : 2 * (qx * dy - q2 * dx) < dx) :
    q1 = q2 := by
  have e1 : (q2 - q1) * dx < 1 * dx := by linarith
  have e2 : (q1 - q2) * dx < 1 * dx := by linarith
  have f1 := lt_of_mul_lt_mul_right e1 hpos.le
  have f2 := lt_of_mul_lt_mul_right e2 hpos.le
  omega

/-- An x-major Bresenham walk, from a cell that is `rx` columns before the end cell: the
loop of `LineTrace` returns within `rx` passes, and it succeeds exactly when every cell
nearest to the line in the columns before the end cell is traversable. -/
theorem LineTraceLoop_x_major (G : AGAGridActor α P) (dx dy sx sy ex ey : Int)
    (hdy : 0 ≤ dy) (hmaj : dy ≤ dx) (hpos : 0 < dx)
    (hsx : sx = 1 ∨ sx = -1) (hsy : sy = 1 ∨ sy = -1) :
    ∀ (n : Nat) (rx ry : Int), 0 ≤ ry → rx ≤ dx → ry ≤ dy → rx = n →
      XMajorInv dx dy (dx - dy + rx * dy - ry * dx) →
      ∃ r, (∀ fuel : Nat, n ≤ fuel →
          LineTraceLoop G ⟨ex, ey⟩ dx dy sx sy fuel (ex - rx * sx) (ey - ry * sy)
            (dx - dy + rx * dy - ry * dx) = some r) ∧
        (r = true ↔ ∀ qx qy : Int, 1 ≤ qx → qx ≤ rx → 0 ≤ qy → qy ≤ dy →
          -dx ≤ 2 * (qx * dy - qy * dx) → 2 * (qx * dy - qy * dx) < dx →
          G.Traversable ⟨ex - qx * sx, ey - qy * sy⟩ = true) := by
  have hline : ∀ rx ry : Int, XMajorInv dx dy (dx - dy + rx * dy - ry * dx) →
      -dx ≤ 2 * (rx * dy - ry * dx) ∧ 2 * (rx * dy - ry * dx) < dx := by
    intro rx ry h
    obtain ⟨h1, h2, _, _⟩ := h
    constructor <;> linarith
  intro n
  induction n with
  | zero =>
    intro rx ry hry0 hrx hry hn hI
    have e1 : rx = 0 := by simpa using hn
    subst e1
    have e2 : ry = 0 := by
      obtain ⟨hl, _⟩ := hline 0 ry hI
      by_contra hc
      have h1 : 1 ≤ ry := by omega
      have hprod : dx ≤ ry * dx := le_mul_of_one_le_left hpos.le h1
      linarith
    subst e2
    refine ⟨true, ?_, ?_⟩
    · intro fuel _
      cases fuel <;> simp [LineTraceLoop]
    · constructor
      · intro _ qx qy h1 h2
        omega
      · intro _; rfl
  | succ n ih =>
    intro rx ry hry0 hrx hry hn hI
    have hrx1 : 1 ≤ rx := by rw [hn]; push_cast; omega
    have hne : rx ≠ 0 ∨ ry ≠ 0 := Or.inl (by omega)
    have hcond := (Bresenham_at_end_iff sx sy ex ey rx ry hsx hsy).mpr hne
    obtain ⟨hcl, hcu⟩ := hline rx ry hI
    by_cases ht : G.Traversable ⟨ex - rx * sx, ey - ry * sy⟩ = true
    · obtain ⟨rx', ry', hs, h1, h2, h3, h4, _⟩ :=
        BresenhamStep_progress dx dy sx sy ex ey rx ry (le_of_lt hpos) hdy (by omega) hry0
          hrx hry hne
      obtain ⟨a1, a2⟩ := BresenhamStep_XMajorInv dx dy sx sy (ex - rx * sx) (ey - ry * sy)
        (dx - dy + rx * dy - ry * dx) hdy hmaj hI
      rw [hs] at a1 a2
      simp only at a1 a2
      have hrx' : rx' = n := by
        rw [hn] at a1
        push_cast at a1 ⊢
        rcases hsx with e | e <;> rw [e] at a1 <;> omega
      obtain ⟨r, hall, hiff⟩ := ih rx' ry' h2 (le_trans h3 hrx) (le_trans h4 hry) hrx' a2
      refine ⟨r, ?_, ?_⟩
      · intro fuel hf
        cases fuel with
        | zero => omega
        | succ f =>
          simp only [LineTraceLoop]
          rw [if_pos hcond]
          simp only [ht, Bool.not_true, Bool.false_eq_true, if_false]
          rw [hs]
          exact hall f (by omega)
      · rw [hiff]
        constructor
        · intro h qx qy q1 q2 q3 q4 q5 q6
          by_cases hq : qx ≤ rx'
          · exact h qx qy q1 hq q3 q4 q5 q6
          · have e : qx = rx := by
              rw [hn] at q2 ⊢
              rw [hrx'] at hq
              push_cast at q2 ⊢
              omega
            subst e
            have e' : qy = ry := line_unique dx dy qx qy ry hpos q5 q6 hcl hcu
            subst e'
            exact ht
        · intro h qx qy q1 q2 q3 q4 q5 q6
          exact h qx qy q1 (le_trans q2 h3) q3 q4 q5 q6
    · have ht' : G.Traversable ⟨ex - rx * sx, ey - ry * sy⟩ = false := by
        simpa using ht
      refine ⟨false, ?_, ?_⟩
      · intro fuel _
        cases fuel with
        | zero =>
          simp only [LineTraceLoop]
          rw [if_pos hcond]
          simp [ht']
        | succ f =>
          simp only [LineTraceLoop]
          rw [if_pos hcond]
          simp [ht']
      · constructor
        · intro h; cases h
        · intro h
          exact absurd (h rx ry hrx1 (le_refl _) hry0 hry hcl hcu) ht

end WalkClosedForm

/-! ## The walk between two cells, and the walk back -/

section WalkBetweenCells

variable {α P : Type}

/-- Exchanging the two axes in one Bresenham pass negates the error term. -/
theorem BresenhamStep_swap (dx dy sx sy X Y E : Int) :
    BresenhamStep dy dx sy sx Y X (-E) =
      ((BresenhamStep dx dy sx sy X Y E).2.1, (BresenhamStep dx dy sx sy X Y E).1,
        -(BresenhamStep dx dy sx sy X Y E).2.2) := by
  have c1 : (-E * 2 > -dx) ↔ (E * 2 < dx) := by constructor <;> intro h <;> omega
  have c2 : (-E * 2 < dy) ↔ (E * 2 > -dy) := by constructor <;> intro h <;> omega
  unfold BresenhamStep
  simp only [c1, c2]
  by_cases h1 : E * 2 > -dy <;> by_cases h2 : E * 2 < dx <;>
    simp only [h1, h2, if_true, if_false] <;>
    (refine Prod.ext rfl (Prod.ext rfl ?_) <;> simp only <;> ring)

/-- The loop of `LineTrace` on the grid with the axes exchanged. -/
theorem LineTraceLoop_swap (G : AGAGridActor α P) (b : FCellRef) (dx dy sx sy : Int) :
    ∀ (fuel : Nat) (X Y E : Int),
      LineTraceLoop G b dx dy sx sy fuel X Y E =
        LineTraceLoop G.transpose b.swap dy dx sy sx fuel Y X (-E) := by
  intro fuel
  induction fuel with
  | zero =>
    intro X Y E
    simp only [LineTraceLoop, FCellRef.swap, AGAGridActor.transpose]
    by_cases h : X ≠ b.X ∨ Y ≠ b.Y
    · rw [if_pos h, if_pos (Or.symm h)]
    · rw [if_neg h, if_neg (fun h' => h (Or.symm h'))]
  | succ n ih =>
    intro X Y E
    simp only [LineTraceLoop]
    by_cases h : X ≠ b.X ∨ Y ≠ b.Y
    · rw [if_pos h, if_pos (show Y ≠ b.swap.X ∨ X ≠ b.swap.Y from Or.symm h)]
      rw [BresenhamStep_swap]
      simp only
      rw [← ih]
      rfl
    · rw [if_neg h, if_neg (show ¬ (Y ≠ b.swap.X ∨ X ≠ b.swap.Y) from fun h' => h (Or.symm h'))]

/-- The coordinate `q` steps before the end coordinate lies between the two coordinates. -/
theorem walk_coord_of_offset (a b q : Int) (h0 : 0 ≤ q) (hq : q ≤ |b - a|) :
    min a b ≤ b - q * (if a < b then (1 : Int) else -1) ∧
      b - q * (if a < b then (1 : Int) else -1) ≤ max a b ∧
      |b - (b - q * (if a < b then (1 : Int) else -1))| = q := by
  by_cases h : a < b
  · rw [abs_of_pos (by omega)] at hq
    rw [if_pos h]
    refine ⟨by omega, by omega, ?_⟩
    rw [abs_of_nonneg (by omega)]; omega
  · rw [abs_of_nonpos (by omega)] at hq
    rw [if_neg h]
    refine ⟨by omega, by omega, ?_⟩
    rw [abs_of_nonpos (by omega)]; omega

/-- A coordinate between the two coordinates lies `|b - c|` steps before the end
coordinate, and `|b - a| - |b - c|` steps after the start coordinate. -/
theorem walk_offset_of_coord (a b c : Int) (h1 : min a b ≤ c) (h2 : c ≤ max a b) :
    |b - c| ≤ |b - a| ∧ b - |b - c| * (if a < b then (1 : Int) else -1) = c ∧
      |a - c| = |b - a| - |b - c| := by
  by_cases h : a < b
  · rw [if_pos h, abs_of_pos (show 0 < b - a by omega), abs_of_nonneg (show 0 ≤ b - c by omega),
      abs_of_nonpos (show a - c ≤ 0 by omega)]
    refine ⟨by omega, by omega, by omega⟩
  · rw [if_neg h, abs_of_nonpos (show b - a ≤ 0 by omega),
      abs_of_nonpos (show b - c ≤ 0 by omega), abs_of_nonneg (show 0 ≤ a - c by omega)]
    refine ⟨by omega, by omega, by omega⟩

/-- An x-major walk between two cells: the loop of `LineTrace` returns, and it succeeds
exactly when every cell of the closed form other than the end cell is traversable. -/
theorem LineTraceLoop_OnWalk_x (G : AGAGridActor α P) (a b : FCellRef)
    (hmaj : |b.Y - a.Y| ≤ |b.X - a.X|) (hpos : 0 < |b.X - a.X|) :
    ∃ r, (∀ fuel : Nat, (|b.X - a.X|).toNat ≤ fuel →
        LineTraceLoop G b |b.X - a.X| |b.Y - a.Y| (if a.X < b.X then 1 else -1)
          (if a.Y < b.Y then 1 else -1) fuel a.X a.Y (|b.X - a.X| - |b.Y - a.Y|) = some r) ∧
      (r = true ↔ ∀ c, OnWalk a b c → c ≠ b → G.Traversable c = true) := by
  obtain ⟨aX, aY⟩ := a
  obtain ⟨bX, bY⟩ := b
  simp only at hmaj hpos ⊢
  obtain ⟨hdx, hsx, hX⟩ := LineTrace_constants aX bX
  obtain ⟨hdy, hsy, hY⟩ := LineTrace_constants aY bY
  have e : |bX - aX| - |bY - aY| + |bX - aX| * |bY - aY| - |bY - aY| * |bX - aX| =
      |bX - aX| - |bY - aY| := by ring
  have hI : XMajorInv |bX - aX| |bY - aY|
      (|bX - aX| - |bY - aY| + |bX - aX| * |bY - aY| - |bY - aY| * |bX - aX|) := by
    rw [e]
    unfold XMajorInv
    refine ⟨by omega, by omega, by omega, fun _ => by omega⟩
  obtain ⟨r, hall, hiff⟩ := LineTraceLoop_x_major G |bX - aX| |bY - aY|
    (if aX < bX then 1 else -1) (if aY < bY then 1 else -1) bX bY hdy hmaj hpos hsx hsy
    (|bX - aX|).toNat |bX - aX| |bY - aY| hdy le_rfl le_rfl (Int.toNat_of_nonneg hdx).symm hI
  rw [e, ← hX, ← hY] at hall
  refine ⟨r, hall, ?_⟩
  rw [hiff]
  constructor
  · rintro h ⟨cX, cY⟩ ⟨⟨hb1, hb2, hb3, hb4⟩, hbr⟩ hne
    simp only at hb1 hb2 hb3 hb4
    rw [if_pos hmaj] at hbr
    obtain ⟨hl, hu⟩ := hbr
    unfold WalkOffset at hl hu
    simp only at hl hu
    obtain ⟨x1, x2, _⟩ := walk_offset_of_coord aX bX cX hb1 hb2
    obtain ⟨y1, y2, _⟩ := walk_offset_of_coord aY bY cY hb3 hb4
    have hq1 : 1 ≤ |bX - cX| := by
      by_contra hc
      have hz : |bX - cX| = 0 := le_antisymm (by omega) (abs_nonneg _)
      rw [hz] at hl x2
      have hy0 : |bY - cY| = 0 := by
        by_contra hc'
        have h1 : 1 ≤ |bY - cY| := by
          have := abs_nonneg (bY - cY)
          omega
        have hprod : |bX - aX| ≤ |bY - cY| * |bX - aX| := le_mul_of_one_le_left hdx h1
        linarith
      rw [hy0] at y2
      apply hne
      congr 1 <;> omega
    have q := h |bX - cX| |bY - cY| hq1 x1 (abs_nonneg _) y1 hl hu
    rw [x2, y2] at q
    exact q
  · intro h qx qy q1 q2 q3 q4 q5 q6
    obtain ⟨u1, u2, u3⟩ := walk_coord_of_offset aX bX qx (by omega) q2
    obtain ⟨v1, v2, v3⟩ := walk_coord_of_offset aY bY qy q3 q4
    apply h
    · refine ⟨⟨u1, u2, v1, v2⟩, ?_⟩
      rw [if_pos hmaj]
      unfold WalkOffset
      simp only
      rw [u3, v3]
      exact ⟨q5, q6⟩
    · intro hc
      have hx : bX - qx * (if aX < bX then (1 : Int) else -1) = bX := congrArg FCellRef.X hc
      rw [hx] at u3
      simp at u3
      omega

/-- Exchanging the axes turns a walk whose major axis is y into an x-major walk over the
same cells. -/
theorem OnWalk_swap (a b c : FCellRef) (h : |b.X - a.X| < |b.Y - a.Y|) :
    OnWalk a.swap b.swap c.swap ↔ OnWalk a b c := by
  unfold OnWalk InBoundingBox WalkOffset FCellRef.swap
  simp only
  rw [if_pos (le_of_lt h), if_neg (not_le.mpr h)]
  constructor
  · rintro ⟨⟨h1, h2, h3, h4⟩, hl, hu⟩
    exact ⟨⟨h3, h4, h1, h2⟩, by linarith, by linarith⟩
  · rintro ⟨⟨h1, h2, h3, h4⟩, hl, hu⟩
    exact ⟨⟨h3, h4, h1, h2⟩, by linarith, by linarith⟩

/-- The walk between two different cells: the loop of `LineTrace` returns, and it succeeds
exactly when every cell of the closed form other than the end cell is traversable. -/
theorem LineTraceLoop_OnWalk (G : AGAGridActor α P) (a b : FCellRef) (hne : a ≠ b) :
    ∃ r, (∀ fuel : Nat, (|b.X - a.X| + |b.Y - a.Y|).toNat ≤ fuel →
        LineTraceLoop G b |b.X - a.X| |b.Y - a.Y| (if a.X < b.X then 1 else -1)
          (if a.Y < b.Y then 1 else -1) fuel a.X a.Y (|b.X - a.X| - |b.Y - a.Y|) = some r) ∧
      (r = true ↔ ∀ c, OnWalk a b c → c ≠ b → G.Traversable c = true) := by
  have hdx := abs_nonneg (b.X - a.X)
  have hdy := abs_nonneg (b.Y - a.Y)
  by_cases hmaj : |b.Y - a.Y| ≤ |b.X - a.X|
  · have hpos : 0 < |b.X - a.X| := by
      by_contra hc
      have hx : |b.X - a.X| = 0 := by omega
      have hy : |b.Y - a.Y| = 0 := by omega
      rw [abs_eq_zero] at hx hy
      apply hne
      obtain ⟨aX, aY⟩ := a
      obtain ⟨bX, bY⟩ := b
      simp only at hx hy
      congr 1 <;> omega
    obtain ⟨r, hall, hiff⟩ := LineTraceLoop_OnWalk_x G a b hmaj hpos
    exact ⟨r, fun fuel hf => hall fuel (by omega), hiff⟩
  · have hlt : |b.X - a.X| < |b.Y - a.Y| := not_le.mp hmaj
    obtain ⟨r, hall, hiff⟩ := LineTraceLoop_OnWalk_x G.transpose a.swap b.swap
      (le_of_lt hlt) (lt_of_le_of_lt hdx hlt)
    refine ⟨r, ?_, ?_⟩
    · intro fuel hf
      rw [LineTraceLoop_swap, neg_sub]
      exact hall fuel (by simp only [FCellRef.swap]; omega)
    · rw [hiff]
      constructor
      · intro h c hc hcb
        have := h c.swap ((OnWalk_swap a b c hlt).mpr hc)
          (fun he => hcb (congrArg FCellRef.swap he))
        simpa [AGAGridActor.transpose, FCellRef.swap] using this
      · intro h c hc hcb
        have hc' : OnWalk a b c.swap := (OnWalk_swap a b c.swap hlt).mp hc
        have := h c.swap hc' (fun he => hcb (by rw [← he]; rfl))
        exact this

/-- Between two different valid cells `LineTrace` returns, and it succeeds exactly when
every cell of the closed form of the walk other than the end cell is traversable. -/
theorem LineTrace_OnWalk (G : AGAGridActor α P) (Start End : P)
    (hs : G.IsValid (G.GetCellRef Start) = true) (he : G.IsValid (G.GetCellRef End) = true)
    (hne : G.GetCellRef Start ≠ G.GetCellRef End) :
    ∃ r, LineTrace G Start End = some r ∧
      (r = true ↔ ∀ c, OnWalk (G.GetCellRef Start) (G.GetCellRef End) c →
        c ≠ G.GetCellRef End → G.Traversable c = true) := by
  obtain ⟨r, hall, hiff⟩ := LineTraceLoop_OnWalk G _ _ hne
  refine ⟨r, ?_, hiff⟩
  unfold LineTrace
  simp only [hs, he, Bool.not_true, Bool.or_self, Bool.false_eq_true, if_false]
  exact hall _ le_rfl

end WalkBetweenCells

/-! ## The walk forth and the walk back -/

section WalkSymmetry

variable {α P : Type}

theorem InBoundingBox_comm (a b c : FCellRef) : InBoundingBox b a c ↔ InBoundingBox a b c := by
  unfold InBoundingBox
  rw [min_comm b.X, max_comm b.X, min_comm b.Y, max_comm b.Y]

/-- Seen from the other end cell, a cell of the bounding rectangle lies on the other side
of the line. -/
theorem WalkOffset_reverse (a b c : FCellRef) (h : InBoundingBox a b c) :
    WalkOffset b a c = -WalkOffset a b c := by
  obtain ⟨h1, h2, h3, h4⟩ := h
  obtain ⟨_, _, x3⟩ := walk_offset_of_coord a.X b.X c.X h1 h2
  obtain ⟨_, _, y3⟩ := walk_offset_of_coord a.Y b.Y c.Y h3 h4
  unfold WalkOffset
  rw [x3, y3, abs_sub_comm a.X b.X, abs_sub_comm a.Y b.Y]
  ring

/-- The cells of the walk back, in the terms of the walk forth: the same band around the
line, with the half-way cells taken on the other side. -/
theorem OnWalk_reverse (a b c : FCellRef) :
    OnWalk b a c ↔ InBoundingBox a b c ∧
      if |b.Y - a.Y| ≤ |b.X - a.X| then
        -|b.X - a.X| < 2 * WalkOffset a b c ∧ 2 * WalkOffset a b c ≤ |b.X - a.X|
      else
        -|b.Y - a.Y| ≤ 2 * WalkOffset a b c ∧ 2 * WalkOffset a b c < |b.Y - a.Y| := by
  unfold OnWalk
  rw [InBoundingBox_comm, abs_sub_comm a.Y b.Y, abs_sub_comm a.X b.X]
  apply and_congr_right
  intro hb
  rw [WalkOffset_reverse a b c hb]
  by_cases hmaj : |b.Y - a.Y| ≤ |b.X - a.X|
  · rw [if_pos hmaj, if_pos hmaj]
    constructor <;> rintro ⟨h1, h2⟩ <;> constructor <;> linarith
  · rw [if_neg hmaj, if_neg hmaj]
    constructor <;> rintro ⟨h1, h2⟩ <;> constructor <;> linarith

theorem major_pos (a b : FCellRef) (hne : a ≠ b) : 0 < max |b.X - a.X| |b.Y - a.Y| := by
  have hx := abs_nonneg (b.X - a.X)
  have hy := abs_nonneg (b.Y - a.Y)
  by_contra hc
  have hx0 : |b.X - a.X| = 0 := by omega
  have hy0 : |b.Y - a.Y| = 0 := by omega
  rw [abs_eq_zero] at hx0 hy0
  apply hne
  obtain ⟨aX, aY⟩ := a
  obtain ⟨bX, bY⟩ := b
  simp only at hx0 hy0
  congr 1 <;> omega

/-- The start cell is a cell of the walk. -/
theorem OnWalk_start (a b : FCellRef) (hne : a ≠ b) : OnWalk a b a := by
  have hp := major_pos a b hne
  have hx := abs_nonneg (b.X - a.X)
  have hy := abs_nonneg (b.Y - a.Y)
  have hw : WalkOffset a b a = 0 := by unfold WalkOffset; ring
  unfold OnWalk
  refine ⟨⟨min_le_left _ _, le_max_left _ _, min_le_left _ _, le_max_left _ _⟩, ?_⟩
  rw [hw]
  by_cases hmaj : |b.Y - a.Y| ≤ |b.X - a.X|
  · rw [if_pos hmaj]; constructor <;> omega
  · rw [if_neg hmaj]; constructor <;> omega

/-- The end cell is a cell of the walk. -/
theorem OnWalk_end (a b : FCellRef) (hne : a ≠ b) : OnWalk a b b := by
  have hp := major_pos a b hne
  have hx := abs_nonneg (b.X - a.X)
  have hy := abs_nonneg (b.Y - a.Y)
  have hw : WalkOffset a b b = 0 := by unfold WalkOffset; simp
  unfold OnWalk
  refine ⟨⟨min_le_right _ _, le_max_right _ _, min_le_right _ _, le_max_right _ _⟩, ?_⟩
  rw [hw]
  by_cases hmaj : |b.Y - a.Y| ≤ |b.X - a.X|
  · rw [if_pos hmaj]; constructor <;> omega
  · rw [if_neg hmaj]; constructor <;> omega

/-- Between tie-free cells no cell lies exactly half way between two candidates of the
walk. -/
theorem TieFree_no_tie (a b c : FCellRef) (hne : a ≠ b) (ht : TieFree a b) :
    2 * WalkOffset a b c ≠ max |b.X - a.X| |b.Y - a.Y| ∧
      2 * WalkOffset a b c ≠ -max |b.X - a.X| |b.Y - a.Y| := by
  rcases ht with h | ⟨k, hk⟩
  · exact absurd h hne
  have hp := major_pos a b hne
  obtain ⟨p, hp'⟩ :=
    (Int.gcd_dvd_left : ((Int.gcd |b.X - a.X| |b.Y - a.Y| : Nat) : Int) ∣ |b.X - a.X|)
  obtain ⟨q, hq⟩ :=
    (Int.gcd_dvd_right : ((Int.gcd |b.X - a.X| |b.Y - a.Y| : Nat) : Int) ∣ |b.Y - a.Y|)
  have hg0 : ((Int.gcd |b.X - a.X| |b.Y - a.Y| : Nat) : Int) ≠ 0 := by
    intro h0
    rw [h0] at hp' hq
    rw [hp', hq] at hp
    simp at hp
  obtain ⟨t, ht⟩ : ∃ t, max |b.X - a.X| |b.Y - a.Y| =
      ((Int.gcd |b.X - a.X| |b.Y - a.Y| : Nat) : Int) * t := by
    rcases max_choice |b.X - a.X| |b.Y - a.Y| with e | e
    · exact ⟨p, e.trans hp'⟩
    · exact ⟨q, e.trans hq⟩
  rw [Int.ediv_eq_of_eq_mul_right hg0 ht] at hk
  have hw : WalkOffset a b c = ((Int.gcd |b.X - a.X| |b.Y - a.Y| : Nat) : Int) *
      (|b.X - c.X| * q - |b.Y - c.Y| * p) := by
    unfold WalkOffset
    calc |b.X - c.X| * |b.Y - a.Y| - |b.Y - c.Y| * |b.X - a.X|
        = |b.X - c.X| * (((Int.gcd |b.X - a.X| |b.Y - a.Y| : Nat) : Int) * q) -
            |b.Y - c.Y| * (((Int.gcd |b.X - a.X| |b.Y - a.Y| : Nat) : Int) * p) :=
          congrArg₂ (fun u v => |b.X - c.X| * u - |b.Y - c.Y| * v) hq hp'
      _ = _ := by ring
  rw [ht, hw]
  constructor
  · intro h
    have h2 : ((Int.gcd |b.X - a.X| |b.Y - a.Y| : Nat) : Int) *
        (2 * (|b.X - c.X| * q - |b.Y - c.Y| * p)) =
        ((Int.gcd |b.X - a.X| |b.Y - a.Y| : Nat) : Int) * t := by linarith
    have h3 := mul_left_cancel₀ hg0 h2
    omega
  · intro h
    have h2 : ((Int.gcd |b.X - a.X| |b.Y - a.Y| : Nat) : Int) *
        (2 * (|b.X - c.X| * q - |b.Y - c.Y| * p)) =
        ((Int.gcd |b.X - a.X| |b.Y - a.Y| : Nat) : Int) * (-t) := by linarith
    have h3 := mul_left_cancel₀ hg0 h2
    omega

/-- Between tie-free cells the walk back visits the cells of the walk forth. -/
theorem OnWalk_comm_of_TieFree (a b c : FCellRef) (hne : a ≠ b) (ht : TieFree a b) :
    OnWalk b a c ↔ OnWalk a b c := by
  obtain ⟨n1, n2⟩ := TieFree_no_tie a b c hne ht
  rw [OnWalk_reverse]
  unfold OnWalk
  apply and_congr_right
  intro _
  by_cases hmaj : |b.Y - a.Y| ≤ |b.X - a.X|
  · rw [max_eq_left hmaj] at n1 n2
    rw [if_pos hmaj, if_pos hmaj]
    constructor <;> rintro ⟨h1, h2⟩ <;> constructor <;> omega
  · rw [max_eq_right (le_of_lt (not_le.mp hmaj))] at n1 n2
    rw [if_neg hmaj, if_neg hmaj]
    constructor <;> rintro ⟨h1, h2⟩ <;> constructor <;> omega

/-- When the major extent over the greatest common divisor is even, the two extents are an
even and an odd multiple of the greatest common divisor. -/
theorem tie_decompose (M m : Int) (hM : 0 < M) (hm0 : 0 ≤ m)
    (hodd : ¬ Odd (M / ((Int.gcd M m : Nat) : Int))) :
    ∃ g p h : Int, 1 ≤ g ∧ 1 ≤ p ∧ 0 ≤ h ∧ M = g * (2 * p) ∧ m = g * (2 * h + 1) := by
  have hgpos : 0 < Int.gcd M m := Int.gcd_pos_of_ne_zero_left m (ne_of_gt hM)
  have hg : (0 : Int) < ((Int.gcd M m : Nat) : Int) := by exact_mod_cast hgpos
  obtain ⟨t, ht⟩ := (Int.gcd_dvd_left : ((Int.gcd M m : Nat) : Int) ∣ M)
  obtain ⟨q, hq⟩ := (Int.gcd_dvd_right : ((Int.gcd M m : Nat) : Int) ∣ m)
  have hcop := Int.gcd_div_gcd_div_gcd hgpos
  rw [Int.ediv_eq_of_eq_mul_right hg.ne' ht] at hodd hcop
  rw [Int.ediv_eq_of_eq_mul_right hg.ne' hq] at hcop
  obtain ⟨p, hp⟩ := Int.not_odd_iff_even.mp hodd
  have ht0 : 0 < t := by
    have h1 : 0 < ((Int.gcd M m : Nat) : Int) * t := by rw [← ht]; exact hM
    exact (mul_pos_iff_of_pos_left hg).mp h1
  have hq0 : 0 ≤ q := by
    have h1 : 0 ≤ ((Int.gcd M m : Nat) : Int) * q := by rw [← hq]; exact hm0
    by_contra hc
    have h2 : ((Int.gcd M m : Nat) : Int) * q < 0 := mul_neg_of_pos_of_neg hg (by omega)
    omega
  rcases Int.even_or_odd q with ⟨q', hq'⟩ | ⟨h, hh⟩
  · exfalso
    have h2 : (2 : Int) ∣ ((Int.gcd t q : Nat) : Int) :=
      Int.dvd_gcd ⟨p, by omega⟩ ⟨q', by omega⟩
    rw [hcop] at h2
    omega
  · exact ⟨((Int.gcd M m : Nat) : Int), p, h, by omega, by omega, by omega,
      ht.trans (by rw [hp]; ring), hq.trans (by rw [hh])⟩

/-- When the major extent over the greatest common divisor is even, some point with whole
coordinates lies exactly half way between two candidates of the walk. -/
theorem tie_point (M m : Int) (hM : 0 < M) (hm0 : 0 ≤ m)
    (hodd : ¬ Odd (M / ((Int.gcd M m : Nat) : Int))) :
    ∃ qM qm : Int, 0 ≤ qM ∧ qM ≤ M ∧ 0 ≤ qm ∧ qm ≤ m ∧ 2 * (qM * m - qm * M) = -M := by
  obtain ⟨g, p, h, hg, hp, hh, eM, em⟩ := tie_decompose M m hM hm0 hodd
  have b1 := mul_le_mul_of_nonneg_right hg (show (0 : Int) ≤ 2 * p by omega)
  have b2 := mul_le_mul_of_nonneg_right hg (show (0 : Int) ≤ 2 * h + 1 by omega)
  refine ⟨p, h + 1, by omega, by omega, by omega, by omega, ?_⟩
  rw [eM, em]
  ring

/-- Between cells that are not tie-free, the walk forth visits a cell the walk back does
not visit. -/
theorem tie_cell (a b : FCellRef) (hne : a ≠ b) (hnt : ¬ TieFree a b) :
    ∃ c, OnWalk a b c ∧ ¬ OnWalk b a c := by
  have hodd : ¬ Odd (max |b.X - a.X| |b.Y - a.Y| /
      ((Int.gcd |b.X - a.X| |b.Y - a.Y| : Nat) : Int)) := fun h => hnt (Or.inr h)
  have hp := major_pos a b hne
  have hdx := abs_nonneg (b.X - a.X)
  have hdy := abs_nonneg (b.Y - a.Y)
  by_cases hmaj : |b.Y - a.Y| ≤ |b.X - a.X|
  · rw [max_eq_left hmaj] at hodd hp
    obtain ⟨qx, qy, h1, h2, h3, h4, heq⟩ := tie_point _ _ hp hdy hodd
    obtain ⟨u1, u2, u3⟩ := walk_coord_of_offset a.X b.X qx h1 h2
    obtain ⟨v1, v2, v3⟩ := walk_coord_of_offset a.Y b.Y qy h3 h4
    have hw : 2 * WalkOffset a b ⟨b.X - qx * (if a.X < b.X then (1 : Int) else -1),
        b.Y - qy * (if a.Y < b.Y then (1 : Int) else -1)⟩ = -|b.X - a.X| := by
      unfold WalkOffset
      simp only
      rw [u3, v3]
      exact heq
    refine ⟨⟨b.X - qx * (if a.X < b.X then (1 : Int) else -1),
      b.Y - qy * (if a.Y < b.Y then (1 : Int) else -1)⟩, ⟨⟨u1, u2, v1, v2⟩, ?_⟩, ?_⟩
    · rw [if_pos hmaj, hw]
      constructor <;> omega
    · rw [OnWalk_reverse]
      rintro ⟨_, hbr⟩
      rw [if_pos hmaj, hw] at hbr
      omega
  · have hlt : |b.X - a.X| < |b.Y - a.Y| := not_le.mp hmaj
    rw [max_eq_right hlt.le, Int.gcd_comm] at hodd
    rw [max_eq_right hlt.le] at hp
    obtain ⟨qy, qx, h3, h4, h1, h2, heq⟩ := tie_point _ _ hp hdx hodd
    obtain ⟨u1, u2, u3⟩ := walk_coord_of_offset a.X b.X qx h1 h2
    obtain ⟨v1, v2, v3⟩ := walk_coord_of_offset a.Y b.Y qy h3 h4
    have hw : 2 * WalkOffset a b ⟨b.X - qx * (if a.X < b.X then (1 : Int) else -1),
        b.Y - qy * (if a.Y < b.Y then (1 : Int) else -1)⟩ = |b.Y - a.Y| := by
      unfold WalkOffset
      simp only
      rw [u3, v3]
      linarith
    refine ⟨⟨b.X - qx * (if a.X < b.X then (1 : Int) else -1),
      b.Y - qy * (if a.Y < b.Y then (1 : Int) else -1)⟩, ⟨⟨u1, u2, v1, v2⟩, ?_⟩, ?_⟩
    · rw [if_neg hmaj, hw]
      constructor <;> omega
    · rw [OnWalk_reverse]
      rintro ⟨_, hbr⟩
      rw [if_neg hmaj, hw] at hbr
      omega

end WalkSymmetry

/-! ## The rasterisation in closed form -/

section RasterisationClosedForm

/-- The cells of the rasterisation between two different cells are the cells of the closed
form. -/
theorem Rasterisation_mem_iff_OnWalk (a b : FCellRef) (hne : a ≠ b) (cells : List FCellRef)
    (hc : Rasterisation a b = some cells) (c : FCellRef) : c ∈ cells ↔ OnWalk a b c := by
  obtain ⟨cells', hc', _, hl⟩ := Rasterisation_total a b
  rw [hc] at hc'
  cases hc'
  have hsplit : cells.dropLast ++ [b] = cells := List.dropLast_append_getLast? b hl
  obtain ⟨r, hall, hiff⟩ := LineTraceLoop_OnWalk (ProbeGrid (fun x => decide (x ≠ c))) a b hne
  have h1 := hall _ le_rfl
  unfold Rasterisation at hc
  have h2 := LineTraceLoop_eq_all (ProbeGrid (fun x => decide (x ≠ c))) b _ _ _ _ _ _ _ _
    cells hc
  rw [h1] at h2
  have hr : r = cells.dropLast.all (ProbeGrid (fun x => decide (x ≠ c))).Traversable :=
    Option.some.inj h2
  have hdrop : c ∈ cells.dropLast ↔ OnWalk a b c ∧ c ≠ b := by
    constructor
    · intro hm
      by_contra hcon
      have ht : r = true := hiff.mpr (fun x hx hxb => by
        simp only [ProbeGrid, decide_eq_true_eq]
        intro hxc
        rw [hxc] at hx hxb
        exact hcon ⟨hx, hxb⟩)
      rw [hr, List.all_eq_true] at ht
      have := ht c hm
      simp [ProbeGrid] at this
    · rintro ⟨hw, hcb⟩
      by_contra hm
      have ht : r = true := by
        rw [hr, List.all_eq_true]
        intro x hx
        simp only [ProbeGrid, decide_eq_true_eq]
        intro hxc
        rw [hxc] at hx
        exact hm hx
      have := hiff.mp ht c hw hcb
      simp [ProbeGrid] at this
  rw [← hsplit, List.mem_append, hdrop, List.mem_singleton]
  constructor
  · rintro (⟨h, _⟩ | h)
    · exact h
    · rw [h]; exact OnWalk_end a b hne
  · intro h
    by_cases hcb : c = b
    · exact Or.inr hcb
    · exact Or.inl ⟨h, hcb⟩

end RasterisationClosedForm

/-! ## C30: line tracing in the two directions, for every pair of cells -/

section LineTraceBothWays

variable {α P : Type}

/-- Claim C30, as amended: take two valid cells `a` and `b`.  If they are tie-free (they
coincide, or the larger of the two extents `|dx|`, `|dy|` divided by their greatest common
divisor is odd: every row, column and exact diagonal, and pairs such as (0,0) and (3,1)),
then `LineTrace` returns the same result in both directions exactly when `a` and `b` are
both traversable or both blocked, or some other cell of the rasterisation between them is
blocked.
If they are not tie-free, the two walks differ: some cell other than `a` and `b` is such
that, on the grid where that cell alone is blocked, the trace from `a` to `b` fails and the
trace from `b` to `a` succeeds. -/
theorem LineTrace_symmetric_when_tie_free (G : AGAGridActor α P) (Start End : P)
    (hs : G.IsValid (G.GetCellRef Start) = true) (he : G.IsValid (G.GetCellRef End) = true) :
    (TieFree (G.GetCellRef Start) (G.GetCellRef End) →
      (LineTrace G Start End = LineTrace G End Start ↔
        (G.Traversable (G.GetCellRef Start) = G.Traversable (G.GetCellRef End) ∨
          ∃ cells c, Rasterisation (G.GetCellRef Start) (G.GetCellRef End) = some cells ∧
            c ∈ cells ∧ c ≠ G.GetCellRef Start ∧ c ≠ G.GetCellRef End ∧
            G.Traversable c = false))) ∧
    (¬ TieFree (G.GetCellRef Start) (G.GetCellRef End) →
      ∃ c, InBoundingBox (G.GetCellRef Start) (G.GetCellRef End) c ∧
        c ≠ G.GetCellRef Start ∧ c ≠ G.GetCellRef End ∧
        LineTrace (G.withTraversable (fun x => decide (x ≠ c))) Start End = some false ∧
        LineTrace (G.withTraversable (fun x => decide (x ≠ c))) End Start = some true) := by
  constructor
  · intro ht
    by_cases hab : G.GetCellRef Start = G.GetCellRef End
    · refine iff_of_true ?_ (Or.inl (by rw [hab]))
      unfold LineTrace
      rw [hab]
    · have hconv : (∃ cells c, Rasterisation (G.GetCellRef Start) (G.GetCellRef End) =
            some cells ∧ c ∈ cells ∧ c ≠ G.GetCellRef Start ∧ c ≠ G.GetCellRef End ∧
            G.Traversable c = false) ↔
          ∃ c, OnWalk (G.GetCellRef Start) (G.GetCellRef End) c ∧ c ≠ G.GetCellRef Start ∧
            c ≠ G.GetCellRef End ∧ G.Traversable c = false := by
        obtain ⟨cells0, hc0, _, _⟩ :=
          Rasterisation_total (G.GetCellRef Start) (G.GetCellRef End)
        constructor
        · rintro ⟨cells, c, hr, hm, hrest⟩
          exact ⟨c, (Rasterisation_mem_iff_OnWalk _ _ hab cells hr c).mp hm, hrest⟩
        · rintro ⟨c, hc, hrest⟩
          exact ⟨cells0, c, hc0, (Rasterisation_mem_iff_OnWalk _ _ hab cells0 hc0 c).mpr hc,
            hrest⟩
      rw [hconv]
      obtain ⟨r1, h1, iff1⟩ := LineTrace_OnWalk G Start End hs he hab
      obtain ⟨r2, h2, iff2⟩ := LineTrace_OnWalk G End Start he hs (Ne.symm hab)
      have k1 : r1 = true ↔ G.Traversable (G.GetCellRef Start) = true ∧
          ∀ c, OnWalk (G.GetCellRef Start) (G.GetCellRef End) c → c ≠ G.GetCellRef Start →
            c ≠ G.GetCellRef End → G.Traversable c = true := by
        rw [iff1]
        constructor
        · intro h
          exact ⟨h _ (OnWalk_start _ _ hab) hab, fun c hc _ hcb => h c hc hcb⟩
        · rintro ⟨ha, hI⟩ c hc hcb
          by_cases hca : c = G.GetCellRef Start
          · rw [hca]; exact ha
          · exact hI c hc hca hcb
      have k2 : r2 = true ↔ G.Traversable (G.GetCellRef End) = true ∧
          ∀ c, OnWalk (G.GetCellRef Start) (G.GetCellRef End) c → c ≠ G.GetCellRef Start →
            c ≠ G.GetCellRef End → G.Traversable c = true := by
        rw [iff2]
        constructor
        · intro h
          exact ⟨h _ (OnWalk_start _ _ (Ne.symm hab)) (Ne.symm hab),
            fun c hc hca _ => h c ((OnWalk_comm_of_TieFree _ _ c hab ht).mpr hc) hca⟩
        · rintro ⟨hb, hI⟩ c hc hca
          by_cases hcb : c = G.GetCellRef End
          · rw [hcb]; exact hb
          · exact hI c ((OnWalk_comm_of_TieFree _ _ c hab ht).mp hc) hca hcb
      rw [h1, h2, Option.some.injEq]
      by_cases hI : ∀ c, OnWalk (G.GetCellRef Start) (G.GetCellRef End) c →
          c ≠ G.GetCellRef Start → c ≠ G.GetCellRef End → G.Traversable c = true
      · have e1 : r1 = G.Traversable (G.GetCellRef Start) := by
          rw [Bool.eq_iff_iff, k1]; exact and_iff_left hI
        have e2 : r2 = G.Traversable (G.GetCellRef End) := by
          rw [Bool.eq_iff_iff, k2]; exact and_iff_left hI
        rw [e1, e2]
        constructor
        · intro h; exact Or.inl h
        · rintro (h | ⟨c, hc, hca, hcb, hf⟩)
          · exact h
          · have := hI c hc hca hcb
            rw [hf] at this
            cases this
      · have e1 : r1 = false := by
          rw [← Bool.not_eq_true]; intro h; exact hI (k1.mp h).2
        have e2 : r2 = false := by
          rw [← Bool.not_eq_true]; intro h; exact hI (k2.mp h).2
        rw [e1, e2]
        refine iff_of_true rfl (Or.inr ?_)
        by_contra hex
        apply hI
        intro c hc hca hcb
        by_contra hf
        exact hex ⟨c, hc, hca, hcb, by simpa using hf⟩
  · intro hnt
    have hab : G.GetCellRef Start ≠ G.GetCellRef End := fun h => hnt (Or.inl h)
    obtain ⟨c, hc1, hc2⟩ := tie_cell _ _ hab hnt
    have hca : c ≠ G.GetCellRef Start := by
      intro h
      rw [h] at hc2
      exact hc2 (OnWalk_end _ _ (Ne.symm hab))
    have hcb : c ≠ G.GetCellRef End := by
      intro h
      rw [h] at hc2
      exact hc2 (OnWalk_start _ _ (Ne.symm hab))
    refine ⟨c, hc1.1, hca, hcb, ?_, ?_⟩
    · obtain ⟨r, hr, hiff⟩ :=
        LineTrace_OnWalk (G.withTraversable (fun x => decide (x ≠ c))) Start End hs he hab
      cases r with
      | false => exact hr
      | true =>
        exfalso
        have := hiff.mp rfl c hc1 hcb
        simp [AGAGridActor.withTraversable] at this
    · obtain ⟨r, hr, hiff⟩ :=
        LineTrace_OnWalk (G.withTraversable (fun x => decide (x ≠ c))) End Start he hs
          (Ne.symm hab)
      have hrt : r = true := by
        rw [hiff]
        intro x hx _
        simp only [AGAGridActor.withTraversable, decide_eq_true_eq]
        intro hxc
        rw [hxc] at hx
        exact hc2 hx
      rw [hr, hrt]

theorem LineTrace_symmetric_when_tie_free_witness :
    (exGrid42.IsValid (exGrid42.GetCellRef ((0 : Int), (0 : Int))) = true ∧
      exGrid42.IsValid (exGrid42.GetCellRef ((3 : Int), (1 : Int))) = true ∧
      TieFree (exGrid42.GetCellRef ((0 : Int), (0 : Int)))
        (exGrid42.GetCellRef ((3 : Int), (1 : Int))) ∧
      LineTrace exGrid42 ((0 : Int), (0 : Int)) ((3 : Int), (1 : Int)) =
        LineTrace exGrid42 ((3 : Int), (1 : Int)) ((0 : Int), (0 : Int)) ∧
      LineTrace exGrid42 ((0 : Int), (0 : Int)) ((3 : Int), (1 : Int)) = some true) ∧
    (exGrid3.IsValid (exGrid3.GetCellRef ((1 : Int), (1 : Int))) = true ∧
      exGrid3.IsValid (exGrid3.GetCellRef ((1 : Int), (0 : Int))) = true ∧
      TieFree (exGrid3.GetCellRef ((1 : Int), (1 : Int)))
        (exGrid3.GetCellRef ((1 : Int), (0 : Int))) ∧
      LineTrace exGrid3 ((1 : Int), (1 : Int)) ((1 : Int), (0 : Int)) ≠
        LineTrace exGrid3 ((1 : Int), (0 : Int)) ((1 : Int), (1 : Int))) ∧
    (exGrid3.IsValid (exGrid3.GetCellRef ((0 : Int), (0 : Int))) = true ∧
      exGrid3.IsValid (exGrid3.GetCellRef ((1 : Int), (2 : Int))) = true ∧
      ¬ TieFree (exGrid3.GetCellRef ((0 : Int), (0 : Int)))
        (exGrid3.GetCellRef ((1 : Int), (2 : Int))) ∧
      ∃ c, InBoundingBox (exGrid3.GetCellRef ((0 : Int), (0 : Int)))
          (exGrid3.GetCellRef ((1 : Int), (2 : Int))) c ∧
        c ≠ exGrid3.GetCellRef ((0 : Int), (0 : Int)) ∧
        c ≠ exGrid3.GetCellRef ((1 : Int), (2 : Int)) ∧
        LineTrace (exGrid3.withTraversable (fun x => decide (x ≠ c)))
          ((0 : Int), (0 : Int)) ((1 : Int), (2 : Int)) = some false ∧
        LineTrace (exGrid3.withTraversable (fun x => decide (x ≠ c)))
          ((1 : Int), (2 : Int)) ((0 : Int), (0 : Int)) = some true) :=
  ⟨⟨by decide, by decide, by decide,
      ((LineTrace_symmetric_when_tie_free exGrid42 ((0 : Int), (0 : Int)) ((3 : Int), (1 : Int))
        (by decide) (by decide)).1 (by decide)).mpr (Or.inl (by decide)),
      by decide⟩,
    ⟨by decide, by decide, by decide, by decide⟩,
    ⟨by decide, by decide, by decide,
      (LineTrace_symmetric_when_tie_free exGrid3 ((0 : Int), (0 : Int)) ((1 : Int), (2 : Int))
        (by decide) (by decide)).2 (by decide)⟩⟩

end LineTraceBothWays

end GameAI
